import Mathlib

/-!
# batteryinfo: a shallow embedding of `batteryinfo.c`

The development follows the C source function by function.

Conventions of the embedding

* `long` is the 64-bit signed integer of LP64 Linux: values are `Int`s, and
  `LONG_MIN`/`LONG_MAX` are the bounds of the type.
* `double` is the IEEE-754 binary64 format, modelled by `Dbl`: a finite value
  is the rational number that the double stands for, every conversion and
  arithmetic operation rounds its exact result to the nearest binary64 number
  (ties to even, `Dbl.nearest`), and the special values `+inf`, `-inf` and
  `NaN` are kept, because the program divides by values that can be zero.
* a C string is the list of characters before the terminating NUL; a nullable
  `char *` is an `Option`.
* the 256-byte line buffer `buf` of `get_battery_info` is a list of characters
  that persists from one `fgets` call to the next.
-/

namespace Batteryinfo

/-! ## Machine integers and doubles -/

/-- The smallest value of the C type `long` (LP64). -/
def LONG_MIN : Int := -(2 ^ 63)

/-- The largest value of the C type `long` (LP64). -/
def LONG_MAX : Int := 2 ^ 63 - 1

/-- Membership in the range of the C type `long`. -/
def isLong (v : Int) : Prop := LONG_MIN ≤ v ∧ v ≤ LONG_MAX

instance (v : Int) : Decidable (isLong v) := by
  unfold isLong; exact inferInstance

/-- The C type `double`, the IEEE-754 binary64 format: a finite value is the
rational number that the double stands for, next to `+inf`, `-inf` and `NaN`.
The sign of a zero and the sign and payload of a `NaN` are not kept: the
program compares doubles with `>` only, and every zero that it divides by is
the conversion of the `long` 0, which is `+0.0`, so that the sign of a zero
decides no value that the program computes; it shows only in the sign that
`printf` writes before a zero. -/
inductive Dbl where
  | fin (q : ℚ)
  | pinf
  | ninf
  | nan
deriving DecidableEq

namespace Dbl

/-- Rounding of a rational number to an integer, to the nearest one and to
the even one of the two when it lies half way. -/
def round_even (x : ℚ) : ℤ :=
  if x - ⌊x⌋ < 1 / 2 then ⌊x⌋
  else if 1 / 2 < x - ⌊x⌋ then ⌊x⌋ + 1
  else if ⌊x⌋ % 2 = 0 then ⌊x⌋ else ⌊x⌋ + 1

/-- The exponent of the binary64 numbers next to `x`: the `e` with
`2^e <= |x| < 2^(e+1)`, and -1022, the exponent of the subnormal numbers, when
`|x|` is smaller than `2^-1022`. -/
def exponent (x : ℚ) : ℤ := max (Int.log 2 |x|) (-1022)

/-- The unit in the last place at `x`: the distance between two binary64
numbers next to `x`, which have 53 significant bits. -/
def ulp (x : ℚ) : ℚ := 2 ^ (exponent x - 52)

/-- Rounding of an exact result to binary64 in the default rounding mode: the
nearest multiple of the unit in the last place, ties to even, and an infinity
when that multiple is `2^1024` or more in magnitude. -/
def nearest (x : ℚ) : Dbl :=
  if 2 ^ 1024 ≤ (round_even (x / ulp x) : ℚ) * ulp x then pinf
  else if (round_even (x / ulp x) : ℚ) * ulp x ≤ -2 ^ 1024 then ninf
  else fin ((round_even (x / ulp x) : ℚ) * ulp x)

/-- The conversion `(double) v` of a `long`, which rounds above `2^53`. -/
def ofLong (v : Int) : Dbl := nearest (v : ℚ)

/-- The C expression `-a` on doubles. -/
def neg : Dbl → Dbl
  | fin q => fin (-q)
  | pinf => ninf
  | ninf => pinf
  | nan => nan

/-- The C expression `a - b` on doubles. -/
def sub : Dbl → Dbl → Dbl
  | fin a, fin b => nearest (a - b)
  | fin _, pinf => ninf
  | fin _, ninf => pinf
  | pinf, fin _ => pinf
  | pinf, ninf => pinf
  | ninf, fin _ => ninf
  | ninf, pinf => ninf
  | _, _ => nan

/-- The C expression `a / b` on doubles.  Every divisor of the program is the
conversion of a `long` or a positive constant, so a zero divisor is `+0.0`: a
positive numerator gives `+inf`, a negative one `-inf`, and `0.0 / 0.0` is
`NaN`. -/
def div : Dbl → Dbl → Dbl
  | fin a, fin b =>
      if b = 0 then (if 0 < a then pinf else if a < 0 then ninf else nan)
      else nearest (a / b)
  | fin _, pinf => fin 0
  | fin _, ninf => fin 0
  | pinf, fin b => if 0 ≤ b then pinf else ninf
  | ninf, fin b => if 0 ≤ b then ninf else pinf
  | _, _ => nan

/-- The C expression `a * b` on doubles. -/
def mul : Dbl → Dbl → Dbl
  | fin a, fin b => nearest (a * b)
  | fin a, pinf => if 0 < a then pinf else if a < 0 then ninf else nan
  | fin a, ninf => if 0 < a then ninf else if a < 0 then pinf else nan
  | pinf, fin b => if 0 < b then pinf else if b < 0 then ninf else nan
  | ninf, fin b => if 0 < b then ninf else if b < 0 then pinf else nan
  | pinf, pinf => pinf
  | ninf, ninf => pinf
  | pinf, ninf => ninf
  | ninf, pinf => ninf
  | _, _ => nan

/-- The C comparison `a > b` on doubles (false as soon as one side is NaN). -/
def gt : Dbl → Dbl → Bool
  | fin a, fin b => decide (b < a)
  | pinf, fin _ => true
  | pinf, ninf => true
  | fin _, ninf => true
  | _, _ => false

end Dbl

/-- The macro `DOUBLE_INVALID`, that is `DBL_MIN`, the smallest positive
normal double `2^-1022`. -/
def DOUBLE_INVALID : Dbl := Dbl.fin (1 / 2 ^ 1022)

/-- The macro `LONG_INVALID`, that is `LONG_MIN`. -/
def LONG_INVALID : Int := LONG_MIN

/-! ## C strings and the C library -/

/-- The NUL character that terminates a C string. -/
def NUL : Char := Char.ofNat 0

/-- The C library predicate `isspace` in the "C" locale: space, `\t`, `\n`,
`\v`, `\f` and `\r`. -/
def isspace (c : Char) : Bool := c.toNat == 32 || (9 ≤ c.toNat && c.toNat ≤ 13)

/-- The C library predicate `isdigit`. -/
def isdigit (c : Char) : Bool := 48 ≤ c.toNat && c.toNat ≤ 57

/-- The C string `mem + k`: the characters of the array `mem` from offset `k`
up to the first NUL. -/
def cstr_at (mem : List Char) (k : Nat) : List Char :=
  (mem.drop k).takeWhile (fun c => c != NUL)

/-- The C library function `strlen` on the array `mem`. -/
def strlen (mem : List Char) : Nat := (cstr_at mem 0).length

/-- The C library function `strstr`: the offset in `hay` of the first
occurrence of `needle`, or `none` for the null pointer. -/
def strstr (needle : List Char) : List Char → Option Nat
  | [] => if needle.isEmpty then some 0 else none
  | c :: t =>
      if needle.isPrefixOf (c :: t) then some 0
      else (strstr needle t).map (fun k => k + 1)

/-- The result of the C library function `strtol`: the value returned, the
offset of `endptr` from the start of the string, and `errno` afterwards
(`0` or `ERANGE`, written `34`). -/
structure strtol_result where
  value : Int
  endptr : Nat
  errno : Nat
deriving DecidableEq

/-- The C library function `strtol(s, &endptr, 10)` as ISO C defines it: skip
leading white space, read an optional sign and the longest run of decimal
digits; with no digit nothing is consumed and `0` is returned; a value
outside of `long` is clamped and sets `errno` to `ERANGE`. -/
def strtol (s : List Char) : strtol_result :=
  let ws := s.takeWhile isspace
  let s1 := s.dropWhile isspace
  let neg := s1.head? == some '-'
  let signed := s1.head? == some '-' || s1.head? == some '+'
  let s2 := if signed then s1.tail else s1
  let ds := s2.takeWhile isdigit
  if ds.isEmpty then { value := 0, endptr := 0, errno := 0 }
  else
    let n : Nat := ds.foldl (fun acc c => 10 * acc + (c.toNat - 48)) 0
    let v : Int := if neg then -(n : Int) else (n : Int)
    let e := ws.length + (if signed then 1 else 0) + ds.length
    if v < LONG_MIN then { value := LONG_MIN, endptr := e, errno := 34 }
    else if v > LONG_MAX then { value := LONG_MAX, endptr := e, errno := 34 }
    else { value := v, endptr := e, errno := 0 }

/-- The routine `strtol_helper`: the pair of the returned status and of the
value left in `*dest`. -/
def strtol_helper (s : List Char) : Int × Int :=
  let r := strtol s
  if r.errno ≠ 0 ∨ r.endptr = 0 ∨ s.getD r.endptr NUL ≠ NUL then (-1, LONG_INVALID)
  else (0, r.value)

/-- The routine `strcpy_helper`: the pair of the returned status and of the
string left in `*dest`.  `malloc` is taken to succeed. -/
def strcpy_helper (src : List Char) : Int × Option (List Char) := (0, some src)

/-- The chunks that successive calls `fgets(buf, size, f)` return until the
call that returns `NULL`: each call takes characters up to and including the
next newline, at most `size - 1` of them.  `acc` holds the characters of the
call in progress, the latest first. -/
def fgets_chunks_from (size : Nat) : List Char → List Char → List (List Char)
  | acc, [] => if acc.isEmpty then [] else [acc.reverse]
  | acc, c :: cs =>
      if c.toNat = 10 ∨ size ≤ acc.length + 2 then
        (c :: acc).reverse :: fgets_chunks_from size [] cs
      else fgets_chunks_from size (c :: acc) cs

/-- The chunks that a loop `while (fgets(buf, size, f) != NULL)` sees on a
file of the given content. -/
def fgets_chunks (size : Nat) (content : List Char) : List (List Char) :=
  fgets_chunks_from size [] content

/-- The effect of a successful `fgets` on the array `buf`: the chunk, then a
NUL, the rest of the array unchanged. -/
def fgets_store (buf chunk : List Char) : List Char :=
  chunk ++ NUL :: buf.drop (chunk.length + 1)

/-! ## Configuration and the battery record -/

/-- The macro `CONFIG_FLAG_DIGITS`. -/
def CONFIG_FLAG_DIGITS : Nat := 0x00001
/-- The macro `CONFIG_FLAG_BY_NAME`. -/
def CONFIG_FLAG_BY_NAME : Nat := 0x00002
/-- The macro `CONFIG_FLAG_OUTPUT_ALL`. -/
def CONFIG_FLAG_OUTPUT_ALL : Nat := 0x00004
/-- The macro `CONFIG_FLAG_DISABLE_CHARGE_CAP`. -/
def CONFIG_FLAG_DISABLE_CHARGE_CAP : Nat := 0x00008

/-- The enumeration of output formats. -/
inductive output_format where
  | OUTPUT_FORMAT_CSV
  | OUTPUT_FORMAT_JSON
deriving DecidableEq

/-- The C `struct config`; `cmdopts_n` is the member `cmdopts.n`. -/
structure config where
  configflags : Nat
  output_format : output_format
  cmdopts_n : Option (List Char)

/-- The routine `config_init`. -/
def config_init : config :=
  { configflags := 0, output_format := .OUTPUT_FORMAT_CSV, cmdopts_n := none }

/-- The C test `config->configflags & flag`. -/
def config.has (c : config) (flag : Nat) : Bool := (c.configflags &&& flag) != 0

/-- The C `struct battery_info`.  The three flags are C `char`s holding
`-1`, `0` or `1`. -/
structure battery_info where
  charge : Dbl
  max_charge : Dbl
  voltage : Dbl
  current : Dbl
  temperature : Dbl
  etd : Dbl
  name : Option (List Char)
  model : Option (List Char)
  manufacturer : Option (List Char)
  technology : Option (List Char)
  driver : Option (List Char)
  status : Option (List Char)
  health : Option (List Char)
  serial_number : Option (List Char)
  charge_type : Option (List Char)
  charge_rate : Option (List Char)
  present : Int
  online : Int
  charging_enabled : Int
deriving DecidableEq

/-- The routine `battery_info_init`. -/
def battery_info_init : battery_info :=
  { charge := DOUBLE_INVALID
    max_charge := DOUBLE_INVALID
    voltage := DOUBLE_INVALID
    current := DOUBLE_INVALID
    temperature := DOUBLE_INVALID
    etd := DOUBLE_INVALID
    name := none
    model := none
    manufacturer := none
    technology := none
    driver := none
    status := none
    health := none
    serial_number := none
    charge_type := none
    charge_rate := none
    present := -1
    online := -1
    charging_enabled := -1 }

/-- The ten `long` locals of `get_battery_info`, each initialised to
`LONG_INVALID`. -/
structure raw_longs where
  charge_now : Int
  charge_full : Int
  charge_full_design : Int
  capacity : Int
  voltage_now : Int
  current_now : Int
  temp : Int
  online : Int
  present : Int
  charging_enabled : Int
deriving DecidableEq

/-- The initial value of the locals of `get_battery_info`. -/
def raw_longs_init : raw_longs :=
  { charge_now := LONG_INVALID
    charge_full := LONG_INVALID
    charge_full_design := LONG_INVALID
    capacity := LONG_INVALID
    voltage_now := LONG_INVALID
    current_now := LONG_INVALID
    temp := LONG_INVALID
    online := LONG_INVALID
    present := LONG_INVALID
    charging_enabled := LONG_INVALID }

/-- Every local holds a value of the C type `long`. -/
def raw_longs.wf (r : raw_longs) : Prop :=
  isLong r.charge_now ∧ isLong r.charge_full ∧ isLong r.charge_full_design ∧
  isLong r.capacity ∧ isLong r.voltage_now ∧ isLong r.current_now ∧
  isLong r.temp ∧ isLong r.online ∧ isLong r.present ∧ isLong r.charging_enabled

instance (r : raw_longs) : Decidable r.wf := by
  unfold raw_longs.wf; exact inferInstance

/-- The locals of `get_battery_info` when only `charge_now`, `charge_full` and
`current_now` were read. -/
def raw_of_charges (charge_now charge_full current_now : Int) : raw_longs :=
  { raw_longs_init with
    charge_now := charge_now
    charge_full := charge_full
    current_now := current_now }

/-- The locals of `get_battery_info` when only `charge_now`, `charge_full` and
`charge_full_design` were read. -/
def raw_of_design (charge_now charge_full charge_full_design : Int) : raw_longs :=
  { raw_longs_init with
    charge_now := charge_now
    charge_full := charge_full
    charge_full_design := charge_full_design }

/-- The locals of `get_battery_info` when only `voltage_now`, `current_now` and
`temp` were read. -/
def raw_of_readings (voltage_now current_now temp : Int) : raw_longs :=
  { raw_longs_init with
    voltage_now := voltage_now
    current_now := current_now
    temp := temp }

/-- The locals of `get_battery_info` when only the three flags were read. -/
def raw_of_flags (present online charging_enabled : Int) : raw_longs :=
  { raw_longs_init with
    present := present
    online := online
    charging_enabled := charging_enabled }

/-- The configuration of the option `--no-cap` alone. -/
def config_no_cap : config :=
  { config_init with configflags := CONFIG_FLAG_DISABLE_CHARGE_CAP }

/-! ## The `process:` part of `get_battery_info` -/

/-- The statement `if (capacity != LONG_INVALID && capacity >= 0 && capacity <= 100)
... else if (charge_now != LONG_INVALID && charge_full != LONG_INVALID) ...`. -/
def process_charge (r : raw_longs) (info : battery_info) : battery_info :=
  if r.capacity ≠ LONG_INVALID ∧ r.capacity ≥ 0 ∧ r.capacity ≤ 100 then
    { info with charge := Dbl.ofLong r.capacity }
  else if r.charge_now ≠ LONG_INVALID ∧ r.charge_full ≠ LONG_INVALID then
    { info with
      charge := Dbl.mul (Dbl.div (Dbl.ofLong r.charge_now) (Dbl.ofLong r.charge_full)) (Dbl.fin 100) }
  else info

/-- The statement `if (!(config->configflags & CONFIG_FLAG_DISABLE_CHARGE_CAP) &&
info->charge > 100.0) info->charge = 100.0;`. -/
def process_charge_cap (cfg : config) (info : battery_info) : battery_info :=
  if !(cfg.has CONFIG_FLAG_DISABLE_CHARGE_CAP) && Dbl.gt info.charge (Dbl.fin 100) then
    { info with charge := Dbl.fin 100 }
  else info

/-- The statement `if (charge_full != LONG_INVALID && charge_full_design != LONG_INVALID)
info->max_charge = ...`. -/
def process_max_charge (r : raw_longs) (info : battery_info) : battery_info :=
  if r.charge_full ≠ LONG_INVALID ∧ r.charge_full_design ≠ LONG_INVALID then
    { info with
      max_charge := Dbl.mul (Dbl.div (Dbl.ofLong r.charge_full) (Dbl.ofLong r.charge_full_design)) (Dbl.fin 100) }
  else info

/-- The statement `if (voltage_now != LONG_INVALID) info->voltage = ...`. -/
def process_voltage (r : raw_longs) (info : battery_info) : battery_info :=
  if r.voltage_now ≠ LONG_INVALID then
    { info with voltage := Dbl.div (Dbl.ofLong r.voltage_now) (Dbl.fin 1000000) }
  else info

/-- The statement `if (current_now != LONG_INVALID) info->current = ...`. -/
def process_current (r : raw_longs) (info : battery_info) : battery_info :=
  if r.current_now ≠ LONG_INVALID then
    { info with current := Dbl.div (Dbl.ofLong r.current_now) (Dbl.fin 100000) }
  else info

/-- The statement `if (temp != LONG_INVALID) info->temperature = ...`. -/
def process_temperature (r : raw_longs) (info : battery_info) : battery_info :=
  if r.temp ≠ LONG_INVALID then
    { info with temperature := Dbl.div (Dbl.ofLong r.temp) (Dbl.fin 10) }
  else info

/-- The statement `if (charge_full != LONG_INVALID && charge_full != LONG_INVALID &&
current_now != LONG_INVALID) info->etd = ...`; the source tests `charge_full`
twice. -/
def process_etd (r : raw_longs) (info : battery_info) : battery_info :=
  if r.charge_full ≠ LONG_INVALID ∧ r.charge_full ≠ LONG_INVALID ∧
      r.current_now ≠ LONG_INVALID then
    { info with
      etd := Dbl.mul (Dbl.div (Dbl.sub (Dbl.ofLong r.charge_full) (Dbl.ofLong r.charge_now)) (Dbl.ofLong r.current_now)) (Dbl.fin 10) }
  else info

/-- The statement `if (present == 1 || present == 0) info->present = (char) present;`. -/
def process_present (r : raw_longs) (info : battery_info) : battery_info :=
  if r.present = 1 ∨ r.present = 0 then { info with present := r.present } else info

/-- The statement `if (online == 1 || online == 0) info->online = (char) online;`. -/
def process_online (r : raw_longs) (info : battery_info) : battery_info :=
  if r.online = 1 ∨ r.online = 0 then { info with online := r.online } else info

/-- The statement `if (charging_enabled == 1 || charging_enabled == 0)
info->charging_enabled = (char) charging_enabled;`. -/
def process_charging_enabled (r : raw_longs) (info : battery_info) : battery_info :=
  if r.charging_enabled = 1 ∨ r.charging_enabled = 0 then
    { info with charging_enabled := r.charging_enabled }
  else info

/-- The statements of `get_battery_info` from the label `process:` to the label
`end:`, in the order of the source. -/
def process (r : raw_longs) (cfg : config) (info : battery_info) : battery_info :=
  process_charging_enabled r
    (process_online r
      (process_present r
        (process_etd r
          (process_temperature r
            (process_current r
              (process_voltage r
                (process_max_charge r
                  (process_charge_cap cfg
                    (process_charge r info)))))))))

/-! ## Reading the two `uevent` files -/

/-- The macro `if_startswith(s)` applied to the array `buf`: the test
`strstr(buf, s) == buf`. -/
def if_startswith (buf : List Char) (s : String) : Bool :=
  strstr s.toList (cstr_at buf 0) == some 0

/-- The destinations of the helper calls in `get_battery_info`: the ten `long`
locals and the ten string members of `struct battery_info`. -/
inductive slot where
  | capacity | charge_now | charge_full_design | charge_full | voltage_now
  | current_now | temp | name | model | manufacturer | technology | status
  | health | serial_number | charge_type | charge_rate | present | online
  | charging_enabled | driver
deriving DecidableEq

/-- The `if_startswith` chain of the first loop of `get_battery_info`, in the
order of the source: the key tested, the offset added to `buf` in the helper
call, and the destination of the call. -/
def uevent_keys : List (String × Nat × slot) :=
  [ ("POWER_SUPPLY_CAPACITY", 22, .capacity),
    ("POWER_SUPPLY_CHARGE_NOW", 24, .charge_now),
    ("POWER_SUPPLY_CHARGE_FULL_DESIGN", 32, .charge_full_design),
    ("POWER_SUPPLY_CHARGE_FULL", 25, .charge_full),
    ("POWER_SUPPLY_VOLTAGE_NOW", 25, .voltage_now),
    ("POWER_SUPPLY_CURRENT_NOW", 25, .current_now),
    ("POWER_SUPPLY_TEMP", 18, .temp),
    ("POWER_SUPPLY_NAME", 18, .name),
    ("POWER_SUPPLY_MODEL_NAME", 24, .model),
    ("POWER_SUPPLY_MANUFACTURER", 26, .manufacturer),
    ("POWER_SUPPLY_TECHNOLOGY", 24, .technology),
    ("POWER_SUPPLY_STATUS", 20, .status),
    ("POWER_SUPPLY_HEALTH", 20, .health),
    ("POWER_SUPPLY_SERIAL_NUMBER", 27, .serial_number),
    ("POWER_SUPPLY_CHARGE_TYPE", 25, .charge_type),
    ("POWER_SUPPLY_CHARGE_RATE", 25, .charge_rate),
    ("POWER_SUPPLY_PRESENT", 21, .present),
    ("POWER_SUPPLY_ONLINE", 21, .online),
    ("POWER_SUPPLY_CHARGING_ENABLED", 30, .charging_enabled) ]

/-- The `if_startswith` of the second loop of `get_battery_info`. -/
def device_uevent_keys : List (String × Nat × slot) :=
  [ ("DRIVER", 7, .driver) ]

/-- The branch that an `if_startswith ... else if_startswith ...` chain takes
on the array `buf`: the destination of its helper call and the string
`buf + offset` handed to the helper; `none` when no test succeeds. -/
def dispatch (keys : List (String × Nat × slot)) (buf : List Char) :
    Option (slot × List Char) :=
  match keys.find? (fun k => if_startswith buf k.1) with
  | none => none
  | some (_, off, sl) => some (sl, cstr_at buf off)

/-- The variables that the two reading loops of `get_battery_info` update:
the `long` locals, the record and the array `buf`. -/
structure reader_state where
  raw : raw_longs
  info : battery_info
  buf : List Char
deriving DecidableEq

/-- The helper call of a branch: `strtol_helper(arg, &local)` for a numeric
destination, `strcpy_helper(arg, &info->member)` for a string one.  The
status returned only guards a `continue` at the end of the loop body. -/
def store (sl : slot) (arg : List Char) (st : reader_state) : reader_state :=
  match sl with
  | .capacity => { st with raw := { st.raw with capacity := (strtol_helper arg).2 } }
  | .charge_now => { st with raw := { st.raw with charge_now := (strtol_helper arg).2 } }
  | .charge_full_design =>
      { st with raw := { st.raw with charge_full_design := (strtol_helper arg).2 } }
  | .charge_full => { st with raw := { st.raw with charge_full := (strtol_helper arg).2 } }
  | .voltage_now => { st with raw := { st.raw with voltage_now := (strtol_helper arg).2 } }
  | .current_now => { st with raw := { st.raw with current_now := (strtol_helper arg).2 } }
  | .temp => { st with raw := { st.raw with temp := (strtol_helper arg).2 } }
  | .name => { st with info := { st.info with name := (strcpy_helper arg).2 } }
  | .model => { st with info := { st.info with model := (strcpy_helper arg).2 } }
  | .manufacturer => { st with info := { st.info with manufacturer := (strcpy_helper arg).2 } }
  | .technology => { st with info := { st.info with technology := (strcpy_helper arg).2 } }
  | .status => { st with info := { st.info with status := (strcpy_helper arg).2 } }
  | .health => { st with info := { st.info with health := (strcpy_helper arg).2 } }
  | .serial_number =>
      { st with info := { st.info with serial_number := (strcpy_helper arg).2 } }
  | .charge_type => { st with info := { st.info with charge_type := (strcpy_helper arg).2 } }
  | .charge_rate => { st with info := { st.info with charge_rate := (strcpy_helper arg).2 } }
  | .present => { st with raw := { st.raw with present := (strtol_helper arg).2 } }
  | .online => { st with raw := { st.raw with online := (strtol_helper arg).2 } }
  | .charging_enabled =>
      { st with raw := { st.raw with charging_enabled := (strtol_helper arg).2 } }
  | .driver => { st with info := { st.info with driver := (strcpy_helper arg).2 } }

/-- The loop `while (i > 0 && isspace((int) buf[i])) i--;`. -/
def strip_index (buf : List Char) : Nat → Nat
  | 0 => 0
  | i + 1 => if isspace (buf.getD (i + 1) NUL) then strip_index buf i else i + 1

/-- The array `buf` after the stripping statements of a loop body, `none`
when the body leaves through `continue` because `i == 0`.  An empty string in
`buf` (a chunk that starts with a NUL byte) makes the C code read outside of
the array; here such a chunk is skipped. -/
def strip (buf : List Char) : Option (List Char) :=
  let i := strip_index buf (strlen buf - 1)
  if i = 0 then none else some (buf.set (i + 1) NUL)

/-- One iteration of a reading loop of `get_battery_info`: the successful
`fgets`, then the loop body. -/
def uevent_line (keys : List (String × Nat × slot)) (st : reader_state)
    (chunk : List Char) : reader_state :=
  let buf := fgets_store st.buf chunk
  match strip buf with
  | none => { st with buf := buf }
  | some buf =>
      match dispatch keys buf with
      | none => { st with buf := buf }
      | some (sl, arg) => store sl arg { st with buf := buf }

/-- A whole reading loop `while (fgets(buf, sizeof(buf), f) != NULL)` on a
file of the given content. -/
def read_uevent (keys : List (String × Nat × slot)) (st : reader_state)
    (content : List Char) : reader_state :=
  (fgets_chunks 256 content).foldl (uevent_line keys) st

/-- The routine `get_battery_info`.  `uevent` and `device_uevent` are the
contents of `<path>/uevent` and `<path>/device/uevent`, `none` when `fopen`
fails; `buf0` is the content of the array `buf` on entry.  The result is the
returned status and the record left in `*info`. -/
def get_battery_info (uevent device_uevent : Option (List Char)) (info : battery_info)
    (cfg : config) (buf0 : List Char) : Int × battery_info :=
  let st0 : reader_state := { raw := raw_longs_init, info := info, buf := buf0 }
  let opened : Nat × reader_state :=
    match uevent with
    | none => (1, st0)
    | some content => (0, read_uevent uevent_keys st0 content)
  let failed_opens := opened.1
  let st1 := opened.2
  match device_uevent with
  | none =>
      if failed_opens + 1 = 2 then (-1, info)
      else (if failed_opens + 1 ≥ 2 then -1 else 0, process st1.raw cfg st1.info)
  | some content =>
      let st2 := read_uevent device_uevent_keys st1 content
      (if failed_opens ≥ 2 then -1 else 0, process st2.raw cfg st2.info)

/-! ## Text lines -/

/-- A chunk `body ++ ws` read by `fgets` is a text line: `body` holds no NUL,
has two characters or more and ends with a character that is not white space,
and `ws` is the trailing white space (the newline, when there is one). -/
def text_line (body ws : List Char) : Prop :=
  NUL ∉ body ∧ 2 ≤ body.length ∧ (∀ c ∈ ws, isspace c = true) ∧
    isspace (body.getLast?.getD NUL) = false

instance (body ws : List Char) : Decidable (text_line body ws) := by
  unfold text_line; exact inferInstance

/-- What the array `buf` holds after the NUL that the stripping of the text
line `body ++ ws` writes: the rest of the white space, the NUL written by
`fgets`, and the older content. -/
def stale (buf body ws : List Char) : List Char :=
  (ws ++ NUL :: buf.drop (body.length + ws.length + 1)).tail

/-- The text `POWER_SUPPLY_CAPACITY=c`, with `c` in decimal. -/
def capacity_line (c : Nat) : List Char :=
  "POWER_SUPPLY_CAPACITY=".toList ++ (Nat.repr c).toList

/-- The table of an `if_startswith` chain is sound at the entry `e`: the key is
not empty and holds no NUL, a line `key=...` takes the branch of `e` and no
earlier one, and the offset of the branch is the length of `key=`. -/
def entry_sound (keys : List (String × Nat × slot)) (e : String × Nat × slot) : Prop :=
  0 < e.1.toList.length ∧ NUL ∉ e.1.toList ∧
  keys.find? (fun k => k.1.toList.isPrefixOf (e.1.toList ++ ['='])) = some e ∧
  e.2.1 = e.1.toList.length + 1 ∧
  ∀ k ∈ keys, k.1.toList.isPrefixOf (e.1.toList ++ ['=']) = true ∨
    k.1.toList.take (e.1.toList ++ ['=']).length ≠
      (e.1.toList ++ ['=']).take k.1.toList.length

instance (keys : List (String × Nat × slot)) (e : String × Nat × slot) :
    Decidable (entry_sound keys e) := by
  unfold entry_sound; exact inferInstance

/-! ## Decimal text -/

/-- The decimal text of an integer, as `printf("%d", v)` writes it and as a
`uevent` file holds it. -/
def decimal (v : Int) : List Char :=
  if v < 0 then '-' :: Nat.toDigits 10 v.natAbs else Nat.toDigits 10 v.natAbs

/-- The text `key=value` of a line. -/
def key_line (key : String) (value : List Char) : List Char :=
  key.toList ++ '=' :: value

/-! ## The output routines -/

/-- The macro `DEFAULT_OUTPUT_SEQUENCE`. -/
def DEFAULT_OUTPUT_SEQUENCE : String := "ncvCmMedsp"

/-- The macro `COMPLETE_OUTPUT_SEQUENCE`. -/
def COMPLETE_OUTPUT_SEQUENCE : String := "nctvCTdmMeshSHrpogD"

/-- The macro `output_n_spaces(n)`. -/
def output_n_spaces (n : Nat) : List Char := List.replicate n ' '

/-- The macro `output_csv_name()`: the name, a colon, and
`29 - strlen(name)` spaces, the count being computed in `size_t`. -/
def output_csv_name (name : String) : List Char :=
  name.toList ++ ':' :: output_n_spaces (((29 - (name.toList.length : Int)) % 2 ^ 64).toNat)

/-- The routine `battery_info_output_init`: the text it writes to `stdout`. -/
def battery_info_output_init (cfg : config) : List Char :=
  match cfg.output_format with
  | .OUTPUT_FORMAT_CSV => []
  | .OUTPUT_FORMAT_JSON => "\x7b\n\"batteries\": [\n".toList

/-- The routine `battery_info_output_deinit`. -/
def battery_info_output_deinit (cfg : config) : List Char :=
  match cfg.output_format with
  | .OUTPUT_FORMAT_CSV => []
  | .OUTPUT_FORMAT_JSON => "]\n\x7d\n".toList

/-- The routine `battery_info_output_start`. -/
def battery_info_output_start (battery : Int) (cfg : config) : List Char :=
  match cfg.output_format with
  | .OUTPUT_FORMAT_CSV =>
      "battery:                      ".toList ++ decimal battery ++ "\n".toList
  | .OUTPUT_FORMAT_JSON => "\t\x7b\n\t\t\"battery\": ".toList ++ decimal battery

/-- The routine `battery_info_output_end`. -/
def battery_info_output_end (cfg : config) : List Char :=
  match cfg.output_format with
  | .OUTPUT_FORMAT_CSV => []
  | .OUTPUT_FORMAT_JSON => "\n\t\x7d,\n".toList

/-- The routine `battery_info_output_double`.  `printf_2f d` is the text that
`printf("%.2f", d)` writes. -/
def battery_info_output_double (printf_2f : Dbl → List Char) (d : Dbl) (name : String)
    (cfg : config) : List Char :=
  match cfg.output_format with
  | .OUTPUT_FORMAT_CSV =>
      output_csv_name name ++
        (if d ≠ DOUBLE_INVALID then printf_2f d ++ "\n".toList else "?\n".toList)
  | .OUTPUT_FORMAT_JSON =>
      ",\n\t\t\"".toList ++ name.toList ++ "\": ".toList ++
        (if d ≠ DOUBLE_INVALID then printf_2f d else "null".toList)

/-- The routine `battery_info_output_double_percent`. -/
def battery_info_output_double_percent (printf_2f : Dbl → List Char) (d : Dbl)
    (name : String) (cfg : config) : List Char :=
  match cfg.output_format with
  | .OUTPUT_FORMAT_CSV =>
      output_csv_name name ++
        (if d ≠ DOUBLE_INVALID then printf_2f d ++ "%\n".toList else "?\n".toList)
  | .OUTPUT_FORMAT_JSON =>
      ",\n\t\t\"".toList ++ name.toList ++ "\": ".toList ++
        (if d ≠ DOUBLE_INVALID then printf_2f d else "null".toList)

/-- The routine `battery_info_output_str`; `none` is the null pointer. -/
def battery_info_output_str (s : Option (List Char)) (name : String) (cfg : config) :
    List Char :=
  match cfg.output_format with
  | .OUTPUT_FORMAT_CSV =>
      output_csv_name name ++
        (match s with
         | none => "?\n".toList
         | some t => t ++ "\n".toList)
  | .OUTPUT_FORMAT_JSON =>
      ",\n\t\t\"".toList ++ name.toList ++ "\": ".toList ++
        (match s with
         | none => "null".toList
         | some t => "\"".toList ++ t ++ "\"".toList)

/-- The routine `battery_info_output_flag`. -/
def battery_info_output_flag (flag : Int) (name : String) (cfg : config) : List Char :=
  match cfg.output_format with
  | .OUTPUT_FORMAT_CSV =>
      output_csv_name name ++
        (if cfg.has CONFIG_FLAG_DIGITS then
          (if flag = 1 then "1".toList else if flag = 0 then "0".toList else "?".toList) ++
            "\n".toList
         else
          (if flag = 1 then "yes".toList else if flag = 0 then "no".toList else "?".toList) ++
            "\n".toList)
  | .OUTPUT_FORMAT_JSON =>
      ",\n\t\t\"".toList ++ name.toList ++ "\": ".toList ++
        (if cfg.has CONFIG_FLAG_DIGITS then
          (if flag = 0 then "0".toList else if flag = 1 then "1".toList else "null".toList)
         else
          (if flag = 0 then "false".toList else if flag = 1 then "true".toList
           else "null".toList))

/-- A call of one of the four field output routines, as the `switch` of
`list_battery_info` makes it: the value and the name passed. -/
inductive field_call where
  | str (s : Option (List Char)) (name : String)
  | double_percent (d : Dbl) (name : String)
  | double (d : Dbl) (name : String)
  | flag (flag : Int) (name : String)
deriving DecidableEq

/-- The `switch` of `list_battery_info` on the character `c`, in the order of
its cases; `none` is the `default` case, which calls nothing. -/
def field_switch (info : battery_info) (c : Char) : Option field_call :=
  if c = 'n' then some (.str info.name "name")
  else if c = 'c' then some (.double_percent info.charge "charge")
  else if c = 't' then some (.double_percent info.max_charge "max_charge")
  else if c = 'v' then some (.double info.voltage "voltage")
  else if c = 'C' then some (.double info.current "current")
  else if c = 'T' then some (.double info.temperature "temperature")
  else if c = 'D' then some (.double info.etd "etd")
  else if c = 'd' then some (.str info.driver "driver")
  else if c = 'm' then some (.str info.model "model")
  else if c = 'M' then some (.str info.manufacturer "manufacturer")
  else if c = 'e' then some (.str info.technology "technology")
  else if c = 's' then some (.str info.status "status")
  else if c = 'h' then some (.str info.health "health")
  else if c = 'S' then some (.str info.serial_number "serial_number")
  else if c = 'H' then some (.str info.charge_type "charge_type")
  else if c = 'r' then some (.str info.charge_rate "charge_rate")
  else if c = 'p' then some (.flag info.present "present")
  else if c = 'o' then some (.flag info.online "online")
  else if c = 'g' then some (.flag info.charging_enabled "charging_enabled")
  else none

/-- The text that a call of a field output routine writes. -/
def output_call (printf_2f : Dbl → List Char) (cfg : config) : field_call → List Char
  | .str s name => battery_info_output_str s name cfg
  | .double_percent d name => battery_info_output_double_percent printf_2f d name cfg
  | .double d name => battery_info_output_double printf_2f d name cfg
  | .flag flag name => battery_info_output_flag flag name cfg

/-- The calls that the loop `while (*p != '\0')` of `list_battery_info` makes
on the string `p`, in order. -/
def field_calls (info : battery_info) : List Char → List field_call
  | [] => []
  | c :: p =>
      match field_switch info c with
      | none => field_calls info p
      | some call => call :: field_calls info p

/-- The content of one entry of the power supply directory: its name, the
contents of its files `type`, `uevent` and `device/uevent` (`none` when the
file cannot be opened), and `buf0`, what the array `buf` of `get_battery_info`
holds before the first line is read.  Names are taken to fit the path
arrays. -/
structure dir_entry where
  d_name : List Char
  type_file : Option (List Char)
  uevent : Option (List Char)
  device_uevent : Option (List Char)
  buf0 : List Char
deriving DecidableEq

/-- The routine `list_battery_info` on the entry `e`: the returned status and
the text written to `stdout`. -/
def list_battery_info (printf_2f : Dbl → List Char) (battery : Int) (e : dir_entry)
    (infostr : List Char) (cfg : config) : Int × List Char :=
  let r := get_battery_info e.uevent e.device_uevent battery_info_init cfg e.buf0
  if r.1 < 0 then (-1, [])
  else
    let p := if cfg.has CONFIG_FLAG_OUTPUT_ALL then COMPLETE_OUTPUT_SEQUENCE.toList else infostr
    (0, battery_info_output_start battery cfg ++
      ((field_calls r.2 p).map (output_call printf_2f cfg)).flatten ++
      battery_info_output_end cfg)

/-- The loop of `compare_file_contents`: the value of `len` when the loop is
left, on the string `s` still to compare and the rest of the file. -/
def compare_loop : List Char → List Char → Nat
  | [], _ => 0
  | c :: s, [] => (c :: s).length
  | c :: s, x :: rest => if x ≠ c then (c :: s).length else compare_loop s rest

/-- The routine `compare_file_contents`; `file` is the content of the file at
`path`, `none` when `fopen` fails. -/
def compare_file_contents (file : Option (List Char)) (comparison : List Char) : Int :=
  match file with
  | none => -1
  | some content => if compare_loop comparison content = 0 then 0 else -1

/-- The loop `while ((dir = readdir(basedir)) != NULL)` of
`list_all_battery_info` on the entries still to read, with the value of
`battery`: the text written to `stdout`.  With `CONFIG_FLAG_BY_NAME` the name
`cmdopts.n` is set; a null name matches no entry here. -/
def list_all_loop (printf_2f : Dbl → List Char) (infostr : List Char) (cfg : config) :
    List dir_entry → Int → List Char
  | [], _ => []
  | e :: rest, battery =>
      if e.d_name.head? = some '.' then list_all_loop printf_2f infostr cfg rest battery
      else if compare_file_contents e.type_file "Battery".toList = 0 then
        if cfg.has CONFIG_FLAG_BY_NAME then
          if some e.d_name = cfg.cmdopts_n then (list_battery_info printf_2f 0 e infostr cfg).2
          else list_all_loop printf_2f infostr cfg rest battery
        else
          (list_battery_info printf_2f battery e infostr cfg).2 ++
            list_all_loop printf_2f infostr cfg rest (battery + 1)
      else list_all_loop printf_2f infostr cfg rest battery

/-- The routine `list_all_battery_info`: the text written to `stdout`, or
`none` when `opendir` fails and the program exits with status 1.  `basedir`
is the list of the entries of the power supply directory in the order of
`readdir`, `none` when the directory cannot be opened. -/
def list_all_battery_info (printf_2f : Dbl → List Char) (basedir : Option (List dir_entry))
    (infostr : List Char) (cfg : config) : Option (List Char) :=
  match basedir with
  | none => none
  | some entries =>
      some (battery_info_output_init cfg ++ list_all_loop printf_2f infostr cfg entries 0 ++
        battery_info_output_deinit cfg)

/-- The number that a run of decimal digits denotes, as `strtol` accumulates
it. -/
def digits_value (ds : List Char) : Nat :=
  ds.foldl (fun acc c => 10 * acc + (c.toNat - 48)) 0

/-! ## Destinations and frames -/

/-- The content of a destination in a state of the reading loops: the `long`
of a numeric destination or the string of a string destination. -/
def slot_value (sl : slot) (st : reader_state) : Int ⊕ Option (List Char) :=
  match sl with
  | .capacity => .inl st.raw.capacity
  | .charge_now => .inl st.raw.charge_now
  | .charge_full_design => .inl st.raw.charge_full_design
  | .charge_full => .inl st.raw.charge_full
  | .voltage_now => .inl st.raw.voltage_now
  | .current_now => .inl st.raw.current_now
  | .temp => .inl st.raw.temp
  | .name => .inr st.info.name
  | .model => .inr st.info.model
  | .manufacturer => .inr st.info.manufacturer
  | .technology => .inr st.info.technology
  | .status => .inr st.info.status
  | .health => .inr st.info.health
  | .serial_number => .inr st.info.serial_number
  | .charge_type => .inr st.info.charge_type
  | .charge_rate => .inr st.info.charge_rate
  | .present => .inl st.raw.present
  | .online => .inl st.raw.online
  | .charging_enabled => .inl st.raw.charging_enabled
  | .driver => .inr st.info.driver

/-- Whether a destination is one of the ten `long` locals. -/
def slot.is_long : slot → Bool
  | .capacity | .charge_now | .charge_full_design | .charge_full | .voltage_now
  | .current_now | .temp | .present | .online | .charging_enabled => true
  | _ => false

/-- The members of a record that are not strings: the six doubles and the
three flags. -/
def info_numbers (info : battery_info) : (Dbl × Dbl × Dbl × Dbl × Dbl × Dbl) × (Int × Int × Int) :=
  ((info.charge, info.max_charge, info.voltage, info.current, info.temperature, info.etd),
    (info.present, info.online, info.charging_enabled))

/-- A line `key=...` takes the branch of the entry `e` of the chain and no
earlier one; the key is not empty and holds no NUL. -/
def entry_selected (keys : List (String × Nat × slot)) (e : String × Nat × slot) : Prop :=
  0 < e.1.toList.length ∧ NUL ∉ e.1.toList ∧
  keys.find? (fun k => k.1.toList.isPrefixOf (e.1.toList ++ ['='])) = some e ∧
  ∀ k ∈ keys, k.1.toList.isPrefixOf (e.1.toList ++ ['=']) = true ∨
    k.1.toList.take (e.1.toList ++ ['=']).length ≠
      (e.1.toList ++ ['=']).take k.1.toList.length

instance (keys : List (String × Nat × slot)) (e : String × Nat × slot) :
    Decidable (entry_selected keys e) := by
  unfold entry_selected; exact inferInstance

/-- The state in which the first reading loop of `get_battery_info` starts. -/
def reader_init (info : battery_info) (buf0 : List Char) : reader_state :=
  { raw := raw_longs_init, info := info, buf := buf0 }

/-! ## Files as lines -/

/-- The newline character. -/
def NL : Char := Char.ofNat 10

/-- The content of a text file made of the given lines, each followed by a
newline. -/
def file_of_lines (lines : List (List Char)) : List Char :=
  (lines.map (fun l => l ++ [NL])).flatten

/-- A line without its trailing white space. -/
def rstrip (line : List Char) : List Char :=
  (line.reverse.dropWhile isspace).reverse

/-- The raw value that a line carries for a key: when the line, without its
trailing white space, starts with `key=`, the text that follows. -/
def line_value (key : String) (line : List Char) : Option (List Char) :=
  if (key.toList ++ ['=']).isPrefixOf (rstrip line) then
    some ((rstrip line).drop (key.toList.length + 1))
  else none

/-- The raw value of the last of the lines that carry a key. -/
def last_value (key : String) (lines : List (List Char)) : Option (List Char) :=
  (lines.filterMap (line_value key)).getLast?

/-- The locals of `get_battery_info` when only `capacity`, `voltage_now` and
`present` were read. -/
def raw_of_scenario (capacity voltage_now present : Int) : raw_longs :=
  { raw_longs_init with
    capacity := capacity
    voltage_now := voltage_now
    present := present }

/-- The record initialised by `battery_info_init` in which only the charge,
the voltage and the present flag were set. -/
def info_of_scenario (charge voltage : Dbl) (present : Int) : battery_info :=
  { battery_info_init with
    charge := charge
    voltage := voltage
    present := present }

/-- The three lines of a file with a capacity, a voltage and a present flag. -/
def scenario_lines (c v p : Int) : List (List Char) :=
  [key_line "POWER_SUPPLY_CAPACITY" (decimal c),
    key_line "POWER_SUPPLY_VOLTAGE_NOW" (decimal v),
    key_line "POWER_SUPPLY_PRESENT" (decimal p)]

/-- The six orders of three lines. -/
def orders_of_three {α : Type} (l : List α) : List (List α) :=
  match l with
  | [a, b, c] => [[a, b, c], [a, c, b], [b, a, c], [b, c, a], [c, a, b], [c, b, a]]
  | _ => [l]

/-- The three lines of `scenario_lines` with the entries of their keys. -/
def scenario_items (c v p : Int) : List ((String × Nat × slot) × List Char) :=
  [(("POWER_SUPPLY_CAPACITY", 22, .capacity), decimal c),
    (("POWER_SUPPLY_VOLTAGE_NOW", 25, .voltage_now), decimal v),
    (("POWER_SUPPLY_PRESENT", 21, .present), decimal p)]

/-- The value text `V` can stand on a line `key=V` of its own for the entry
`e` of a chain: the entry is sound, and the line holds no NUL and no newline,
does not end with white space and fits the array `buf` with its newline. -/
def line_ok (keys : List (String × Nat × slot)) (e : String × Nat × slot) (V : List Char) :
    Prop :=
  entry_sound keys e ∧ NUL ∉ V ∧ isspace (V.getLast?.getD '=') = false ∧
    (∀ c ∈ key_line e.1 V, c.toNat ≠ 10) ∧ (key_line e.1 V).length ≤ 254

/-- The record initialised by `battery_info_init` in which only the driver was
set. -/
def info_of_driver (d : List Char) : battery_info :=
  { battery_info_init with driver := some d }

/-! ## The directory loop with a name filter -/

/-- The test that the loop of `list_all_battery_info` makes on an entry when a
name filter is set: the name does not start with a dot, the type check passes,
and `strcmp` finds the name equal to the filter. -/
def name_match (n : List Char) (e : dir_entry) : Bool :=
  !(e.d_name.head? == some '.') &&
    decide (compare_file_contents e.type_file "Battery".toList = 0) && (e.d_name == n)

/-- The configuration of the option `--name n` alone. -/
def config_by_name (n : List Char) : config :=
  { config_init with configflags := CONFIG_FLAG_BY_NAME, cmdopts_n := some n }

/-- The configuration of the option `--json` alone. -/
def config_json : config :=
  { config_init with output_format := .OUTPUT_FORMAT_JSON }

/-- A battery entry of the given name with a capacity line. -/
def sample_entry (name : String) : dir_entry :=
  { d_name := name.toList
    type_file := some "Battery\n".toList
    uevent := some "POWER_SUPPLY_CAPACITY=76\n".toList
    device_uevent := none
    buf0 := [] }

/-- The fields of the usage text, in its order: the character, and the call
that writes the member of the record that the character stands for, under the
name that the output carries. -/
def usage_fields : List (Char × (battery_info → field_call)) :=
  [ ('n', fun info => .str info.name "name"),
    ('c', fun info => .double_percent info.charge "charge"),
    ('t', fun info => .double_percent info.max_charge "max_charge"),
    ('v', fun info => .double info.voltage "voltage"),
    ('C', fun info => .double info.current "current"),
    ('T', fun info => .double info.temperature "temperature"),
    ('d', fun info => .str info.driver "driver"),
    ('m', fun info => .str info.model "model"),
    ('M', fun info => .str info.manufacturer "manufacturer"),
    ('e', fun info => .str info.technology "technology"),
    ('s', fun info => .str info.status "status"),
    ('h', fun info => .str info.health "health"),
    ('S', fun info => .str info.serial_number "serial_number"),
    ('H', fun info => .str info.charge_type "charge_type"),
    ('r', fun info => .str info.charge_rate "charge_rate"),
    ('p', fun info => .flag info.present "present"),
    ('o', fun info => .flag info.online "online"),
    ('g', fun info => .flag info.charging_enabled "charging_enabled"),
    ('D', fun info => .double info.etd "etd") ]

/-! ## The command line and the routine `main` -/

/-- The macro `EXIT_SUCCESS`. -/
def EXIT_SUCCESS : Int := 0

/-- The macro `EXIT_FAILURE`. -/
def EXIT_FAILURE : Int := 1

/-- One return of `getopt_long` in the loop of `main`: the value returned,
which is the character of an option, `'?'` for an option that is not known,
or 1 for an argument that is not an option, with `optarg` and `optopt` as the
call leaves them (`optarg` is empty where the source does not read it). -/
structure getopt_return where
  c : Int
  optarg : List Char
  optopt : Char
deriving DecidableEq

/-- The value that a `case` label of a character stands for. -/
def case_label (ch : Char) : Int := (ch.toNat : Int)

/-- The texts that the program writes to `stderr`, one item per call of
`fwrite` or `fprintf`. -/
inductive stderr_item where
  | usage_str
  | short_usage_str
  | version_str
  | license_str
  | name_is_empty
  | invalid_option (optopt : Char)
  | unrecognised_character (c : Char)
  | opendir_failed
deriving DecidableEq

/-- The loop `while ((c = getopt_long(...)) != -1)` of `main` on the returns
of `getopt_long` still to come, with the values of `config` and `infoflagstr`:
the status and the messages of a call that exits, or `config` and
`infoflagstr` after the loop. -/
def main_getopt_loop :
    List getopt_return → config → Option (List Char) →
      Except (Int × List stderr_item) (config × Option (List Char))
  | [], cfg, infoflagstr => .ok (cfg, infoflagstr)
  | r :: rest, cfg, infoflagstr =>
      if r.c = case_label 'h' then .error (EXIT_SUCCESS, [.usage_str])
      else if r.c = case_label 'v' then .error (EXIT_SUCCESS, [.version_str])
      else if r.c = case_label 'l' then .error (EXIT_SUCCESS, [.license_str])
      else if r.c = case_label 'a' then
        main_getopt_loop rest
          { cfg with configflags := cfg.configflags ||| CONFIG_FLAG_OUTPUT_ALL } infoflagstr
      else if r.c = case_label 'd' then
        main_getopt_loop rest
          { cfg with configflags := cfg.configflags ||| CONFIG_FLAG_DIGITS } infoflagstr
      else if r.c = case_label 'j' then
        main_getopt_loop rest { cfg with output_format := .OUTPUT_FORMAT_JSON } infoflagstr
      else if r.c = case_label 'n' then
        if r.optarg.length < 1 then .error (EXIT_FAILURE, [.name_is_empty])
        else
          main_getopt_loop rest
            { cfg with
              cmdopts_n := some r.optarg
              configflags := cfg.configflags ||| CONFIG_FLAG_BY_NAME } infoflagstr
      else if r.c = case_label 'N' then
        main_getopt_loop rest
          { cfg with configflags := cfg.configflags ||| CONFIG_FLAG_DISABLE_CHARGE_CAP }
          infoflagstr
      else if r.c = case_label '?' then
        .error (EXIT_FAILURE, [.invalid_option r.optopt, .short_usage_str])
      else if r.c = 1 then
        if infoflagstr ≠ none then .error (EXIT_FAILURE, [.short_usage_str])
        else main_getopt_loop rest cfg (some r.optarg)
      else main_getopt_loop rest cfg infoflagstr

/-- The `switch` of the loop of `main` that checks `infoflagstr`: whether the
character has one of the nineteen `case` labels, in the order of the source;
the `default` label exits. -/
def main_case (c : Char) : Bool :=
  c == 'n' || c == 'c' || c == 't' || c == 'v' || c == 'C' || c == 'T' || c == 'D' ||
    c == 'd' || c == 'm' || c == 'M' || c == 'e' || c == 's' || c == 'h' || c == 'S' ||
    c == 'H' || c == 'r' || c == 'p' || c == 'o' || c == 'g'

/-- The loop `while (*p != '\0')` of `main` on `infoflagstr`: the first
character that reaches the `default` label, `none` when the loop ends. -/
def main_check : List Char → Option Char
  | [] => none
  | c :: p => if main_case c then main_check p else some c

/-- How `main` goes before its call of `list_all_battery_info`: it exits with
a status after having written messages to `stderr`, or it reaches the call
with the arguments `infostr` and `config`. -/
inductive startup where
  | exit (status : Int) (err : List stderr_item)
  | run (infostr : List Char) (cfg : config)

/-- The statements of `main` before the call of `list_all_battery_info`.
`returns` are the values that the calls of `getopt_long` return before -1;
there is none when `argc` is 1. -/
def main_startup (returns : List getopt_return) : startup :=
  match main_getopt_loop returns config_init none with
  | .error (status, err) => .exit status err
  | .ok (cfg, infoflagstr) =>
      match infoflagstr with
      | none => .run DEFAULT_OUTPUT_SEQUENCE.toList cfg
      | some s =>
          if !(cfg.has CONFIG_FLAG_OUTPUT_ALL) then
            match main_check s with
            | some c => .exit EXIT_FAILURE [.unrecognised_character c, .short_usage_str]
            | none => .run s cfg
          else .run DEFAULT_OUTPUT_SEQUENCE.toList cfg

/-- The routine `main`: the exit status of the program, the text written to
`stdout` and the messages written to `stderr`.  `basedir` is the content of
the power supply directory, which only `list_all_battery_info` reads. -/
def main (printf_2f : Dbl → List Char) (returns : List getopt_return)
    (basedir : Option (List dir_entry)) : Int × List Char × List stderr_item :=
  match main_startup returns with
  | .exit status err => (status, [], err)
  | .run infostr cfg =>
      match list_all_battery_info printf_2f basedir infostr cfg with
      | none => (1, [], [.opendir_failed])
      | some out => (0, out, [])

/-- The return of `getopt_long` for an option without argument. -/
def getopt_option (ch : Char) : getopt_return :=
  { c := case_label ch, optarg := [], optopt := NUL }

/-- The return of `getopt_long` for an argument that is not an option. -/
def getopt_argument (arg : String) : getopt_return :=
  { c := 1, optarg := arg.toList, optopt := NUL }

/-! ## Words of the flags -/

/-- The value that a flag of the record stands for: 1 is true, 0 is false,
and every other value is unknown. -/
def flag_state (flag : Int) : Option Bool :=
  if flag = 1 then some true else if flag = 0 then some false else none

/-- The word of a flag as the usage text gives it: by output format, by the
digits option and by the state of the flag. -/
def flag_word (fmt : output_format) (digits : Bool) (state : Option Bool) : String :=
  match fmt, digits, state with
  | .OUTPUT_FORMAT_CSV, false, some true => "yes"
  | .OUTPUT_FORMAT_CSV, false, some false => "no"
  | .OUTPUT_FORMAT_CSV, false, none => "?"
  | .OUTPUT_FORMAT_CSV, true, some true => "1"
  | .OUTPUT_FORMAT_CSV, true, some false => "0"
  | .OUTPUT_FORMAT_CSV, true, none => "?"
  | .OUTPUT_FORMAT_JSON, false, some true => "true"
  | .OUTPUT_FORMAT_JSON, false, some false => "false"
  | .OUTPUT_FORMAT_JSON, false, none => "null"
  | .OUTPUT_FORMAT_JSON, true, some true => "1"
  | .OUTPUT_FORMAT_JSON, true, some false => "0"
  | .OUTPUT_FORMAT_JSON, true, none => "null"

/-- What a field output routine writes before the value: the name with its
padding in CSV, the key with its separators in JSON. -/
def field_head (name : String) (fmt : output_format) : List Char :=
  match fmt with
  | .OUTPUT_FORMAT_CSV => output_csv_name name
  | .OUTPUT_FORMAT_JSON => ",\n\t\t\"".toList ++ name.toList ++ "\": ".toList

/-- What a field output routine writes after the value: a newline in CSV,
nothing in JSON. -/
def field_tail (fmt : output_format) : List Char :=
  match fmt with
  | .OUTPUT_FORMAT_CSV => "\n".toList
  | .OUTPUT_FORMAT_JSON => []

/-- A configuration with the digits option added. -/
def config_with_digits (cfg : config) : config :=
  { cfg with configflags := cfg.configflags ||| CONFIG_FLAG_DIGITS }

/-! ## Decimal strings -/

/-- The string `s` is, after optional white space, an optional sign and one
digit or more with nothing behind, and denotes the integer `n` in base 10. -/
def decimal_denotes (s : List Char) (n : Int) : Prop :=
  ∃ ws sign ds : List Char,
    s = ws ++ sign ++ ds ∧ (∀ c ∈ ws, isspace c = true) ∧
    (sign = [] ∨ sign = ['+'] ∨ sign = ['-']) ∧ ds ≠ [] ∧ (∀ c ∈ ds, isdigit c = true) ∧
    n = (if sign = ['-'] then -(digits_value ds : Int) else (digits_value ds : Int))

/-- The locals of `get_battery_info` when only `capacity`, `charge_now` and
`charge_full` were read. -/
def raw_of_capacity (capacity charge_now charge_full : Int) : raw_longs :=
  { raw_longs_init with
    capacity := capacity
    charge_now := charge_now
    charge_full := charge_full }

/-! ## Chunks that are read within their own bytes -/

/-- A chunk read by `fgets` is closed for a chain of keys: it holds no NUL, and
the offset of every branch that its text can take lies within the chunk, so
that the helper call of the branch reads bytes that this `fgets` call or the
stripping has written. -/
def chunk_closed (keys : List (String × Nat × slot)) (c : List Char) : Prop :=
  NUL ∉ c ∧ ∀ e ∈ keys, e.1.toList.isPrefixOf (rstrip c) = true → e.2.1 ≤ c.length

instance (keys : List (String × Nat × slot)) (c : List Char) :
    Decidable (chunk_closed keys c) := by
  unfold chunk_closed; exact inferInstance

/-- Every chunk of a file is closed for a chain of keys; a file that does not
open has no chunk. -/
def file_closed (keys : List (String × Nat × slot)) (file : Option (List Char)) : Prop :=
  ∀ content, file = some content → ∀ c ∈ fgets_chunks 256 content, chunk_closed keys c

/-! ## Entries that the directory loop takes for batteries -/

/-- An entry that the loop of `list_all_battery_info` takes for a battery: the
name does not start with a dot and the type check passes.  Such an entry is
counted by `battery` when no name filter is set. -/
def battery_typed (e : dir_entry) : Bool :=
  !(e.d_name.head? == some '.') &&
    decide (compare_file_contents e.type_file "Battery".toList = 0)

/-- A battery entry of the given name of which neither `uevent` file opens. -/
def unreadable_entry (name : String) : dir_entry :=
  { d_name := name.toList
    type_file := some "Battery\n".toList
    uevent := none
    device_uevent := none
    buf0 := [] }

/-! ## The lines of the fields in CSV -/

/-- The name that a call of a field output routine passes. -/
def field_call.name : field_call → String
  | .str _ name => name
  | .double_percent _ name => name
  | .double _ name => name
  | .flag _ name => name

/-- The text that stands for the value of a call in a CSV line, between the
padding and the newline: the string or `?`, the number with two decimals and a
percent sign where the field is a percentage, or the word of the flag. -/
def field_call.csv_value (printf_2f : Dbl → List Char) (cfg : config) :
    field_call → List Char
  | .str v _ => v.getD "?".toList
  | .double_percent d _ => if d ≠ DOUBLE_INVALID then printf_2f d ++ "%".toList else "?".toList
  | .double d _ => if d ≠ DOUBLE_INVALID then printf_2f d else "?".toList
  | .flag v _ =>
      (flag_word .OUTPUT_FORMAT_CSV (cfg.has CONFIG_FLAG_DIGITS) (flag_state v)).toList

/-- The names of the nineteen fields, in the order of the `case` labels of
`list_battery_info`. -/
def field_names : List String :=
  ["name", "charge", "max_charge", "voltage", "current", "temperature", "etd", "driver",
    "model", "manufacturer", "technology", "status", "health", "serial_number",
    "charge_type", "charge_rate", "present", "online", "charging_enabled"]

/-! ## Facts about doubles -/

theorem LONG_INVALID_eq : LONG_INVALID = -9223372036854775808 := by
  unfold LONG_INVALID LONG_MIN; norm_num

theorem Dbl.round_even_cases (x : ℚ) : round_even x = ⌊x⌋ ∨ round_even x = ⌊x⌋ + 1 := by
  unfold round_even
  split_ifs <;> simp

theorem Dbl.round_even_intCast (n : ℤ) : round_even (n : ℚ) = n := by
  unfold round_even
  simp

theorem Dbl.le_round_even {n : ℤ} {x : ℚ} (h : (n : ℚ) ≤ x) : n ≤ round_even x := by
  have h1 : n ≤ ⌊x⌋ := Int.le_floor.mpr h
  rcases round_even_cases x with h2 | h2 <;> omega

theorem Dbl.round_even_le {n : ℤ} {x : ℚ} (h : x ≤ (n : ℚ)) : round_even x ≤ n := by
  rcases eq_or_lt_of_le h with h1 | h1
  · rw [h1, round_even_intCast]
  · have h2 : ⌊x⌋ < n := Int.floor_lt.mpr h1
    rcases round_even_cases x with h3 | h3 <;> omega

theorem Dbl.round_even_neg (x : ℚ) : round_even (-x) = -round_even x := by
  by_cases hx : (⌊x⌋ : ℚ) = x
  · rw [← hx, ← Int.cast_neg, round_even_intCast, round_even_intCast]
  · have h1 : (⌊x⌋ : ℚ) < x := lt_of_le_of_ne (Int.floor_le x) hx
    have h2 : x < ⌊x⌋ + 1 := Int.lt_floor_add_one x
    have hf : ⌊-x⌋ = -⌊x⌋ - 1 := by
      rw [Int.floor_eq_iff]
      push_cast
      constructor <;> linarith
    unfold round_even
    rw [hf]
    push_cast
    by_cases ha : x - ⌊x⌋ < 1 / 2
    · have hb : ¬ (-x - (-(⌊x⌋ : ℚ) - 1) < 1 / 2) := by linarith
      have hc : 1 / 2 < -x - (-(⌊x⌋ : ℚ) - 1) := by linarith
      rw [if_pos ha, if_neg hb, if_pos hc]
      ring
    · by_cases hd : 1 / 2 < x - ⌊x⌋
      · have hb : -x - (-(⌊x⌋ : ℚ) - 1) < 1 / 2 := by linarith
        rw [if_neg ha, if_pos hd, if_pos hb]
        ring
      · have hb : ¬ (-x - (-(⌊x⌋ : ℚ) - 1) < 1 / 2) := by linarith
        have hc : ¬ (1 / 2 < -x - (-(⌊x⌋ : ℚ) - 1)) := by linarith
        rw [if_neg ha, if_neg hd, if_neg hb, if_neg hc]
        by_cases he : ⌊x⌋ % 2 = 0
        · have hg : ¬ ((-⌊x⌋ - 1) % 2 = 0) := by omega
          rw [if_pos he, if_neg hg]
          ring
        · have hg : (-⌊x⌋ - 1) % 2 = 0 := by omega
          rw [if_neg he, if_pos hg]
          ring

theorem Dbl.exponent_neg (x : ℚ) : exponent (-x) = exponent x := by
  unfold exponent
  rw [abs_neg]

theorem Dbl.ulp_neg (x : ℚ) : ulp (-x) = ulp x := by
  unfold ulp
  rw [exponent_neg]

theorem Dbl.ulp_pos (x : ℚ) : 0 < ulp x := zpow_pos (by norm_num) _

theorem Dbl.nearest_neg (x : ℚ) : nearest (-x) = neg (nearest x) := by
  unfold nearest
  rw [ulp_neg, neg_div, round_even_neg]
  push_cast
  by_cases h1 : (2 : ℚ) ^ 1024 ≤ (round_even (x / ulp x) : ℚ) * ulp x
  · have h2 : ¬ ((2 : ℚ) ^ 1024 ≤ -(round_even (x / ulp x) : ℚ) * ulp x) := by
      have : (0 : ℚ) < 2 ^ 1024 := by positivity
      linarith
    have h3 : -(round_even (x / ulp x) : ℚ) * ulp x ≤ -2 ^ 1024 := by linarith
    rw [if_pos h1, if_neg h2, if_pos h3]
    rfl
  · by_cases h4 : (round_even (x / ulp x) : ℚ) * ulp x ≤ -2 ^ 1024
    · have h5 : (2 : ℚ) ^ 1024 ≤ -(round_even (x / ulp x) : ℚ) * ulp x := by linarith
      rw [if_neg h1, if_pos h4, if_pos h5]
      rfl
    · have h5 : ¬ ((2 : ℚ) ^ 1024 ≤ -(round_even (x / ulp x) : ℚ) * ulp x) := by
        intro h; apply h4; linarith
      have h6 : ¬ (-(round_even (x / ulp x) : ℚ) * ulp x ≤ -2 ^ 1024) := by
        intro h; apply h1; linarith
      rw [if_neg h1, if_neg h4, if_neg h5, if_neg h6]
      simp [neg]

theorem Dbl.nearest_zero : nearest 0 = fin 0 := by
  unfold nearest
  have h : round_even (0 / ulp 0) = 0 := by
    rw [zero_div]
    exact_mod_cast round_even_intCast 0
  rw [h]
  have h2 : ¬ ((2 : ℚ) ^ 1024 ≤ ((0 : ℤ) : ℚ) * ulp 0) := by
    have : (0 : ℚ) < 2 ^ 1024 := by positivity
    simp only [Int.cast_zero, zero_mul, not_le]
    exact this
  have h3 : ¬ (((0 : ℤ) : ℚ) * ulp 0 ≤ -2 ^ 1024) := by
    have : (0 : ℚ) < 2 ^ 1024 := by positivity
    simp only [Int.cast_zero, zero_mul, not_le]
    linarith
  rw [if_neg h2, if_neg h3]
  simp

/-- The exponent of a positive number that is at least `2^a`, with `a` in the
normal range. -/
theorem Dbl.exponent_of_le {x : ℚ} {a : ℤ} (ha : -1022 ≤ a) (h : (2 : ℚ) ^ a ≤ x) :
    a ≤ exponent x ∧ (2 : ℚ) ^ exponent x ≤ x ∧ x < 2 ^ (exponent x + 1) := by
  have hx : 0 < x := lt_of_lt_of_le (zpow_pos (by norm_num) a) h
  have habs : |x| = x := abs_of_pos hx
  have hlog : a ≤ Int.log 2 x := by
    rw [← Int.zpow_le_iff_le_log (by norm_num) hx]
    exact_mod_cast h
  have he : exponent x = Int.log 2 x := by
    unfold exponent
    rw [habs]
    exact max_eq_left (by omega)
  rw [he]
  refine ⟨hlog, ?_, ?_⟩
  · have := Int.zpow_log_le_self (b := 2) (by norm_num) hx
    exact_mod_cast this
  · have := Int.lt_zpow_succ_log_self (b := 2) (by norm_num) x
    exact_mod_cast this

theorem Dbl.exponent_le_of_le {x : ℚ} {b : ℤ} (hb : -1022 ≤ b) (hx : 0 < x)
    (h : x ≤ (2 : ℚ) ^ b) : exponent x ≤ b := by
  unfold exponent
  rw [abs_of_pos hx]
  apply max_le _ hb
  have := Int.log_mono_right (b := 2) hx h
  rw [show ((2 : ℚ) ^ b) = (((2 : ℕ) : ℚ) ^ b) by norm_num, Int.log_zpow (by norm_num)] at this
  exact this

theorem Dbl.cast_two_pow (n : ℕ) : (((2 : ℤ) ^ n : ℤ) : ℚ) = (2 : ℚ) ^ (n : ℤ) := by
  rw [Int.cast_pow, zpow_natCast]
  norm_num

theorem Dbl.two_pow_mul (n : ℕ) (k : ℤ) : (((2 : ℤ) ^ n : ℤ) : ℚ) * 2 ^ k = 2 ^ (k + n) := by
  rw [cast_two_pow, ← zpow_add₀ (by norm_num), add_comm]

theorem Dbl.zpow_lt_two_pow_1024 {b : ℤ} (hb : b < 1024) : (2 : ℚ) ^ b < 2 ^ 1024 := by
  have h := zpow_lt_zpow_right₀ (a := (2 : ℚ)) (by norm_num) hb
  rw [show (1024 : ℤ) = ((1024 : ℕ) : ℤ) from rfl, zpow_natCast] at h
  exact h

theorem Dbl.zpow_le_two_pow_1024 {b : ℤ} (hb : b ≤ 1024) : (2 : ℚ) ^ b ≤ 2 ^ 1024 := by
  have h := zpow_le_zpow_right₀ (a := (2 : ℚ)) (by norm_num) hb
  rw [show (1024 : ℤ) = ((1024 : ℕ) : ℤ) from rfl, zpow_natCast] at h
  exact h

/-- The quotient of a positive number of the normal range by its unit in the
last place lies between `2^52` and `2^53`. -/
theorem Dbl.div_ulp_bounds {x : ℚ} {a : ℤ} (ha : -1022 ≤ a) (h : (2 : ℚ) ^ a ≤ x) :
    (((2 : ℤ) ^ 52 : ℤ) : ℚ) ≤ x / ulp x ∧ x / ulp x ≤ (((2 : ℤ) ^ 53 : ℤ) : ℚ) := by
  obtain ⟨hae, hlo, hhi⟩ := exponent_of_le ha h
  have hu : 0 < ulp x := ulp_pos x
  constructor
  · rw [le_div_iff₀ hu]
    unfold ulp
    rw [two_pow_mul]
    have : exponent x - 52 + ((52 : ℕ) : ℤ) = exponent x := by omega
    rw [this]
    exact hlo
  · rw [div_le_iff₀ hu]
    unfold ulp
    rw [two_pow_mul]
    have : exponent x - 52 + ((53 : ℕ) : ℤ) = exponent x + 1 := by omega
    rw [this]
    exact hhi.le

/-- The rounded value of a positive number of the normal range, before the
overflow test, lies in the binade of the number, bounds included. -/
theorem Dbl.round_even_mul_ulp_bounds {x : ℚ} {a : ℤ} (ha : -1022 ≤ a) (h : (2 : ℚ) ^ a ≤ x) :
    (2 : ℚ) ^ exponent x ≤ (round_even (x / ulp x) : ℚ) * ulp x ∧
      (round_even (x / ulp x) : ℚ) * ulp x ≤ 2 ^ (exponent x + 1) := by
  obtain ⟨h1, h2⟩ := div_ulp_bounds ha h
  have hu : 0 < ulp x := ulp_pos x
  have hm_lo := le_round_even h1
  have hm_hi := round_even_le h2
  constructor
  · have h3 : (((2 : ℤ) ^ 52 : ℤ) : ℚ) * ulp x ≤ (round_even (x / ulp x) : ℚ) * ulp x :=
      mul_le_mul_of_nonneg_right (by exact_mod_cast hm_lo) hu.le
    have h4 : (((2 : ℤ) ^ 52 : ℤ) : ℚ) * ulp x = 2 ^ exponent x := by
      unfold ulp
      rw [two_pow_mul]
      congr 1
      omega
    rw [h4] at h3
    exact h3
  · have h3 : (round_even (x / ulp x) : ℚ) * ulp x ≤ (((2 : ℤ) ^ 53 : ℤ) : ℚ) * ulp x :=
      mul_le_mul_of_nonneg_right (by exact_mod_cast hm_hi) hu.le
    have h4 : (((2 : ℤ) ^ 53 : ℤ) : ℚ) * ulp x = 2 ^ (exponent x + 1) := by
      unfold ulp
      rw [two_pow_mul]
      congr 1
      omega
    rw [h4] at h3
    exact h3

/-- The value that `nearest` computes before the overflow test. -/
theorem Dbl.nearest_of_lt {x r : ℚ} (hr : (round_even (x / ulp x) : ℚ) * ulp x = r)
    (h1 : r < 2 ^ 1024) (h2 : -2 ^ 1024 < r) : nearest x = fin r := by
  unfold nearest
  rw [hr, if_neg (not_le.mpr h1), if_neg (not_le.mpr h2)]

/-- A positive number of the normal range is rounded to `+inf` or to a number
of its binade, bounds included. -/
theorem Dbl.nearest_binade {x : ℚ} {a : ℤ} (ha : -1022 ≤ a) (h : (2 : ℚ) ^ a ≤ x) :
    nearest x = pinf ∨
      ∃ r : ℚ, nearest x = fin r ∧ (2 : ℚ) ^ exponent x ≤ r ∧ r ≤ 2 ^ (exponent x + 1) := by
  obtain ⟨hr_lo, hr_hi⟩ := round_even_mul_ulp_bounds ha h
  by_cases hov : (2 : ℚ) ^ 1024 ≤ (round_even (x / ulp x) : ℚ) * ulp x
  · left
    unfold nearest
    rw [if_pos hov]
  · right
    refine ⟨_, nearest_of_lt rfl (not_le.mp hov) ?_, hr_lo, hr_hi⟩
    have : (0 : ℚ) < 2 ^ exponent x := zpow_pos (by norm_num) _
    have h3 : (0 : ℚ) < 2 ^ 1024 := by positivity
    linarith

/-- A number that is at least `2^a`, with `a` in the normal range, is rounded
to `+inf` or to a number that is at least `2^a`. -/
theorem Dbl.nearest_ge {x : ℚ} {a : ℤ} (ha : -1022 ≤ a) (h : (2 : ℚ) ^ a ≤ x) :
    nearest x = pinf ∨ ∃ r : ℚ, nearest x = fin r ∧ (2 : ℚ) ^ a ≤ r := by
  rcases nearest_binade ha h with h1 | ⟨r, h1, h2, _⟩
  · exact Or.inl h1
  · refine Or.inr ⟨r, h1, le_trans ?_ h2⟩
    exact zpow_le_zpow_right₀ (by norm_num) (exponent_of_le ha h).1

/-- A positive number between `2^a` and `2^b`, both in the normal range, is
rounded to a number between `2^a` and `2^b`: there is no overflow. -/
theorem Dbl.nearest_le {x : ℚ} {a b : ℤ} (ha : -1022 ≤ a) (hb : b ≤ 1023)
    (hlo : (2 : ℚ) ^ a ≤ x) (hhi : x ≤ 2 ^ b) :
    nearest x = fin ((round_even (x / ulp x) : ℚ) * ulp x) ∧
      (2 : ℚ) ^ a ≤ (round_even (x / ulp x) : ℚ) * ulp x ∧
      (round_even (x / ulp x) : ℚ) * ulp x ≤ 2 ^ b := by
  have hx : 0 < x := lt_of_lt_of_le (zpow_pos (by norm_num) a) hlo
  have hab : a ≤ b := (zpow_le_zpow_iff_right₀ (by norm_num)).mp (le_trans hlo hhi)
  obtain ⟨hae, hlo2, hhi2⟩ := exponent_of_le ha hlo
  obtain ⟨hr_lo, hr_hi⟩ := round_even_mul_ulp_bounds ha hlo
  have hge : (2 : ℚ) ^ a ≤ (round_even (x / ulp x) : ℚ) * ulp x :=
    le_trans (zpow_le_zpow_right₀ (by norm_num) hae) hr_lo
  have hle : (round_even (x / ulp x) : ℚ) * ulp x ≤ 2 ^ b := by
    rcases eq_or_lt_of_le hhi with heq | hlt
    · have hexp : exponent x = b := by
        apply le_antisymm (exponent_le_of_le (by omega) hx hhi)
        exact (exponent_of_le (a := b) (by omega) (le_of_eq heq.symm)).1
      have hu : ulp x = 2 ^ (b - 52) := by unfold ulp; rw [hexp]
      have hq : x / ulp x = (((2 : ℤ) ^ 52 : ℤ) : ℚ) := by
        rw [div_eq_iff (ulp_pos x).ne', hu, two_pow_mul, heq]
        congr 1
        omega
      rw [hq, round_even_intCast, hu, two_pow_mul]
      apply le_of_eq
      congr 1
      omega
    · have hle : exponent x + 1 ≤ b := by
        by_contra hcon
        have hbe : b ≤ exponent x := by omega
        have h2 : (2 : ℚ) ^ b ≤ 2 ^ exponent x := zpow_le_zpow_right₀ (by norm_num) hbe
        linarith
      exact le_trans hr_hi (zpow_le_zpow_right₀ (by norm_num) hle)
  refine ⟨nearest_of_lt rfl ?_ ?_, hge, hle⟩
  · exact lt_of_le_of_lt hle (zpow_lt_two_pow_1024 (by omega))
  · have h3 : (0 : ℚ) < 2 ^ 1024 := by positivity
    have h4 : (0 : ℚ) < 2 ^ a := zpow_pos (by norm_num) _
    linarith

/-- A number `m * 2^k` with an integer `m` below `2^53` in magnitude and `k`
within the exponents of the format is a binary64 number: rounding leaves it as
it is. -/
theorem Dbl.nearest_dyadic (m k : ℤ) (hm : |m| < 2 ^ 53) (hk1 : -1074 ≤ k) (hk2 : k ≤ 971) :
    nearest ((m : ℚ) * 2 ^ k) = fin ((m : ℚ) * 2 ^ k) := by
  have hpos : ∀ m : ℤ, 0 < m → m < 2 ^ 53 →
      nearest ((m : ℚ) * 2 ^ k) = fin ((m : ℚ) * 2 ^ k) := by
    intro m h0 h53
    obtain ⟨x, hxdef⟩ : ∃ x : ℚ, x = (m : ℚ) * 2 ^ k := ⟨_, rfl⟩
    rw [← hxdef]
    have h2k : (0 : ℚ) < 2 ^ k := zpow_pos (by norm_num) k
    have hm0 : (0 : ℚ) < (m : ℚ) := by exact_mod_cast h0
    have hx : (0 : ℚ) < x := by rw [hxdef]; exact mul_pos hm0 h2k
    have hxlt : x < 2 ^ (k + 53) := by
      have h1 : (m : ℚ) < (((2 : ℤ) ^ 53 : ℤ) : ℚ) := by exact_mod_cast h53
      have h2 := mul_lt_mul_of_pos_right h1 h2k
      rw [two_pow_mul] at h2
      rw [hxdef]
      exact h2
    have hlog : Int.log 2 x < k + 53 := by
      rw [← Int.lt_zpow_iff_log_lt (by norm_num) hx]
      exact_mod_cast hxlt
    have he : exponent x - 52 ≤ k := by
      unfold exponent
      rw [abs_of_pos hx]
      have : max (Int.log 2 x) (-1022) ≤ k + 52 := max_le (by omega) (by omega)
      omega
    obtain ⟨n, hn⟩ := Int.eq_ofNat_of_zero_le (sub_nonneg.mpr he)
    have hu : ulp x * (((2 : ℤ) ^ n : ℤ) : ℚ) = 2 ^ k := by
      unfold ulp
      rw [mul_comm, two_pow_mul]
      congr 1
      omega
    have hq : x / ulp x = ((m * 2 ^ n : ℤ) : ℚ) := by
      rw [div_eq_iff (ulp_pos _).ne']
      calc x = (m : ℚ) * 2 ^ k := hxdef
        _ = (m : ℚ) * (ulp x * (((2 : ℤ) ^ n : ℤ) : ℚ)) := by rw [hu]
        _ = ((m * 2 ^ n : ℤ) : ℚ) * ulp x := by push_cast; ring
    have hr : (round_even (x / ulp x) : ℚ) * ulp x = x := by
      rw [hq, round_even_intCast]
      calc ((m * 2 ^ n : ℤ) : ℚ) * ulp x
          = (m : ℚ) * (ulp x * (((2 : ℤ) ^ n : ℤ) : ℚ)) := by push_cast; ring
        _ = (m : ℚ) * 2 ^ k := by rw [hu]
        _ = x := hxdef.symm
    refine nearest_of_lt hr ?_ ?_
    · exact lt_of_lt_of_le hxlt (zpow_le_two_pow_1024 (by omega))
    · have h3 : (0 : ℚ) < 2 ^ 1024 := by positivity
      linarith
  rcases lt_trichotomy m 0 with hneg | hzero | hgt
  · have h1 := hpos (-m) (by omega) (by rw [abs_of_neg hneg] at hm; exact hm)
    have h2 := nearest_neg (((-m : ℤ) : ℚ) * 2 ^ k)
    rw [h1] at h2
    have h3 : -(((-m : ℤ) : ℚ) * 2 ^ k) = (m : ℚ) * 2 ^ k := by push_cast; ring
    rw [h3] at h2
    rw [h2]
    simp only [neg]
    rw [h3]
  · rw [hzero]
    simp only [Int.cast_zero, zero_mul]
    exact nearest_zero
  · exact hpos m hgt (by rw [abs_of_pos hgt] at hm; exact hm)

/-- An integer of at most `2^53` in magnitude is a binary64 number. -/
theorem Dbl.nearest_intCast (v : ℤ) (h : |v| ≤ 2 ^ 53) : nearest (v : ℚ) = fin (v : ℚ) := by
  rcases lt_or_eq_of_le h with hlt | heq
  · have := nearest_dyadic v 0 hlt (by norm_num) (by norm_num)
    simpa using this
  · rcases abs_eq (by norm_num : (0 : ℤ) ≤ 2 ^ 53) |>.mp heq with h1 | h1
    · have := nearest_dyadic 1 53 (by norm_num) (by norm_num) (by norm_num)
      rw [h1]
      have e : (((2 : ℤ) ^ 53 : ℤ) : ℚ) = ((1 : ℤ) : ℚ) * 2 ^ (53 : ℤ) := by
        rw [cast_two_pow]; simp
      rw [e]
      exact this
    · have := nearest_dyadic (-1) 53 (by norm_num) (by norm_num) (by norm_num)
      rw [h1]
      have e : ((-(2 : ℤ) ^ 53 : ℤ) : ℚ) = ((-1 : ℤ) : ℚ) * 2 ^ (53 : ℤ) := by
        rw [Int.cast_neg, cast_two_pow]; simp
      rw [e]
      exact this

theorem Dbl.round_even_mono {x y : ℚ} (h : x ≤ y) : round_even x ≤ round_even y := by
  have hf : ⌊x⌋ ≤ ⌊y⌋ := Int.floor_mono h
  rcases lt_or_eq_of_le hf with hlt | heq
  · have h1 : round_even x ≤ ⌊x⌋ + 1 := by
      rcases round_even_cases x with h2 | h2 <;> omega
    have h3 : ⌊y⌋ ≤ round_even y := by
      rcases round_even_cases y with h2 | h2 <;> omega
    omega
  · unfold round_even
    rw [← heq]
    by_cases ha : x - ⌊x⌋ < 1 / 2
    · rw [if_pos ha]
      split_ifs <;> omega
    · rw [if_neg ha]
      have hy1 : ¬ (y - ⌊x⌋ < 1 / 2) := by
        intro hc; apply ha; linarith
      rw [if_neg hy1]
      by_cases hb : 1 / 2 < x - ⌊x⌋
      · have hy2 : 1 / 2 < y - ⌊x⌋ := by linarith
        rw [if_pos hb, if_pos hy2]
      · rw [if_neg hb]
        split_ifs <;> omega

/-- Rounding is monotone on the positive numbers of the normal range. -/
theorem Dbl.round_even_mul_ulp_mono {x y : ℚ} {a : ℤ} (ha : -1022 ≤ a) (hlo : (2 : ℚ) ^ a ≤ x)
    (hxy : x ≤ y) :
    (round_even (x / ulp x) : ℚ) * ulp x ≤ (round_even (y / ulp y) : ℚ) * ulp y := by
  have hloy : (2 : ℚ) ^ a ≤ y := le_trans hlo hxy
  obtain ⟨_, hx1, hx2⟩ := exponent_of_le ha hlo
  obtain ⟨_, hy1, hy2⟩ := exponent_of_le ha hloy
  obtain ⟨_, hrx⟩ := round_even_mul_ulp_bounds ha hlo
  obtain ⟨hry, _⟩ := round_even_mul_ulp_bounds ha hloy
  have hle : exponent x ≤ exponent y := by
    have h : (2 : ℚ) ^ exponent x < 2 ^ (exponent y + 1) :=
      lt_of_le_of_lt (le_trans hx1 hxy) hy2
    have := (zpow_lt_zpow_iff_right₀ (by norm_num : (1 : ℚ) < 2)).mp h
    omega
  rcases lt_or_eq_of_le hle with hlt | heq
  · have h : (2 : ℚ) ^ (exponent x + 1) ≤ 2 ^ exponent y :=
      zpow_le_zpow_right₀ (by norm_num) (by omega)
    linarith
  · have hu : ulp x = ulp y := by unfold ulp; rw [heq]
    rw [hu]
    have hd : x / ulp y ≤ y / ulp y := div_le_div_of_nonneg_right hxy (ulp_pos y).le
    have := round_even_mono hd
    exact mul_le_mul_of_nonneg_right (by exact_mod_cast this) (ulp_pos y).le

/-- A number that is not negative is rounded to `+inf` or to a number that is
not negative. -/
theorem Dbl.nearest_nonneg {x : ℚ} (h : 0 ≤ x) :
    nearest x = pinf ∨ ∃ r : ℚ, nearest x = fin r ∧ 0 ≤ r := by
  have hu := ulp_pos x
  have hq : (((0 : ℤ)) : ℚ) ≤ x / ulp x := by
    rw [Int.cast_zero]
    exact div_nonneg h hu.le
  have hm := le_round_even hq
  have hr : (0 : ℚ) ≤ (round_even (x / ulp x) : ℚ) * ulp x :=
    mul_nonneg (by exact_mod_cast hm) hu.le
  by_cases hov : (2 : ℚ) ^ 1024 ≤ (round_even (x / ulp x) : ℚ) * ulp x
  · left
    unfold nearest
    rw [if_pos hov]
  · right
    refine ⟨_, nearest_of_lt rfl (not_le.mp hov) ?_, hr⟩
    have h3 : (0 : ℚ) < 2 ^ 1024 := by positivity
    linarith

/-- A number that is not positive is rounded to `-inf` or to a number that is
not positive. -/
theorem Dbl.nearest_nonpos {x : ℚ} (h : x ≤ 0) :
    nearest x = ninf ∨ ∃ r : ℚ, nearest x = fin r ∧ r ≤ 0 := by
  have h1 := nearest_neg (-x)
  rw [neg_neg] at h1
  rcases nearest_nonneg (neg_nonneg.mpr h) with h2 | ⟨r, h2, h3⟩
  · left
    rw [h1, h2]
    rfl
  · right
    refine ⟨-r, ?_, by linarith⟩
    rw [h1, h2]
    rfl

theorem Dbl.round_even_of_abs_lt {y : ℚ} {m : ℤ} (h : |y - m| < 1 / 2) : round_even y = m := by
  rw [abs_lt] at h
  obtain ⟨h1, h2⟩ := h
  by_cases hge : (m : ℚ) ≤ y
  · have hf : ⌊y⌋ = m := by
      rw [Int.floor_eq_iff]
      constructor <;> linarith
    unfold round_even
    rw [hf, if_pos (by linarith)]
  · have hf : ⌊y⌋ = m - 1 := by
      rw [Int.floor_eq_iff]
      push_cast
      constructor <;> linarith
    unfold round_even
    rw [hf]
    push_cast
    rw [if_neg (by linarith), if_pos (by linarith)]
    ring

theorem Dbl.round_even_of_tie {y : ℚ} {m : ℤ} (h : y = m + 1 / 2) :
    round_even y = if m % 2 = 0 then m else m + 1 := by
  have hf : ⌊y⌋ = m := by
    rw [Int.floor_eq_iff]
    constructor <;> linarith
  unfold round_even
  rw [hf, if_neg (by linarith), if_neg (by linarith)]

/-- The exponent of a number of the binade of `2^e`. -/
theorem Dbl.exponent_eq {x : ℚ} {e : ℤ} (he : -1022 ≤ e) (hlo : (2 : ℚ) ^ e ≤ x)
    (hhi : x < 2 ^ (e + 1)) : exponent x = e := by
  obtain ⟨h1, h2, h3⟩ := exponent_of_le he hlo
  have h4 : (2 : ℚ) ^ exponent x < 2 ^ (e + 1) := lt_of_le_of_lt h2 hhi
  have := (zpow_lt_zpow_iff_right₀ (by norm_num : (1 : ℚ) < 2)).mp h4
  omega

/-- The rounding of a positive number of the binade of `2^e`, given the
integer `m` that its quotient by the unit in the last place is rounded to. -/
theorem Dbl.nearest_binade_eq {x : ℚ} {e m : ℤ} (he : -1022 ≤ e) (he2 : e ≤ 1022)
    (hlo : (2 : ℚ) ^ e ≤ x) (hhi : x < 2 ^ (e + 1))
    (hm : round_even (x / 2 ^ (e - 52)) = m) : nearest x = fin ((m : ℚ) * 2 ^ (e - 52)) := by
  have hexp := exponent_eq he hlo hhi
  have hu : ulp x = 2 ^ (e - 52) := by unfold ulp; rw [hexp]
  obtain ⟨h1, h2, h3⟩ := nearest_le (b := e + 1) he (by omega) hlo hhi.le
  rw [h1, hu, hm]

/-- The rounding of a positive number of the binade of `2^e` that is nearer
to `m * 2^(e-52)` than to any other multiple of `2^(e-52)`. -/
theorem Dbl.nearest_cert {x : ℚ} (e m : ℤ) (he : -1022 ≤ e) (he2 : e ≤ 1022)
    (hlo : (2 : ℚ) ^ e ≤ x) (hhi : x < 2 ^ (e + 1))
    (hm : |x / 2 ^ (e - 52) - m| < 1 / 2) : nearest x = fin ((m : ℚ) * 2 ^ (e - 52)) :=
  nearest_binade_eq he he2 hlo hhi (round_even_of_abs_lt hm)

/-- The rounding of a positive number of the binade of `2^e` that lies half
way between two multiples of `2^(e-52)`: the even one. -/
theorem Dbl.nearest_cert_tie {x : ℚ} (e m : ℤ) (he : -1022 ≤ e) (he2 : e ≤ 1022)
    (hlo : (2 : ℚ) ^ e ≤ x) (hhi : x < 2 ^ (e + 1))
    (hm : x / 2 ^ (e - 52) = m + 1 / 2) :
    nearest x = fin (((if m % 2 = 0 then m else m + 1 : ℤ) : ℚ) * 2 ^ (e - 52)) :=
  nearest_binade_eq he he2 hlo hhi (round_even_of_tie hm)

/-- The marker `DBL_MIN` is not the rounding of a number that is not positive
or that is at least `2^-1021`. -/
theorem Dbl.nearest_ne_min {x : ℚ} (h : x ≤ 0 ∨ (2 : ℚ) ^ (-1021 : ℤ) ≤ x) :
    nearest x ≠ fin (1 / 2 ^ 1022) := by
  have hpos : (0 : ℚ) < 1 / 2 ^ 1022 := by positivity
  have hlt : (1 : ℚ) / 2 ^ 1022 < 2 ^ (-1021 : ℤ) := by
    have h1 : (1 : ℚ) / 2 ^ 1022 = 2 ^ (-1022 : ℤ) := by
      rw [one_div, ← zpow_natCast, ← zpow_neg]
      rfl
    rw [h1]
    exact zpow_lt_zpow_right₀ (by norm_num) (by norm_num)
  rcases h with h | h
  · rcases nearest_nonpos h with h1 | ⟨r, h1, h2⟩
    · rw [h1]; simp
    · rw [h1]
      intro hc
      injection hc with hc
      rw [hc] at h2
      exact absurd hpos (not_lt.mpr h2)
  · rcases nearest_ge (by norm_num) h with h1 | ⟨r, h1, h2⟩
    · rw [h1]; simp
    · rw [h1]
      intro hc
      injection hc with hc
      rw [hc] at h2
      exact absurd hlt (not_lt.mpr h2)

/-- Rounding is monotone between two positive numbers of the normal range,
and does not leave the range. -/
theorem Dbl.nearest_mono {x y : ℚ} {a b : ℤ} (ha : -1022 ≤ a) (hb : b ≤ 1023)
    (hlo : (2 : ℚ) ^ a ≤ x) (hxy : x ≤ y) (hhi : y ≤ 2 ^ b) :
    ∃ r s : ℚ, Dbl.nearest x = Dbl.fin r ∧ Dbl.nearest y = Dbl.fin s ∧
      (2 : ℚ) ^ a ≤ r ∧ r ≤ s ∧ s ≤ 2 ^ b := by
  obtain ⟨h1, h2, _⟩ := Dbl.nearest_le ha hb hlo (le_trans hxy hhi)
  obtain ⟨h3, _, h4⟩ := Dbl.nearest_le ha hb (le_trans hlo hxy) hhi
  exact ⟨_, _, h1, h3, h2, Dbl.round_even_mul_ulp_mono ha hlo hxy, h4⟩

/-- A positive integer between `2^53` and `2^b` is rounded to an integer
between `2^53` and `2^b`. -/
theorem Dbl.nearest_big_int (v : ℤ) (b : ℕ) (hb : b ≤ 1023) (h1 : 2 ^ 53 ≤ v)
    (h2 : v ≤ 2 ^ b) :
    ∃ n : ℤ, Dbl.nearest (v : ℚ) = Dbl.fin (n : ℚ) ∧ 2 ^ 53 ≤ n ∧ n ≤ 2 ^ b := by
  have hlo : (2 : ℚ) ^ ((53 : ℕ) : ℤ) ≤ (v : ℚ) := by
    have : (((2 : ℤ) ^ 53 : ℤ) : ℚ) ≤ (v : ℚ) := by exact_mod_cast h1
    rw [Dbl.cast_two_pow] at this
    exact this
  have hhi : (v : ℚ) ≤ (2 : ℚ) ^ (b : ℤ) := by
    have : (v : ℚ) ≤ (((2 : ℤ) ^ b : ℤ) : ℚ) := by exact_mod_cast h2
    rw [Dbl.cast_two_pow] at this
    exact this
  obtain ⟨hn, hge, hle⟩ := Dbl.nearest_le (by norm_num) (by omega) hlo hhi
  obtain ⟨hexp, _, _⟩ := Dbl.exponent_of_le (by norm_num) hlo
  obtain ⟨j, hj⟩ := Int.eq_ofNat_of_zero_le (show 0 ≤ Dbl.exponent (v : ℚ) - 52 by omega)
  have hu : Dbl.ulp (v : ℚ) = (((2 : ℤ) ^ j : ℤ) : ℚ) := by
    unfold Dbl.ulp
    rw [hj, Dbl.cast_two_pow]
  have hr : (Dbl.round_even ((v : ℚ) / Dbl.ulp (v : ℚ)) : ℚ) * Dbl.ulp (v : ℚ) =
      ((Dbl.round_even ((v : ℚ) / Dbl.ulp (v : ℚ)) * 2 ^ j : ℤ) : ℚ) := by
    rw [hu]
    push_cast
    ring
  rw [hr] at hn hge hle
  refine ⟨_, hn, ?_, ?_⟩
  · rw [← Dbl.cast_two_pow] at hge
    exact_mod_cast hge
  · rw [← Dbl.cast_two_pow] at hle
    exact_mod_cast hle

/-- A positive integer of at most `2^b` is rounded to a positive integer of at
most `2^b`, which is the integer itself up to `2^53`. -/
theorem Dbl.nearest_pos_int (v : ℤ) (b : ℕ) (hb2 : b ≤ 1023) (h1 : 0 < v)
    (h2 : v ≤ 2 ^ b) :
    ∃ n : ℤ, Dbl.nearest (v : ℚ) = Dbl.fin (n : ℚ) ∧ 0 < n ∧ n ≤ 2 ^ b ∧
      (v ≤ 2 ^ 53 → n = v) := by
  by_cases hs : v ≤ 2 ^ 53
  · refine ⟨v, Dbl.nearest_intCast v (by rw [abs_of_pos h1]; exact hs), h1, h2, fun _ => rfl⟩
  · obtain ⟨n, hn, h3, h4⟩ := Dbl.nearest_big_int v b hb2 (by omega) h2
    exact ⟨n, hn, by omega, h4, fun h => absurd h hs⟩

/-- An integer of at most `2^b` in magnitude is rounded to an integer of the
same sign and of at most `2^b` in magnitude, which is the integer itself up to
`2^53`. -/
theorem Dbl.nearest_int (v : ℤ) (b : ℕ) (hb2 : b ≤ 1023) (h : |v| ≤ 2 ^ b) :
    ∃ n : ℤ, Dbl.nearest (v : ℚ) = Dbl.fin (n : ℚ) ∧ |n| ≤ 2 ^ b ∧ (0 < v → 0 < n) ∧
      (v < 0 → n < 0) ∧ (v = 0 → n = 0) ∧ (|v| ≤ 2 ^ 53 → n = v) := by
  rcases lt_trichotomy v 0 with hneg | hzero | hpos
  · rw [abs_of_neg hneg] at h
    obtain ⟨n, hn, h1, h2, h3⟩ := Dbl.nearest_pos_int (-v) b hb2 (by omega) h
    have hv : ((v : ℤ) : ℚ) = -(((-v : ℤ)) : ℚ) := by push_cast; ring
    refine ⟨-n, ?_, ?_, fun h0 => by omega, fun _ => by omega, fun h0 => by omega, ?_⟩
    · rw [hv, Dbl.nearest_neg, hn]
      simp [Dbl.neg]
    · rw [abs_neg, abs_of_pos h1]
      exact h2
    · intro h53
      rw [abs_of_neg hneg] at h53
      have := h3 h53
      omega
  · subst hzero
    refine ⟨0, ?_, by simp, fun h0 => absurd h0 (by decide), fun h0 => absurd h0 (by decide),
      fun _ => rfl, fun _ => rfl⟩
    simpa using Dbl.nearest_zero
  · rw [abs_of_pos hpos] at h
    obtain ⟨n, hn, h1, h2, h3⟩ := Dbl.nearest_pos_int v b hb2 hpos h
    refine ⟨n, hn, ?_, fun _ => h1, fun h0 => by omega, fun h0 => by omega, ?_⟩
    · rw [abs_of_pos h1]
      exact h2
    · intro h53
      rw [abs_of_pos hpos] at h53
      exact h3 h53

/-- The conversion of a `long` is an integer of the same sign and of at most
`2^63` in magnitude, which is the `long` itself up to `2^53`. -/
theorem Dbl.ofLong_long (v : Int) (hv : isLong v) :
    ∃ n : ℤ, Dbl.ofLong v = Dbl.fin (n : ℚ) ∧ |n| ≤ 2 ^ 63 ∧ (0 < v → 0 < n) ∧
      (v < 0 → n < 0) ∧ (v = 0 → n = 0) ∧ (|v| ≤ 2 ^ 53 → n = v) := by
  have h : |v| ≤ 2 ^ 63 := by
    obtain ⟨h1, h2⟩ := hv
    unfold LONG_MIN at h1
    unfold LONG_MAX at h2
    rw [abs_le]
    constructor <;> omega
  exact Dbl.nearest_int v 63 (by norm_num) h

/-- The conversion of a `long` of at most `2^53` in magnitude is exact. -/
theorem Dbl.ofLong_eq (v : Int) (h : |v| ≤ 2 ^ 53) : Dbl.ofLong v = Dbl.fin (v : ℚ) :=
  Dbl.nearest_intCast v h

/-- The conversion of the `long` 0. -/
theorem Dbl.ofLong_zero : Dbl.ofLong 0 = Dbl.fin 0 := by
  have := Dbl.ofLong_eq 0 (by norm_num)
  simpa using this

/-- The conversion is monotone on the positive `long`s. -/
theorem Dbl.ofLong_mono (a b : Int) (ha : 0 < a) (hab : a ≤ b) (hb : isLong b) :
    ∃ na nb : ℚ, Dbl.ofLong a = Dbl.fin na ∧ Dbl.ofLong b = Dbl.fin nb ∧ 1 ≤ na ∧
      na ≤ nb ∧ nb ≤ 2 ^ 63 := by
  have hb2 : b ≤ 2 ^ 63 := by
    have := hb.2
    unfold LONG_MAX at this
    omega
  have h1 : (2 : ℚ) ^ (0 : ℤ) ≤ (a : ℚ) := by
    rw [zpow_zero]
    exact_mod_cast ha
  have h2 : (a : ℚ) ≤ (b : ℚ) := by exact_mod_cast hab
  have h3 : (b : ℚ) ≤ (2 : ℚ) ^ (63 : ℤ) := by
    have : (b : ℚ) ≤ (((2 : ℤ) ^ 63 : ℤ) : ℚ) := by exact_mod_cast hb2
    rw [Dbl.cast_two_pow] at this
    exact this
  obtain ⟨r, s, hr, hs, h4, h5, h6⟩ := Dbl.nearest_mono (by norm_num) (by norm_num) h1 h2 h3
  refine ⟨r, s, hr, hs, ?_, h5, ?_⟩
  · rw [zpow_zero] at h4
    exact h4
  · have e : (2 : ℚ) ^ (63 : ℤ) = 2 ^ 63 := by
      rw [show (63 : ℤ) = ((63 : ℕ) : ℤ) from rfl, zpow_natCast]
    rw [e] at h6
    exact h6

/-- The quotient of two conversions of `long`s of at most `2^53` in magnitude
is the exact quotient, rounded once. -/
theorem Dbl.div_ofLong_ofLong (a b : Int) (ha : |a| ≤ 2 ^ 53) (hb : |b| ≤ 2 ^ 53)
    (hb0 : b ≠ 0) :
    Dbl.div (Dbl.ofLong a) (Dbl.ofLong b) = Dbl.nearest ((a : ℚ) / b) := by
  have hb' : (b : ℚ) ≠ 0 := by exact_mod_cast hb0
  rw [Dbl.ofLong_eq a ha, Dbl.ofLong_eq b hb]
  simp [Dbl.div, hb']

/-- The quotient of the conversion of a `long` of at most `2^53` in magnitude
by a constant is the exact quotient, rounded once. -/
theorem Dbl.div_ofLong_fin (v : Int) (k : ℚ) (hv : |v| ≤ 2 ^ 53) (hk : k ≠ 0) :
    Dbl.div (Dbl.ofLong v) (Dbl.fin k) = Dbl.nearest ((v : ℚ) / k) := by
  rw [Dbl.ofLong_eq v hv]
  simp [Dbl.div, hk]

/-- A number that is given as `m * 2^k`, with an integer `m` below `2^53` in
magnitude and `k` within the exponents of the format, is left as it is by the
rounding. -/
theorem Dbl.nearest_exact (q : ℚ) (m k : ℤ) (hm : |m| < 2 ^ 53) (hk1 : -1074 ≤ k)
    (hk2 : k ≤ 971) (h : q = (m : ℚ) * 2 ^ k) : Dbl.nearest q = Dbl.fin q := by
  rw [h]
  exact Dbl.nearest_dyadic m k hm hk1 hk2

/-- The double 100 is left as it is by the rounding, in the form in which
`nearest` computes it. -/
theorem Dbl.nearest_hundred :
    (Dbl.round_even ((100 : ℚ) / Dbl.ulp 100) : ℚ) * Dbl.ulp 100 = 100 := by
  have h1 := (Dbl.nearest_le (x := 100) (a := 6) (b := 7) (by norm_num) (by norm_num)
    (by norm_num) (by norm_num)).1
  have h2 := Dbl.nearest_exact 100 100 0 (by norm_num) (by norm_num) (by norm_num)
    (by norm_num)
  rw [h2] at h1
  injection h1 with h1
  exact h1.symm

/-- The marker `DBL_MIN` is not one of the special values, nor zero. -/
theorem special_ne_DOUBLE_INVALID :
    Dbl.pinf ≠ DOUBLE_INVALID ∧ Dbl.ninf ≠ DOUBLE_INVALID ∧ Dbl.nan ≠ DOUBLE_INVALID ∧
    Dbl.fin 0 ≠ DOUBLE_INVALID := by
  refine ⟨by simp [DOUBLE_INVALID], by simp [DOUBLE_INVALID], by simp [DOUBLE_INVALID], ?_⟩
  unfold DOUBLE_INVALID
  intro h
  injection h with h
  have hpos : (0 : ℚ) < 1 / 2 ^ 1022 := by positivity
  rw [← h] at hpos
  exact lt_irrefl _ hpos

/-- A double that is at least `2^-1021`, or not positive, is not the marker
`DBL_MIN`. -/
theorem fin_ne_DOUBLE_INVALID {q : ℚ} (h : q ≤ 0 ∨ (2 : ℚ) ^ (-1021 : ℤ) ≤ q) :
    Dbl.fin q ≠ DOUBLE_INVALID := by
  have hpos : (0 : ℚ) < 1 / 2 ^ 1022 := by positivity
  have hlt : (1 : ℚ) / 2 ^ 1022 < 2 ^ (-1021 : ℤ) := by
    have h1 : (1 : ℚ) / 2 ^ 1022 = 2 ^ (-1022 : ℤ) := by
      rw [one_div, ← zpow_natCast, ← zpow_neg]
      rfl
    rw [h1]
    exact zpow_lt_zpow_right₀ (by norm_num) (by norm_num)
  unfold DOUBLE_INVALID
  intro hc
  injection hc with hc
  rcases h with h | h
  · rw [hc] at h
    exact absurd hpos (not_lt.mpr h)
  · rw [hc] at h
    exact absurd hlt (not_lt.mpr h)

/-- The product of a quotient of two integers, the divisor of at most `2^64`
in magnitude, by a constant that is at least 1: it is not the marker
`DBL_MIN`. -/
theorem Dbl.ratio_ne_min (n d : ℤ) (c : ℚ) (hd : |d| ≤ 2 ^ 64) (hc : 1 ≤ c) :
    Dbl.mul (Dbl.div (Dbl.fin (n : ℚ)) (Dbl.fin (d : ℚ))) (Dbl.fin c) ≠ DOUBLE_INVALID := by
  obtain ⟨hp, hn, hnan, _⟩ := special_ne_DOUBLE_INVALID
  have hc0 : (0 : ℚ) < c := by linarith
  have hmulp : Dbl.mul Dbl.pinf (Dbl.fin c) = Dbl.pinf := by simp [Dbl.mul, hc0]
  have hmuln : Dbl.mul Dbl.ninf (Dbl.fin c) = Dbl.ninf := by simp [Dbl.mul, hc0]
  by_cases hd0 : d = 0
  · subst hd0
    simp only [Dbl.div, Int.cast_zero, if_true]
    split_ifs
    · rw [hmulp]; exact hp
    · rw [hmuln]; exact hn
    · simpa [Dbl.mul] using hnan
  · have hd' : (d : ℚ) ≠ 0 := by exact_mod_cast hd0
    simp only [Dbl.div, if_neg hd']
    unfold DOUBLE_INVALID
    by_cases hx : (n : ℚ) / d ≤ 0
    · rcases Dbl.nearest_nonpos hx with h1 | ⟨r, h1, h2⟩
      · rw [h1, hmuln]; simp
      · rw [h1]
        simp only [Dbl.mul]
        exact Dbl.nearest_ne_min (Or.inl (mul_nonpos_of_nonpos_of_nonneg h2 hc0.le))
    · have hx0 : 0 < (n : ℚ) / d := not_le.mp hx
      have habs : (2 : ℚ) ^ (-64 : ℤ) ≤ (n : ℚ) / d := by
        have h1 : (n : ℚ) / d = |(n : ℚ)| / |(d : ℚ)| := by
          rw [← abs_div, abs_of_pos hx0]
        have hn0 : n ≠ 0 := by
          rintro rfl
          simp at hx0
        have h2 : (1 : ℚ) ≤ |(n : ℚ)| := by
          have : (1 : ℤ) ≤ |n| := Int.one_le_abs hn0
          exact_mod_cast this
        have h3 : |(d : ℚ)| ≤ 2 ^ 64 := by exact_mod_cast hd
        have h4 : (0 : ℚ) < |(d : ℚ)| := abs_pos.mpr hd'
        rw [h1, zpow_neg, le_div_iff₀ h4]
        have h5 : ((2 : ℚ) ^ (64 : ℤ))⁻¹ * |(d : ℚ)| ≤ 1 := by
          rw [inv_mul_le_iff₀ (by positivity)]
          rw [mul_one]
          exact_mod_cast h3
        linarith
      rcases Dbl.nearest_ge (by norm_num) habs with h1 | ⟨r, h1, h2⟩
      · rw [h1, hmulp]; simp
      · rw [h1]
        simp only [Dbl.mul]
        apply Dbl.nearest_ne_min
        right
        have h3 : (2 : ℚ) ^ (-1021 : ℤ) ≤ 2 ^ (-64 : ℤ) :=
          zpow_le_zpow_right₀ (by norm_num) (by norm_num)
        have h4 : (0 : ℚ) < 2 ^ (-64 : ℤ) := zpow_pos (by norm_num) _
        nlinarith

/-- The conversion of a `long` divided by a constant between 1 and `2^20`:
the double is not the marker `DBL_MIN`, and for a `long` of at most `2^53` in
magnitude it is the exact quotient, rounded once. -/
theorem scaled_reading (v : Int) (hv : isLong v) (k : ℚ) (hk1 : 1 ≤ k) (hk2 : k ≤ 2 ^ 20) :
    Dbl.div (Dbl.ofLong v) (Dbl.fin k) ≠ DOUBLE_INVALID ∧
      (|v| ≤ 2 ^ 53 → Dbl.div (Dbl.ofLong v) (Dbl.fin k) = Dbl.nearest ((v : ℚ) / k)) := by
  have hk0 : k ≠ 0 := by
    intro h
    rw [h] at hk1
    norm_num at hk1
  have hkpos : (0 : ℚ) < k := by linarith
  refine ⟨?_, fun h => Dbl.div_ofLong_fin v k h hk0⟩
  obtain ⟨n, hn, _, hpos, hneg, hzero, _⟩ := Dbl.ofLong_long v hv
  rw [hn]
  simp only [Dbl.div, if_neg hk0]
  unfold DOUBLE_INVALID
  apply Dbl.nearest_ne_min
  by_cases h0 : 0 < n
  · right
    have h1 : (1 : ℚ) ≤ (n : ℚ) := by exact_mod_cast h0
    rw [zpow_neg, ← one_div, div_le_div_iff₀ (by positivity) hkpos]
    have h2 : k ≤ (2 : ℚ) ^ (1021 : ℤ) := by
      have h3 : (2 : ℚ) ^ 20 = 2 ^ (20 : ℤ) := by
        rw [show (20 : ℤ) = ((20 : ℕ) : ℤ) from rfl, zpow_natCast]
      rw [h3] at hk2
      exact le_trans hk2 (zpow_le_zpow_right₀ (by norm_num) (by norm_num))
    have h4 : (0 : ℚ) < 2 ^ (1021 : ℤ) := zpow_pos (by norm_num) _
    nlinarith
  · left
    have h1 : (n : ℚ) ≤ 0 := by exact_mod_cast (not_lt.mp h0)
    exact div_nonpos_of_nonpos_of_nonneg h1 hkpos.le

/-- The rounding of a positive number of the binade of `2^e` to the value `v`,
given the multiple of `2^(e-52)` that is nearest to the number. -/
theorem Dbl.nearest_cert_eq {x : ℚ} (v : ℚ) (e m : ℤ) (he : -1022 ≤ e) (he2 : e ≤ 1022)
    (hlo : (2 : ℚ) ^ e ≤ x) (hhi : x < 2 ^ (e + 1))
    (hm : |x / 2 ^ (e - 52) - m| < 1 / 2) (hv : v = (m : ℚ) * 2 ^ (e - 52)) :
    Dbl.nearest x = Dbl.fin v := by
  rw [hv]
  exact Dbl.nearest_cert e m he he2 hlo hhi hm

/-- The rounding of a positive number of the binade of `2^e` that lies half
way between the multiples `m` and `m + 1` of `2^(e-52)`, with `m` odd: the
multiple `m + 1`. -/
theorem Dbl.nearest_cert_tie_odd {x : ℚ} (v : ℚ) (e m : ℤ) (he : -1022 ≤ e)
    (he2 : e ≤ 1022) (hlo : (2 : ℚ) ^ e ≤ x) (hhi : x < 2 ^ (e + 1))
    (hm : x / 2 ^ (e - 52) = m + 1 / 2) (hodd : m % 2 = 1)
    (hv : v = ((m : ℚ) + 1) * 2 ^ (e - 52)) : Dbl.nearest x = Dbl.fin v := by
  rw [Dbl.nearest_cert_tie e m he he2 hlo hhi hm, hv]
  have : ¬ (m % 2 = 0) := by omega
  rw [if_neg this]
  push_cast
  rfl

/-! ## The record fields computed by `process` -/

theorem process_charge_val (r : raw_longs) (cfg : config) (info : battery_info) :
    (process r cfg info).charge = (process_charge_cap cfg (process_charge r info)).charge := by
  simp only [process, process_charging_enabled, process_online, process_present, process_etd,
    process_temperature, process_current, process_voltage, process_max_charge,
    apply_ite battery_info.charge]
  simp

theorem process_max_charge_val (r : raw_longs) (cfg : config) (info : battery_info) :
    (process r cfg info).max_charge =
      if r.charge_full ≠ LONG_INVALID ∧ r.charge_full_design ≠ LONG_INVALID then
        Dbl.mul (Dbl.div (Dbl.ofLong r.charge_full) (Dbl.ofLong r.charge_full_design))
          (Dbl.fin 100)
      else info.max_charge := by
  simp only [process, process_charging_enabled, process_online, process_present, process_etd,
    process_temperature, process_current, process_voltage, process_max_charge,
    process_charge_cap, process_charge, apply_ite battery_info.max_charge]
  simp

theorem process_voltage_val (r : raw_longs) (cfg : config) (info : battery_info) :
    (process r cfg info).voltage =
      if r.voltage_now ≠ LONG_INVALID then
        Dbl.div (Dbl.ofLong r.voltage_now) (Dbl.fin 1000000)
      else info.voltage := by
  simp only [process, process_charging_enabled, process_online, process_present, process_etd,
    process_temperature, process_current, process_voltage, process_max_charge,
    process_charge_cap, process_charge, apply_ite battery_info.voltage]
  simp

theorem process_current_val (r : raw_longs) (cfg : config) (info : battery_info) :
    (process r cfg info).current =
      if r.current_now ≠ LONG_INVALID then
        Dbl.div (Dbl.ofLong r.current_now) (Dbl.fin 100000)
      else info.current := by
  simp only [process, process_charging_enabled, process_online, process_present, process_etd,
    process_temperature, process_current, process_voltage, process_max_charge,
    process_charge_cap, process_charge, apply_ite battery_info.current]
  simp

theorem process_temperature_val (r : raw_longs) (cfg : config) (info : battery_info) :
    (process r cfg info).temperature =
      if r.temp ≠ LONG_INVALID then Dbl.div (Dbl.ofLong r.temp) (Dbl.fin 10)
      else info.temperature := by
  simp only [process, process_charging_enabled, process_online, process_present, process_etd,
    process_temperature, process_current, process_voltage, process_max_charge,
    process_charge_cap, process_charge, apply_ite battery_info.temperature]
  simp

theorem process_etd_val (r : raw_longs) (cfg : config) (info : battery_info) :
    (process r cfg info).etd =
      if r.charge_full ≠ LONG_INVALID ∧ r.current_now ≠ LONG_INVALID then
        Dbl.mul
          (Dbl.div (Dbl.sub (Dbl.ofLong r.charge_full) (Dbl.ofLong r.charge_now))
            (Dbl.ofLong r.current_now))
          (Dbl.fin 10)
      else info.etd := by
  simp only [process, process_charging_enabled, process_online, process_present, process_etd,
    process_temperature, process_current, process_voltage, process_max_charge,
    process_charge_cap, process_charge, apply_ite battery_info.etd]
  simp

theorem process_present_val (r : raw_longs) (cfg : config) (info : battery_info) :
    (process r cfg info).present =
      if r.present = 1 ∨ r.present = 0 then r.present else info.present := by
  simp only [process, process_charging_enabled, process_online, process_present, process_etd,
    process_temperature, process_current, process_voltage, process_max_charge,
    process_charge_cap, process_charge, apply_ite battery_info.present]
  simp

theorem process_online_val (r : raw_longs) (cfg : config) (info : battery_info) :
    (process r cfg info).online =
      if r.online = 1 ∨ r.online = 0 then r.online else info.online := by
  simp only [process, process_charging_enabled, process_online, process_present, process_etd,
    process_temperature, process_current, process_voltage, process_max_charge,
    process_charge_cap, process_charge, apply_ite battery_info.online]
  simp

theorem process_charging_enabled_val (r : raw_longs) (cfg : config) (info : battery_info) :
    (process r cfg info).charging_enabled =
      if r.charging_enabled = 1 ∨ r.charging_enabled = 0 then r.charging_enabled
      else info.charging_enabled := by
  simp only [process, process_charging_enabled, process_online, process_present, process_etd,
    process_temperature, process_current, process_voltage, process_max_charge,
    process_charge_cap, process_charge, apply_ite battery_info.charging_enabled]
  simp

/-- The charge after the capacity branch of `process_charge`. -/
theorem process_charge_of_capacity (r : raw_longs) (cfg : config) (info : battery_info)
    (h0 : 0 ≤ r.capacity) (h100 : r.capacity ≤ 100) :
    (process r cfg info).charge = Dbl.fin (r.capacity : ℚ) := by
  have hne : r.capacity ≠ LONG_INVALID := by
    rw [LONG_INVALID_eq]; omega
  have hle : ¬ ((100 : ℚ) < (r.capacity : ℚ)) := by
    have : (r.capacity : ℚ) ≤ 100 := by exact_mod_cast h100
    linarith
  have hconv : Dbl.ofLong r.capacity = Dbl.fin (r.capacity : ℚ) :=
    Dbl.ofLong_eq _ (by rw [abs_le]; constructor <;> omega)
  rw [process_charge_val]
  simp [process_charge_cap, process_charge, hne, h0, h100, Dbl.gt, hconv, hle]

/-- The charge when the capacity branch of `process_charge` is not taken and
the two charges were read: the ratio, under the cap. -/
theorem process_charge_of_ratio (r : raw_longs) (cfg : config) (info : battery_info)
    (hcap : ¬ (r.capacity ≠ LONG_INVALID ∧ r.capacity ≥ 0 ∧ r.capacity ≤ 100))
    (hnow : r.charge_now ≠ LONG_INVALID) (hfull : r.charge_full ≠ LONG_INVALID) :
    (process r cfg info).charge =
      if cfg.has CONFIG_FLAG_DISABLE_CHARGE_CAP = false ∧
          Dbl.gt (Dbl.mul (Dbl.div (Dbl.ofLong r.charge_now) (Dbl.ofLong r.charge_full))
            (Dbl.fin 100)) (Dbl.fin 100) = true then
        Dbl.fin 100
      else
        Dbl.mul (Dbl.div (Dbl.ofLong r.charge_now) (Dbl.ofLong r.charge_full)) (Dbl.fin 100) := by
  rw [process_charge_val]
  simp only [process_charge, if_neg hcap, if_pos (And.intro hnow hfull), process_charge_cap]
  by_cases hflag : cfg.has CONFIG_FLAG_DISABLE_CHARGE_CAP = false <;>
    by_cases hgt : Dbl.gt (Dbl.mul (Dbl.div (Dbl.ofLong r.charge_now) (Dbl.ofLong r.charge_full))
      (Dbl.fin 100)) (Dbl.fin 100) = true <;>
    simp [hflag, hgt]

/-- The double `charge_now / charge_full * 100` for a positive charge-full: it
is finite, at least 100 when charge-now exceeds charge-full, and at most 100
when it does not, as the exact ratio is. -/
theorem charge_ratio_cases (now full : Int) (hnow : isLong now) (hfull : isLong full)
    (hpos : 0 < full) :
    ∃ s : ℚ,
      Dbl.mul (Dbl.div (Dbl.ofLong now) (Dbl.ofLong full)) (Dbl.fin 100) = Dbl.fin s ∧
      (full < now → 100 ≤ s) ∧ (now ≤ full → s ≤ 100) := by
  have h100 : Dbl.nearest 100 = Dbl.fin 100 :=
    Dbl.nearest_exact 100 100 0 (by norm_num) (by norm_num) (by norm_num) (by norm_num)
  have e63 : (2 : ℚ) ^ (63 : ℤ) = 2 ^ 63 := by
    rw [show (63 : ℤ) = ((63 : ℕ) : ℤ) from rfl, zpow_natCast]
  rcases lt_trichotomy now 0 with hneg | hzero | hnpos
  · -- a negative charge-now
    obtain ⟨nn, hnn, habs, _, hn2, _, _⟩ := Dbl.ofLong_long now hnow
    obtain ⟨nf, hnf, hfabs, hf1, _, _, _⟩ := Dbl.ofLong_long full hfull
    have hnn0 : (nn : ℚ) ≤ -1 := by exact_mod_cast (show nn ≤ -1 by have := hn2 hneg; omega)
    have hnf0 : (1 : ℚ) ≤ (nf : ℚ) := by exact_mod_cast (show 1 ≤ nf by have := hf1 hpos; omega)
    have hnnb : -(2 : ℚ) ^ 63 ≤ (nn : ℚ) := by
      have := (abs_le.mp habs).1
      exact_mod_cast this
    have hnfb : (nf : ℚ) ≤ 2 ^ 63 := by
      have := (abs_le.mp hfabs).2
      exact_mod_cast this
    have hnf' : (nf : ℚ) ≠ 0 := by linarith
    have hq1 : (2 : ℚ) ^ (-63 : ℤ) ≤ -(nn : ℚ) / nf := by
      rw [zpow_neg, e63, ← one_div, div_le_div_iff₀ (by positivity) (by linarith)]
      nlinarith
    have hq2 : -(nn : ℚ) / nf ≤ (2 : ℚ) ^ (63 : ℤ) := by
      rw [e63, div_le_iff₀ (by linarith)]
      nlinarith
    obtain ⟨h1, h2, h3⟩ := Dbl.nearest_le (by norm_num) (by norm_num) hq1 hq2
    have hdiv : Dbl.div (Dbl.ofLong now) (Dbl.ofLong full) =
        Dbl.fin (-((Dbl.round_even (-(nn : ℚ) / nf / Dbl.ulp (-(nn : ℚ) / nf)) : ℚ) *
          Dbl.ulp (-(nn : ℚ) / nf))) := by
      rw [hnn, hnf]
      simp only [Dbl.div, if_neg hnf']
      have e : (nn : ℚ) / nf = -(-(nn : ℚ) / nf) := by ring
      rw [e, Dbl.nearest_neg, h1]
      rfl
    obtain ⟨ρ, hρ⟩ : ∃ ρ : ℚ, ρ = (Dbl.round_even (-(nn : ℚ) / nf /
        Dbl.ulp (-(nn : ℚ) / nf)) : ℚ) * Dbl.ulp (-(nn : ℚ) / nf) := ⟨_, rfl⟩
    rw [← hρ] at hdiv h2 h3
    have hp1 : (2 : ℚ) ^ (-63 : ℤ) ≤ ρ * 100 := by
      have : (0 : ℚ) < 2 ^ (-63 : ℤ) := zpow_pos (by norm_num) _
      nlinarith
    have hp2 : ρ * 100 ≤ (2 : ℚ) ^ (70 : ℤ) := by
      have e70 : (2 : ℚ) ^ (70 : ℤ) = 2 ^ 63 * 128 := by
        rw [show (70 : ℤ) = ((70 : ℕ) : ℤ) from rfl, zpow_natCast]
        norm_num
      rw [e70]
      rw [e63] at h3
      nlinarith
    obtain ⟨g1, g2, _⟩ := Dbl.nearest_le (by norm_num) (by norm_num) hp1 hp2
    refine ⟨-((Dbl.round_even (ρ * 100 / Dbl.ulp (ρ * 100)) : ℚ) * Dbl.ulp (ρ * 100)),
      ?_, fun h => by omega, fun _ => ?_⟩
    · rw [hdiv]
      simp only [Dbl.mul]
      have e : -ρ * 100 = -(ρ * 100) := by ring
      rw [e, Dbl.nearest_neg, g1]
      rfl
    · have : (0 : ℚ) < 2 ^ (-63 : ℤ) := zpow_pos (by norm_num) _
      linarith
  · -- charge-now is zero
    subst hzero
    obtain ⟨nf, hnf, _, hf1, _, _, _⟩ := Dbl.ofLong_long full hfull
    have hnf' : (nf : ℚ) ≠ 0 := by
      have : 0 < nf := hf1 hpos
      exact_mod_cast this.ne'
    refine ⟨0, ?_, fun h => by omega, fun _ => by norm_num⟩
    rw [Dbl.ofLong_zero, hnf]
    simp only [Dbl.div, if_neg hnf', zero_div, Dbl.nearest_zero, Dbl.mul, zero_mul]
  · by_cases hle : now ≤ full
    · -- a positive charge-now that does not exceed charge-full
      obtain ⟨na, nb, hna, hnb, h1, h2, h3⟩ := Dbl.ofLong_mono now full hnpos hle hfull
      have hnb0 : (0 : ℚ) < nb := by linarith
      have hq1 : (2 : ℚ) ^ (-63 : ℤ) ≤ na / nb := by
        rw [zpow_neg, e63, ← one_div, div_le_div_iff₀ (by positivity) hnb0]
        nlinarith
      have hq2 : na / nb ≤ (2 : ℚ) ^ (0 : ℤ) := by
        rw [zpow_zero, div_le_one hnb0]
        exact h2
      obtain ⟨g1, g2, g3⟩ := Dbl.nearest_le (by norm_num) (by norm_num) hq1 hq2
      obtain ⟨ρ, hρ⟩ : ∃ ρ : ℚ, ρ = (Dbl.round_even (na / nb / Dbl.ulp (na / nb)) : ℚ) *
          Dbl.ulp (na / nb) := ⟨_, rfl⟩
      rw [← hρ] at g1 g2 g3
      rw [zpow_zero] at g3
      have hp1 : (2 : ℚ) ^ (-63 : ℤ) ≤ ρ * 100 := by
        have : (0 : ℚ) < 2 ^ (-63 : ℤ) := zpow_pos (by norm_num) _
        nlinarith
      have hp2 : ρ * 100 ≤ 100 := by nlinarith
      obtain ⟨r, s, hr, hs, _, hrs, _⟩ := Dbl.nearest_mono (b := 7) (by norm_num)
        (by norm_num) hp1 hp2 (by norm_num)
      rw [h100] at hs
      injection hs with hs
      refine ⟨r, ?_, fun h => by omega, fun _ => by rw [hs]; exact hrs⟩
      rw [hna, hnb]
      simp only [Dbl.div, if_neg hnb0.ne', g1, Dbl.mul]
      exact hr
    · -- charge-now exceeds charge-full
      have hlt : full < now := not_le.mp hle
      obtain ⟨na, nb, hna, hnb, h1, h2, h3⟩ := Dbl.ofLong_mono full now hpos hlt.le hnow
      have hna0 : (0 : ℚ) < na := by linarith
      have hq1 : (2 : ℚ) ^ (0 : ℤ) ≤ nb / na := by
        rw [zpow_zero, one_le_div hna0]
        exact h2
      have hq2 : nb / na ≤ (2 : ℚ) ^ (63 : ℤ) := by
        rw [e63, div_le_iff₀ hna0]
        nlinarith
      obtain ⟨g1, g2, g3⟩ := Dbl.nearest_le (by norm_num) (by norm_num) hq1 hq2
      obtain ⟨ρ, hρ⟩ : ∃ ρ : ℚ, ρ = (Dbl.round_even (nb / na / Dbl.ulp (nb / na)) : ℚ) *
          Dbl.ulp (nb / na) := ⟨_, rfl⟩
      rw [← hρ] at g1 g2 g3
      rw [zpow_zero] at g2
      rw [e63] at g3
      have hp1 : (100 : ℚ) ≤ ρ * 100 := by nlinarith
      have hp2 : ρ * 100 ≤ (2 : ℚ) ^ (70 : ℤ) := by
        have e70 : (2 : ℚ) ^ (70 : ℤ) = 2 ^ 63 * 128 := by
          rw [show (70 : ℤ) = ((70 : ℕ) : ℤ) from rfl, zpow_natCast]
          norm_num
        rw [e70]
        nlinarith
      obtain ⟨r, s, hr, hs, _, hrs, _⟩ := Dbl.nearest_mono (a := 6) (by norm_num)
        (by norm_num) (by norm_num) hp1 hp2
      rw [h100] at hr
      injection hr with hr
      refine ⟨s, ?_, fun _ => by rw [hr]; exact hrs, fun h => by omega⟩
      rw [hna, hnb]
      simp only [Dbl.div, if_neg hna0.ne', g1, Dbl.mul]
      exact hs

/-- C4 (amended). When no direct capacity within [0,100] was read and
charge-now and charge-full were both read, charge-now with a value other than
the marker `LONG_MIN` and charge-full > 0, the charge is the double
`charge_now / charge_full * 100`, each operation rounded to the nearest
binary64 number; it is replaced by 100 when the cap is enabled and the double
exceeds 100, and left as it is otherwise; the outcome is the same as with the
test that charge-now exceeds charge-full, that is that the exact value
exceeds 100.  For values of at most `2^53` in magnitude the conversions are
exact, and when the quotient and the product are binary64 numbers the charge
is the exact rational charge_now / charge_full * 100 under the cap. -/
theorem C4_charge_from_ratio (r : raw_longs) (cfg : config) (info : battery_info)
    (hcap : ¬ (0 ≤ r.capacity ∧ r.capacity ≤ 100))
    (hnow : r.charge_now ≠ LONG_INVALID)
    (hlnow : isLong r.charge_now) (hlfull : isLong r.charge_full)
    (hpos : 0 < r.charge_full) :
    (process r cfg info).charge =
        (if cfg.has CONFIG_FLAG_DISABLE_CHARGE_CAP = false ∧
            Dbl.gt (Dbl.mul (Dbl.div (Dbl.ofLong r.charge_now) (Dbl.ofLong r.charge_full))
              (Dbl.fin 100)) (Dbl.fin 100) = true then
          Dbl.fin 100
        else
          Dbl.mul (Dbl.div (Dbl.ofLong r.charge_now) (Dbl.ofLong r.charge_full))
            (Dbl.fin 100)) ∧
    (process r cfg info).charge =
        (if cfg.has CONFIG_FLAG_DISABLE_CHARGE_CAP = false ∧ r.charge_full < r.charge_now then
          Dbl.fin 100
        else
          Dbl.mul (Dbl.div (Dbl.ofLong r.charge_now) (Dbl.ofLong r.charge_full))
            (Dbl.fin 100)) ∧
    (|r.charge_now| ≤ 2 ^ 53 → |r.charge_full| ≤ 2 ^ 53 →
      Dbl.mul (Dbl.div (Dbl.ofLong r.charge_now) (Dbl.ofLong r.charge_full)) (Dbl.fin 100) =
          Dbl.mul (Dbl.nearest ((r.charge_now : ℚ) / (r.charge_full : ℚ))) (Dbl.fin 100) ∧
        (Dbl.nearest ((r.charge_now : ℚ) / (r.charge_full : ℚ)) =
            Dbl.fin ((r.charge_now : ℚ) / (r.charge_full : ℚ)) →
          Dbl.nearest ((r.charge_now : ℚ) / (r.charge_full : ℚ) * 100) =
            Dbl.fin ((r.charge_now : ℚ) / (r.charge_full : ℚ) * 100) →
          (process r cfg info).charge =
            if cfg.has CONFIG_FLAG_DISABLE_CHARGE_CAP = false ∧
                (100 : ℚ) < (r.charge_now : ℚ) / (r.charge_full : ℚ) * 100 then
              Dbl.fin 100
            else Dbl.fin ((r.charge_now : ℚ) / (r.charge_full : ℚ) * 100))) := by
  have hnz : r.charge_full ≠ 0 := by omega
  have hfull : r.charge_full ≠ LONG_INVALID := by rw [LONG_INVALID_eq]; omega
  have hc : ¬ (r.capacity ≠ LONG_INVALID ∧ r.capacity ≥ 0 ∧ r.capacity ≤ 100) := by
    rintro ⟨_, h1, h2⟩; exact hcap ⟨h1, h2⟩
  have hval := process_charge_of_ratio r cfg info hc hnow hfull
  obtain ⟨s, hs, hgt, hle⟩ := charge_ratio_cases r.charge_now r.charge_full hlnow hlfull hpos
  have hfirst : (process r cfg info).charge =
      (if cfg.has CONFIG_FLAG_DISABLE_CHARGE_CAP = false ∧ r.charge_full < r.charge_now then
        Dbl.fin 100
      else
        Dbl.mul (Dbl.div (Dbl.ofLong r.charge_now) (Dbl.ofLong r.charge_full))
          (Dbl.fin 100)) := by
    rw [hval, hs]
    simp only [Dbl.gt, decide_eq_true_eq]
    by_cases hflag : cfg.has CONFIG_FLAG_DISABLE_CHARGE_CAP = false
    · by_cases hlt : r.charge_full < r.charge_now
      · have h100 := hgt hlt
        by_cases hs100 : (100 : ℚ) < s
        · rw [if_pos ⟨hflag, hs100⟩, if_pos ⟨hflag, hlt⟩]
        · rw [if_neg (fun h => hs100 h.2), if_pos ⟨hflag, hlt⟩]
          have : s = 100 := le_antisymm (not_lt.mp hs100) h100
          rw [this]
      · have h100 := hle (not_lt.mp hlt)
        rw [if_neg (fun h => absurd h.2 (not_lt.mpr h100)), if_neg (fun h => hlt h.2)]
    · rw [if_neg (fun h => hflag h.1), if_neg (fun h => hflag h.1)]
  refine ⟨hval, hfirst, fun h53n h53f => ?_⟩
  have hdiv := Dbl.div_ofLong_ofLong r.charge_now r.charge_full h53n h53f hnz
  refine ⟨by rw [hdiv], fun hq hp => ?_⟩
  rw [hval, hdiv, hq]
  simp only [Dbl.mul, hp, Dbl.gt, decide_eq_true_eq]

/-- C7 (amended). When charge-full and current-now were read with values
other than the marker `LONG_MIN` and current-now is not zero, then for every
`long` that charge-now holds the estimated time to discharge is available and
is the double `((charge_full - charge_now) / current_now) * 10`, each
conversion and operation rounded to the nearest binary64 number.  For charges
of at most `2^52` and a current of at most `2^53` in magnitude the conversions
and the difference are exact, and when the quotient and the product are
binary64 numbers the value is the exact rational. -/
theorem C7_etd_value (r : raw_longs) (cfg : config) (info : battery_info)
    (hlfull : isLong r.charge_full) (hlnow : isLong r.charge_now)
    (hlong : isLong r.current_now)
    (hfull : r.charge_full ≠ LONG_INVALID)
    (hcur : r.current_now ≠ LONG_INVALID) (hnz : r.current_now ≠ 0) :
    (process r cfg info).etd =
        Dbl.mul
          (Dbl.div (Dbl.sub (Dbl.ofLong r.charge_full) (Dbl.ofLong r.charge_now))
            (Dbl.ofLong r.current_now))
          (Dbl.fin 10) ∧
      (process r cfg info).etd ≠ DOUBLE_INVALID ∧
      (|r.charge_full| ≤ 2 ^ 52 → |r.charge_now| ≤ 2 ^ 52 → |r.current_now| ≤ 2 ^ 53 →
        (process r cfg info).etd =
            Dbl.mul
              (Dbl.nearest
                (((r.charge_full : ℚ) - (r.charge_now : ℚ)) / (r.current_now : ℚ)))
              (Dbl.fin 10) ∧
          (Dbl.nearest (((r.charge_full : ℚ) - (r.charge_now : ℚ)) / (r.current_now : ℚ)) =
              Dbl.fin (((r.charge_full : ℚ) - (r.charge_now : ℚ)) / (r.current_now : ℚ)) →
            Dbl.nearest
                ((((r.charge_full : ℚ) - (r.charge_now : ℚ)) / (r.current_now : ℚ)) * 10) =
              Dbl.fin
                ((((r.charge_full : ℚ) - (r.charge_now : ℚ)) / (r.current_now : ℚ)) * 10) →
            (process r cfg info).etd =
              Dbl.fin
                ((((r.charge_full : ℚ) - (r.charge_now : ℚ)) / (r.current_now : ℚ)) *
                  10))) := by
  have hval : (process r cfg info).etd =
      Dbl.mul
        (Dbl.div (Dbl.sub (Dbl.ofLong r.charge_full) (Dbl.ofLong r.charge_now))
          (Dbl.ofLong r.current_now))
        (Dbl.fin 10) := by
    rw [process_etd_val, if_pos ⟨hfull, hcur⟩]
  refine ⟨hval, ?_, ?_⟩
  · obtain ⟨nf, hnf, hfabs, _, _, _, _⟩ := Dbl.ofLong_long r.charge_full hlfull
    obtain ⟨nn, hnn, hnabs, _, _, _, _⟩ := Dbl.ofLong_long r.charge_now hlnow
    obtain ⟨nc, hnc, hcabs, _, _, _, _⟩ := Dbl.ofLong_long r.current_now hlong
    have hd : |nf - nn| ≤ 2 ^ 64 := by
      rw [abs_le] at hfabs hnabs ⊢
      constructor <;> omega
    obtain ⟨d, hdn, _⟩ := Dbl.nearest_int (nf - nn) 64 (by norm_num) hd
    have hsub : Dbl.sub (Dbl.fin (nf : ℚ)) (Dbl.fin (nn : ℚ)) = Dbl.fin (d : ℚ) := by
      simp only [Dbl.sub]
      rw [← hdn]
      push_cast
      rfl
    rw [hval, hnf, hnn, hnc, hsub]
    exact Dbl.ratio_ne_min d nc 10 (le_trans hcabs (by norm_num)) (by norm_num)
  · intro h1 h2 h3
    have hf53 : |r.charge_full| ≤ 2 ^ 53 := le_trans h1 (by norm_num)
    have hn53 : |r.charge_now| ≤ 2 ^ 53 := le_trans h2 (by norm_num)
    have hdiff : |r.charge_full - r.charge_now| ≤ 2 ^ 53 := by
      rw [abs_le] at h1 h2 ⊢
      constructor <;> omega
    have hsub : Dbl.sub (Dbl.ofLong r.charge_full) (Dbl.ofLong r.charge_now) =
        Dbl.fin ((r.charge_full : ℚ) - (r.charge_now : ℚ)) := by
      rw [Dbl.ofLong_eq _ hf53, Dbl.ofLong_eq _ hn53]
      simp only [Dbl.sub]
      have := Dbl.nearest_intCast (r.charge_full - r.charge_now) hdiff
      push_cast at this
      exact this
    have hc' : (r.current_now : ℚ) ≠ 0 := by exact_mod_cast hnz
    have hdiv : Dbl.div (Dbl.sub (Dbl.ofLong r.charge_full) (Dbl.ofLong r.charge_now))
        (Dbl.ofLong r.current_now) =
        Dbl.nearest (((r.charge_full : ℚ) - (r.charge_now : ℚ)) / (r.current_now : ℚ)) := by
      rw [hsub, Dbl.ofLong_eq _ h3]
      simp only [Dbl.div, if_neg hc']
    refine ⟨by rw [hval, hdiv], fun hq hp => ?_⟩
    rw [hval, hdiv, hq]
    simp only [Dbl.mul]
    exact hp

/-- C8. In `process`, each of present, online and charging-enabled becomes 1 (true)
exactly when its raw integer is 1, 0 (false) exactly when its raw integer is 0,
and keeps the initial -1 (unknown) for every other raw value, the unset marker
included. -/
theorem C8_flags_tristate (r : raw_longs) (cfg : config) (info : battery_info)
    (hinit : info.present = -1 ∧ info.online = -1 ∧ info.charging_enabled = -1) :
    (((process r cfg info).present = 1 ↔ r.present = 1) ∧
      ((process r cfg info).present = 0 ↔ r.present = 0) ∧
      ((process r cfg info).present = -1 ↔ (r.present ≠ 1 ∧ r.present ≠ 0))) ∧
    (((process r cfg info).online = 1 ↔ r.online = 1) ∧
      ((process r cfg info).online = 0 ↔ r.online = 0) ∧
      ((process r cfg info).online = -1 ↔ (r.online ≠ 1 ∧ r.online ≠ 0))) ∧
    (((process r cfg info).charging_enabled = 1 ↔ r.charging_enabled = 1) ∧
      ((process r cfg info).charging_enabled = 0 ↔ r.charging_enabled = 0) ∧
      ((process r cfg info).charging_enabled = -1 ↔
        (r.charging_enabled ≠ 1 ∧ r.charging_enabled ≠ 0))) := by
  obtain ⟨hp, ho, hc⟩ := hinit
  rw [process_present_val, process_online_val, process_charging_enabled_val, hp, ho, hc]
  refine ⟨?_, ?_, ?_⟩
  · split_ifs with h
    · rcases h with h | h <;> simp [h]
    · push_neg at h
      simp [h.1, h.2]
  · split_ifs with h
    · rcases h with h | h <;> simp [h]
    · push_neg at h
      simp [h.1, h.2]
  · split_ifs with h
    · rcases h with h | h <;> simp [h]
    · push_neg at h
      simp [h.1, h.2]

/-- C9 (amended). The max-charge percentage is available exactly when
charge-full and charge-full-design both differ from the marker `LONG_MIN`,
that is when both were read with another value; it is then the double
`charge_full / charge_full_design * 100`, each operation rounded to the
nearest binary64 number, whatever the cap setting, never clamped.  For values
of at most `2^53` in magnitude the conversions are exact, and when the
quotient and the product are binary64 numbers the value is the exact
rational. -/
theorem C9_max_charge (r : raw_longs) (cfg : config) (info : battery_info)
    (hinit : info.max_charge = DOUBLE_INVALID) (hlfull : isLong r.charge_full)
    (hlong : isLong r.charge_full_design) :
    ((process r cfg info).max_charge ≠ DOUBLE_INVALID ↔
        (r.charge_full ≠ LONG_INVALID ∧ r.charge_full_design ≠ LONG_INVALID)) ∧
    (r.charge_full ≠ LONG_INVALID → r.charge_full_design ≠ LONG_INVALID →
      (process r cfg info).max_charge =
        Dbl.mul (Dbl.div (Dbl.ofLong r.charge_full) (Dbl.ofLong r.charge_full_design))
          (Dbl.fin 100)) ∧
    (r.charge_full ≠ LONG_INVALID → r.charge_full_design ≠ LONG_INVALID →
      |r.charge_full| ≤ 2 ^ 53 → |r.charge_full_design| ≤ 2 ^ 53 →
      r.charge_full_design ≠ 0 →
      (process r cfg info).max_charge =
          Dbl.mul (Dbl.nearest ((r.charge_full : ℚ) / (r.charge_full_design : ℚ)))
            (Dbl.fin 100) ∧
        (Dbl.nearest ((r.charge_full : ℚ) / (r.charge_full_design : ℚ)) =
            Dbl.fin ((r.charge_full : ℚ) / (r.charge_full_design : ℚ)) →
          Dbl.nearest ((r.charge_full : ℚ) / (r.charge_full_design : ℚ) * 100) =
            Dbl.fin ((r.charge_full : ℚ) / (r.charge_full_design : ℚ) * 100) →
          (process r cfg info).max_charge =
            Dbl.fin ((r.charge_full : ℚ) / (r.charge_full_design : ℚ) * 100))) := by
  rw [process_max_charge_val]
  refine ⟨?_, ?_, ?_⟩
  · by_cases hb : r.charge_full ≠ LONG_INVALID ∧ r.charge_full_design ≠ LONG_INVALID
    · rw [if_pos hb]
      refine ⟨fun _ => hb, fun _ => ?_⟩
      obtain ⟨nf, hnf, _⟩ := Dbl.ofLong_long r.charge_full hlfull
      obtain ⟨nd, hnd, hdabs, _⟩ := Dbl.ofLong_long r.charge_full_design hlong
      rw [hnf, hnd]
      exact Dbl.ratio_ne_min nf nd 100 (le_trans hdabs (by norm_num)) (by norm_num)
    · rw [if_neg hb]
      exact ⟨fun h => absurd hinit h, fun h => absurd h hb⟩
  · intro h1 h2
    rw [if_pos ⟨h1, h2⟩]
  · intro h1 h2 h3 h4 hz
    rw [if_pos ⟨h1, h2⟩, Dbl.div_ofLong_ofLong _ _ h3 h4 hz]
    refine ⟨rfl, fun hq hp => ?_⟩
    rw [hq]
    simp only [Dbl.mul]
    exact hp

/-- C10 (amended). Voltage, current and temperature are unavailable when
voltage-now, current-now and temperature are the marker `LONG_MIN`, that is
when they were not read or were read with that value; when read with another
value v they are available and are the doubles `v / 1000000`, `v / 100000`
and `v / 10`, whatever the other fields and the configuration are: for v of at
most `2^53` in magnitude the binary64 number nearest to the exact quotient,
and the exact quotient itself when it is a binary64 number. -/
theorem C10_scaled_readings (r : raw_longs) (cfg : config) (info : battery_info)
    (hinit : info.voltage = DOUBLE_INVALID ∧ info.current = DOUBLE_INVALID ∧
      info.temperature = DOUBLE_INVALID)
    (hlong : isLong r.voltage_now ∧ isLong r.current_now ∧ isLong r.temp) :
    ((r.voltage_now = LONG_INVALID → (process r cfg info).voltage = DOUBLE_INVALID) ∧
      (r.voltage_now ≠ LONG_INVALID →
        (process r cfg info).voltage =
          Dbl.div (Dbl.ofLong r.voltage_now) (Dbl.fin 1000000) ∧
        (process r cfg info).voltage ≠ DOUBLE_INVALID ∧
        (|r.voltage_now| ≤ 2 ^ 53 →
          (process r cfg info).voltage = Dbl.nearest ((r.voltage_now : ℚ) / 1000000)))) ∧
    ((r.current_now = LONG_INVALID → (process r cfg info).current = DOUBLE_INVALID) ∧
      (r.current_now ≠ LONG_INVALID →
        (process r cfg info).current =
          Dbl.div (Dbl.ofLong r.current_now) (Dbl.fin 100000) ∧
        (process r cfg info).current ≠ DOUBLE_INVALID ∧
        (|r.current_now| ≤ 2 ^ 53 →
          (process r cfg info).current = Dbl.nearest ((r.current_now : ℚ) / 100000)))) ∧
    ((r.temp = LONG_INVALID → (process r cfg info).temperature = DOUBLE_INVALID) ∧
      (r.temp ≠ LONG_INVALID →
        (process r cfg info).temperature = Dbl.div (Dbl.ofLong r.temp) (Dbl.fin 10) ∧
        (process r cfg info).temperature ≠ DOUBLE_INVALID ∧
        (|r.temp| ≤ 2 ^ 53 →
          (process r cfg info).temperature = Dbl.nearest ((r.temp : ℚ) / 10)))) := by
  obtain ⟨hv, hc, ht⟩ := hinit
  obtain ⟨lv, lc, lt⟩ := hlong
  obtain ⟨a1, a2⟩ := scaled_reading r.voltage_now lv 1000000 (by norm_num) (by norm_num)
  obtain ⟨b1, b2⟩ := scaled_reading r.current_now lc 100000 (by norm_num) (by norm_num)
  obtain ⟨c1, c2⟩ := scaled_reading r.temp lt 10 (by norm_num) (by norm_num)
  rw [process_voltage_val, process_current_val, process_temperature_val]
  refine ⟨⟨?_, ?_⟩, ⟨?_, ?_⟩, ⟨?_, ?_⟩⟩
  · intro h
    rw [if_neg (by simpa using h), hv]
  · intro h
    rw [if_pos h]
    exact ⟨rfl, a1, a2⟩
  · intro h
    rw [if_neg (by simpa using h), hc]
  · intro h
    rw [if_pos h]
    exact ⟨rfl, b1, b2⟩
  · intro h
    rw [if_neg (by simpa using h), ht]
  · intro h
    rw [if_pos h]
    exact ⟨rfl, c1, c2⟩

/-! ## Facts about C strings -/

theorem isspace_NUL : isspace NUL = false := by decide

theorem takeWhile_ne_NUL (body tail : List Char) (h : NUL ∉ body) :
    (body ++ NUL :: tail).takeWhile (fun c => c != NUL) = body := by
  induction body with
  | nil => simp [List.takeWhile]
  | cons a l ih =>
      have ha : (a != NUL) = true := by
        rw [bne_iff_ne]
        exact fun e => h (by simp [e])
      have hl : NUL ∉ l := fun e => h (by simp [e])
      rw [List.cons_append, List.takeWhile_cons, ha, if_pos rfl, ih hl]

/-- The string at an offset inside of a NUL-terminated text is the rest of the
text. -/
theorem cstr_at_text (body tail : List Char) (k : Nat) (h : NUL ∉ body)
    (hk : k ≤ body.length) : cstr_at (body ++ NUL :: tail) k = body.drop k := by
  unfold cstr_at
  rw [List.drop_append_of_le_length hk]
  apply takeWhile_ne_NUL
  intro hmem
  exact h (List.mem_of_mem_drop hmem)

theorem strlen_text (body tail : List Char) (h : NUL ∉ body) :
    strlen (body ++ NUL :: tail) = body.length := by
  unfold strlen
  rw [cstr_at_text body tail 0 h (Nat.zero_le _)]
  simp

/-- The test `strstr(buf, s) == buf` is the prefix test. -/
theorem strstr_eq_zero (needle hay : List Char) :
    (strstr needle hay == some 0) = needle.isPrefixOf hay := by
  cases hay with
  | nil => cases needle <;> simp [strstr, List.isPrefixOf]
  | cons c t =>
      unfold strstr
      by_cases hp : needle.isPrefixOf (c :: t) = true
      · simp [hp]
      · have hf : needle.isPrefixOf (c :: t) = false := Bool.eq_false_iff.mpr hp
        rw [hf]
        cases strstr needle t <;> simp

theorem if_startswith_text (body tail : List Char) (s : String) (h : NUL ∉ body) :
    if_startswith (body ++ NUL :: tail) s = s.toList.isPrefixOf body := by
  unfold if_startswith
  rw [strstr_eq_zero, cstr_at_text body tail 0 h (Nat.zero_le _)]
  simp

/-- A key that is a prefix of the head of a line, or that differs from it on
their common length, is tested alike on the head and on the whole line. -/
theorem isPrefixOf_append_head (k m V : List Char)
    (h : k.isPrefixOf m = true ∨ k.take m.length ≠ m.take k.length) :
    k.isPrefixOf (m ++ V) = k.isPrefixOf m := by
  induction k generalizing m with
  | nil => simp
  | cons a k ih =>
      cases m with
      | nil => simp at h
      | cons b m =>
          simp only [List.cons_append, List.isPrefixOf]
          by_cases hab : a = b
          · subst hab
            simp only [beq_self_eq_true, Bool.true_and]
            apply ih
            rcases h with h | h
            · left
              simpa [List.isPrefixOf] using h
            · right
              intro e
              apply h
              simp [e]
          · have hf : (a == b) = false := beq_eq_false_iff_ne.mpr hab
            rw [hf]
            rfl

/-! ## The stripping of a line -/

theorem strip_index_base (body tail : List Char) (hb : body ≠ [])
    (hlast : isspace (body.getLast?.getD NUL) = false) :
    strip_index (body ++ tail) (body.length - 1) = body.length - 1 := by
  obtain ⟨init, x, rfl⟩ : ∃ init x, body = init ++ [x] := by
    refine ⟨body.dropLast, body.getLast hb, ?_⟩
    exact (List.dropLast_append_getLast hb).symm
  have hx : (init ++ [x]).getLast? = some x := by simp
  rw [hx, Option.getD_some] at hlast
  simp only [List.length_append, List.length_singleton, Nat.add_sub_cancel]
  cases hi : init.length with
  | zero => rfl
  | succ n =>
      have hget : (init ++ [x] ++ tail).getD (n + 1) NUL = x := by
        rw [List.append_assoc, List.getD_append_right _ _ _ _ (by omega)]
        simp [hi]
      simp only [strip_index, hget, hlast]
      rfl

theorem strip_index_text (body ws tail : List Char) (hb : body ≠ [])
    (hws : ∀ c ∈ ws, isspace c = true)
    (hlast : isspace (body.getLast?.getD NUL) = false) :
    strip_index (body ++ ws ++ tail) (body.length + ws.length - 1) = body.length - 1 := by
  induction ws using List.reverseRecOn generalizing tail with
  | nil => simpa using strip_index_base body tail hb hlast
  | append_singleton ws w ih =>
      have hpos : 0 < body.length := List.length_pos.mpr hb
      have hw : isspace w = true := hws w (by simp)
      have hidx : body.length + (ws ++ [w]).length - 1 = (body.length + ws.length - 1) + 1 := by
        simp only [List.length_append, List.length_singleton]
        omega
      have hget : (body ++ (ws ++ [w]) ++ tail).getD (body.length + ws.length - 1 + 1) NUL
          = w := by
        have e : body ++ (ws ++ [w]) ++ tail = (body ++ ws) ++ (w :: tail) := by simp
        rw [e, List.getD_append_right _ _ _ _ (by simp; omega)]
        have : body.length + ws.length - 1 + 1 - (body ++ ws).length = 0 := by
          simp only [List.length_append]; omega
        rw [this]
        rfl
      rw [hidx]
      simp only [strip_index, hget, hw, if_true]
      have e : body ++ (ws ++ [w]) ++ tail = body ++ ws ++ (w :: tail) := by simp
      rw [e]
      exact ih (w :: tail) (fun c hc => hws c (by simp [hc]))

/-- The stripping statements turn the chunk `body ++ ws` of a text line into
the C string `body`. -/
theorem strip_fgets_store (buf body ws : List Char) (h : text_line body ws) :
    strip (fgets_store buf (body ++ ws)) = some (body ++ NUL :: stale buf body ws) := by
  obtain ⟨hnul, hlen, hws, hlast⟩ := h
  have hb : body ≠ [] := by
    intro e; rw [e] at hlen; simp at hlen
  have hnul' : NUL ∉ body ++ ws := by
    intro hmem
    rcases List.mem_append.mp hmem with h1 | h1
    · exact hnul h1
    · have := hws NUL h1
      rw [isspace_NUL] at this
      exact Bool.noConfusion this
  unfold strip fgets_store
  rw [strlen_text _ _ hnul']
  have hidx := strip_index_text body ws
    (NUL :: buf.drop (body.length + ws.length + 1)) hb hws hlast
  rw [List.length_append]
  simp only [hidx]
  have hne : ¬ (body.length - 1 = 0) := by omega
  simp only [hne, if_false]
  have h1 : body.length - 1 + 1 = body.length := by omega
  rw [h1]
  congr 1
  rw [List.append_assoc, List.set_append_right _ _ (le_refl _), Nat.sub_self]
  unfold stale
  cases ws with
  | nil => simp
  | cons w ws => simp

/-- One iteration of a reading loop on a text line: the branch is chosen by
the prefix test on `body`, and the helper gets the string `buf + offset` of the
stripped array. -/
theorem uevent_line_text (keys : List (String × Nat × slot)) (st : reader_state)
    (body ws : List Char) (h : text_line body ws) :
    uevent_line keys st (body ++ ws) =
      match keys.find? (fun k => k.1.toList.isPrefixOf body) with
      | none => { st with buf := body ++ NUL :: stale st.buf body ws }
      | some (_, off, sl) =>
          store sl (cstr_at (body ++ NUL :: stale st.buf body ws) off)
            { st with buf := body ++ NUL :: stale st.buf body ws } := by
  unfold uevent_line
  simp only [strip_fgets_store st.buf body ws h, dispatch]
  have hfun : (fun k : String × Nat × slot =>
      if_startswith (body ++ NUL :: stale st.buf body ws) k.1) =
      (fun k => k.1.toList.isPrefixOf body) := by
    funext k
    exact if_startswith_text _ _ _ h.1
  rw [hfun]
  cases keys.find? (fun k => k.1.toList.isPrefixOf body) with
  | none => rfl
  | some e => rfl

theorem getLast?_snoc (l : List Char) (a : Char) : (l ++ [a]).getLast? = some a := by
  simp

theorem find?_ext_mem {α : Type} (p q : α → Bool) (l : List α)
    (h : ∀ x ∈ l, p x = q x) : l.find? p = l.find? q := by
  induction l with
  | nil => rfl
  | cons a l ih =>
      have ha : p a = q a := h a (by simp)
      have hl : ∀ x ∈ l, p x = q x := fun x hx => h x (by simp [hx])
      simp only [List.find?_cons, ha, ih hl]

/-- The branch taken on a stripped text line. -/
theorem dispatch_text (keys : List (String × Nat × slot)) (body tail : List Char)
    (h : NUL ∉ body) :
    dispatch keys (body ++ NUL :: tail) =
      (keys.find? (fun k => k.1.toList.isPrefixOf body)).map
        (fun e => (e.2.2, cstr_at (body ++ NUL :: tail) e.2.1)) := by
  unfold dispatch
  have hfun : (fun k : String × Nat × slot => if_startswith (body ++ NUL :: tail) k.1) =
      (fun k => k.1.toList.isPrefixOf body) := by
    funext k
    exact if_startswith_text _ _ _ h
  rw [hfun]
  cases keys.find? (fun k => k.1.toList.isPrefixOf body) with
  | none => rfl
  | some e => rfl

/-- One iteration on a text line whose branch and offset are known, the offset
lying inside of the line. -/
theorem uevent_line_match (keys : List (String × Nat × slot)) (st : reader_state)
    (body ws : List Char) (e : String × Nat × slot) (h : text_line body ws)
    (hfind : keys.find? (fun k => k.1.toList.isPrefixOf body) = some e)
    (hoff : e.2.1 ≤ body.length) :
    uevent_line keys st (body ++ ws) =
      store e.2.2 (body.drop e.2.1)
        { st with buf := body ++ NUL :: stale st.buf body ws } := by
  rw [uevent_line_text keys st body ws h, hfind]
  simp only
  rw [cstr_at_text _ _ _ h.1 hoff]

/-- One iteration on a text line that no key of the chain starts. -/
theorem uevent_line_skip (keys : List (String × Nat × slot)) (st : reader_state)
    (body ws : List Char) (h : text_line body ws)
    (hfind : keys.find? (fun k => k.1.toList.isPrefixOf body) = none) :
    uevent_line keys st (body ++ ws) =
      { st with buf := body ++ NUL :: stale st.buf body ws } := by
  rw [uevent_line_text keys st body ws h, hfind]

set_option maxRecDepth 100000 in
/-- Every entry of the first chain but `POWER_SUPPLY_ONLINE` is sound. -/
theorem uevent_keys_sound :
    ∀ e ∈ uevent_keys, e.1 ≠ "POWER_SUPPLY_ONLINE" → entry_sound uevent_keys e := by
  decide

/-- The entry of the second chain is sound. -/
theorem device_uevent_keys_sound :
    ∀ e ∈ device_uevent_keys, entry_sound device_uevent_keys e := by
  decide

/-- A line `key=V` of a sound entry takes the branch of the entry, and the
helper of the branch gets exactly `V`. -/
theorem dispatch_hands_value (keys : List (String × Nat × slot))
    (e : String × Nat × slot) (hs : entry_sound keys e) (buf V ws : List Char)
    (hV : NUL ∉ V) (hws : ∀ c ∈ ws, isspace c = true)
    (hlast : isspace (V.getLast?.getD '=') = false) :
    text_line (e.1.toList ++ '=' :: V) ws ∧
    keys.find? (fun k => k.1.toList.isPrefixOf (e.1.toList ++ '=' :: V)) = some e ∧
    (strip (fgets_store buf (e.1.toList ++ '=' :: V ++ ws))).bind (dispatch keys) =
      some (e.2.2, V) := by
  obtain ⟨hpos, hnul, hfind, hoff, hall⟩ := hs
  have hbody : e.1.toList ++ '=' :: V = (e.1.toList ++ ['=']) ++ V := by simp
  have htl : text_line (e.1.toList ++ '=' :: V) ws := by
    refine ⟨?_, ?_, hws, ?_⟩
    · intro hmem
      rcases List.mem_append.mp hmem with h1 | h1
      · exact hnul h1
      · rcases List.mem_cons.mp h1 with h2 | h2
        · exact absurd h2 (by decide)
        · exact hV h2
    · simp only [List.length_append, List.length_cons]
      omega
    · cases V using List.reverseRecOn with
      | nil =>
          rw [getLast?_snoc]
          decide
      | append_singleton V a _ =>
          have e1 : e.1.toList ++ '=' :: (V ++ [a]) = (e.1.toList ++ '=' :: V) ++ [a] := by simp
          rw [getLast?_snoc] at hlast
          rw [e1, getLast?_snoc]
          exact hlast
  have hfind' : keys.find? (fun k => k.1.toList.isPrefixOf (e.1.toList ++ '=' :: V)) =
      some e := by
    rw [← hfind, hbody]
    apply find?_ext_mem
    intro k hk
    exact isPrefixOf_append_head _ _ _ (hall k hk)
  refine ⟨htl, hfind', ?_⟩
  have hassoc : e.1.toList ++ '=' :: V ++ ws = (e.1.toList ++ '=' :: V) ++ ws := by simp
  rw [hassoc, strip_fgets_store buf _ ws htl, Option.some_bind, dispatch_text _ _ _ htl.1,
    hfind', Option.map_some']
  have hle : e.2.1 ≤ (e.1.toList ++ '=' :: V).length := by
    simp only [List.length_append, List.length_cons]; omega
  rw [cstr_at_text _ _ _ htl.1 hle, hoff]
  have : List.drop (e.1.toList.length + 1) (e.1.toList ++ '=' :: V) = V := by
    rw [hbody, List.drop_append_of_le_length (by simp)]
    simp
  rw [this]

/-- On a line `key=V` of every key of the first chain but `POWER_SUPPLY_ONLINE`,
the helper of the key gets exactly `V`. -/
theorem uevent_keys_hand_value (e : String × Nat × slot) (he : e ∈ uevent_keys)
    (hne : e.1 ≠ "POWER_SUPPLY_ONLINE") (buf V ws : List Char) (hV : NUL ∉ V)
    (hws : ∀ c ∈ ws, isspace c = true) (hlast : isspace (V.getLast?.getD '=') = false) :
    (strip (fgets_store buf (e.1.toList ++ '=' :: V ++ ws))).bind (dispatch uevent_keys) =
      some (e.2.2, V) :=
  (dispatch_hands_value uevent_keys e (uevent_keys_sound e he hne) buf V ws hV hws hlast).2.2

/-- On a line `DRIVER=V` of the second file the helper gets exactly `V`. -/
theorem device_uevent_keys_hand_value (buf V ws : List Char) (hV : NUL ∉ V)
    (hws : ∀ c ∈ ws, isspace c = true) (hlast : isspace (V.getLast?.getD '=') = false) :
    (strip (fgets_store buf ("DRIVER".toList ++ '=' :: V ++ ws))).bind
        (dispatch device_uevent_keys) = some (slot.driver, V) :=
  (dispatch_hands_value device_uevent_keys ("DRIVER", 7, .driver)
    (device_uevent_keys_sound _ (by decide)) buf V ws hV hws hlast).2.2

/-! ## Whole files -/

/-- The routine `get_battery_info` when only the first file opens. -/
theorem get_battery_info_uevent_only (content : List Char) (info : battery_info)
    (cfg : config) (buf0 : List Char) :
    get_battery_info (some content) none info cfg buf0 =
      (0, process
        (read_uevent uevent_keys { raw := raw_longs_init, info := info, buf := buf0 }
          content).raw cfg
        (read_uevent uevent_keys { raw := raw_longs_init, info := info, buf := buf0 }
          content).info) := by
  simp [get_battery_info]

/-- C1 (evaluation at the failing input). A first file made of the line
`POWER_SUPPLY_ONLINE=1` is read with success and leaves the online flag at -1
(unknown), whereas the same file for `POWER_SUPPLY_PRESENT` sets the present
flag to 1. -/
theorem C1_online_line_leaves_flag_unknown (cfg : config) (buf0 : List Char) :
    (get_battery_info (some "POWER_SUPPLY_ONLINE=1\n".toList) none battery_info_init cfg
      buf0).1 = 0 ∧
    (get_battery_info (some "POWER_SUPPLY_ONLINE=1\n".toList) none battery_info_init cfg
      buf0).2.online = -1 ∧
    (get_battery_info (some "POWER_SUPPLY_PRESENT=1\n".toList) none battery_info_init cfg
      buf0).2.present = 1 := by
  have hc1 : fgets_chunks 256 "POWER_SUPPLY_ONLINE=1\n".toList =
      ["POWER_SUPPLY_ONLINE=1".toList ++ "\n".toList] := by decide
  have hc2 : fgets_chunks 256 "POWER_SUPPLY_PRESENT=1\n".toList =
      ["POWER_SUPPLY_PRESENT=1".toList ++ "\n".toList] := by decide
  have hr1 : read_uevent uevent_keys
      { raw := raw_longs_init, info := battery_info_init, buf := buf0 }
      "POWER_SUPPLY_ONLINE=1\n".toList =
      store .online []
        { raw := raw_longs_init, info := battery_info_init,
          buf := "POWER_SUPPLY_ONLINE=1".toList ++
            NUL :: stale buf0 "POWER_SUPPLY_ONLINE=1".toList "\n".toList } := by
    unfold read_uevent
    rw [hc1, List.foldl_cons, List.foldl_nil]
    exact uevent_line_match uevent_keys _ "POWER_SUPPLY_ONLINE=1".toList "\n".toList
      ("POWER_SUPPLY_ONLINE", 21, .online) (by decide) (by decide) (by decide)
  have hr2 : read_uevent uevent_keys
      { raw := raw_longs_init, info := battery_info_init, buf := buf0 }
      "POWER_SUPPLY_PRESENT=1\n".toList =
      store .present ['1']
        { raw := raw_longs_init, info := battery_info_init,
          buf := "POWER_SUPPLY_PRESENT=1".toList ++
            NUL :: stale buf0 "POWER_SUPPLY_PRESENT=1".toList "\n".toList } := by
    unfold read_uevent
    rw [hc2, List.foldl_cons, List.foldl_nil]
    exact uevent_line_match uevent_keys _ "POWER_SUPPLY_PRESENT=1".toList "\n".toList
      ("POWER_SUPPLY_PRESENT", 21, .present) (by decide) (by decide) (by decide)
  have hs1 : (strtol_helper []).2 = LONG_INVALID := by decide
  have hs2 : (strtol_helper ['1']).2 = 1 := by decide
  refine ⟨?_, ?_, ?_⟩
  · rw [get_battery_info_uevent_only]
  · rw [get_battery_info_uevent_only, process_online_val, hr1]
    simp only [store, hs1]
    simp [LONG_INVALID_eq, battery_info_init]
  · rw [get_battery_info_uevent_only, process_present_val, hr2]
    simp only [store, hs2]
    simp

/-- C2 (evaluation at the failing input). On the line `POWER_SUPPLY_ONLINE=1`
the branch of the online key hands the empty string to `strtol_helper`, not
the value `1`, whereas on `POWER_SUPPLY_PRESENT=1` the helper gets `1`. -/
theorem C2_online_value_misses_first_char (buf : List Char) :
    (strip (fgets_store buf "POWER_SUPPLY_ONLINE=1\n".toList)).bind (dispatch uevent_keys) =
      some (slot.online, []) ∧
    (strip (fgets_store buf "POWER_SUPPLY_PRESENT=1\n".toList)).bind (dispatch uevent_keys) =
      some (slot.present, ['1']) := by
  have e1 : "POWER_SUPPLY_ONLINE=1\n".toList = "POWER_SUPPLY_ONLINE=1".toList ++ "\n".toList := by
    decide
  have e2 : "POWER_SUPPLY_PRESENT=1\n".toList =
      "POWER_SUPPLY_PRESENT=1".toList ++ "\n".toList := by decide
  have t1 : text_line "POWER_SUPPLY_ONLINE=1".toList "\n".toList := by decide
  have t2 : text_line "POWER_SUPPLY_PRESENT=1".toList "\n".toList := by decide
  have f1 : uevent_keys.find? (fun k => k.1.toList.isPrefixOf "POWER_SUPPLY_ONLINE=1".toList) =
      some ("POWER_SUPPLY_ONLINE", 21, .online) := by decide
  have f2 : uevent_keys.find? (fun k => k.1.toList.isPrefixOf "POWER_SUPPLY_PRESENT=1".toList) =
      some ("POWER_SUPPLY_PRESENT", 21, .present) := by decide
  constructor
  · rw [e1, strip_fgets_store buf _ _ t1, Option.some_bind, dispatch_text _ _ _ t1.1, f1,
      Option.map_some', cstr_at_text _ _ _ t1.1 (by decide)]
    decide
  · rw [e2, strip_fgets_store buf _ _ t2, Option.some_bind, dispatch_text _ _ _ t2.1, f2,
      Option.map_some', cstr_at_text _ _ _ t2.1 (by decide)]
    decide

set_option maxRecDepth 100000 in
/-- The decimal text of a number up to 100 holds no NUL, does not end with
white space, and `strtol_helper` reads the number back from it. -/
theorem decimal_upto_100 :
    ∀ c : Nat, c ≤ 100 →
      NUL ∉ (Nat.repr c).toList ∧
      isspace ((Nat.repr c).toList.getLast?.getD '=') = false ∧
      strtol_helper (Nat.repr c).toList = (0, (c : Int)) := by
  decide

/-- One iteration on the line `key=V` of a sound entry stores `V` through the
helper of the entry. -/
theorem uevent_line_key_value (keys : List (String × Nat × slot))
    (e : String × Nat × slot) (hs : entry_sound keys e) (st : reader_state)
    (V ws : List Char) (hV : NUL ∉ V) (hws : ∀ c ∈ ws, isspace c = true)
    (hlast : isspace (V.getLast?.getD '=') = false) :
    uevent_line keys st (e.1.toList ++ '=' :: V ++ ws) =
      store e.2.2 V
        { st with
          buf := (e.1.toList ++ '=' :: V) ++ NUL :: stale st.buf (e.1.toList ++ '=' :: V) ws } := by
  obtain ⟨htl, hfind, _⟩ := dispatch_hands_value keys e hs st.buf V ws hV hws hlast
  have hoff : e.2.1 = e.1.toList.length + 1 := hs.2.2.2.1
  have hassoc : e.1.toList ++ '=' :: V ++ ws = (e.1.toList ++ '=' :: V) ++ ws := by simp
  have hle : e.2.1 ≤ (e.1.toList ++ '=' :: V).length := by
    simp only [List.length_append, List.length_cons]; omega
  rw [hassoc, uevent_line_match keys st _ ws e htl hfind hle, hoff]
  have hdrop : List.drop (e.1.toList.length + 1) (e.1.toList ++ '=' :: V) = V := by
    have : e.1.toList ++ '=' :: V = (e.1.toList ++ ['=']) ++ V := by simp
    rw [this, List.drop_append_of_le_length (by simp)]
    simp
  rw [hdrop]

/-- A line `POWER_SUPPLY_CAPACITY=c` with `0 <= c <= 100`, followed by any
white space, sets the capacity local to `c`; and with that capacity the charge
computed by `process` is exactly `c`, whatever the other locals (charge-now and
charge-full among them) and the configuration (the cap flag) are. -/
theorem capacity_line_is_charge (c : Nat) (hc : c ≤ 100) (st : reader_state)
    (ws : List Char) (hws : ∀ x ∈ ws, isspace x = true) :
    (uevent_line uevent_keys st (capacity_line c ++ ws)).raw.capacity = (c : Int) ∧
    ∀ (r : raw_longs) (cfg : config) (info : battery_info), r.capacity = (c : Int) →
      (process r cfg info).charge = Dbl.fin (c : ℚ) := by
  obtain ⟨hnul, hlast, hparse⟩ := decimal_upto_100 c hc
  constructor
  · have hs : entry_sound uevent_keys ("POWER_SUPPLY_CAPACITY", 22, .capacity) :=
      uevent_keys_sound _ (by decide) (by decide)
    have hline : capacity_line c ++ ws =
        ("POWER_SUPPLY_CAPACITY", 22, slot.capacity).1.toList ++ '=' :: (Nat.repr c).toList
          ++ ws := by
      have : "POWER_SUPPLY_CAPACITY=".toList = "POWER_SUPPLY_CAPACITY".toList ++ ['='] := by
        decide
      unfold capacity_line
      rw [this]
      simp
    rw [hline, uevent_line_key_value uevent_keys _ hs st _ ws hnul hws hlast]
    simp only [store, hparse]
  · intro r cfg info hr
    have h0 : 0 ≤ r.capacity := by rw [hr]; exact Int.natCast_nonneg c
    have h100 : r.capacity ≤ 100 := by rw [hr]; exact_mod_cast hc
    rw [process_charge_of_capacity r cfg info h0 h100, hr]
    simp

/-- C4 (witness). The examples of the claim: 4500/4000 gives 100 with the cap and
112.5 without it, 3000/4000 gives 75. -/
theorem C4_charge_from_ratio_witness :
    (¬ (0 ≤ (raw_of_charges 4500 4000 LONG_INVALID).capacity ∧
        (raw_of_charges 4500 4000 LONG_INVALID).capacity ≤ 100)) ∧
    (raw_of_charges 4500 4000 LONG_INVALID).charge_now ≠ LONG_INVALID ∧
    isLong (raw_of_charges 4500 4000 LONG_INVALID).charge_now ∧
    isLong (raw_of_charges 4500 4000 LONG_INVALID).charge_full ∧
    0 < (raw_of_charges 4500 4000 LONG_INVALID).charge_full ∧
    (process (raw_of_charges 4500 4000 LONG_INVALID) config_init battery_info_init).charge =
      Dbl.fin 100 ∧
    (process (raw_of_charges 4500 4000 LONG_INVALID) config_no_cap battery_info_init).charge =
      Dbl.fin (225 / 2) ∧
    (process (raw_of_charges 3000 4000 LONG_INVALID) config_init battery_info_init).charge =
      Dbl.fin 75 := by
  have hflag : config_init.has CONFIG_FLAG_DISABLE_CHARGE_CAP = false := by decide
  have hflag' : config_no_cap.has CONFIG_FLAG_DISABLE_CHARGE_CAP = true := by decide
  have h1 := C4_charge_from_ratio (raw_of_charges 4500 4000 LONG_INVALID) config_init
    battery_info_init (by decide) (by decide) (by decide) (by decide) (by decide)
  have h2 := C4_charge_from_ratio (raw_of_charges 4500 4000 LONG_INVALID) config_no_cap
    battery_info_init (by decide) (by decide) (by decide) (by decide) (by decide)
  have h3 := C4_charge_from_ratio (raw_of_charges 3000 4000 LONG_INVALID) config_init
    battery_info_init (by decide) (by decide) (by decide) (by decide) (by decide)
  have a1 : (((raw_of_charges 4500 4000 LONG_INVALID).charge_now : Int) : ℚ) /
      (((raw_of_charges 4500 4000 LONG_INVALID).charge_full : Int) : ℚ) = 9 / 8 := by
    simp only [raw_of_charges]; norm_num
  have a3 : (((raw_of_charges 3000 4000 LONG_INVALID).charge_now : Int) : ℚ) /
      (((raw_of_charges 3000 4000 LONG_INVALID).charge_full : Int) : ℚ) = 3 / 4 := by
    simp only [raw_of_charges]; norm_num
  rw [a1] at h1 h2
  rw [a3] at h3
  refine ⟨by decide, by decide, by decide, by decide, by decide, ?_, ?_, ?_⟩
  · rw [h1.2.1, if_pos ⟨hflag, by decide⟩]
  · rw [(h2.2.2 (by decide) (by decide)).2
      (Dbl.nearest_exact _ 9 (-3) (by norm_num) (by norm_num) (by norm_num) (by norm_num))
      (Dbl.nearest_exact _ 225 (-1) (by norm_num) (by norm_num) (by norm_num)
        (by norm_num))]
    simp only [hflag']
    norm_num
  · rw [(h3.2.2 (by decide) (by decide)).2
      (Dbl.nearest_exact _ 3 (-2) (by norm_num) (by norm_num) (by norm_num) (by norm_num))
      (Dbl.nearest_exact _ 75 0 (by norm_num) (by norm_num) (by norm_num) (by norm_num))]
    simp only [hflag]
    norm_num

/-- C7 (witness). Charge-full 4000, charge-now 3000 and current-now 1000 give
ten hours. -/
theorem C7_etd_value_witness :
    isLong (raw_of_charges 3000 4000 1000).charge_full ∧
    isLong (raw_of_charges 3000 4000 1000).charge_now ∧
    isLong (raw_of_charges 3000 4000 1000).current_now ∧
    (raw_of_charges 3000 4000 1000).charge_full ≠ LONG_INVALID ∧
    (raw_of_charges 3000 4000 1000).current_now ≠ LONG_INVALID ∧
    (raw_of_charges 3000 4000 1000).current_now ≠ 0 ∧
    (process (raw_of_charges 3000 4000 1000) config_init battery_info_init).etd = Dbl.fin 10 ∧
    (process (raw_of_charges 3000 4000 1000) config_init battery_info_init).etd ≠
      DOUBLE_INVALID := by
  have h := C7_etd_value (raw_of_charges 3000 4000 1000) config_init battery_info_init
    (by decide) (by decide) (by decide) (by decide) (by decide) (by decide)
  have a : ((((raw_of_charges 3000 4000 1000).charge_full : Int) : ℚ) -
      (((raw_of_charges 3000 4000 1000).charge_now : Int) : ℚ)) /
      (((raw_of_charges 3000 4000 1000).current_now : Int) : ℚ) = 1 := by
    simp only [raw_of_charges]; norm_num
  have h3 := h.2.2 (by decide) (by decide) (by decide)
  rw [a] at h3
  refine ⟨by decide, by decide, by decide, by decide, by decide, by decide, ?_, h.2.1⟩
  rw [h3.2
    (Dbl.nearest_exact _ 1 0 (by norm_num) (by norm_num) (by norm_num) (by norm_num))
    (Dbl.nearest_exact _ 10 0 (by norm_num) (by norm_num) (by norm_num) (by norm_num))]
  norm_num

/-- C8 (witness). Present read as 1, online as 0 and charging-enabled as 2. -/
theorem C8_flags_tristate_witness :
    (battery_info_init.present = -1 ∧ battery_info_init.online = -1 ∧
      battery_info_init.charging_enabled = -1) ∧
    (process (raw_of_flags 1 0 2) config_init battery_info_init).present = 1 ∧
    (process (raw_of_flags 1 0 2) config_init battery_info_init).online = 0 ∧
    (process (raw_of_flags 1 0 2) config_init battery_info_init).charging_enabled = -1 := by
  have h := C8_flags_tristate (raw_of_flags 1 0 2) config_init battery_info_init
    ⟨rfl, rfl, rfl⟩
  exact ⟨⟨rfl, rfl, rfl⟩, h.1.1.mpr rfl, h.2.1.2.1.mpr rfl, h.2.2.2.2.mpr (by decide)⟩

/-- The double `4000 / 5000 * 100`: the quotient is rounded to the double next
to 0.8, and its product by 100 is rounded to 80. -/
theorem eighty_percent :
    Dbl.mul (Dbl.nearest (4000 / 5000)) (Dbl.fin 100) = Dbl.fin 80 := by
  have h1 : Dbl.nearest (4000 / 5000) = Dbl.fin (3602879701896397 / 4503599627370496) :=
    Dbl.nearest_cert_eq _ (-1) 7205759403792794 (by norm_num) (by norm_num) (by norm_num)
      (by norm_num) (by norm_num [abs_lt]) (by norm_num)
  rw [h1]
  simp only [Dbl.mul]
  exact Dbl.nearest_cert_eq _ 6 5629499534213120 (by norm_num) (by norm_num) (by norm_num)
    (by norm_num) (by norm_num [abs_lt]) (by norm_num)

/-- C9 (witness). Charge-full 4000 and charge-full-design 5000 give 80. -/
theorem C9_max_charge_witness :
    battery_info_init.max_charge = DOUBLE_INVALID ∧
    isLong (raw_of_design 3000 4000 5000).charge_full ∧
    isLong (raw_of_design 3000 4000 5000).charge_full_design ∧
    (process (raw_of_design 3000 4000 5000) config_init battery_info_init).max_charge =
      Dbl.fin 80 ∧
    (process (raw_of_design 3000 4000 5000) config_init battery_info_init).max_charge ≠
      DOUBLE_INVALID := by
  have h := C9_max_charge (raw_of_design 3000 4000 5000) config_init battery_info_init
    rfl (by decide) (by decide)
  refine ⟨rfl, by decide, by decide, ?_, h.1.mpr ⟨by decide, by decide⟩⟩
  rw [(h.2.2 (by decide) (by decide) (by decide) (by decide) (by decide)).1]
  have a : (((raw_of_design 3000 4000 5000).charge_full : Int) : ℚ) /
      (((raw_of_design 3000 4000 5000).charge_full_design : Int) : ℚ) = 4000 / 5000 := by
    simp only [raw_of_design]; norm_num
  rw [a]
  exact eighty_percent

/-- C10 (witness). Voltage-now 12500000, current-now 150000 and temperature 305
give 12.5 V, 1.5 A and 30.5 degrees. -/
theorem C10_scaled_readings_witness :
    (battery_info_init.voltage = DOUBLE_INVALID ∧ battery_info_init.current = DOUBLE_INVALID ∧
      battery_info_init.temperature = DOUBLE_INVALID) ∧
    (isLong (raw_of_readings 12500000 150000 305).voltage_now ∧
      isLong (raw_of_readings 12500000 150000 305).current_now ∧
      isLong (raw_of_readings 12500000 150000 305).temp) ∧
    (process (raw_of_readings 12500000 150000 305) config_init battery_info_init).voltage =
      Dbl.fin (25 / 2) ∧
    (process (raw_of_readings 12500000 150000 305) config_init battery_info_init).current =
      Dbl.fin (3 / 2) ∧
    (process (raw_of_readings 12500000 150000 305) config_init battery_info_init).temperature =
      Dbl.fin (61 / 2) := by
  have h := C10_scaled_readings (raw_of_readings 12500000 150000 305) config_init
    battery_info_init ⟨rfl, rfl, rfl⟩ ⟨by decide, by decide, by decide⟩
  refine ⟨⟨rfl, rfl, rfl⟩, ⟨by decide, by decide, by decide⟩, ?_, ?_, ?_⟩
  · rw [(h.1.2 (by decide)).2.2 (by decide)]
    have a : (((raw_of_readings 12500000 150000 305).voltage_now : Int) : ℚ) / 1000000 =
        25 / 2 := by norm_num [raw_of_readings]
    rw [a]
    exact Dbl.nearest_exact _ 25 (-1) (by norm_num) (by norm_num) (by norm_num)
      (by norm_num)
  · rw [(h.2.1.2 (by decide)).2.2 (by decide)]
    have a : (((raw_of_readings 12500000 150000 305).current_now : Int) : ℚ) / 100000 =
        3 / 2 := by norm_num [raw_of_readings]
    rw [a]
    exact Dbl.nearest_exact _ 3 (-1) (by norm_num) (by norm_num) (by norm_num)
      (by norm_num)
  · rw [(h.2.2.2 (by decide)).2.2 (by decide)]
    have a : (((raw_of_readings 12500000 150000 305).temp : Int) : ℚ) / 10 = 61 / 2 := by
      norm_num [raw_of_readings]
    rw [a]
    exact Dbl.nearest_exact _ 61 (-1) (by norm_num) (by norm_num) (by norm_num)
      (by norm_num)

/-- The double `((4000 - LONG_MIN) / 1000) * 10`: the difference
`4000 + 2^63` is rounded to `2^63 + 4096`, its quotient by 1000 to
9223372036854780, and the product by 10, which lies half way between two
doubles, to 92233720368547808. -/
theorem etd_from_marker :
    Dbl.mul
        (Dbl.div (Dbl.sub (Dbl.ofLong 4000) (Dbl.ofLong (-9223372036854775808)))
          (Dbl.ofLong 1000))
        (Dbl.fin 10) = Dbl.fin 92233720368547808 := by
  have h1 : Dbl.ofLong 4000 = Dbl.fin 4000 := by
    have := Dbl.ofLong_eq 4000 (by norm_num)
    simpa using this
  have h2 : Dbl.ofLong 1000 = Dbl.fin 1000 := by
    have := Dbl.ofLong_eq 1000 (by norm_num)
    simpa using this
  have h3 : Dbl.ofLong (-9223372036854775808) = Dbl.fin (-9223372036854775808) := by
    unfold Dbl.ofLong
    exact Dbl.nearest_exact _ (-1) 63 (by norm_num) (by norm_num) (by norm_num)
      (by norm_num)
  have h4 : Dbl.nearest ((4000 : ℚ) - (-9223372036854775808)) =
      Dbl.fin 9223372036854779904 :=
    Dbl.nearest_cert_eq _ 63 4503599627370498 (by norm_num) (by norm_num) (by norm_num)
      (by norm_num) (by norm_num [abs_lt]) (by norm_num)
  have h5 : Dbl.nearest ((9223372036854779904 : ℚ) / 1000) = Dbl.fin 9223372036854780 :=
    Dbl.nearest_cert_eq _ 53 4611686018427390 (by norm_num) (by norm_num) (by norm_num)
      (by norm_num) (by norm_num [abs_lt]) (by norm_num)
  have h6 : Dbl.nearest (92233720368547800 : ℚ) = Dbl.fin 92233720368547808 :=
    Dbl.nearest_cert_tie_odd _ 56 5764607523034237 (by norm_num) (by norm_num)
      (by norm_num) (by norm_num) (by norm_num) (by norm_num) (by norm_num)
  have e1 : (9223372036854780 : ℚ) * 10 = 92233720368547800 := by norm_num
  have hk : ¬ ((1000 : ℚ) = 0) := by norm_num
  rw [h1, h2, h3]
  simp only [Dbl.sub]
  rw [h4]
  simp only [Dbl.div, if_neg hk]
  rw [h5]
  simp only [Dbl.mul]
  rw [e1, h6]

/-- C6 (evaluation at the failing input). A first file with charge-full 4000 and
current-now 1000 and no charge-now line gives an estimated time to discharge
computed from the unset marker of charge-now: the double
`((4000 - LONG_MIN) / 1000) * 10`, which is 92233720368547808 and not the
"unavailable" marker. -/
theorem C6_etd_without_charge_now (cfg : config) (buf0 : List Char) :
    (get_battery_info
      (some "POWER_SUPPLY_CHARGE_FULL=4000\nPOWER_SUPPLY_CURRENT_NOW=1000\n".toList) none
      battery_info_init cfg buf0).2.etd = Dbl.fin 92233720368547808 ∧
    (get_battery_info
      (some "POWER_SUPPLY_CHARGE_FULL=4000\nPOWER_SUPPLY_CURRENT_NOW=1000\n".toList) none
      battery_info_init cfg buf0).2.etd ≠ DOUBLE_INVALID := by
  have hc : fgets_chunks 256
      "POWER_SUPPLY_CHARGE_FULL=4000\nPOWER_SUPPLY_CURRENT_NOW=1000\n".toList =
      [("POWER_SUPPLY_CHARGE_FULL", 25, slot.charge_full).1.toList ++ '=' :: "4000".toList ++
          "\n".toList,
        ("POWER_SUPPLY_CURRENT_NOW", 25, slot.current_now).1.toList ++ '=' :: "1000".toList ++
          "\n".toList] := by decide
  have hs1 : entry_sound uevent_keys ("POWER_SUPPLY_CHARGE_FULL", 25, .charge_full) :=
    uevent_keys_sound _ (by decide) (by decide)
  have hs2 : entry_sound uevent_keys ("POWER_SUPPLY_CURRENT_NOW", 25, .current_now) :=
    uevent_keys_sound _ (by decide) (by decide)
  have hp1 : (strtol_helper "4000".toList).2 = 4000 := by decide
  have hp2 : (strtol_helper "1000".toList).2 = 1000 := by decide
  have hraw : (read_uevent uevent_keys
      { raw := raw_longs_init, info := battery_info_init, buf := buf0 }
      "POWER_SUPPLY_CHARGE_FULL=4000\nPOWER_SUPPLY_CURRENT_NOW=1000\n".toList).raw =
      raw_of_charges LONG_INVALID 4000 1000 := by
    unfold read_uevent
    rw [hc, List.foldl_cons, List.foldl_cons, List.foldl_nil,
      uevent_line_key_value uevent_keys _ hs1 _ _ _ (by decide) (by decide) (by decide),
      uevent_line_key_value uevent_keys _ hs2 _ _ _ (by decide) (by decide) (by decide)]
    simp only [store, hp1, hp2]
    rfl
  have hinfo : (read_uevent uevent_keys
      { raw := raw_longs_init, info := battery_info_init, buf := buf0 }
      "POWER_SUPPLY_CHARGE_FULL=4000\nPOWER_SUPPLY_CURRENT_NOW=1000\n".toList).info =
      battery_info_init := by
    unfold read_uevent
    rw [hc, List.foldl_cons, List.foldl_cons, List.foldl_nil,
      uevent_line_key_value uevent_keys _ hs1 _ _ _ (by decide) (by decide) (by decide),
      uevent_line_key_value uevent_keys _ hs2 _ _ _ (by decide) (by decide) (by decide)]
    simp only [store]
  have hval : (get_battery_info
      (some "POWER_SUPPLY_CHARGE_FULL=4000\nPOWER_SUPPLY_CURRENT_NOW=1000\n".toList) none
      battery_info_init cfg buf0).2.etd = Dbl.fin 92233720368547808 := by
    rw [get_battery_info_uevent_only, hraw, hinfo, process_etd_val,
      if_pos ⟨by decide, by decide⟩]
    have e : raw_of_charges LONG_INVALID 4000 1000 =
        { raw_longs_init with
          charge_now := -9223372036854775808
          charge_full := 4000
          current_now := 1000 } := by
      unfold raw_of_charges
      rw [LONG_INVALID_eq]
    rw [e]
    exact etd_from_marker
  refine ⟨hval, ?_⟩
  rw [hval]
  exact fin_ne_DOUBLE_INVALID (Or.inr (le_trans
    (zpow_le_zpow_right₀ (by norm_num) (by norm_num : (-1021 : ℤ) ≤ 0)) (by norm_num)))

/-! ## The type check -/

/-- The loop of `compare_file_contents` leaves `len` at zero exactly when the
file starts with the string compared. -/
theorem compare_loop_eq_zero (s content : List Char) :
    compare_loop s content = 0 ↔ s <+: content := by
  induction s generalizing content with
  | nil => simp [compare_loop]
  | cons c s ih =>
      cases content with
      | nil => simp [compare_loop]
      | cons x rest =>
          by_cases hx : x = c
          · subst hx
            simp [compare_loop, ih, List.cons_prefix_cons]
          · have hx' : ¬ c = x := fun h => hx h.symm
            simp [compare_loop, hx, hx', List.cons_prefix_cons]

/-- The routine `compare_file_contents` returns 0 exactly when the file opens
and starts with the string compared. -/
theorem compare_file_contents_eq_zero (file : Option (List Char)) (s : List Char) :
    compare_file_contents file s = 0 ↔ ∃ content, file = some content ∧ s <+: content := by
  cases file with
  | none => simp [compare_file_contents]
  | some content =>
      simp only [compare_file_contents, Option.some.injEq, exists_eq_left']
      rw [← compare_loop_eq_zero]
      split_ifs with h
      · simp [h]
      · simp [h]

/-- An entry that the type check rejects writes nothing and does not change
the index of the next battery. -/
theorem list_all_loop_rejected (printf_2f : Dbl → List Char) (infostr : List Char)
    (cfg : config) (e : dir_entry) (rest : List dir_entry) (battery : Int)
    (h : compare_file_contents e.type_file "Battery".toList ≠ 0) :
    list_all_loop printf_2f infostr cfg (e :: rest) battery =
      list_all_loop printf_2f infostr cfg rest battery := by
  simp only [list_all_loop, h, if_false, ite_self]

/-- C11 (counterexample). A type file that holds `Battery` followed by a
newline, or by an `x`, passes the type check. -/
theorem C11_type_check_counterexample :
    compare_file_contents (some "Battery\n".toList) "Battery".toList = 0 ∧
    compare_file_contents (some "Batteryx".toList) "Battery".toList = 0 := by
  decide

/-- C11 (amended). The type check accepts an entry exactly when its type file
opens and its content starts with the 7 bytes `Battery`; a missing file is
rejected; and the entries that the check rejects are never listed: the loop of
`list_all_battery_info` writes what it writes on the accepted entries alone. -/
theorem C11_type_check_prefix :
    (∀ file : Option (List Char),
      compare_file_contents file "Battery".toList = 0 ↔
        ∃ content, file = some content ∧ "Battery".toList <+: content) ∧
    compare_file_contents none "Battery".toList = -1 ∧
    (∀ (printf_2f : Dbl → List Char) (infostr : List Char) (cfg : config)
      (entries : List dir_entry) (battery : Int),
      list_all_loop printf_2f infostr cfg entries battery =
        list_all_loop printf_2f infostr cfg
          (entries.filter
            (fun e => decide (compare_file_contents e.type_file "Battery".toList = 0)))
          battery) := by
  refine ⟨fun file => compare_file_contents_eq_zero file _, rfl, ?_⟩
  intro printf_2f infostr cfg entries
  induction entries with
  | nil => intro battery; rfl
  | cons e rest ih =>
      intro battery
      by_cases h : compare_file_contents e.type_file "Battery".toList = 0
      · rw [List.filter_cons_of_pos (by simpa using h)]
        simp only [list_all_loop, h, if_true, ih]
      · rw [List.filter_cons_of_neg (by simpa using h),
          list_all_loop_rejected printf_2f infostr cfg e rest battery h]
        exact ih battery

/-! ## The status of `get_battery_info` -/

/-- The status of `get_battery_info` is -1 when no file opens and 0 otherwise;
with no file the record is not touched. -/
theorem get_battery_info_status (uevent device_uevent : Option (List Char))
    (info : battery_info) (cfg : config) (buf0 : List Char) :
    ((get_battery_info uevent device_uevent info cfg buf0).1 = -1 ↔
        (uevent = none ∧ device_uevent = none)) ∧
    ((get_battery_info uevent device_uevent info cfg buf0).1 = -1 ∨
        (get_battery_info uevent device_uevent info cfg buf0).1 = 0) ∧
    ((uevent = none ∧ device_uevent = none) →
        (get_battery_info uevent device_uevent info cfg buf0).2 = info) := by
  cases uevent <;> cases device_uevent <;> simp [get_battery_info]

/-- C12. `get_battery_info` returns -1 exactly when neither file opens, and 0
otherwise; when it returns -1 the record is as it was on entry and
`list_battery_info` returns -1 having written nothing; when a file opens,
`list_battery_info` returns 0 and writes a record: the record start, the fields
of the record of `get_battery_info`, and the record end, whatever the files
hold. -/
theorem C12_unreadable_device (printf_2f : Dbl → List Char) (battery : Int) (e : dir_entry)
    (infostr : List Char) (cfg : config) (info : battery_info) :
    ((get_battery_info e.uevent e.device_uevent info cfg e.buf0).1 = -1 ↔
        (e.uevent = none ∧ e.device_uevent = none)) ∧
    ((get_battery_info e.uevent e.device_uevent info cfg e.buf0).1 ≠ -1 →
        (get_battery_info e.uevent e.device_uevent info cfg e.buf0).1 = 0) ∧
    ((get_battery_info e.uevent e.device_uevent info cfg e.buf0).1 = -1 →
        (get_battery_info e.uevent e.device_uevent info cfg e.buf0).2 = info) ∧
    ((e.uevent = none ∧ e.device_uevent = none) →
        list_battery_info printf_2f battery e infostr cfg = (-1, [])) ∧
    (¬ (e.uevent = none ∧ e.device_uevent = none) →
        (list_battery_info printf_2f battery e infostr cfg).1 = 0 ∧
        (list_battery_info printf_2f battery e infostr cfg).2 =
          battery_info_output_start battery cfg ++
            ((field_calls
                (get_battery_info e.uevent e.device_uevent battery_info_init cfg e.buf0).2
                (if cfg.has CONFIG_FLAG_OUTPUT_ALL then COMPLETE_OUTPUT_SEQUENCE.toList
                 else infostr)).map (output_call printf_2f cfg)).flatten ++
            battery_info_output_end cfg ∧
        (list_battery_info printf_2f battery e infostr cfg).2 ≠ []) := by
  have hs := get_battery_info_status e.uevent e.device_uevent info cfg e.buf0
  have hs0 := get_battery_info_status e.uevent e.device_uevent battery_info_init cfg e.buf0
  refine ⟨hs.1, ?_, ?_, ?_, ?_⟩
  · intro h
    rcases hs.2.1 with h1 | h1
    · exact absurd h1 h
    · exact h1
  · intro h
    exact hs.2.2 (hs.1.mp h)
  · intro h
    have h1 := hs0.1.mpr h
    simp [list_battery_info, h1]
  · intro h
    have h1 : (get_battery_info e.uevent e.device_uevent battery_info_init cfg e.buf0).1 = 0 := by
      rcases hs0.2.1 with h2 | h2
      · exact absurd (hs0.1.mp h2) h
      · exact h2
    have hstart : battery_info_output_start battery cfg ≠ [] := by
      unfold battery_info_output_start
      cases cfg.output_format <;> simp
    refine ⟨by simp [list_battery_info, h1], by simp [list_battery_info, h1], ?_⟩
    simp only [list_battery_info, h1]
    simp [hstart]

/-! ## Decimal text and `strtol` -/

theorem digitChar_lt_ten :
    ∀ k : Nat, k < 10 → isdigit (Nat.digitChar k) = true ∧ (Nat.digitChar k).toNat - 48 = k := by
  decide

theorem isdigit_not_special (c : Char) (h : isdigit c = true) :
    isspace c = false ∧ c ≠ '-' ∧ c ≠ '+' ∧ c ≠ NUL ∧ c.toNat ≠ 10 := by
  simp only [isdigit, Bool.and_eq_true, decide_eq_true_eq] at h
  refine ⟨?_, ?_, ?_, ?_, ?_⟩
  · simp only [isspace, Bool.or_eq_false_iff, beq_eq_false_iff_ne, Bool.and_eq_false_imp,
      decide_eq_true_eq, decide_eq_false_iff_not]
    omega
  · intro e; rw [e] at h; revert h; decide
  · intro e; rw [e] at h; revert h; decide
  · intro e; rw [e] at h; revert h; decide
  · omega

theorem digits_value_snoc (ds : List Char) (d : Char) :
    digits_value (ds ++ [d]) = 10 * digits_value ds + (d.toNat - 48) := by
  simp [digits_value, List.foldl_append]

/-- The digits that `Nat.toDigitsCore` puts before `ds`, with enough fuel:
a non-empty run of decimal digits that denotes `n`. -/
theorem toDigitsCore_spec (fuel : Nat) :
    ∀ (n : Nat) (ds : List Char), n < fuel →
      ∃ pre, Nat.toDigitsCore 10 fuel n ds = pre ++ ds ∧ pre ≠ [] ∧
        (∀ c ∈ pre, isdigit c = true) ∧ digits_value pre = n := by
  induction fuel with
  | zero => intro n ds h; omega
  | succ fuel ih =>
      intro n ds h
      have hd := digitChar_lt_ten (n % 10) (Nat.mod_lt _ (by decide))
      unfold Nat.toDigitsCore
      by_cases h0 : n / 10 = 0
      · refine ⟨[Nat.digitChar (n % 10)], by simp [h0], by simp, by simpa using hd.1, ?_⟩
        have : n < 10 := by omega
        simp [digits_value, hd.2]
        omega
      · have hlt : n / 10 < fuel := by omega
        obtain ⟨pre, hpre, _, hdig, hval⟩ := ih (n / 10) (Nat.digitChar (n % 10) :: ds) hlt
        refine ⟨pre ++ [Nat.digitChar (n % 10)], by simp [h0, hpre], by simp, ?_, ?_⟩
        · intro c hc
          rcases List.mem_append.mp hc with h1 | h1
          · exact hdig c h1
          · rw [List.mem_singleton.mp h1]; exact hd.1
        · rw [digits_value_snoc, hval, hd.2]
          omega

/-- The decimal text of a natural number: a non-empty run of digits that
denotes it. -/
theorem toDigits_spec (n : Nat) :
    Nat.toDigits 10 n ≠ [] ∧ (∀ c ∈ Nat.toDigits 10 n, isdigit c = true) ∧
      digits_value (Nat.toDigits 10 n) = n := by
  obtain ⟨pre, hpre, hne, hdig, hval⟩ := toDigitsCore_spec (n + 1) n [] (by omega)
  have : Nat.toDigits 10 n = pre := by simp [Nat.toDigits, hpre]
  rw [this]
  exact ⟨hne, hdig, hval⟩

/-- The function `strtol` on a non-empty run of digits within `long`. -/
theorem strtol_digits (ds : List Char) (hne : ds ≠ []) (hd : ∀ c ∈ ds, isdigit c = true)
    (hmax : (digits_value ds : Int) ≤ LONG_MAX) :
    strtol ds = { value := (digits_value ds : Int), endptr := ds.length, errno := 0 } := by
  obtain ⟨a, l, rfl⟩ := List.exists_cons_of_ne_nil hne
  have ha := isdigit_not_special a (hd a (by simp))
  have htw : (a :: l).takeWhile isdigit = a :: l :=
    List.takeWhile_eq_self_iff.mpr (fun c hc => hd c hc)
  have hmin : ¬ ((digits_value (a :: l) : Int) < LONG_MIN) := by
    have : (0 : Int) ≤ (digits_value (a :: l) : Int) := Int.natCast_nonneg _
    unfold LONG_MIN
    omega
  have hmax' : ¬ ((digits_value (a :: l) : Int) > LONG_MAX) := not_lt.mpr hmax
  unfold strtol
  simp only [List.takeWhile_cons, List.dropWhile_cons, ha.1, List.head?_cons,
    Option.some.injEq, Bool.false_eq_true, if_false]
  have h1 : (some a == some '-') = false := by simpa using ha.2.1
  have h2 : (some a == some '+') = false := by simpa using ha.2.2.1
  simp only [h1, h2, Bool.or_self, Bool.false_eq_true, if_false]
  rw [htw]
  simp only [List.isEmpty_cons, Bool.false_eq_true, if_false, List.length_nil, Nat.zero_add]
  change (if (digits_value (a :: l) : Int) < LONG_MIN then _ else _) = _
  rw [if_neg hmin]
  exact if_neg hmax'

/-- The function `strtol` on a minus sign and a non-empty run of digits within
`long`. -/
theorem strtol_neg_digits (ds : List Char) (hne : ds ≠ [])
    (hd : ∀ c ∈ ds, isdigit c = true) (hmin : LONG_MIN ≤ -(digits_value ds : Int)) :
    strtol ('-' :: ds) =
      { value := -(digits_value ds : Int), endptr := ds.length + 1, errno := 0 } := by
  have htw : ds.takeWhile isdigit = ds :=
    List.takeWhile_eq_self_iff.mpr (fun c hc => hd c hc)
  have hmin' : ¬ (-(digits_value ds : Int) < LONG_MIN) := not_lt.mpr hmin
  have hmax' : ¬ (-(digits_value ds : Int) > LONG_MAX) := by
    have : (0 : Int) ≤ (digits_value ds : Int) := Int.natCast_nonneg _
    unfold LONG_MAX
    omega
  have hsp : isspace '-' = false := by decide
  have hemp : ds.isEmpty = false := by
    cases ds with
    | nil => exact absurd rfl hne
    | cons a l => rfl
  unfold strtol
  simp only [List.takeWhile_cons, List.dropWhile_cons, hsp, List.head?_cons,
    Bool.false_eq_true, if_false, beq_self_eq_true, Bool.true_or, if_true, List.tail_cons]
  rw [htw]
  simp only [hemp, Bool.false_eq_true, if_false, List.length_nil, Nat.zero_add]
  change (if -(digits_value ds : Int) < LONG_MIN then _ else _) = _
  rw [if_neg hmin']
  refine (if_neg hmax').trans ?_
  rw [Nat.add_comm]
  rfl

/-- The routine `strtol_helper` reads a `long` back from its decimal text. -/
theorem strtol_helper_decimal (v : Int) (hv : isLong v) :
    strtol_helper (decimal v) = (0, v) := by
  obtain ⟨hne, hdig, hval⟩ := toDigits_spec v.natAbs
  unfold decimal
  by_cases hneg : v < 0
  · rw [if_pos hneg]
    have habs : -(digits_value (Nat.toDigits 10 v.natAbs) : Int) = v := by
      rw [hval]; omega
    have hs := strtol_neg_digits _ hne hdig (by rw [habs]; exact hv.1)
    unfold strtol_helper
    rw [hs]
    simp only [habs]
    have hget : ('-' :: Nat.toDigits 10 v.natAbs).getD ((Nat.toDigits 10 v.natAbs).length + 1)
        NUL = NUL := by
      rw [List.getD_eq_default]
      simp
    simp [hget]
  · rw [if_neg hneg]
    have habs : (digits_value (Nat.toDigits 10 v.natAbs) : Int) = v := by
      rw [hval]; omega
    have hs := strtol_digits _ hne hdig (by rw [habs]; exact hv.2)
    unfold strtol_helper
    rw [hs]
    simp only [habs]
    have hget : (Nat.toDigits 10 v.natAbs).getD (Nat.toDigits 10 v.natAbs).length NUL = NUL := by
      rw [List.getD_eq_default]
      simp
    have hlen : (Nat.toDigits 10 v.natAbs).length ≠ 0 := by
      intro h; exact hne (List.length_eq_zero.mp h)
    simp [hget, hlen]

/-- The decimal text of a `long` is a value text: no NUL, no newline, an end
that is not white space, and 20 characters at most. -/
theorem decimal_text (v : Int) (hv : isLong v) :
    NUL ∉ decimal v ∧ (∀ c ∈ decimal v, c.toNat ≠ 10) ∧
      isspace ((decimal v).getLast?.getD '=') = false ∧ (decimal v).length ≤ 20 := by
  obtain ⟨hne, hdig, _⟩ := toDigits_spec v.natAbs
  have hall : ∀ c ∈ decimal v, c = '-' ∨ isdigit c = true := by
    intro c hc
    unfold decimal at hc
    split_ifs at hc
    · rcases List.mem_cons.mp hc with h | h
      · exact Or.inl h
      · exact Or.inr (hdig c h)
    · exact Or.inr (hdig c hc)
  have hlast : ∃ init d, decimal v = init ++ [d] ∧ isdigit d = true := by
    obtain ⟨init, d, hid⟩ : ∃ init d, Nat.toDigits 10 v.natAbs = init ++ [d] :=
      ⟨_, _, (List.dropLast_append_getLast hne).symm⟩
    have hd : isdigit d = true := hdig d (by rw [hid]; simp)
    unfold decimal
    split_ifs
    · exact ⟨'-' :: init, d, by rw [hid]; simp, hd⟩
    · exact ⟨init, d, hid, hd⟩
  have hlen : (Nat.toDigits 10 v.natAbs).length ≤ 19 := by
    have hb : v.natAbs < 10 ^ 19 := by
      have h1 := hv.1
      have h2 := hv.2
      unfold LONG_MIN at h1
      unfold LONG_MAX at h2
      omega
    exact Nat.toDigitsCore_length 10 (by decide) _ _ 19 hb (by decide)
  refine ⟨?_, ?_, ?_, ?_⟩
  · intro hmem
    rcases hall NUL hmem with h | h
    · exact absurd h (by decide)
    · exact (isdigit_not_special NUL h).2.2.2.1 rfl
  · intro c hc
    rcases hall c hc with h | h
    · rw [h]; decide
    · exact (isdigit_not_special c h).2.2.2.2
  · obtain ⟨init, d, hid, hd⟩ := hlast
    rw [hid, getLast?_snoc]
    exact (isdigit_not_special d hd).1
  · unfold decimal
    split_ifs
    · simp only [List.length_cons]; omega
    · omega

/-! ## Frames of the helper calls -/

/-- A helper call changes no destination but its own. -/
theorem store_frame (sl sl' : slot) (arg : List Char) (st : reader_state) (h : sl' ≠ sl) :
    slot_value sl' (store sl arg st) = slot_value sl' st := by
  cases sl <;> cases sl' <;> first | exact absurd rfl h | rfl

/-- A helper call changes no double and no flag of the record. -/
theorem store_info_numbers (sl : slot) (arg : List Char) (st : reader_state) :
    info_numbers (store sl arg st).info = info_numbers st.info := by
  cases sl <;> rfl

/-- The destination of a helper call afterwards: the `long` left by
`strtol_helper`, or the copy of the string. -/
theorem store_value (sl : slot) (arg : List Char) (st : reader_state) :
    slot_value sl (store sl arg st) =
      if sl.is_long then .inl (strtol_helper arg).2 else .inr (some arg) := by
  cases sl <;> rfl

/-- The array `buf` has no part in the content of a destination. -/
theorem slot_value_buf (sl : slot) (st : reader_state) (b : List Char) :
    slot_value sl { st with buf := b } = slot_value sl st := by
  cases sl <;> rfl

/-- When `strtol_helper` fails it leaves the unset marker. -/
theorem strtol_helper_fail (s : List Char) (h : (strtol_helper s).1 ≠ 0) :
    strtol_helper s = (-1, LONG_INVALID) := by
  unfold strtol_helper at h ⊢
  simp only at h ⊢
  split_ifs at h ⊢ with hc
  · rfl
  · exact absurd rfl h

set_option maxRecDepth 100000 in
/-- Every entry of the first chain is selected by its own lines. -/
theorem uevent_keys_selected : ∀ e ∈ uevent_keys, entry_selected uevent_keys e := by
  decide

/-- The entry of the second chain is selected by its own lines. -/
theorem device_uevent_keys_selected :
    ∀ e ∈ device_uevent_keys, entry_selected device_uevent_keys e := by
  decide

/-- A line `key=V` of a selected entry is a text line that takes the branch of
the entry. -/
theorem selected_line (keys : List (String × Nat × slot)) (e : String × Nat × slot)
    (hs : entry_selected keys e) (V ws : List Char) (hV : NUL ∉ V)
    (hws : ∀ c ∈ ws, isspace c = true) (hlast : isspace (V.getLast?.getD '=') = false) :
    text_line (key_line e.1 V) ws ∧
      keys.find? (fun k => k.1.toList.isPrefixOf (key_line e.1 V)) = some e := by
  obtain ⟨hpos, hnul, hfind, hall⟩ := hs
  unfold key_line
  have hbody : e.1.toList ++ '=' :: V = (e.1.toList ++ ['=']) ++ V := by simp
  refine ⟨⟨?_, ?_, hws, ?_⟩, ?_⟩
  · intro hmem
    rcases List.mem_append.mp hmem with h1 | h1
    · exact hnul h1
    · rcases List.mem_cons.mp h1 with h2 | h2
      · exact absurd h2 (by decide)
      · exact hV h2
  · simp only [List.length_append, List.length_cons]
    omega
  · cases V using List.reverseRecOn with
    | nil =>
        rw [getLast?_snoc]
        decide
    | append_singleton V a _ =>
        have e1 : e.1.toList ++ '=' :: (V ++ [a]) = (e.1.toList ++ '=' :: V) ++ [a] := by simp
        rw [getLast?_snoc] at hlast
        rw [e1, getLast?_snoc]
        exact hlast
  · rw [← hfind, hbody]
    apply find?_ext_mem
    intro k hk
    exact isPrefixOf_append_head _ _ _ (hall k hk)

/-- One iteration on a line `key=V` of a selected entry is the helper call of
the entry, on some string. -/
theorem uevent_line_selected (keys : List (String × Nat × slot)) (e : String × Nat × slot)
    (hs : entry_selected keys e) (st : reader_state) (V ws : List Char) (hV : NUL ∉ V)
    (hws : ∀ c ∈ ws, isspace c = true) (hlast : isspace (V.getLast?.getD '=') = false) :
    ∃ (arg b : List Char),
      uevent_line keys st (key_line e.1 V ++ ws) = store e.2.2 arg { st with buf := b } := by
  obtain ⟨htl, hfind⟩ := selected_line keys e hs V ws hV hws hlast
  refine ⟨cstr_at (key_line e.1 V ++ NUL :: stale st.buf (key_line e.1 V) ws) e.2.1,
    key_line e.1 V ++ NUL :: stale st.buf (key_line e.1 V) ws, ?_⟩
  rw [uevent_line_text keys st _ ws htl, hfind]

/-- A line `key=V` of a selected entry changes no destination but the one of
the entry, and no double or flag of the record. -/
theorem uevent_line_frame (keys : List (String × Nat × slot)) (e : String × Nat × slot)
    (hs : entry_selected keys e) (st : reader_state) (V ws : List Char) (hV : NUL ∉ V)
    (hws : ∀ c ∈ ws, isspace c = true) (hlast : isspace (V.getLast?.getD '=') = false) :
    (∀ sl, sl ≠ e.2.2 →
      slot_value sl (uevent_line keys st (key_line e.1 V ++ ws)) = slot_value sl st) ∧
    info_numbers (uevent_line keys st (key_line e.1 V ++ ws)).info = info_numbers st.info := by
  obtain ⟨arg, b, h⟩ := uevent_line_selected keys e hs st V ws hV hws hlast
  rw [h]
  refine ⟨fun sl hsl => ?_, ?_⟩
  · rw [store_frame _ _ _ _ hsl, slot_value_buf]
  · rw [store_info_numbers]

/-- One iteration on a line `key=V` of a sound entry, by destinations: the
destination of the entry gets `V` through its helper. -/
theorem uevent_line_value (keys : List (String × Nat × slot)) (e : String × Nat × slot)
    (hs : entry_sound keys e) (st : reader_state) (V ws : List Char) (hV : NUL ∉ V)
    (hws : ∀ c ∈ ws, isspace c = true) (hlast : isspace (V.getLast?.getD '=') = false) :
    slot_value e.2.2 (uevent_line keys st (key_line e.1 V ++ ws)) =
      if e.2.2.is_long then .inl (strtol_helper V).2 else .inr (some V) := by
  have h := uevent_line_key_value keys e hs st V ws hV hws hlast
  unfold key_line
  rw [h, store_value]

/-! ## Parse failures and the frame of a line -/

theorem entry_sound_selected (keys : List (String × Nat × slot)) (e : String × Nat × slot)
    (hs : entry_sound keys e) : entry_selected keys e :=
  ⟨hs.1, hs.2.1, hs.2.2.1, hs.2.2.2.2⟩

/-- On a line `key=V` of a sound numeric entry whose value `V` does not parse,
the destination of the entry is unset afterwards, every other destination and
every double and flag of the record is as before, and the loop goes on with
the lines that follow. -/
theorem parse_failure_unsets_slot (keys : List (String × Nat × slot))
    (e : String × Nat × slot) (hs : entry_sound keys e) (hl : e.2.2.is_long = true)
    (st : reader_state) (V ws : List Char) (hV : NUL ∉ V) (hws : ∀ c ∈ ws, isspace c = true)
    (hlast : isspace (V.getLast?.getD '=') = false) (hfail : (strtol_helper V).1 ≠ 0)
    (rest : List (List Char)) :
    slot_value e.2.2 (uevent_line keys st (key_line e.1 V ++ ws)) = .inl LONG_INVALID ∧
    (∀ sl, sl ≠ e.2.2 →
      slot_value sl (uevent_line keys st (key_line e.1 V ++ ws)) = slot_value sl st) ∧
    info_numbers (uevent_line keys st (key_line e.1 V ++ ws)).info = info_numbers st.info ∧
    ((key_line e.1 V ++ ws) :: rest).foldl (uevent_line keys) st =
      rest.foldl (uevent_line keys) (uevent_line keys st (key_line e.1 V ++ ws)) := by
  have hf := uevent_line_frame keys e (entry_sound_selected keys e hs) st V ws hV hws hlast
  refine ⟨?_, hf.1, hf.2, rfl⟩
  rw [uevent_line_value keys e hs st V ws hV hws hlast, hl, if_pos rfl,
    strtol_helper_fail V hfail]

/-- C13 (evaluation at the failing input). The value `x1` does not parse, yet
the line `POWER_SUPPLY_ONLINE=x1` leaves the online local at 1 and not at the
unset marker: the helper of the online branch gets `1`, the value without its
first character. -/
theorem C13_online_bad_value_not_unset (st : reader_state) :
    strtol_helper "x1".toList = (-1, LONG_INVALID) ∧
    slot_value .online (uevent_line uevent_keys st "POWER_SUPPLY_ONLINE=x1\n".toList) =
      .inl 1 := by
  have hchunk : "POWER_SUPPLY_ONLINE=x1\n".toList =
      "POWER_SUPPLY_ONLINE=x1".toList ++ "\n".toList := by decide
  have hline := uevent_line_match uevent_keys st "POWER_SUPPLY_ONLINE=x1".toList "\n".toList
    ("POWER_SUPPLY_ONLINE", 21, .online) (by decide) (by decide) (by decide)
  have hdrop : List.drop 21 "POWER_SUPPLY_ONLINE=x1".toList = ['1'] := by decide
  have hparse : (strtol_helper ['1']).2 = 1 := by decide
  refine ⟨by decide, ?_⟩
  rw [hchunk, hline]
  simp only [hdrop]
  rw [store_value]
  simp only [slot.is_long, if_true, hparse]

/-- One iteration on a chunk that holds a whole line: a line
`POWER_SUPPLY_CHARGE_FULL_DESIGN=v` sets the charge-full-design
local to `v` and changes no other destination, the charge-full local among
them; a line `POWER_SUPPLY_CHARGE_FULL=v` sets the charge-full local to `v` and
changes no other destination; and a line `key=V` of any key of the two chains
changes no destination but the one of its key, and no double or flag of the
record. -/
theorem key_line_frame (st : reader_state) (v : Int) (hv : isLong v) (ws : List Char)
    (hws : ∀ c ∈ ws, isspace c = true) :
    (slot_value .charge_full_design
        (uevent_line uevent_keys st
          (key_line "POWER_SUPPLY_CHARGE_FULL_DESIGN" (decimal v) ++ ws)) = .inl v ∧
      ∀ sl, sl ≠ slot.charge_full_design →
        slot_value sl
          (uevent_line uevent_keys st
            (key_line "POWER_SUPPLY_CHARGE_FULL_DESIGN" (decimal v) ++ ws)) =
          slot_value sl st) ∧
    (slot_value .charge_full
        (uevent_line uevent_keys st
          (key_line "POWER_SUPPLY_CHARGE_FULL" (decimal v) ++ ws)) = .inl v ∧
      ∀ sl, sl ≠ slot.charge_full →
        slot_value sl
          (uevent_line uevent_keys st
            (key_line "POWER_SUPPLY_CHARGE_FULL" (decimal v) ++ ws)) =
          slot_value sl st) ∧
    (∀ e ∈ uevent_keys, ∀ V : List Char, NUL ∉ V → isspace (V.getLast?.getD '=') = false →
      (∀ sl, sl ≠ e.2.2 →
        slot_value sl (uevent_line uevent_keys st (key_line e.1 V ++ ws)) = slot_value sl st) ∧
      info_numbers (uevent_line uevent_keys st (key_line e.1 V ++ ws)).info =
        info_numbers st.info) ∧
    (∀ e ∈ device_uevent_keys, ∀ V : List Char, NUL ∉ V →
      isspace (V.getLast?.getD '=') = false →
      (∀ sl, sl ≠ e.2.2 →
        slot_value sl (uevent_line device_uevent_keys st (key_line e.1 V ++ ws)) =
          slot_value sl st) ∧
      info_numbers (uevent_line device_uevent_keys st (key_line e.1 V ++ ws)).info =
        info_numbers st.info) := by
  obtain ⟨hnul, _, hlast, _⟩ := decimal_text v hv
  have hparse := strtol_helper_decimal v hv
  have hs1 : entry_sound uevent_keys
      ("POWER_SUPPLY_CHARGE_FULL_DESIGN", 32, slot.charge_full_design) :=
    uevent_keys_sound _ (by decide) (by decide)
  have hs2 : entry_sound uevent_keys ("POWER_SUPPLY_CHARGE_FULL", 25, slot.charge_full) :=
    uevent_keys_sound _ (by decide) (by decide)
  refine ⟨⟨?_, ?_⟩, ⟨?_, ?_⟩, ?_, ?_⟩
  · have h := uevent_line_value uevent_keys _ hs1 st (decimal v) ws hnul hws hlast
    simp only [slot.is_long, if_true, hparse] at h
    exact h
  · exact (uevent_line_frame uevent_keys _ (entry_sound_selected _ _ hs1) st (decimal v) ws
      hnul hws hlast).1
  · have h := uevent_line_value uevent_keys _ hs2 st (decimal v) ws hnul hws hlast
    simp only [slot.is_long, if_true, hparse] at h
    exact h
  · exact (uevent_line_frame uevent_keys _ (entry_sound_selected _ _ hs2) st (decimal v) ws
      hnul hws hlast).1
  · intro e he V hV hl
    exact uevent_line_frame uevent_keys e (uevent_keys_selected e he) st V ws hV hws hl
  · intro e he V hV hl
    exact uevent_line_frame device_uevent_keys e (device_uevent_keys_selected e he) st V ws
      hV hws hl

/-! ## The chunks of a file -/

theorem NL_toNat : NL.toNat = 10 := by decide

/-- One call of `fgets` on a line that fits the array: the line and its
newline. -/
theorem fgets_chunks_from_line (size : Nat) (body rest acc : List Char)
    (hnl : ∀ c ∈ body, c.toNat ≠ 10) (hfit : acc.length + body.length + 2 ≤ size) :
    fgets_chunks_from size acc (body ++ NL :: rest) =
      (acc.reverse ++ body ++ [NL]) :: fgets_chunks_from size [] rest := by
  induction body generalizing acc with
  | nil =>
      simp [fgets_chunks_from, NL_toNat]
  | cons b body ih =>
      have hb : b.toNat ≠ 10 := hnl b (by simp)
      have hsz : ¬ (size ≤ acc.length + 2) := by
        simp only [List.length_cons] at hfit; omega
      have hrec := ih (b :: acc) (fun c hc => hnl c (by simp [hc]))
        (by simp only [List.length_cons] at hfit ⊢; omega)
      have hstep : fgets_chunks_from size acc (b :: (body ++ NL :: rest)) =
          fgets_chunks_from size (b :: acc) (body ++ NL :: rest) := by
        simp only [fgets_chunks_from, hb, hsz, or_self, if_false]
      rw [List.cons_append, hstep, hrec]
      simp

/-- A file of lines that fit the array is read line by line. -/
theorem fgets_chunks_file_of_lines (lines : List (List Char))
    (h : ∀ l ∈ lines, (∀ c ∈ l, c.toNat ≠ 10) ∧ l.length ≤ 254) :
    fgets_chunks 256 (file_of_lines lines) = lines.map (fun l => l ++ [NL]) := by
  unfold fgets_chunks
  induction lines with
  | nil => rfl
  | cons l lines ih =>
      have hl := h l (by simp)
      have hrest := ih (fun l' hl' => h l' (by simp [hl']))
      have e : file_of_lines (l :: lines) = l ++ NL :: file_of_lines lines := by
        simp [file_of_lines]
      rw [e, fgets_chunks_from_line 256 l _ [] hl.1 (by simp; omega), hrest]
      simp

/-- Every chunk is made of characters of the file and of the call in
progress, and is not empty. -/
theorem fgets_chunks_from_mem (size : Nat) (content acc : List Char) :
    ∀ c ∈ fgets_chunks_from size acc content,
      c ≠ [] ∧ ∀ x ∈ c, x ∈ acc ∨ x ∈ content := by
  induction content generalizing acc with
  | nil =>
      intro c hc
      unfold fgets_chunks_from at hc
      split_ifs at hc with he
      · simp at hc
      · rw [List.mem_singleton] at hc
        subst hc
        refine ⟨?_, fun x hx => Or.inl (by simpa using hx)⟩
        intro h0
        apply he
        have : acc = [] := by simpa using h0
        rw [this]; rfl
  | cons a content ih =>
      intro c hc
      unfold fgets_chunks_from at hc
      split_ifs at hc with hcond
      · rcases List.mem_cons.mp hc with h1 | h1
        · subst h1
          refine ⟨by simp, fun x hx => ?_⟩
          have hx' : x ∈ a :: acc := List.mem_reverse.mp hx
          rcases List.mem_cons.mp hx' with h2 | h2
          · exact Or.inr (by simp [h2])
          · exact Or.inl h2
        · obtain ⟨hne, hmem⟩ := ih [] c h1
          refine ⟨hne, fun x hx => ?_⟩
          rcases hmem x hx with h2 | h2
          · simp at h2
          · exact Or.inr (by simp [h2])
      · obtain ⟨hne, hmem⟩ := ih (a :: acc) c hc
        refine ⟨hne, fun x hx => ?_⟩
        rcases hmem x hx with h2 | h2
        · rcases List.mem_cons.mp h2 with h3 | h3
          · exact Or.inr (by simp [h3])
          · exact Or.inl h3
        · exact Or.inr (by simp [h2])

/-- The chunks of a file without NUL are not empty and hold no NUL. -/
theorem fgets_chunks_text (size : Nat) (content : List Char) (h : NUL ∉ content) :
    ∀ c ∈ fgets_chunks size content, c ≠ [] ∧ NUL ∉ c := by
  intro c hc
  obtain ⟨hne, hmem⟩ := fgets_chunks_from_mem size content [] c hc
  refine ⟨hne, fun hn => ?_⟩
  rcases hmem NUL hn with h1 | h1
  · simp at h1
  · exact h h1

/-! ## Blank chunks and the white space at the end of a chunk -/

/-- A chunk is its text without trailing white space, then white space. -/
theorem rstrip_split (c : List Char) :
    c = rstrip c ++ (c.reverse.takeWhile isspace).reverse ∧
      (∀ x ∈ (c.reverse.takeWhile isspace).reverse, isspace x = true) ∧
      ((rstrip c).getLast?).all (fun x => !isspace x) = true := by
  refine ⟨?_, ?_, ?_⟩
  · unfold rstrip
    rw [← List.reverse_append, List.takeWhile_append_dropWhile, List.reverse_reverse]
  · intro x hx
    exact List.mem_takeWhile_imp (List.mem_reverse.mp hx)
  · unfold rstrip
    rw [List.getLast?_reverse]
    have h := List.head?_dropWhile_not isspace c.reverse
    cases hh : (List.dropWhile isspace c.reverse).head? with
    | none => rfl
    | some a =>
        rw [hh] at h
        simpa using h

/-- The text of a text line is the line without its trailing white space. -/
theorem rstrip_text_line (body ws : List Char) (h : text_line body ws) :
    rstrip (body ++ ws) = body := by
  obtain ⟨_, hlen, hws, hlast⟩ := h
  unfold rstrip
  rw [List.reverse_append,
    List.dropWhile_append_of_pos (fun a ha => hws a (List.mem_reverse.mp ha))]
  obtain ⟨init, x, rfl⟩ : ∃ init x, body = init ++ [x] := by
    have hb : body ≠ [] := by intro e; rw [e] at hlen; simp at hlen
    exact ⟨_, _, (List.dropLast_append_getLast hb).symm⟩
  rw [getLast?_snoc, Option.getD_some] at hlast
  simp [hlast]

/-- The loop that strips white space goes down to 0 over white space. -/
theorem strip_index_zero (buf : List Char) (n : Nat)
    (h : ∀ i, 1 ≤ i → i ≤ n → isspace (buf.getD i NUL) = true) : strip_index buf n = 0 := by
  induction n with
  | zero => rfl
  | succ n ih =>
      have h1 := h (n + 1) (by omega) (by omega)
      simp only [strip_index, h1, if_true]
      exact ih (fun i hi1 hi2 => h i hi1 (by omega))

theorem getD_mem (w : List Char) (d : Char) : ∀ j, j < w.length → w.getD j d ∈ w := by
  induction w with
  | nil => intro j hj; simp at hj
  | cons a w ih =>
      intro j hj
      cases j with
      | zero => simp
      | succ j =>
          have h := ih j (by simpa using hj)
          simp only [List.getD_cons_succ]
          exact List.mem_cons_of_mem _ h

theorem strip_blank_split (buf body w : List Char) (hnul : NUL ∉ body ++ w)
    (hshort : body.length ≤ 1) (hws : ∀ x ∈ w, isspace x = true) :
    strip (fgets_store buf (body ++ w)) = none := by
  unfold strip fgets_store
  rw [strlen_text _ _ hnul]
  have hz : strip_index (body ++ w ++ NUL :: List.drop ((body ++ w).length + 1) buf)
      ((body ++ w).length - 1) = 0 := by
    apply strip_index_zero
    intro i hi1 hi2
    have hlen : (body ++ w).length = body.length + w.length := List.length_append _ _
    have hic : i - body.length < w.length := by omega
    rw [List.append_assoc, List.getD_append_right _ _ _ _ (by omega),
      List.getD_append _ _ _ _ hic]
    exact hws _ (getD_mem w NUL _ hic)
  simp only [hz, if_true]

/-- A chunk with at most one character before its trailing white space leaves
the loop body through `continue`. -/
theorem strip_blank (buf c : List Char) (hnul : NUL ∉ c) (hshort : (rstrip c).length ≤ 1) :
    strip (fgets_store buf c) = none := by
  obtain ⟨hsplit, hws, _⟩ := rstrip_split c
  have h := strip_blank_split buf (rstrip c) (c.reverse.takeWhile isspace).reverse
    (by rw [← hsplit]; exact hnul) hshort hws
  rw [← hsplit] at h
  exact h

/-! ## The value that a chunk gives to a destination -/

/-- A chunk without NUL is blank, or is a text line whose text is the chunk
without its trailing white space. -/
theorem chunk_cases (c : List Char) (hnul : NUL ∉ c) :
    (rstrip c).length ≤ 1 ∨ ∃ ws, c = rstrip c ++ ws ∧ text_line (rstrip c) ws := by
  obtain ⟨hsplit, hws, hlast⟩ := rstrip_split c
  by_cases hlen : (rstrip c).length ≤ 1
  · exact Or.inl hlen
  · right
    refine ⟨_, hsplit, ?_, by omega, hws, ?_⟩
    · intro hmem
      apply hnul
      rw [hsplit]
      exact List.mem_append_left _ hmem
    · cases hg : (rstrip c).getLast? with
      | none =>
          have : rstrip c = [] := List.getLast?_eq_none_iff.mp hg
          rw [this] at hlen
          simp at hlen
      | some x =>
          rw [hg] at hlast
          simpa using hlast

theorem isPrefixOf_length_le (l₁ l₂ : List Char) (h : l₁.isPrefixOf l₂ = true) :
    l₁.length ≤ l₂.length :=
  (List.isPrefixOf_iff_prefix.mp h).length_le

/-- The value that one iteration gives to the destination of a sound entry:
the raw value of the chunk when the chunk carries the key, and the value before
otherwise.  The chunk holds no NUL, and starts with `key=` when it starts
with the key. -/
theorem uevent_line_slot (keys : List (String × Nat × slot)) (e : String × Nat × slot)
    (hs : entry_sound keys e) (hnd : (keys.map (fun k => k.2.2)).Nodup) (st : reader_state)
    (c : List Char) (hnul : NUL ∉ c)
    (hkey : e.1.toList.isPrefixOf (rstrip c) = true →
      (e.1.toList ++ ['=']).isPrefixOf (rstrip c) = true) :
    slot_value e.2.2 (uevent_line keys st c) =
      match line_value e.1 c with
      | some v => if e.2.2.is_long then .inl (strtol_helper v).2 else .inr (some v)
      | none => slot_value e.2.2 st := by
  have hmem : e ∈ keys := List.mem_of_find?_eq_some hs.2.2.1
  rcases chunk_cases c hnul with hblank | ⟨ws, hsplit, htl⟩
  · have hlv : line_value e.1 c = none := by
      unfold line_value
      rw [if_neg]
      intro hp
      have := isPrefixOf_length_le _ _ hp
      have hpos := hs.1
      simp only [List.length_append, List.length_singleton] at this
      omega
    rw [hlv]
    unfold uevent_line
    simp only [strip_blank st.buf c hnul hblank]
    exact slot_value_buf _ _ _
  · by_cases hp : (e.1.toList ++ ['=']).isPrefixOf (rstrip c) = true
    · have hlv : line_value e.1 c =
          some ((rstrip c).drop (e.1.toList.length + 1)) := by
        unfold line_value
        rw [if_pos hp]
      have hbody : rstrip c = key_line e.1 ((rstrip c).drop (e.1.toList.length + 1)) := by
        have h1 := List.prefix_iff_eq_append.mp (List.isPrefixOf_iff_prefix.mp hp)
        unfold key_line
        rw [List.length_append, List.length_singleton] at h1
        conv_lhs => rw [← h1]
        simp
      have hV : NUL ∉ (rstrip c).drop (e.1.toList.length + 1) :=
        fun hm => htl.1 (List.mem_of_mem_drop hm)
      have hlast : isspace
          (((rstrip c).drop (e.1.toList.length + 1)).getLast?.getD '=') = false := by
        have h4 := htl.2.2.2
        generalize hVdef : (rstrip c).drop (e.1.toList.length + 1) = V at hbody
        rw [hbody] at h4
        unfold key_line at h4
        cases V using List.reverseRecOn with
        | nil => decide
        | append_singleton V a _ =>
            have e1 : e.1.toList ++ '=' :: (V ++ [a]) = (e.1.toList ++ '=' :: V) ++ [a] := by
              simp
            rw [e1, getLast?_snoc] at h4
            rw [getLast?_snoc]
            exact h4
      rw [hlv]
      have hval := uevent_line_value keys e hs st _ ws hV htl.2.2.1 hlast
      rw [← hbody, ← hsplit] at hval
      exact hval
    · have hlv : line_value e.1 c = none := by
        unfold line_value
        rw [if_neg hp]
      rw [hlv]
      have hline := uevent_line_text keys st (rstrip c) ws htl
      rw [← hsplit] at hline
      rw [hline]
      cases hfind : keys.find? (fun k => k.1.toList.isPrefixOf (rstrip c)) with
      | none => exact slot_value_buf _ _ _
      | some e' =>
          simp only
          by_cases hsl : e.2.2 = e'.2.2
          · exfalso
            have hmem' : e' ∈ keys := List.mem_of_find?_eq_some hfind
            have heq : e = e' := List.inj_on_of_nodup_map hnd hmem hmem' hsl
            have hpre := List.find?_some hfind
            rw [← heq] at hpre
            exact hp (hkey hpre)
          · rw [store_frame _ _ _ _ hsl, slot_value_buf]

theorem getLast?_cons_or (a : List Char) (l : List (List Char)) :
    (a :: l).getLast? = some (l.getLast?.getD a) := by
  induction l generalizing a with
  | nil => rfl
  | cons b l ih =>
      rw [List.getLast?_cons_cons, ih b, Option.getD_some]

/-- The value that a reading loop gives to the destination of a sound entry:
the raw value of the last chunk that carries the key, and the value before the
loop when no chunk carries it. -/
theorem read_slot (keys : List (String × Nat × slot)) (e : String × Nat × slot)
    (hs : entry_sound keys e) (hnd : (keys.map (fun k => k.2.2)).Nodup)
    (chunks : List (List Char))
    (hch : ∀ c ∈ chunks, NUL ∉ c ∧ (e.1.toList.isPrefixOf (rstrip c) = true →
      (e.1.toList ++ ['=']).isPrefixOf (rstrip c) = true)) (st : reader_state) :
    slot_value e.2.2 (chunks.foldl (uevent_line keys) st) =
      match last_value e.1 chunks with
      | some v => if e.2.2.is_long then .inl (strtol_helper v).2 else .inr (some v)
      | none => slot_value e.2.2 st := by
  induction chunks generalizing st with
  | nil => rfl
  | cons c cs ih =>
      have hc := hch c (by simp)
      have hstep := uevent_line_slot keys e hs hnd st c hc.1 hc.2
      rw [List.foldl_cons, ih (fun c' hc' => hch c' (by simp [hc'])) (uevent_line keys st c)]
      unfold last_value at *
      cases hl : line_value e.1 c with
      | none =>
          rw [hl] at hstep
          simp only [List.filterMap_cons, hl]
          cases (List.filterMap (line_value e.1) cs).getLast? with
          | none => exact hstep
          | some v => rfl
      | some v' =>
          rw [hl] at hstep
          simp only [List.filterMap_cons, hl]
          rw [getLast?_cons_or]
          cases (List.filterMap (line_value e.1) cs).getLast? with
          | none => exact hstep
          | some v => rfl

/-! ## String values -/

set_option maxRecDepth 100000 in
/-- Every string entry of the first chain is sound. -/
theorem uevent_keys_string_sound :
    ∀ e ∈ uevent_keys, e.2.2.is_long = false → entry_sound uevent_keys e := by
  decide

theorem uevent_keys_nodup : (uevent_keys.map (fun k => k.2.2)).Nodup := by decide

theorem device_uevent_keys_nodup : (device_uevent_keys.map (fun k => k.2.2)).Nodup := by
  decide

/-- The `process:` part of `get_battery_info` changes no string of the record. -/
theorem process_strings (r : raw_longs) (cfg : config) (info : battery_info) :
    (process r cfg info).name = info.name ∧
    (process r cfg info).model = info.model ∧
    (process r cfg info).manufacturer = info.manufacturer ∧
    (process r cfg info).technology = info.technology ∧
    (process r cfg info).driver = info.driver ∧
    (process r cfg info).status = info.status ∧
    (process r cfg info).health = info.health ∧
    (process r cfg info).serial_number = info.serial_number ∧
    (process r cfg info).charge_type = info.charge_type ∧
    (process r cfg info).charge_rate = info.charge_rate := by
  refine ⟨?_, ?_, ?_, ?_, ?_, ?_, ?_, ?_, ?_, ?_⟩
  · simp only [process, process_charging_enabled, process_online, process_present,
      process_etd, process_temperature, process_current, process_voltage, process_max_charge,
      process_charge_cap, process_charge, apply_ite battery_info.name]
    simp
  · simp only [process, process_charging_enabled, process_online, process_present,
      process_etd, process_temperature, process_current, process_voltage, process_max_charge,
      process_charge_cap, process_charge, apply_ite battery_info.model]
    simp
  · simp only [process, process_charging_enabled, process_online, process_present,
      process_etd, process_temperature, process_current, process_voltage, process_max_charge,
      process_charge_cap, process_charge, apply_ite battery_info.manufacturer]
    simp
  · simp only [process, process_charging_enabled, process_online, process_present,
      process_etd, process_temperature, process_current, process_voltage, process_max_charge,
      process_charge_cap, process_charge, apply_ite battery_info.technology]
    simp
  · simp only [process, process_charging_enabled, process_online, process_present,
      process_etd, process_temperature, process_current, process_voltage, process_max_charge,
      process_charge_cap, process_charge, apply_ite battery_info.driver]
    simp
  · simp only [process, process_charging_enabled, process_online, process_present,
      process_etd, process_temperature, process_current, process_voltage, process_max_charge,
      process_charge_cap, process_charge, apply_ite battery_info.status]
    simp
  · simp only [process, process_charging_enabled, process_online, process_present,
      process_etd, process_temperature, process_current, process_voltage, process_max_charge,
      process_charge_cap, process_charge, apply_ite battery_info.health]
    simp
  · simp only [process, process_charging_enabled, process_online, process_present,
      process_etd, process_temperature, process_current, process_voltage, process_max_charge,
      process_charge_cap, process_charge, apply_ite battery_info.serial_number]
    simp
  · simp only [process, process_charging_enabled, process_online, process_present,
      process_etd, process_temperature, process_current, process_voltage, process_max_charge,
      process_charge_cap, process_charge, apply_ite battery_info.charge_type]
    simp
  · simp only [process, process_charging_enabled, process_online, process_present,
      process_etd, process_temperature, process_current, process_voltage, process_max_charge,
      process_charge_cap, process_charge, apply_ite battery_info.charge_rate]
    simp

set_option maxRecDepth 1000000 in
/-- C15 (counterexample). A name line whose value has 300 characters: the record
gets the first 237 characters of the value, not the raw value of the line. -/
theorem C15_long_value_counterexample :
    (get_battery_info
      (some (file_of_lines [key_line "POWER_SUPPLY_NAME" (List.replicate 300 'a')])) none
      battery_info_init config_init []).2.name = some (List.replicate 237 'a') ∧
    last_value "POWER_SUPPLY_NAME" [key_line "POWER_SUPPLY_NAME" (List.replicate 300 'a')] =
      some (List.replicate 300 'a') := by
  have hread : (read_uevent uevent_keys
      { raw := raw_longs_init, info := battery_info_init, buf := [] }
      (file_of_lines [key_line "POWER_SUPPLY_NAME" (List.replicate 300 'a')])).info.name =
      some (List.replicate 237 'a') := by decide
  refine ⟨?_, by decide⟩
  rw [get_battery_info_uevent_only, (process_strings _ _ _).1, hread]

/-- C15 (amended). For every string key of the two chains and every file
without NUL, read in chunks of at most 255 characters, in which a chunk that
starts with the key starts with `key=`: after the reading loop the string of the
key is the raw value of the last chunk that carries the key (the text after
`key=`, leading white space kept, trailing white space of the chunk removed),
and it is as before the loop, unset for a fresh record, when no chunk carries
the key. -/
theorem C15_last_string_value (st : reader_state) (content : List Char)
    (hnul : NUL ∉ content) :
    (∀ e ∈ uevent_keys, e.2.2.is_long = false →
      (∀ c ∈ fgets_chunks 256 content, e.1.toList.isPrefixOf (rstrip c) = true →
        (e.1.toList ++ ['=']).isPrefixOf (rstrip c) = true) →
      slot_value e.2.2 (read_uevent uevent_keys st content) =
        match last_value e.1 (fgets_chunks 256 content) with
        | some v => .inr (some v)
        | none => slot_value e.2.2 st) ∧
    (∀ e ∈ device_uevent_keys,
      (∀ c ∈ fgets_chunks 256 content, e.1.toList.isPrefixOf (rstrip c) = true →
        (e.1.toList ++ ['=']).isPrefixOf (rstrip c) = true) →
      slot_value e.2.2 (read_uevent device_uevent_keys st content) =
        match last_value e.1 (fgets_chunks 256 content) with
        | some v => .inr (some v)
        | none => slot_value e.2.2 st) := by
  have htext := fgets_chunks_text 256 content hnul
  constructor
  · intro e he hstr hkey
    have h := read_slot uevent_keys e (uevent_keys_string_sound e he hstr) uevent_keys_nodup
      (fgets_chunks 256 content) (fun c hc => ⟨(htext c hc).2, hkey c hc⟩) st
    rw [hstr] at h
    simpa using h
  · intro e he hkey
    have hstr : e.2.2.is_long = false := by
      have : e = ("DRIVER", 7, slot.driver) := by simpa [device_uevent_keys] using he
      rw [this]; rfl
    have h := read_slot device_uevent_keys e (device_uevent_keys_sound e he)
      device_uevent_keys_nodup (fgets_chunks 256 content)
      (fun c hc => ⟨(htext c hc).2, hkey c hc⟩) st
    rw [hstr] at h
    simpa using h

set_option maxRecDepth 100000 in
/-- C15 (witness). Two name lines, the second with white space around its
value: the name is the value of the second line with its leading blank, and the
model, which no line carries, stays unset. -/
theorem C15_last_string_value_witness :
    NUL ∉ "POWER_SUPPLY_NAME=A\nPOWER_SUPPLY_NAME= B \n".toList ∧
    slot_value .name
        (read_uevent uevent_keys (reader_init battery_info_init [])
          "POWER_SUPPLY_NAME=A\nPOWER_SUPPLY_NAME= B \n".toList) =
      .inr (some " B".toList) ∧
    slot_value .model
        (read_uevent uevent_keys (reader_init battery_info_init [])
          "POWER_SUPPLY_NAME=A\nPOWER_SUPPLY_NAME= B \n".toList) =
      .inr none := by
  have h := (C15_last_string_value (reader_init battery_info_init [])
    "POWER_SUPPLY_NAME=A\nPOWER_SUPPLY_NAME= B \n".toList (by decide)).1
  have h1 := h ("POWER_SUPPLY_NAME", 18, .name) (by decide) rfl (by decide)
  have h2 := h ("POWER_SUPPLY_MODEL_NAME", 24, .model) (by decide) rfl (by decide)
  have l1 : last_value "POWER_SUPPLY_NAME"
      (fgets_chunks 256 "POWER_SUPPLY_NAME=A\nPOWER_SUPPLY_NAME= B \n".toList) =
      some " B".toList := by decide
  have l2 : last_value "POWER_SUPPLY_MODEL_NAME"
      (fgets_chunks 256 "POWER_SUPPLY_NAME=A\nPOWER_SUPPLY_NAME= B \n".toList) = none := by
    decide
  rw [l1] at h1
  rw [l2] at h2
  exact ⟨by decide, h1, h2⟩

/-! ## Whole records -/

/-- Two records with the same members are the same. -/
theorem battery_info_eq (a b : battery_info) (hn : info_numbers a = info_numbers b)
    (h1 : a.name = b.name) (h2 : a.model = b.model) (h3 : a.manufacturer = b.manufacturer)
    (h4 : a.technology = b.technology) (h5 : a.driver = b.driver) (h6 : a.status = b.status)
    (h7 : a.health = b.health) (h8 : a.serial_number = b.serial_number)
    (h9 : a.charge_type = b.charge_type) (h10 : a.charge_rate = b.charge_rate) : a = b := by
  cases a
  cases b
  simp only [info_numbers, Prod.mk.injEq] at hn
  simp only at h1 h2 h3 h4 h5 h6 h7 h8 h9 h10
  simp only [battery_info.mk.injEq]
  tauto

/-- The marker `DBL_MIN` does not exceed 100. -/
theorem DOUBLE_INVALID_not_gt : Dbl.gt DOUBLE_INVALID (Dbl.fin 100) = false := by
  unfold DOUBLE_INVALID
  simp only [Dbl.gt, decide_eq_false_iff_not, not_lt]
  have h1 : (1 : ℚ) ≤ 2 ^ 1022 := one_le_pow₀ (by norm_num)
  have h2 : (1 : ℚ) / 2 ^ 1022 ≤ 1 := by
    rw [div_le_one (by positivity)]
    exact h1
  linarith

/-- With no local read, the `process:` part leaves a record whose charge is
unavailable as it is. -/
theorem process_unread (cfg : config) (info : battery_info)
    (h : info.charge = DOUBLE_INVALID) : process raw_longs_init cfg info = info := by
  have hc : process_charge raw_longs_init info = info := by
    simp [process_charge, raw_longs_init]
  have hcap : process_charge_cap cfg info = info := by
    simp [process_charge_cap, h, DOUBLE_INVALID_not_gt]
  have h1 : process_max_charge raw_longs_init info = info := by
    simp [process_max_charge, raw_longs_init]
  have h2 : process_voltage raw_longs_init info = info := by
    simp [process_voltage, raw_longs_init]
  have h3 : process_current raw_longs_init info = info := by
    simp [process_current, raw_longs_init]
  have h4 : process_temperature raw_longs_init info = info := by
    simp [process_temperature, raw_longs_init]
  have h5 : process_etd raw_longs_init info = info := by
    simp [process_etd, raw_longs_init]
  have h6 : process_present raw_longs_init info = info := by
    simp [process_present, raw_longs_init, LONG_INVALID_eq]
  have h7 : process_online raw_longs_init info = info := by
    simp [process_online, raw_longs_init, LONG_INVALID_eq]
  have h8 : process_charging_enabled raw_longs_init info = info := by
    simp [process_charging_enabled, raw_longs_init, LONG_INVALID_eq]
  unfold process
  rw [hc, hcap, h1, h2, h3, h4, h5, h6, h7, h8]

/-- The record that the `process:` part makes of a fresh record when only a
capacity within [0,100], a voltage and a present flag were read. -/
theorem process_scenario (c v p : Int) (cfg : config) (hc0 : 0 ≤ c) (hc : c ≤ 100)
    (hv : v ≠ LONG_INVALID) (hp : p = 0 ∨ p = 1) :
    process (raw_of_scenario c v p) cfg battery_info_init =
      info_of_scenario (Dbl.fin (c : ℚ)) (Dbl.div (Dbl.ofLong v) (Dbl.fin 1000000)) p := by
  have hs := process_strings (raw_of_scenario c v p) cfg battery_info_init
  have hinv1 : ¬ (LONG_INVALID = 1 ∨ LONG_INVALID = 0) := by
    rw [LONG_INVALID_eq]; omega
  have hp' : p = 1 ∨ p = 0 := hp.symm
  apply battery_info_eq
  · simp only [info_numbers, Prod.mk.injEq]
    refine ⟨⟨?_, ?_, ?_, ?_, ?_, ?_⟩, ?_, ?_, ?_⟩
    · exact process_charge_of_capacity (raw_of_scenario c v p) cfg battery_info_init hc0 hc
    · rw [process_max_charge_val]
      simp [raw_of_scenario, raw_longs_init, info_of_scenario]
    · rw [process_voltage_val]
      have : (raw_of_scenario c v p).voltage_now = v := rfl
      rw [this, if_pos hv]
      rfl
    · rw [process_current_val]
      simp [raw_of_scenario, raw_longs_init, info_of_scenario]
    · rw [process_temperature_val]
      simp [raw_of_scenario, raw_longs_init, info_of_scenario]
    · rw [process_etd_val]
      simp [raw_of_scenario, raw_longs_init, info_of_scenario]
    · rw [process_present_val]
      have : (raw_of_scenario c v p).present = p := rfl
      rw [this, if_pos hp']
      rfl
    · rw [process_online_val]
      have : (raw_of_scenario c v p).online = LONG_INVALID := rfl
      rw [this, if_neg hinv1]
      rfl
    · rw [process_charging_enabled_val]
      have : (raw_of_scenario c v p).charging_enabled = LONG_INVALID := rfl
      rw [this, if_neg hinv1]
      rfl
  · exact hs.1
  · exact hs.2.1
  · exact hs.2.2.1
  · exact hs.2.2.2.1
  · exact hs.2.2.2.2.1
  · exact hs.2.2.2.2.2.1
  · exact hs.2.2.2.2.2.2.1
  · exact hs.2.2.2.2.2.2.2.1
  · exact hs.2.2.2.2.2.2.2.2.1
  · exact hs.2.2.2.2.2.2.2.2.2

/-! ## Files of key lines -/

theorem store_buf (sl : slot) (arg : List Char) (st : reader_state) (b : List Char) :
    store sl arg { st with buf := b } = { store sl arg st with buf := b } := by
  cases sl <;> rfl

theorem foldl_store_buf (items : List ((String × Nat × slot) × List Char))
    (st : reader_state) (b : List Char) :
    items.foldl (fun s i => store i.1.2.2 i.2 s) { st with buf := b } =
      { items.foldl (fun s i => store i.1.2.2 i.2 s) st with buf := b } := by
  induction items generalizing st with
  | nil => rfl
  | cons i items ih =>
      simp only [List.foldl_cons]
      rw [store_buf, ih]

/-- A reading loop on a file of lines `key=V` that fit the array makes the
helper calls of the lines, in order. -/
theorem read_items (keys : List (String × Nat × slot))
    (items : List ((String × Nat × slot) × List Char))
    (hok : ∀ i ∈ items, line_ok keys i.1 i.2) (st : reader_state) :
    ∃ b, read_uevent keys st (file_of_lines (items.map (fun i => key_line i.1.1 i.2))) =
      { items.foldl (fun s i => store i.1.2.2 i.2 s) st with buf := b } := by
  have hchunks : fgets_chunks 256 (file_of_lines (items.map (fun i => key_line i.1.1 i.2))) =
      (items.map (fun i => key_line i.1.1 i.2)).map (fun l => l ++ [NL]) := by
    apply fgets_chunks_file_of_lines
    intro l hl
    obtain ⟨i, hi, rfl⟩ := List.mem_map.mp hl
    exact ⟨(hok i hi).2.2.2.1, (hok i hi).2.2.2.2⟩
  unfold read_uevent
  rw [hchunks]
  clear hchunks
  induction items generalizing st with
  | nil => exact ⟨st.buf, rfl⟩
  | cons i items ih =>
      obtain ⟨hs, hV, hlast, _, _⟩ := hok i (by simp)
      have hstep := uevent_line_key_value keys i.1 hs st i.2 [NL]
        hV (by intro c hc; rw [List.mem_singleton.mp hc]; decide) hlast
      obtain ⟨b, hb⟩ := ih (fun j hj => hok j (by simp [hj]))
        (store i.1.2.2 i.2
          { st with
            buf := (i.1.1.toList ++ '=' :: i.2) ++ NUL ::
              stale st.buf (i.1.1.toList ++ '=' :: i.2) [NL] })
      refine ⟨b, ?_⟩
      simp only [List.map_cons, List.foldl_cons]
      have hkl : key_line i.1.1 i.2 ++ [NL] = i.1.1.toList ++ '=' :: i.2 ++ [NL] := by
        simp [key_line]
      rw [hkl, hstep, hb, store_buf, foldl_store_buf]

set_option maxRecDepth 100000 in
/-- The keys of the two chains hold no newline and have 31 characters at
most. -/
theorem keys_short :
    ∀ e ∈ uevent_keys ++ device_uevent_keys,
      (∀ c ∈ e.1.toList, c.toNat ≠ 10) ∧ e.1.toList.length ≤ 31 := by
  decide

/-- The decimal text of a `long` can stand on a line of every sound entry. -/
theorem line_ok_decimal (keys : List (String × Nat × slot)) (e : String × Nat × slot)
    (hs : entry_sound keys e) (hk : (∀ c ∈ e.1.toList, c.toNat ≠ 10) ∧ e.1.toList.length ≤ 31)
    (v : Int) (hv : isLong v) : line_ok keys e (decimal v) := by
  obtain ⟨hnul, hnl, hlast, hlen⟩ := decimal_text v hv
  refine ⟨hs, hnul, hlast, ?_, ?_⟩
  · intro c hc
    unfold key_line at hc
    rcases List.mem_append.mp hc with h1 | h1
    · exact hk.1 c h1
    · rcases List.mem_cons.mp h1 with h2 | h2
      · rw [h2]; decide
      · exact hnl c h2
  · unfold key_line
    simp only [List.length_append, List.length_cons]
    omega

/-! ## The scenario of a capacity, a voltage and a present flag -/

theorem store_capacity (V : List Char) (st : reader_state) :
    store .capacity V st =
      { st with raw := { st.raw with capacity := (strtol_helper V).2 } } := rfl

theorem store_voltage_now (V : List Char) (st : reader_state) :
    store .voltage_now V st =
      { st with raw := { st.raw with voltage_now := (strtol_helper V).2 } } := rfl

theorem store_present (V : List Char) (st : reader_state) :
    store .present V st =
      { st with raw := { st.raw with present := (strtol_helper V).2 } } := rfl

/-- The three lines of the scenario can stand on lines of their own. -/
theorem scenario_items_ok (c v p : Int) (hc : isLong c) (hv : isLong v) (hp : isLong p) :
    ∀ i ∈ scenario_items c v p, line_ok uevent_keys i.1 i.2 := by
  intro i hmem
  simp only [scenario_items, List.mem_cons, List.mem_singleton, List.not_mem_nil,
    or_false] at hmem
  have okc : line_ok uevent_keys ("POWER_SUPPLY_CAPACITY", 22, .capacity) (decimal c) :=
    line_ok_decimal uevent_keys ("POWER_SUPPLY_CAPACITY", 22, .capacity)
      (uevent_keys_sound _ (by decide) (by decide)) (keys_short _ (by decide)) c hc
  have okv : line_ok uevent_keys ("POWER_SUPPLY_VOLTAGE_NOW", 25, .voltage_now) (decimal v) :=
    line_ok_decimal uevent_keys ("POWER_SUPPLY_VOLTAGE_NOW", 25, .voltage_now)
      (uevent_keys_sound _ (by decide) (by decide)) (keys_short _ (by decide)) v hv
  have okp : line_ok uevent_keys ("POWER_SUPPLY_PRESENT", 21, .present) (decimal p) :=
    line_ok_decimal uevent_keys ("POWER_SUPPLY_PRESENT", 21, .present)
      (uevent_keys_sound _ (by decide) (by decide)) (keys_short _ (by decide)) p hp
  rcases hmem with rfl | rfl | rfl
  · exact okc
  · exact okv
  · exact okp

/-- The record read from the three lines of the scenario, in any of the six
orders of the lines. -/
theorem scenario_items_record (c v p : Int) (hc0 : 0 ≤ c) (hc : c ≤ 100) (hv : isLong v)
    (hvn : v ≠ LONG_INVALID) (hp : p = 0 ∨ p = 1)
    (items : List ((String × Nat × slot) × List Char))
    (hord : items ∈ orders_of_three (scenario_items c v p)) (cfg : config)
    (buf0 : List Char) :
    get_battery_info (some (file_of_lines (items.map (fun i => key_line i.1.1 i.2)))) none
        battery_info_init cfg buf0 =
      (0, info_of_scenario (Dbl.fin (c : ℚ)) (Dbl.div (Dbl.ofLong v) (Dbl.fin 1000000)) p) := by
  have hcl : isLong c := by
    constructor
    · unfold LONG_MIN; omega
    · unfold LONG_MAX; omega
  have hpl : isLong p := by
    constructor
    · unfold LONG_MIN; omega
    · unfold LONG_MAX; omega
  have hpc := strtol_helper_decimal c hcl
  have hpv := strtol_helper_decimal v hv
  have hpp := strtol_helper_decimal p hpl
  have hok : ∀ i ∈ items, line_ok uevent_keys i.1 i.2 := by
    intro i hi
    apply scenario_items_ok c v p hcl hv hpl
    simp only [orders_of_three, scenario_items, List.mem_cons, List.mem_singleton,
      List.not_mem_nil, or_false] at hord
    rcases hord with rfl | rfl | rfl | rfl | rfl | rfl <;>
      simp only [scenario_items, List.mem_cons, List.mem_singleton, List.not_mem_nil,
        or_false] at hi ⊢ <;> tauto
  obtain ⟨b, hread⟩ := read_items uevent_keys items hok
    { raw := raw_longs_init, info := battery_info_init, buf := buf0 }
  have hstate :
      (items.foldl (fun s i => store i.1.2.2 i.2 s)
        { raw := raw_longs_init, info := battery_info_init, buf := buf0 }).raw =
        raw_of_scenario c v p ∧
      (items.foldl (fun s i => store i.1.2.2 i.2 s)
        { raw := raw_longs_init, info := battery_info_init, buf := buf0 }).info =
        battery_info_init := by
    simp only [orders_of_three, scenario_items, List.mem_cons, List.mem_singleton,
      List.not_mem_nil, or_false] at hord
    rcases hord with rfl | rfl | rfl | rfl | rfl | rfl <;>
      simp only [List.foldl_cons, List.foldl_nil, store_capacity, store_voltage_now,
        store_present, hpc, hpv, hpp] <;>
      first | rfl | exact ⟨rfl, rfl⟩ | exact ⟨rfl, trivial⟩
  rw [get_battery_info_uevent_only, hread]
  simp only [hstate.1, hstate.2]
  rw [process_scenario c v p cfg hc0 hc hvn hp]

/-- C16 (counterexample). With the voltage line
`POWER_SUPPLY_VOLTAGE_NOW=-9223372036854775808` the voltage of the record is
the "unavailable" marker and not the double v / 1000000. -/
theorem C16_sentinel_voltage_counterexample :
    (get_battery_info (some (file_of_lines (scenario_lines 76 (-9223372036854775808) 1)))
      none battery_info_init config_init []).2.voltage = DOUBLE_INVALID ∧
    DOUBLE_INVALID ≠ Dbl.div (Dbl.ofLong (-9223372036854775808)) (Dbl.fin 1000000) := by
  have hraw : (read_uevent uevent_keys
      { raw := raw_longs_init, info := battery_info_init, buf := [] }
      (file_of_lines (scenario_lines 76 (-9223372036854775808) 1))).raw.voltage_now =
      LONG_INVALID := by decide
  have hinfo : (read_uevent uevent_keys
      { raw := raw_longs_init, info := battery_info_init, buf := [] }
      (file_of_lines (scenario_lines 76 (-9223372036854775808) 1))).info.voltage =
      DOUBLE_INVALID := by
    have h := (read_items uevent_keys (scenario_items 76 (-9223372036854775808) 1)
      (scenario_items_ok _ _ _ (by decide) (by decide) (by decide))
      { raw := raw_longs_init, info := battery_info_init, buf := [] })
    obtain ⟨b, hb⟩ := h
    have e : (scenario_items 76 (-9223372036854775808) 1).map (fun i => key_line i.1.1 i.2) =
        scenario_lines 76 (-9223372036854775808) 1 := rfl
    rw [e] at hb
    rw [hb]
    simp only [scenario_items, List.foldl_cons, List.foldl_nil, store_capacity,
      store_voltage_now, store_present]
    rfl
  constructor
  · rw [get_battery_info_uevent_only, process_voltage_val, hraw, hinfo]
    simp
  · exact (scaled_reading (-9223372036854775808) (by decide) 1000000 (by norm_num)
      (by norm_num)).1.symm

/-- C16 (amended). For a first file made of the three lines
`POWER_SUPPLY_CAPACITY=c` (0 <= c <= 100), `POWER_SUPPLY_VOLTAGE_NOW=v` (v a
`long` other than `LONG_MIN`) and `POWER_SUPPLY_PRESENT=p` (p 0 or 1), in any
of their six orders, and no second file, `get_battery_info` returns 0 and the
record has charge c, the double v / 1000000 for its voltage and present flag
p, every other member being as `battery_info_init` left it. -/
theorem C16_scenario_record (c v p : Int) (hc0 : 0 ≤ c) (hc : c ≤ 100) (hv : isLong v)
    (hvn : v ≠ LONG_INVALID) (hp : p = 0 ∨ p = 1) (lines : List (List Char))
    (hord : lines ∈ orders_of_three (scenario_lines c v p)) (cfg : config)
    (buf0 : List Char) :
    get_battery_info (some (file_of_lines lines)) none battery_info_init cfg buf0 =
      (0, info_of_scenario (Dbl.fin (c : ℚ)) (Dbl.div (Dbl.ofLong v) (Dbl.fin 1000000)) p) := by
  have hex : ∃ items ∈ orders_of_three (scenario_items c v p),
      lines = items.map (fun i => key_line i.1.1 i.2) := by
    simp only [orders_of_three, scenario_lines, List.mem_cons, List.mem_singleton,
      List.not_mem_nil, or_false] at hord
    simp only [orders_of_three, scenario_items, List.mem_cons, List.mem_singleton,
      List.not_mem_nil, or_false, exists_eq_or_imp, exists_eq_left, List.map_cons,
      List.map_nil]
    tauto
  obtain ⟨items, hitems, rfl⟩ := hex
  exact scenario_items_record c v p hc0 hc hv hvn hp items hitems cfg buf0

/-- C16 (witness). The instance of the specification: capacity 76, voltage
12500000 and present 1 give charge 76, voltage 12.5 and present true. -/
theorem C16_scenario_record_witness :
    (0 : Int) ≤ 76 ∧ (76 : Int) ≤ 100 ∧ isLong 12500000 ∧ (12500000 : Int) ≠ LONG_INVALID ∧
    ((1 : Int) = 0 ∨ (1 : Int) = 1) ∧
    scenario_lines 76 12500000 1 ∈ orders_of_three (scenario_lines 76 12500000 1) ∧
    get_battery_info (some (file_of_lines (scenario_lines 76 12500000 1))) none
        battery_info_init config_init [] =
      (0, info_of_scenario (Dbl.fin 76) (Dbl.fin (25 / 2)) 1) := by
  have h := C16_scenario_record 76 12500000 1 (by decide) (by decide) (by decide)
    (by decide) (by decide) (scenario_lines 76 12500000 1)
    (by simp [orders_of_three, scenario_lines]) config_init []
  refine ⟨by decide, by decide, by decide, by decide, by decide,
    by simp [orders_of_three, scenario_lines], ?_⟩
  rw [h]
  have hv : Dbl.div (Dbl.ofLong 12500000) (Dbl.fin 1000000) = Dbl.fin (25 / 2) := by
    rw [Dbl.div_ofLong_fin _ _ (by norm_num) (by norm_num)]
    have a : ((12500000 : Int) : ℚ) / 1000000 = 25 / 2 := by norm_num
    rw [a]
    exact Dbl.nearest_exact _ 25 (-1) (by norm_num) (by norm_num) (by norm_num)
      (by norm_num)
  rw [hv]
  norm_num

/-! ## A device with a driver file alone -/

/-- The routine `get_battery_info` when only the second file opens. -/
theorem get_battery_info_device_only (content : List Char) (info : battery_info)
    (cfg : config) (buf0 : List Char) :
    get_battery_info none (some content) info cfg buf0 =
      (0, process
        (read_uevent device_uevent_keys { raw := raw_longs_init, info := info, buf := buf0 }
          content).raw cfg
        (read_uevent device_uevent_keys { raw := raw_longs_init, info := info, buf := buf0 }
          content).info) := by
  simp [get_battery_info]

theorem store_driver (V : List Char) (st : reader_state) :
    store .driver V st = { st with info := { st.info with driver := some V } } := rfl

set_option maxRecDepth 1000000 in
/-- C17 (counterexample). With a driver name of 300 characters the record gets
the first 248 characters of the name, not the name. -/
theorem C17_long_driver_counterexample :
    (get_battery_info none (some (file_of_lines [key_line "DRIVER" (List.replicate 300 'a')]))
      battery_info_init config_init []).2.driver = some (List.replicate 248 'a') ∧
    some (List.replicate 248 'a') ≠ some (List.replicate 300 'a') := by
  have hread : (read_uevent device_uevent_keys
      { raw := raw_longs_init, info := battery_info_init, buf := [] }
      (file_of_lines [key_line "DRIVER" (List.replicate 300 'a')])).info.driver =
      some (List.replicate 248 'a') := by decide
  refine ⟨?_, by decide⟩
  rw [get_battery_info_device_only, (process_strings _ _ _).2.2.2.2.1, hread]

/-- C17 (amended). For a device whose first file does not open and whose second
file is the line `DRIVER=d`, where `d` holds no NUL and no newline, does not end
with white space and has 247 characters at most (so that the line and its
newline fit one `fgets` call), `get_battery_info` returns 0 and the record is
the initialised record with the driver replaced by `d`, in every
configuration. -/
theorem C17_driver_only (d : List Char) (hnul : NUL ∉ d) (hnl : ∀ c ∈ d, c.toNat ≠ 10)
    (hlast : isspace (d.getLast?.getD '=') = false) (hlen : d.length ≤ 247) (cfg : config)
    (buf0 : List Char) :
    get_battery_info none (some (file_of_lines [key_line "DRIVER" d])) battery_info_init cfg
        buf0 = (0, info_of_driver d) := by
  have hok : line_ok device_uevent_keys ("DRIVER", 7, .driver) d := by
    refine ⟨device_uevent_keys_sound _ (by decide), hnul, hlast, ?_, ?_⟩
    · intro c hc
      unfold key_line at hc
      rcases List.mem_append.mp hc with h1 | h1
      · exact (keys_short ("DRIVER", 7, .driver) (by decide)).1 c h1
      · rcases List.mem_cons.mp h1 with h2 | h2
        · rw [h2]; decide
        · exact hnl c h2
    · have hk : "DRIVER".toList.length = 6 := by decide
      unfold key_line
      simp only [List.length_append, List.length_cons, hk]
      omega
  obtain ⟨b, hread⟩ := read_items device_uevent_keys [(("DRIVER", 7, .driver), d)]
    (by
      intro i hi
      rw [List.mem_singleton.mp hi]
      exact hok)
    { raw := raw_longs_init, info := battery_info_init, buf := buf0 }
  have e : [(("DRIVER", 7, slot.driver), d)].map (fun i => key_line i.1.1 i.2) =
      [key_line "DRIVER" d] := rfl
  rw [e] at hread
  rw [get_battery_info_device_only, hread]
  simp only [List.foldl_cons, List.foldl_nil, store_driver]
  rw [process_unread cfg _ rfl]
  rfl

/-- C17 (witness). The driver `acpi` of the specification. -/
theorem C17_driver_only_witness :
    NUL ∉ "acpi".toList ∧ (∀ c ∈ "acpi".toList, c.toNat ≠ 10) ∧
    isspace ("acpi".toList.getLast?.getD '=') = false ∧ "acpi".toList.length ≤ 247 ∧
    get_battery_info none (some (file_of_lines [key_line "DRIVER" "acpi".toList]))
        battery_info_init config_init [] = (0, info_of_driver "acpi".toList) :=
  ⟨by decide, by decide, by decide, by decide,
    C17_driver_only "acpi".toList (by decide) (by decide) (by decide) (by decide)
      config_init []⟩

/-! ## The directory loop with a name filter -/

/-- With a name filter the loop of `list_all_battery_info` writes the record of
the first entry that passes the test of the filter, with index 0, and nothing
when no entry passes it. -/
theorem list_all_loop_by_name (printf_2f : Dbl → List Char) (infostr : List Char)
    (cfg : config) (n : List Char) (hflag : cfg.has CONFIG_FLAG_BY_NAME = true)
    (hname : cfg.cmdopts_n = some n) (entries : List dir_entry) (battery : Int) :
    list_all_loop printf_2f infostr cfg entries battery =
      match entries.find? (name_match n) with
      | none => []
      | some e => (list_battery_info printf_2f 0 e infostr cfg).2 := by
  induction entries with
  | nil => rfl
  | cons e rest ih =>
      unfold list_all_loop
      rw [List.find?_cons]
      by_cases hdot : e.d_name.head? = some '.'
      · have h1 : (e.d_name.head? == some '.') = true := by rw [hdot]; rfl
        have hm : name_match n e = false := by
          simp only [name_match, h1, Bool.not_true, Bool.false_and]
        rw [if_pos hdot, hm]
        exact ih
      · have h1 : (e.d_name.head? == some '.') = false := by
          rw [beq_eq_false_iff_ne]; exact hdot
        rw [if_neg hdot]
        by_cases htype : compare_file_contents e.type_file "Battery".toList = 0
        · have h2 : decide (compare_file_contents e.type_file "Battery".toList = 0) = true :=
            decide_eq_true htype
          rw [if_pos htype, if_pos hflag, hname]
          by_cases hn : e.d_name = n
          · have h3 : (e.d_name == n) = true := by rw [hn]; exact beq_self_eq_true n
            have hm : name_match n e = true := by
              simp only [name_match, h1, h2, h3, Bool.not_false, Bool.and_self]
            rw [if_pos (by rw [hn]), hm]
          · have h3 : (e.d_name == n) = false := by
              rw [beq_eq_false_iff_ne]; exact hn
            have hm : name_match n e = false := by
              simp only [name_match, h3, Bool.and_false]
            have hne : ¬ (some e.d_name = some n) := fun h => hn (Option.some.inj h)
            rw [if_neg hne, hm]
            exact ih
        · have h2 : decide (compare_file_contents e.type_file "Battery".toList = 0) = false :=
            decide_eq_false htype
          have hm : name_match n e = false := by
            simp only [name_match, h2, Bool.and_false, Bool.false_and]
          rw [if_neg htype, hm]
          exact ih

/-- C18. With a name filter `n` configured, for every list of entries the loop
of `list_all_battery_info` writes at most one record: the record, with index 0,
of the first entry that is not hidden, passes the type check and whose name
equals `n`, and nothing when there is no such entry; the entries read after
that entry have no part in the output. -/
theorem C18_name_filter (printf_2f : Dbl → List Char) (infostr : List Char) (cfg : config)
    (n : List Char) (hflag : cfg.has CONFIG_FLAG_BY_NAME = true)
    (hname : cfg.cmdopts_n = some n) :
    (∀ (entries : List dir_entry) (battery : Int),
      list_all_loop printf_2f infostr cfg entries battery =
        match entries.find? (name_match n) with
        | none => []
        | some e => (list_battery_info printf_2f 0 e infostr cfg).2) ∧
    (∀ (pre post post' : List dir_entry) (e : dir_entry) (battery : Int),
      (∀ x ∈ pre, name_match n x = false) → name_match n e = true →
      list_all_loop printf_2f infostr cfg (pre ++ e :: post) battery =
          (list_battery_info printf_2f 0 e infostr cfg).2 ∧
        list_all_loop printf_2f infostr cfg (pre ++ e :: post) battery =
          list_all_loop printf_2f infostr cfg (pre ++ e :: post') battery) := by
  have hloop := list_all_loop_by_name printf_2f infostr cfg n hflag hname
  refine ⟨hloop, ?_⟩
  intro pre post post' e battery hpre he
  have hfind : ∀ tail : List dir_entry, (pre ++ e :: tail).find? (name_match n) = some e := by
    intro tail
    induction pre with
    | nil => simp [List.find?_cons, he]
    | cons x pre ih =>
        have hx : name_match n x = false := hpre x (by simp)
        rw [List.cons_append, List.find?_cons, hx]
        exact ih (fun y hy => hpre y (by simp [hy]))
  rw [hloop, hloop, hfind post, hfind post']
  exact ⟨rfl, rfl⟩

/-- C18 (witness). With the filter `BAT1` and the entries `BAT0`, `BAT1`,
`BAT1`, the loop writes the record of the first `BAT1`, with index 0. -/
theorem C18_name_filter_witness :
    (config_by_name "BAT1".toList).has CONFIG_FLAG_BY_NAME = true ∧
    (config_by_name "BAT1".toList).cmdopts_n = some "BAT1".toList ∧
    list_all_loop (fun _ => []) "c".toList (config_by_name "BAT1".toList)
        [sample_entry "BAT0", sample_entry "BAT1", sample_entry "BAT1"] 0 =
      (list_battery_info (fun _ => []) 0 (sample_entry "BAT1") "c".toList
        (config_by_name "BAT1".toList)).2 := by
  have h := (C18_name_filter (fun _ => []) "c".toList (config_by_name "BAT1".toList)
    "BAT1".toList (by decide) rfl).1 [sample_entry "BAT0", sample_entry "BAT1",
      sample_entry "BAT1"] 0
  have hfind : [sample_entry "BAT0", sample_entry "BAT1", sample_entry "BAT1"].find?
      (name_match "BAT1".toList) = some (sample_entry "BAT1") := by decide
  rw [hfind] at h
  exact ⟨by decide, rfl, h⟩

/-- C19. When a name filter is configured and no entry that passes the type
check has the name of the filter, `list_all_battery_info` returns normally
having written the batch opener and the batch closer alone: nothing in CSV
mode, and an empty `batteries` array in JSON mode. -/
theorem C19_no_match (printf_2f : Dbl → List Char) (infostr : List Char) (cfg : config)
    (n : List Char) (entries : List dir_entry)
    (hflag : cfg.has CONFIG_FLAG_BY_NAME = true) (hname : cfg.cmdopts_n = some n)
    (hno : ∀ e ∈ entries, compare_file_contents e.type_file "Battery".toList = 0 →
      e.d_name ≠ n) :
    list_all_loop printf_2f infostr cfg entries 0 = [] ∧
    list_all_battery_info printf_2f (some entries) infostr cfg =
      some (battery_info_output_init cfg ++ battery_info_output_deinit cfg) ∧
    (cfg.output_format = output_format.OUTPUT_FORMAT_CSV →
      list_all_battery_info printf_2f (some entries) infostr cfg = some []) ∧
    (cfg.output_format = output_format.OUTPUT_FORMAT_JSON →
      list_all_battery_info printf_2f (some entries) infostr cfg =
        some "\x7b\n\"batteries\": [\n]\n\x7d\n".toList) := by
  have hfind : entries.find? (name_match n) = none := by
    rw [List.find?_eq_none]
    intro e he hm
    simp only [name_match, Bool.and_eq_true, Bool.not_eq_true', decide_eq_true_eq,
      beq_iff_eq] at hm
    exact hno e he hm.1.2 hm.2
  have hloop : list_all_loop printf_2f infostr cfg entries 0 = [] := by
    rw [list_all_loop_by_name printf_2f infostr cfg n hflag hname, hfind]
  have hall : list_all_battery_info printf_2f (some entries) infostr cfg =
      some (battery_info_output_init cfg ++ battery_info_output_deinit cfg) := by
    simp [list_all_battery_info, hloop]
  refine ⟨hloop, hall, ?_, ?_⟩
  · intro hfmt
    rw [hall]
    simp [battery_info_output_init, battery_info_output_deinit, hfmt]
  · intro hfmt
    rw [hall]
    simp only [battery_info_output_init, battery_info_output_deinit, hfmt]
    decide

/-- C19 (witness). The filter `BAT9` on a directory that holds `BAT0` alone. -/
theorem C19_no_match_witness :
    (config_by_name "BAT9".toList).has CONFIG_FLAG_BY_NAME = true ∧
    (config_by_name "BAT9".toList).cmdopts_n = some "BAT9".toList ∧
    (∀ e ∈ [sample_entry "BAT0"],
      compare_file_contents e.type_file "Battery".toList = 0 → e.d_name ≠ "BAT9".toList) ∧
    list_all_battery_info (fun _ => []) (some [sample_entry "BAT0"]) "c".toList
        (config_by_name "BAT9".toList) = some [] :=
  ⟨by decide, rfl, by decide,
    (C19_no_match (fun _ => []) "c".toList (config_by_name "BAT9".toList) "BAT9".toList
      [sample_entry "BAT0"] (by decide) rfl (by decide)).2.2.1 rfl⟩

/-! ## The fields of a record -/

theorem COMPLETE_OUTPUT_SEQUENCE_toList :
    COMPLETE_OUTPUT_SEQUENCE.toList =
      ['n', 'c', 't', 'v', 'C', 'T', 'd', 'm', 'M', 'e', 's', 'h', 'S', 'H', 'r', 'p', 'o',
        'g', 'D'] := by
  decide

/-- The `switch` of `list_battery_info` makes, for each character, the call
that the usage text gives to the character, and no call for any other
character. -/
theorem field_switch_usage (info : battery_info) (c : Char) :
    field_switch info c = (usage_fields.lookup c).map (fun f => f info) := by
  by_cases h : c ∈ COMPLETE_OUTPUT_SEQUENCE.toList
  · rw [COMPLETE_OUTPUT_SEQUENCE_toList] at h
    simp only [List.mem_cons, List.not_mem_nil, or_false] at h
    rcases h with rfl | rfl | rfl | rfl | rfl | rfl | rfl | rfl | rfl | rfl | rfl | rfl | rfl |
      rfl | rfl | rfl | rfl | rfl | rfl <;> rfl
  · rw [COMPLETE_OUTPUT_SEQUENCE_toList] at h
    simp only [List.mem_cons, List.not_mem_nil, or_false, not_or] at h
    obtain ⟨h1, h2, h3, h4, h5, h6, h7, h8, h9, h10, h11, h12, h13, h14, h15, h16, h17, h18,
      h19⟩ := h
    have hs : field_switch info c = none := by
      simp only [field_switch, h1, h2, h3, h4, h5, h6, h7, h8, h9, h10, h11, h12, h13, h14,
        h15, h16, h17, h18, h19, if_false]
    have hb : ∀ x : Char, c ≠ x → (c == x) = false := fun x hx => beq_eq_false_iff_ne.mpr hx
    have hl : usage_fields.lookup c = none := by
      simp only [usage_fields, List.lookup, hb _ h1, hb _ h2, hb _ h3, hb _ h4, hb _ h5,
        hb _ h6, hb _ h7, hb _ h8, hb _ h9, hb _ h10, hb _ h11, hb _ h12, hb _ h13, hb _ h14,
        hb _ h15, hb _ h16, hb _ h17, hb _ h18, hb _ h19]
    rw [hs, hl]
    rfl

/-- Every character of the complete sequence makes a call. -/
theorem field_switch_isSome (info : battery_info) (c : Char)
    (h : c ∈ COMPLETE_OUTPUT_SEQUENCE.toList) : (field_switch info c).isSome = true := by
  rw [COMPLETE_OUTPUT_SEQUENCE_toList] at h
  simp only [List.mem_cons, List.not_mem_nil, or_false] at h
  rcases h with rfl | rfl | rfl | rfl | rfl | rfl | rfl | rfl | rfl | rfl | rfl | rfl | rfl |
    rfl | rfl | rfl | rfl | rfl | rfl <;> rfl

/-- On a valid sequence the loop of `list_battery_info` makes one call per
character, in the order of the characters. -/
theorem field_calls_valid (info : battery_info) (s : List Char)
    (h : ∀ c ∈ s, c ∈ COMPLETE_OUTPUT_SEQUENCE.toList) :
    (field_calls info s).map some = s.map (field_switch info) := by
  induction s with
  | nil => rfl
  | cons c s ih =>
      have hc := field_switch_isSome info c (h c (by simp))
      have hs := ih (fun x hx => h x (by simp [hx]))
      cases hsw : field_switch info c with
      | none => rw [hsw] at hc; exact absurd hc (by decide)
      | some call =>
          simp only [field_calls, hsw, List.map_cons, hs]

/-- C20. For every valid field sequence `s`, the loop of `list_battery_info`
makes exactly one call of a field output routine per character of `s`, in the
order of the characters, each being the call that the usage text gives to the
character; `list_battery_info` writes the record start, the texts of these
calls in order and the record end; and with the "all" flag the sequence is the
complete sequence, whatever `s` is. -/
theorem C20_field_order (info : battery_info) (s : List Char)
    (hvalid : ∀ c ∈ s, c ∈ COMPLETE_OUTPUT_SEQUENCE.toList) :
    (field_calls info s).length = s.length ∧
    (field_calls info s).map some =
      s.map (fun c => (usage_fields.lookup c).map (fun f => f info)) ∧
    (∀ (printf_2f : Dbl → List Char) (battery : Int) (e : dir_entry) (cfg : config),
      ¬ (e.uevent = none ∧ e.device_uevent = none) →
      cfg.has CONFIG_FLAG_OUTPUT_ALL = false →
      (list_battery_info printf_2f battery e s cfg).2 =
        battery_info_output_start battery cfg ++
          ((field_calls
            (get_battery_info e.uevent e.device_uevent battery_info_init cfg e.buf0).2
            s).map (output_call printf_2f cfg)).flatten ++
          battery_info_output_end cfg) ∧
    (∀ (printf_2f : Dbl → List Char) (battery : Int) (e : dir_entry) (cfg : config),
      cfg.has CONFIG_FLAG_OUTPUT_ALL = true →
      list_battery_info printf_2f battery e s cfg =
        list_battery_info printf_2f battery e COMPLETE_OUTPUT_SEQUENCE.toList cfg) := by
  have hcalls := field_calls_valid info s hvalid
  refine ⟨?_, ?_, ?_, ?_⟩
  · have := congrArg List.length hcalls
    simpa using this
  · rw [hcalls]
    apply List.map_congr_left
    intro c _
    exact field_switch_usage info c
  · intro printf_2f battery e cfg hopen hall
    have hs := get_battery_info_status e.uevent e.device_uevent battery_info_init cfg e.buf0
    have h0 : (get_battery_info e.uevent e.device_uevent battery_info_init cfg e.buf0).1 = 0 := by
      rcases hs.2.1 with h1 | h1
      · exact absurd (hs.1.mp h1) hopen
      · exact h1
    simp [list_battery_info, h0, hall]
  · intro printf_2f battery e cfg hall
    simp [list_battery_info, hall]

/-- C20 (witness). The sequence `ccn` makes three calls: the charge twice, then
the name. -/
theorem C20_field_order_witness :
    (∀ c ∈ "ccn".toList, c ∈ COMPLETE_OUTPUT_SEQUENCE.toList) ∧
    field_calls battery_info_init "ccn".toList =
      [.double_percent DOUBLE_INVALID "charge", .double_percent DOUBLE_INVALID "charge",
        .str none "name"] := by
  have h := (C20_field_order battery_info_init "ccn".toList (by decide)).2.1
  refine ⟨by decide, ?_⟩
  have hinj : Function.Injective (some : field_call → Option field_call) :=
    fun a b hab => Option.some.inj hab
  apply List.map_injective_iff.mpr hinj
  rw [h]
  rfl

/-! ## Values that are not available in the output -/

/-- The CSV text of a string field: the head of the field, the string or a
question mark, and a newline. -/
theorem battery_info_output_str_csv (s : Option (List Char)) (name : String) (flags : Nat)
    (n : Option (List Char)) :
    battery_info_output_str s name
        { configflags := flags, output_format := .OUTPUT_FORMAT_CSV, cmdopts_n := n } =
      output_csv_name name ++ (s.getD "?".toList ++ "\n".toList) := by
  cases s <;> rfl

/-- C21 (counterexample). A model line whose value is a question mark gives the
record the available string `?`, and in CSV mode this string is rendered exactly
as a model that is not available. -/
theorem C21_question_mark_counterexample :
    (get_battery_info (some "POWER_SUPPLY_MODEL_NAME=?\n".toList) none battery_info_init
      config_init []).2.model = some "?".toList ∧
    battery_info_output_str (some "?".toList) "model" config_init =
      battery_info_output_str none "model" config_init := by
  have hr : (read_uevent uevent_keys
      { raw := raw_longs_init, info := battery_info_init, buf := [] }
      "POWER_SUPPLY_MODEL_NAME=?\n".toList).info.model = some "?".toList := by decide
  refine ⟨?_, rfl⟩
  rw [get_battery_info_uevent_only]
  exact (process_strings _ _ _).2.1.trans hr

/-- C21 (amended). A double, a percentage or a string that is not available is
rendered as a question mark in CSV mode and as `null` in JSON mode; an available
string is rendered as its own text in CSV mode and as its text between double
quotes in JSON mode, so that it is never rendered as `null`, and it is rendered
as a string that is not available only in CSV mode and only when it is the
string `?`. -/
theorem C21_unavailable_rendering (printf_2f : Dbl → List Char) (name : String) (flags : Nat)
    (n : Option (List Char)) :
    (battery_info_output_double printf_2f DOUBLE_INVALID name
          { configflags := flags, output_format := .OUTPUT_FORMAT_CSV, cmdopts_n := n } =
        output_csv_name name ++ "?\n".toList ∧
      battery_info_output_double_percent printf_2f DOUBLE_INVALID name
          { configflags := flags, output_format := .OUTPUT_FORMAT_CSV, cmdopts_n := n } =
        output_csv_name name ++ "?\n".toList ∧
      battery_info_output_str none name
          { configflags := flags, output_format := .OUTPUT_FORMAT_CSV, cmdopts_n := n } =
        output_csv_name name ++ "?\n".toList) ∧
    (battery_info_output_double printf_2f DOUBLE_INVALID name
          { configflags := flags, output_format := .OUTPUT_FORMAT_JSON, cmdopts_n := n } =
        ",\n\t\t\"".toList ++ name.toList ++ "\": ".toList ++ "null".toList ∧
      battery_info_output_double_percent printf_2f DOUBLE_INVALID name
          { configflags := flags, output_format := .OUTPUT_FORMAT_JSON, cmdopts_n := n } =
        ",\n\t\t\"".toList ++ name.toList ++ "\": ".toList ++ "null".toList ∧
      battery_info_output_str none name
          { configflags := flags, output_format := .OUTPUT_FORMAT_JSON, cmdopts_n := n } =
        ",\n\t\t\"".toList ++ name.toList ++ "\": ".toList ++ "null".toList) ∧
    (∀ t : List Char,
      battery_info_output_str (some t) name
          { configflags := flags, output_format := .OUTPUT_FORMAT_CSV, cmdopts_n := n } =
        output_csv_name name ++ (t ++ "\n".toList) ∧
      (battery_info_output_str (some t) name
          { configflags := flags, output_format := .OUTPUT_FORMAT_CSV, cmdopts_n := n } =
        battery_info_output_str none name
          { configflags := flags, output_format := .OUTPUT_FORMAT_CSV, cmdopts_n := n } ↔
        t = "?".toList) ∧
      battery_info_output_str (some t) name
          { configflags := flags, output_format := .OUTPUT_FORMAT_JSON, cmdopts_n := n } =
        ",\n\t\t\"".toList ++ name.toList ++ "\": ".toList ++
          ("\"".toList ++ t ++ "\"".toList) ∧
      battery_info_output_str (some t) name
          { configflags := flags, output_format := .OUTPUT_FORMAT_JSON, cmdopts_n := n } ≠
        battery_info_output_str none name
          { configflags := flags, output_format := .OUTPUT_FORMAT_JSON, cmdopts_n := n }) := by
  refine ⟨⟨?_, ?_, rfl⟩, ⟨?_, ?_, rfl⟩, ?_⟩
  · simp [battery_info_output_double]
  · simp [battery_info_output_double_percent]
  · simp [battery_info_output_double]
  · simp [battery_info_output_double_percent]
  · intro t
    refine ⟨rfl, ?_, rfl, ?_⟩
    · rw [battery_info_output_str_csv, battery_info_output_str_csv]
      simp only [Option.getD_some, Option.getD_none]
      constructor
      · intro h
        have h1 := List.append_cancel_left h
        exact List.append_cancel_right h1
      · intro h
        rw [h]
    · intro h
      simp only [battery_info_output_str] at h
      have h1 := List.append_cancel_left h
      have h2 : ("\"".toList ++ t ++ "\"".toList).head? = ("null".toList).head? := by rw [h1]
      simp at h2

/-! ## The words of the flags -/

theorem and_or_other (n a b : Nat) (h : a &&& b = 0) : (n ||| a) &&& b = n &&& b := by
  rw [Nat.and_comm, Nat.and_or_distrib_left, Nat.and_comm b a, h, Nat.or_zero, Nat.and_comm]

/-- The digits option sets its own flag and leaves the three other flags as
they are. -/
theorem config_with_digits_has (cfg : config) :
    (config_with_digits cfg).has CONFIG_FLAG_DIGITS = true ∧
    (config_with_digits cfg).has CONFIG_FLAG_BY_NAME = cfg.has CONFIG_FLAG_BY_NAME ∧
    (config_with_digits cfg).has CONFIG_FLAG_OUTPUT_ALL = cfg.has CONFIG_FLAG_OUTPUT_ALL ∧
    (config_with_digits cfg).has CONFIG_FLAG_DISABLE_CHARGE_CAP =
      cfg.has CONFIG_FLAG_DISABLE_CHARGE_CAP := by
  refine ⟨?_, ?_, ?_, ?_⟩
  · have h : (cfg.configflags ||| CONFIG_FLAG_DIGITS) &&& CONFIG_FLAG_DIGITS =
        CONFIG_FLAG_DIGITS := by
      rw [Nat.and_comm, Nat.and_or_distrib_left, Nat.and_self]
      apply Nat.eq_of_testBit_eq
      intro i
      simp only [Nat.testBit_or, Nat.testBit_and]
      cases Nat.testBit CONFIG_FLAG_DIGITS i <;> simp
    simp only [config.has, config_with_digits, h]
    decide
  · simp only [config.has, config_with_digits]
    rw [and_or_other _ _ _ (by decide)]
  · simp only [config.has, config_with_digits]
    rw [and_or_other _ _ _ (by decide)]
  · simp only [config.has, config_with_digits]
    rw [and_or_other _ _ _ (by decide)]

/-- C22. The routine `battery_info_output_flag` writes the head of the field,
the word of the flag and the tail of the field, where the word is, for true,
false and unknown: yes, no, ? in CSV without digits; 1, 0, ? in CSV with
digits; true, false, null in JSON without digits; 1, 0, null in JSON with
digits.  The head and the tail do not depend on the digits option, which
changes no other flag of the configuration, and the other output routines
write the same text with and without it. -/
theorem C22_flag_rendering (flag : Int) (name : String) (cfg : config) :
    battery_info_output_flag flag name cfg =
      field_head name cfg.output_format ++
        (flag_word cfg.output_format (cfg.has CONFIG_FLAG_DIGITS) (flag_state flag)).toList ++
        field_tail cfg.output_format ∧
    (flag_word .OUTPUT_FORMAT_CSV false (some true) = "yes" ∧
      flag_word .OUTPUT_FORMAT_CSV false (some false) = "no" ∧
      flag_word .OUTPUT_FORMAT_CSV false none = "?" ∧
      flag_word .OUTPUT_FORMAT_CSV true (some true) = "1" ∧
      flag_word .OUTPUT_FORMAT_CSV true (some false) = "0" ∧
      flag_word .OUTPUT_FORMAT_CSV true none = "?" ∧
      flag_word .OUTPUT_FORMAT_JSON false (some true) = "true" ∧
      flag_word .OUTPUT_FORMAT_JSON false (some false) = "false" ∧
      flag_word .OUTPUT_FORMAT_JSON false none = "null" ∧
      flag_word .OUTPUT_FORMAT_JSON true (some true) = "1" ∧
      flag_word .OUTPUT_FORMAT_JSON true (some false) = "0" ∧
      flag_word .OUTPUT_FORMAT_JSON true none = "null") ∧
    (flag_state 1 = some true ∧ flag_state 0 = some false ∧ flag_state (-1) = none) ∧
    ((config_with_digits cfg).has CONFIG_FLAG_DIGITS = true ∧
      (config_with_digits cfg).has CONFIG_FLAG_BY_NAME = cfg.has CONFIG_FLAG_BY_NAME ∧
      (config_with_digits cfg).has CONFIG_FLAG_OUTPUT_ALL = cfg.has CONFIG_FLAG_OUTPUT_ALL ∧
      (config_with_digits cfg).has CONFIG_FLAG_DISABLE_CHARGE_CAP =
        cfg.has CONFIG_FLAG_DISABLE_CHARGE_CAP ∧
      (config_with_digits cfg).output_format = cfg.output_format ∧
      (config_with_digits cfg).cmdopts_n = cfg.cmdopts_n) ∧
    (∀ (printf_2f : Dbl → List Char) (d : Dbl) (s : Option (List Char)) (battery : Int),
      battery_info_output_double printf_2f d name (config_with_digits cfg) =
        battery_info_output_double printf_2f d name cfg ∧
      battery_info_output_double_percent printf_2f d name (config_with_digits cfg) =
        battery_info_output_double_percent printf_2f d name cfg ∧
      battery_info_output_str s name (config_with_digits cfg) =
        battery_info_output_str s name cfg ∧
      battery_info_output_init (config_with_digits cfg) = battery_info_output_init cfg ∧
      battery_info_output_deinit (config_with_digits cfg) = battery_info_output_deinit cfg ∧
      battery_info_output_start battery (config_with_digits cfg) =
        battery_info_output_start battery cfg ∧
      battery_info_output_end (config_with_digits cfg) = battery_info_output_end cfg) := by
  refine ⟨?_, by decide, by decide, ?_, ?_⟩
  · unfold battery_info_output_flag field_head field_tail flag_state
    cases cfg.output_format <;> cases cfg.has CONFIG_FLAG_DIGITS <;>
      by_cases h1 : flag = 1 <;> by_cases h0 : flag = 0 <;>
      first
        | omega
        | simp [h1, h0, flag_word]
  · obtain ⟨h1, h2, h3, h4⟩ := config_with_digits_has cfg
    exact ⟨h1, h2, h3, h4, rfl, rfl⟩
  · intro printf_2f d s battery
    exact ⟨rfl, rfl, rfl, rfl, rfl, rfl, rfl⟩

/-! ## The alphabet of the fields -/

/-- A character of the complete sequence has a `case` in the checking `switch`
of `main` and makes a call in the `switch` of `list_battery_info`; any other
character reaches the `default` label of both. -/
theorem main_case_cases (c : Char) :
    (c ∈ COMPLETE_OUTPUT_SEQUENCE.toList ∧ main_case c = true ∧
      ∀ info : battery_info, (field_switch info c).isSome = true) ∨
    (c ∉ COMPLETE_OUTPUT_SEQUENCE.toList ∧ main_case c = false ∧
      ∀ info : battery_info, field_switch info c = none) := by
  by_cases h : c ∈ COMPLETE_OUTPUT_SEQUENCE.toList
  · left
    refine ⟨h, ?_, fun info => field_switch_isSome info c h⟩
    rw [COMPLETE_OUTPUT_SEQUENCE_toList] at h
    simp only [List.mem_cons, List.not_mem_nil, or_false] at h
    rcases h with rfl | rfl | rfl | rfl | rfl | rfl | rfl | rfl | rfl | rfl | rfl | rfl | rfl |
      rfl | rfl | rfl | rfl | rfl | rfl <;> rfl
  · right
    refine ⟨h, ?_, fun info => ?_⟩
    · rw [COMPLETE_OUTPUT_SEQUENCE_toList] at h
      simp only [List.mem_cons, List.not_mem_nil, or_false, not_or] at h
      obtain ⟨h1, h2, h3, h4, h5, h6, h7, h8, h9, h10, h11, h12, h13, h14, h15, h16, h17, h18,
        h19⟩ := h
      have hb : ∀ x : Char, c ≠ x → (c == x) = false := fun x hx => beq_eq_false_iff_ne.mpr hx
      simp only [main_case, hb _ h1, hb _ h2, hb _ h3, hb _ h4, hb _ h5, hb _ h6, hb _ h7,
        hb _ h8, hb _ h9, hb _ h10, hb _ h11, hb _ h12, hb _ h13, hb _ h14, hb _ h15, hb _ h16,
        hb _ h17, hb _ h18, hb _ h19, Bool.or_self]
    · rw [COMPLETE_OUTPUT_SEQUENCE_toList] at h
      simp only [List.mem_cons, List.not_mem_nil, or_false, not_or] at h
      obtain ⟨h1, h2, h3, h4, h5, h6, h7, h8, h9, h10, h11, h12, h13, h14, h15, h16, h17, h18,
        h19⟩ := h
      simp only [field_switch, h1, h2, h3, h4, h5, h6, h7, h8, h9, h10, h11, h12, h13, h14,
        h15, h16, h17, h18, h19, if_false]

/-- The `switch` that checks the sequence has a `case` for a character
exactly when the `switch` of `list_battery_info` makes a call for it. -/
theorem main_case_field_switch (info : battery_info) (c : Char) :
    main_case c = (field_switch info c).isSome := by
  rcases main_case_cases c with ⟨_, h1, h2⟩ | ⟨_, h1, h2⟩
  · rw [h1, h2 info]
  · rw [h1, h2 info]
    rfl

/-- The characters that the checking `switch` accepts are the characters of
the complete sequence. -/
theorem main_case_iff (c : Char) :
    main_case c = true ↔ c ∈ COMPLETE_OUTPUT_SEQUENCE.toList := by
  rcases main_case_cases c with ⟨h0, h1, _⟩ | ⟨h0, h1, _⟩
  · exact ⟨fun _ => h0, fun _ => h1⟩
  · constructor
    · intro h
      rw [h1] at h
      exact absurd h (by decide)
    · intro h
      exact absurd h h0

/-- The checking loop ends without a message exactly when every character of
the sequence has a `case`. -/
theorem main_check_eq_none (s : List Char) :
    main_check s = none ↔ ∀ c ∈ s, main_case c = true := by
  induction s with
  | nil => simp [main_check]
  | cons a t ih =>
      unfold main_check
      by_cases h : main_case a = true
      · simp [h, ih]
      · simp [h]

/-- C30. The checking `switch` of `main` accepts a character exactly when the
`switch` of `list_battery_info` makes a call for it; the accepted characters
are those of the complete sequence, which has 19 characters, all different;
the default sequence holds accepted characters only; and a sequence of length k
that the check of `main` lets through makes exactly k calls, each writing one
field. -/
theorem C30_field_alphabet :
    (∀ (c : Char) (info : battery_info), main_case c = (field_switch info c).isSome) ∧
    (∀ c : Char, main_case c = true ↔ c ∈ COMPLETE_OUTPUT_SEQUENCE.toList) ∧
    COMPLETE_OUTPUT_SEQUENCE.toList = "nctvCTdmMeshSHrpogD".toList ∧
    COMPLETE_OUTPUT_SEQUENCE.toList.length = 19 ∧
    COMPLETE_OUTPUT_SEQUENCE.toList.Nodup ∧
    DEFAULT_OUTPUT_SEQUENCE.toList = "ncvCmMedsp".toList ∧
    (∀ c ∈ DEFAULT_OUTPUT_SEQUENCE.toList, main_case c = true) ∧
    (∀ (s : List Char) (info : battery_info), main_check s = none →
      (field_calls info s).length = s.length ∧
      (field_calls info s).map some = s.map (field_switch info)) := by
  refine ⟨fun c info => main_case_field_switch info c, main_case_iff, rfl, by decide,
    by decide, rfl, by decide, ?_⟩
  intro s info hs
  have hv : ∀ c ∈ s, c ∈ COMPLETE_OUTPUT_SEQUENCE.toList := fun c hc =>
    (main_case_iff c).mp ((main_check_eq_none s).mp hs c hc)
  have h := field_calls_valid info s hv
  refine ⟨?_, h⟩
  have hl := congrArg List.length h
  simpa using hl

/-! ## The start of `main` -/

theorem has_or_other (cfg : config) (a b : Nat) (h : a &&& b = 0) :
    ({ cfg with configflags := cfg.configflags ||| a } : config).has b = cfg.has b := by
  simp only [config.has]
  rw [and_or_other _ _ _ h]

/-- Without the options for all fields, help, version and license, the loop
of `main` over the returns of `getopt_long` exits with `EXIT_FAILURE` alone,
leaves the flag for all fields unset, and leaves in `infoflagstr` the argument
that is not an option, when there is one. -/
theorem main_getopt_loop_spec (returns : List getopt_return) :
    ∀ (cfg : config) (infoflagstr : Option (List Char)),
      (∀ r ∈ returns, r.c ≠ case_label 'a' ∧ r.c ≠ case_label 'h' ∧ r.c ≠ case_label 'v' ∧
        r.c ≠ case_label 'l') →
      cfg.has CONFIG_FLAG_OUTPUT_ALL = false →
      (∀ status err, main_getopt_loop returns cfg infoflagstr = .error (status, err) →
        status = EXIT_FAILURE) ∧
      (∀ cfg' s', main_getopt_loop returns cfg infoflagstr = .ok (cfg', s') →
        cfg'.has CONFIG_FLAG_OUTPUT_ALL = false ∧ (infoflagstr ≠ none → s' = infoflagstr) ∧
        ∀ r ∈ returns, r.c = 1 → s' = some r.optarg) := by
  induction returns with
  | nil =>
      intro cfg infoflagstr _ hall
      constructor
      · intro status err h
        simp [main_getopt_loop] at h
      · intro cfg' s' h
        simp only [main_getopt_loop, Except.ok.injEq, Prod.mk.injEq] at h
        obtain ⟨h1, h2⟩ := h
        subst h1 h2
        exact ⟨hall, fun _ => rfl, fun r hr => absurd hr (List.not_mem_nil r)⟩
  | cons r rest ih =>
      intro cfg infoflagstr hno hall
      have hrest : ∀ x ∈ rest, x.c ≠ case_label 'a' ∧ x.c ≠ case_label 'h' ∧
          x.c ≠ case_label 'v' ∧ x.c ≠ case_label 'l' :=
        fun x hx => hno x (List.mem_cons_of_mem r hx)
      obtain ⟨ha, hh, hv, hl⟩ := hno r (List.mem_cons_self r rest)
      have step : ∀ (cfg1 : config) (s1 : Option (List Char)),
          cfg1.has CONFIG_FLAG_OUTPUT_ALL = false → r.c ≠ 1 →
          (infoflagstr ≠ none → s1 = infoflagstr) →
          main_getopt_loop (r :: rest) cfg infoflagstr = main_getopt_loop rest cfg1 s1 →
          (∀ status err, main_getopt_loop (r :: rest) cfg infoflagstr = .error (status, err) →
            status = EXIT_FAILURE) ∧
          (∀ cfg' s', main_getopt_loop (r :: rest) cfg infoflagstr = .ok (cfg', s') →
            cfg'.has CONFIG_FLAG_OUTPUT_ALL = false ∧
            (infoflagstr ≠ none → s' = infoflagstr) ∧
            ∀ x ∈ r :: rest, x.c = 1 → s' = some x.optarg) := by
        intro cfg1 s1 h1 hne hs1 heq
        obtain ⟨ihe, iho⟩ := ih cfg1 s1 hrest h1
        rw [heq]
        refine ⟨ihe, fun cfg' s' hok => ?_⟩
        obtain ⟨k1, k2, k3⟩ := iho cfg' s' hok
        refine ⟨k1, fun hn => ?_, fun x hx hx1 => ?_⟩
        · have := hs1 hn
          rw [← this]
          exact k2 (by rw [this]; exact hn)
        · rcases List.mem_cons.mp hx with hxr | hxr
          · rw [hxr] at hx1
            exact absurd hx1 hne
          · exact k3 x hxr hx1
      by_cases hd : r.c = case_label 'd'
      · exact step { cfg with configflags := cfg.configflags ||| CONFIG_FLAG_DIGITS }
          infoflagstr ((has_or_other cfg _ _ (by decide)).trans hall)
          (by rw [hd]; decide) (fun _ => rfl)
          (by simp only [main_getopt_loop, if_neg hh, if_neg hv, if_neg hl, if_neg ha, if_pos hd])
      by_cases hj : r.c = case_label 'j'
      · exact step { cfg with output_format := .OUTPUT_FORMAT_JSON } infoflagstr hall
          (by rw [hj]; decide) (fun _ => rfl)
          (by simp only [main_getopt_loop, if_neg hh, if_neg hv, if_neg hl, if_neg ha, if_neg hd,
            if_pos hj])
      by_cases hn : r.c = case_label 'n'
      · by_cases hlen : r.optarg.length < 1
        · have heq : main_getopt_loop (r :: rest) cfg infoflagstr =
              .error (EXIT_FAILURE, [.name_is_empty]) := by
            simp only [main_getopt_loop, if_neg hh, if_neg hv, if_neg hl, if_neg ha, if_neg hd,
              if_neg hj, if_pos hn, if_pos hlen]
          rw [heq]
          constructor
          · intro status err h
            simp only [Except.error.injEq, Prod.mk.injEq] at h
            exact h.1.symm
          · intro cfg' s' h
            simp at h
        · exact step
            { cfg with
              cmdopts_n := some r.optarg
              configflags := cfg.configflags ||| CONFIG_FLAG_BY_NAME } infoflagstr
            ((has_or_other { cfg with cmdopts_n := some r.optarg } _ _ (by decide)).trans hall)
            (by rw [hn]; decide) (fun _ => rfl)
            (by simp only [main_getopt_loop, if_neg hh, if_neg hv, if_neg hl, if_neg ha,
              if_neg hd, if_neg hj, if_pos hn, if_neg hlen])
      by_cases hN : r.c = case_label 'N'
      · exact step { cfg with configflags := cfg.configflags ||| CONFIG_FLAG_DISABLE_CHARGE_CAP }
          infoflagstr ((has_or_other cfg _ _ (by decide)).trans hall)
          (by rw [hN]; decide) (fun _ => rfl)
          (by simp only [main_getopt_loop, if_neg hh, if_neg hv, if_neg hl, if_neg ha, if_neg hd,
            if_neg hj, if_neg hn, if_pos hN])
      by_cases hq : r.c = case_label '?'
      · have heq : main_getopt_loop (r :: rest) cfg infoflagstr =
            .error (EXIT_FAILURE, [.invalid_option r.optopt, .short_usage_str]) := by
          simp only [main_getopt_loop, if_neg hh, if_neg hv, if_neg hl, if_neg ha, if_neg hd,
            if_neg hj, if_neg hn, if_neg hN, if_pos hq]
        rw [heq]
        constructor
        · intro status err h
          simp only [Except.error.injEq, Prod.mk.injEq] at h
          exact h.1.symm
        · intro cfg' s' h
          simp at h
      by_cases h1 : r.c = 1
      · by_cases hset : infoflagstr ≠ none
        · have heq : main_getopt_loop (r :: rest) cfg infoflagstr =
              .error (EXIT_FAILURE, [.short_usage_str]) := by
            simp only [main_getopt_loop, if_neg hh, if_neg hv, if_neg hl, if_neg ha, if_neg hd,
              if_neg hj, if_neg hn, if_neg hN, if_neg hq, if_pos h1, if_pos hset]
          rw [heq]
          constructor
          · intro status err h
            simp only [Except.error.injEq, Prod.mk.injEq] at h
            exact h.1.symm
          · intro cfg' s' h
            simp at h
        · have heq : main_getopt_loop (r :: rest) cfg infoflagstr =
              main_getopt_loop rest cfg (some r.optarg) := by
            simp only [main_getopt_loop, if_neg hh, if_neg hv, if_neg hl, if_neg ha, if_neg hd,
              if_neg hj, if_neg hn, if_neg hN, if_neg hq, if_pos h1, if_neg hset]
          obtain ⟨ihe, iho⟩ := ih cfg (some r.optarg) hrest hall
          rw [heq]
          refine ⟨ihe, fun cfg' s' hok => ?_⟩
          obtain ⟨k1, k2, k3⟩ := iho cfg' s' hok
          refine ⟨k1, fun hn' => absurd hn' hset, fun x hx _ => ?_⟩
          rcases List.mem_cons.mp hx with hxr | hxr
          · rw [hxr]
            exact k2 (by simp)
          · exact k3 x hxr (by assumption)
      · exact step cfg infoflagstr hall h1 (fun _ => rfl)
          (by simp only [main_getopt_loop, if_neg hh, if_neg hv, if_neg hl, if_neg ha, if_neg hd,
            if_neg hj, if_neg hn, if_neg hN, if_neg hq, if_neg h1])

/-! ## A sequence with a character that is not a field -/

/-- The routine `main` ends as its start ends when the start exits. -/
theorem main_of_exit (printf_2f : Dbl → List Char) (returns : List getopt_return)
    (basedir : Option (List dir_entry)) (status : Int) (err : List stderr_item)
    (h : main_startup returns = .exit status err) :
    main printf_2f returns basedir = (status, [], err) := by
  simp only [main, h]

/-- The routine `main` when its start reaches `list_all_battery_info` and the
directory opens. -/
theorem main_of_run (printf_2f : Dbl → List Char) (returns : List getopt_return)
    (entries : List dir_entry) (infostr : List Char) (cfg : config)
    (h : main_startup returns = .run infostr cfg) :
    main printf_2f returns (some entries) =
      (0, battery_info_output_init cfg ++ list_all_loop printf_2f infostr cfg entries 0 ++
        battery_info_output_deinit cfg, []) := by
  simp only [main, h, list_all_battery_info]

/-- C23 (counterexample). The sequence `x` holds a character that is not a
field.  With the option for all fields the program does not exit at its start:
it opens the directory, lists the battery `BAT0` on `stdout` and ends with
status 0 (with an empty directory and the JSON option it writes the empty
batch, and its status is 1 only when the directory does not open); and with the
help option after the sequence it exits with status 0. -/
theorem C23_all_fields_counterexample :
    main_check "x".toList = some 'x' ∧
    (main (fun _ => []) [getopt_argument "x", getopt_option 'a']
      (some [sample_entry "BAT0"])).1 = 0 ∧
    "battery:                      0\n".toList <+:
      (main (fun _ => []) [getopt_argument "x", getopt_option 'a']
        (some [sample_entry "BAT0"])).2.1 ∧
    main (fun _ => []) [getopt_argument "x", getopt_option 'a', getopt_option 'j'] (some []) =
      (0, "\x7b\n\"batteries\": [\n]\n\x7d\n".toList, []) ∧
    main (fun _ => []) [getopt_argument "x", getopt_option 'a', getopt_option 'j'] none =
      (1, [], [.opendir_failed]) ∧
    main (fun _ => []) [getopt_argument "x", getopt_option 'h'] (some []) =
      (0, [], [.usage_str]) := by
  have hst : main_startup [getopt_argument "x", getopt_option 'a'] =
      .run DEFAULT_OUTPUT_SEQUENCE.toList
        { config_init with configflags := 0 ||| CONFIG_FLAG_OUTPUT_ALL } := rfl
  have hall : ({ config_init with configflags := 0 ||| CONFIG_FLAG_OUTPUT_ALL } : config).has
      CONFIG_FLAG_OUTPUT_ALL = true := by decide
  have hname : ({ config_init with configflags := 0 ||| CONFIG_FLAG_OUTPUT_ALL } : config).has
      CONFIG_FLAG_BY_NAME = false := by decide
  have htype : compare_file_contents (sample_entry "BAT0").type_file "Battery".toList = 0 := by
    decide
  have hdot : ¬ ((sample_entry "BAT0").d_name.head? = some '.') := by decide
  have h0 : (get_battery_info (sample_entry "BAT0").uevent (sample_entry "BAT0").device_uevent
      battery_info_init { config_init with configflags := 0 ||| CONFIG_FLAG_OUTPUT_ALL }
      (sample_entry "BAT0").buf0).1 = 0 := by
    rcases (get_battery_info_status (sample_entry "BAT0").uevent
      (sample_entry "BAT0").device_uevent battery_info_init
      { config_init with configflags := 0 ||| CONFIG_FLAG_OUTPUT_ALL }
      (sample_entry "BAT0").buf0) with ⟨h1, h2, _⟩
    rcases h2 with h2 | h2
    · exact absurd (h1.mp h2).1 (by decide)
    · exact h2
  have hout : (main (fun _ => []) [getopt_argument "x", getopt_option 'a']
      (some [sample_entry "BAT0"])) =
      (0, "battery:                      0\n".toList ++
        (((field_calls
          (get_battery_info (sample_entry "BAT0").uevent (sample_entry "BAT0").device_uevent
            battery_info_init { config_init with configflags := 0 ||| CONFIG_FLAG_OUTPUT_ALL }
            (sample_entry "BAT0").buf0).2
          COMPLETE_OUTPUT_SEQUENCE.toList).map
            (output_call (fun _ => [])
              { config_init with configflags := 0 ||| CONFIG_FLAG_OUTPUT_ALL })).flatten), []) := by
    rw [main_of_run _ _ _ _ _ hst]
    simp only [list_all_loop, if_neg hdot, htype, if_true, hname, Bool.false_eq_true, if_false,
      list_battery_info, h0, hall]
    have hd : decimal 0 = ['0'] := by decide
    simp [battery_info_output_init, battery_info_output_deinit, battery_info_output_start,
      battery_info_output_end, config_init, hd]
  refine ⟨by decide, ?_, ?_, by decide, by decide, by decide⟩
  · rw [hout]
  · rw [hout]
    exact List.prefix_append _ _

/-- C23 (amended). When an argument that is not an option holds a character
outside of the 19 characters of the fields, and the options for all fields,
help, version and license are not given, `main` exits with the status
`EXIT_FAILURE`, which is not zero, before its call of `list_all_battery_info`:
nothing is written to `stdout`, and the status and the output are the same
whatever the power supply directory holds, whichever other options are
given. -/
theorem C23_invalid_sequence_exits (returns : List getopt_return) (r : getopt_return)
    (hr : r ∈ returns) (hpos : r.c = 1) (hbad : main_check r.optarg ≠ none)
    (hno : ∀ x ∈ returns, x.c ≠ case_label 'a' ∧ x.c ≠ case_label 'h' ∧
      x.c ≠ case_label 'v' ∧ x.c ≠ case_label 'l') :
    EXIT_FAILURE ≠ 0 ∧
    ∃ err, main_startup returns = .exit EXIT_FAILURE err ∧
      ∀ (printf_2f : Dbl → List Char) (basedir : Option (List dir_entry)),
        main printf_2f returns basedir = (EXIT_FAILURE, [], err) := by
  refine ⟨by decide, ?_⟩
  have hinit : config_init.has CONFIG_FLAG_OUTPUT_ALL = false := by decide
  obtain ⟨he, ho⟩ := main_getopt_loop_spec returns config_init none hno hinit
  have key : ∃ err, main_startup returns = .exit EXIT_FAILURE err := by
    cases hloop : main_getopt_loop returns config_init none with
    | error p =>
        obtain ⟨status, err⟩ := p
        have hs := he status err hloop
        refine ⟨err, ?_⟩
        simp only [main_startup, hloop, hs]
    | ok p =>
        obtain ⟨cfg', s'⟩ := p
        obtain ⟨h1, _, h3⟩ := ho cfg' s' hloop
        have hs' := h3 r hr hpos
        cases hc : main_check r.optarg with
        | none => exact absurd hc hbad
        | some c =>
            refine ⟨[.unrecognised_character c, .short_usage_str], ?_⟩
            simp only [main_startup, hloop, hs', h1, hc, Bool.not_false, if_true]
  obtain ⟨err, herr⟩ := key
  exact ⟨err, herr, fun printf_2f basedir => main_of_exit printf_2f returns basedir _ _ herr⟩

/-- C23 (witness). The sequence `nxc` with the JSON option: `x` is not a field,
and the program exits with status 1 having named the character. -/
theorem C23_invalid_sequence_exits_witness :
    getopt_argument "nxc" ∈ [getopt_option 'j', getopt_argument "nxc"] ∧
    (getopt_argument "nxc").c = 1 ∧
    main_check (getopt_argument "nxc").optarg ≠ none ∧
    (∀ x ∈ [getopt_option 'j', getopt_argument "nxc"], x.c ≠ case_label 'a' ∧
      x.c ≠ case_label 'h' ∧ x.c ≠ case_label 'v' ∧ x.c ≠ case_label 'l') ∧
    main (fun _ => []) [getopt_option 'j', getopt_argument "nxc"]
        (some [sample_entry "BAT0"]) =
      (1, [], [.unrecognised_character 'x', .short_usage_str]) := by
  obtain ⟨_, err, hst, hmain⟩ := C23_invalid_sequence_exits
    [getopt_option 'j', getopt_argument "nxc"] (getopt_argument "nxc") (by decide) (by decide)
    (by decide) (by decide)
  have herr : err = [.unrecognised_character 'x', .short_usage_str] := by
    have h2 : main_startup [getopt_option 'j', getopt_argument "nxc"] =
        .exit EXIT_FAILURE [.unrecognised_character 'x', .short_usage_str] := rfl
    rw [h2] at hst
    injection hst with _ h
    exact h.symm
  refine ⟨by decide, by decide, by decide, by decide, ?_⟩
  rw [hmain (fun _ => []) (some [sample_entry "BAT0"]), herr]
  rfl

/-! ## The charge when the capacity is of no use -/

/-- The charge when neither branch of `process_charge` is taken: as it was. -/
theorem process_charge_unset (r : raw_longs) (cfg : config) (info : battery_info)
    (hinit : info.charge = DOUBLE_INVALID)
    (hcap : ¬ (r.capacity ≠ LONG_INVALID ∧ r.capacity ≥ 0 ∧ r.capacity ≤ 100))
    (hch : ¬ (r.charge_now ≠ LONG_INVALID ∧ r.charge_full ≠ LONG_INVALID)) :
    (process r cfg info).charge = DOUBLE_INVALID := by
  rw [process_charge_val]
  simp only [process_charge, if_neg hcap, if_neg hch, process_charge_cap, hinit,
    DOUBLE_INVALID_not_gt, Bool.and_false, Bool.false_eq_true, if_false]

/-- With the cap enabled, a charge-now that is not negative and a positive
charge-full, the charge of the record lies between 0 and 100. -/
theorem process_charge_range (r : raw_longs) (cfg : config) (info : battery_info)
    (hcap : cfg.has CONFIG_FLAG_DISABLE_CHARGE_CAP = false) (hlnow : isLong r.charge_now)
    (hlfull : isLong r.charge_full) (hnow : 0 ≤ r.charge_now) (hfull : 0 < r.charge_full) :
    ∃ q : ℚ, (process r cfg info).charge = Dbl.fin q ∧ 0 ≤ q ∧ q ≤ 100 := by
  by_cases hc : r.capacity ≠ LONG_INVALID ∧ r.capacity ≥ 0 ∧ r.capacity ≤ 100
  · refine ⟨(r.capacity : ℚ), process_charge_of_capacity r cfg info hc.2.1 hc.2.2, ?_, ?_⟩
    · exact_mod_cast hc.2.1
    · exact_mod_cast hc.2.2
  · have hn : r.charge_now ≠ LONG_INVALID := by rw [LONG_INVALID_eq]; omega
    have hf : r.charge_full ≠ LONG_INVALID := by rw [LONG_INVALID_eq]; omega
    have hval := process_charge_of_ratio r cfg info hc hn hf
    obtain ⟨nn, hnn, _, hn1, _, hn0, _⟩ := Dbl.ofLong_long r.charge_now hlnow
    obtain ⟨nf, hnf, _, hf1, _, _, _⟩ := Dbl.ofLong_long r.charge_full hlfull
    have hnf0 : (0 : ℚ) < (nf : ℚ) := by exact_mod_cast hf1 hfull
    have hnn0 : (0 : ℚ) ≤ (nn : ℚ) := by
      rcases eq_or_lt_of_le hnow with h | h
      · rw [hn0 h.symm]; simp
      · exact_mod_cast (hn1 h).le
    have hq : (0 : ℚ) ≤ (nn : ℚ) / nf := div_nonneg hnn0 hnf0.le
    rw [hnn, hnf] at hval
    simp only [Dbl.div, if_neg hnf0.ne'] at hval
    rcases Dbl.nearest_nonneg hq with h1 | ⟨t, h1, h2⟩
    · rw [h1] at hval
      have hm : Dbl.mul Dbl.pinf (Dbl.fin 100) = Dbl.pinf := by simp [Dbl.mul]
      rw [hm] at hval
      simp only [Dbl.gt, hcap, and_self, if_true] at hval
      exact ⟨100, hval, by norm_num, le_refl _⟩
    · rw [h1] at hval
      simp only [Dbl.mul] at hval
      have ht : (0 : ℚ) ≤ t * 100 := mul_nonneg h2 (by norm_num)
      rcases Dbl.nearest_nonneg ht with h3 | ⟨u, h3, h4⟩
      · rw [h3] at hval
        simp only [Dbl.gt, hcap, and_self, if_true] at hval
        exact ⟨100, hval, by norm_num, le_refl _⟩
      · rw [h3] at hval
        simp only [Dbl.gt, hcap, true_and, decide_eq_true_eq] at hval
        by_cases hgt : (100 : ℚ) < u
        · exact ⟨100, by rw [hval, if_pos hgt], by norm_num, le_refl _⟩
        · exact ⟨u, by rw [hval, if_neg hgt], h4, not_lt.mp hgt⟩

/-- The double `-1000 / 4000 * 100` is -25. -/
theorem minus_quarter_percent :
    Dbl.mul (Dbl.div (Dbl.ofLong (-1000)) (Dbl.ofLong 4000)) (Dbl.fin 100) =
      Dbl.fin (-25) := by
  rw [Dbl.div_ofLong_ofLong _ _ (by norm_num) (by norm_num) (by norm_num)]
  have a : ((-1000 : Int) : ℚ) / ((4000 : Int) : ℚ) = -1 / 4 := by norm_num
  rw [a, Dbl.nearest_exact _ (-1) (-2) (by norm_num) (by norm_num) (by norm_num)
    (by norm_num)]
  simp only [Dbl.mul]
  have b : (-1 / 4 : ℚ) * 100 = -25 := by norm_num
  rw [b]
  exact Dbl.nearest_exact _ (-25) 0 (by norm_num) (by norm_num) (by norm_num) (by norm_num)

/-- C27 (evaluation at the failing input). With the cap enabled, a first file
with charge-now -1000 and charge-full 4000 gives the charge -25, which is
available and lies below the range 0 to 100. -/
theorem C27_negative_charge (buf0 : List Char) :
    config_init.has CONFIG_FLAG_DISABLE_CHARGE_CAP = false ∧
    (get_battery_info
      (some "POWER_SUPPLY_CHARGE_NOW=-1000\nPOWER_SUPPLY_CHARGE_FULL=4000\n".toList) none
      battery_info_init config_init buf0).2.charge = Dbl.fin (-25) ∧
    (get_battery_info
      (some "POWER_SUPPLY_CHARGE_NOW=-1000\nPOWER_SUPPLY_CHARGE_FULL=4000\n".toList) none
      battery_info_init config_init buf0).2.charge ≠ DOUBLE_INVALID ∧
    (-25 : ℚ) < 0 := by
  have hc : fgets_chunks 256
      "POWER_SUPPLY_CHARGE_NOW=-1000\nPOWER_SUPPLY_CHARGE_FULL=4000\n".toList =
      [("POWER_SUPPLY_CHARGE_NOW", 24, slot.charge_now).1.toList ++ '=' :: "-1000".toList ++
          "\n".toList,
        ("POWER_SUPPLY_CHARGE_FULL", 25, slot.charge_full).1.toList ++ '=' :: "4000".toList ++
          "\n".toList] := by decide
  have hs1 : entry_sound uevent_keys ("POWER_SUPPLY_CHARGE_NOW", 24, .charge_now) :=
    uevent_keys_sound _ (by decide) (by decide)
  have hs2 : entry_sound uevent_keys ("POWER_SUPPLY_CHARGE_FULL", 25, .charge_full) :=
    uevent_keys_sound _ (by decide) (by decide)
  have hp1 : (strtol_helper "-1000".toList).2 = -1000 := by decide
  have hp2 : (strtol_helper "4000".toList).2 = 4000 := by decide
  have hraw : (read_uevent uevent_keys
      { raw := raw_longs_init, info := battery_info_init, buf := buf0 }
      "POWER_SUPPLY_CHARGE_NOW=-1000\nPOWER_SUPPLY_CHARGE_FULL=4000\n".toList).raw =
      raw_of_capacity LONG_INVALID (-1000) 4000 := by
    unfold read_uevent
    rw [hc, List.foldl_cons, List.foldl_cons, List.foldl_nil,
      uevent_line_key_value uevent_keys _ hs1 _ _ _ (by decide) (by decide) (by decide),
      uevent_line_key_value uevent_keys _ hs2 _ _ _ (by decide) (by decide) (by decide)]
    simp only [store, hp1, hp2]
    rfl
  have hval : (get_battery_info
      (some "POWER_SUPPLY_CHARGE_NOW=-1000\nPOWER_SUPPLY_CHARGE_FULL=4000\n".toList) none
      battery_info_init config_init buf0).2.charge = Dbl.fin (-25) := by
    rw [get_battery_info_uevent_only, hraw,
      process_charge_of_ratio _ _ _ (by decide) (by decide) (by decide)]
    have e1 : (raw_of_capacity LONG_INVALID (-1000) 4000).charge_now = -1000 := rfl
    have e2 : (raw_of_capacity LONG_INVALID (-1000) 4000).charge_full = 4000 := rfl
    rw [e1, e2, minus_quarter_percent]
    simp only [Dbl.gt]
    norm_num
  refine ⟨by decide, hval, ?_, by norm_num⟩
  rw [hval]
  exact fin_ne_DOUBLE_INVALID (Or.inl (by norm_num))

/-! ## The array `buf` before the first line -/

set_option maxRecDepth 100000 in
/-- C24 (evaluation at the failing input). A first file that holds the 21
characters `POWER_SUPPLY_CAPACITY` and no newline is read with the helper call
`strtol_helper(buf + 22, ...)`, past the end of the line: with the same file
and the same configuration, the charge of the record is 50 when the array `buf`
holds `50` at offset 22 on entry, and 60 when it holds `60` there. -/
theorem C24_uninitialised_buffer (cfg : config) :
    (get_battery_info (some "POWER_SUPPLY_CAPACITY".toList) none battery_info_init cfg
      (List.replicate 22 'x' ++ "50".toList)).1 = 0 ∧
    (get_battery_info (some "POWER_SUPPLY_CAPACITY".toList) none battery_info_init cfg
      (List.replicate 22 'x' ++ "60".toList)).1 = 0 ∧
    (get_battery_info (some "POWER_SUPPLY_CAPACITY".toList) none battery_info_init cfg
      (List.replicate 22 'x' ++ "50".toList)).2.charge = Dbl.fin 50 ∧
    (get_battery_info (some "POWER_SUPPLY_CAPACITY".toList) none battery_info_init cfg
      (List.replicate 22 'x' ++ "60".toList)).2.charge = Dbl.fin 60 ∧
    get_battery_info (some "POWER_SUPPLY_CAPACITY".toList) none battery_info_init cfg
        (List.replicate 22 'x' ++ "50".toList) ≠
      get_battery_info (some "POWER_SUPPLY_CAPACITY".toList) none battery_info_init cfg
        (List.replicate 22 'x' ++ "60".toList) := by
  have h50 : (read_uevent uevent_keys
      { raw := raw_longs_init, info := battery_info_init,
        buf := List.replicate 22 'x' ++ "50".toList }
      "POWER_SUPPLY_CAPACITY".toList).raw.capacity = 50 := by decide
  have h60 : (read_uevent uevent_keys
      { raw := raw_longs_init, info := battery_info_init,
        buf := List.replicate 22 'x' ++ "60".toList }
      "POWER_SUPPLY_CAPACITY".toList).raw.capacity = 60 := by decide
  have v50 : (get_battery_info (some "POWER_SUPPLY_CAPACITY".toList) none battery_info_init cfg
      (List.replicate 22 'x' ++ "50".toList)).2.charge = Dbl.fin 50 := by
    rw [get_battery_info_uevent_only,
      process_charge_of_capacity _ _ _ (by rw [h50]; decide) (by rw [h50]; decide), h50]
    norm_num
  have v60 : (get_battery_info (some "POWER_SUPPLY_CAPACITY".toList) none battery_info_init cfg
      (List.replicate 22 'x' ++ "60".toList)).2.charge = Dbl.fin 60 := by
    rw [get_battery_info_uevent_only,
      process_charge_of_capacity _ _ _ (by rw [h60]; decide) (by rw [h60]; decide), h60]
    norm_num
  refine ⟨?_, ?_, v50, v60, ?_⟩
  · rw [get_battery_info_uevent_only]
  · rw [get_battery_info_uevent_only]
  · intro h
    have h2 := congrArg (fun p => p.2.charge) h
    simp only [v50, v60] at h2
    injection h2 with h3
    norm_num at h3

/-! ## Lines that are skipped -/

/-- White space behind a line has no part in the line without its trailing
white space. -/
theorem rstrip_append_space (l : List Char) (a : Char) (h : isspace a = true) :
    rstrip (l ++ [a]) = rstrip l := by
  unfold rstrip
  rw [List.reverse_append, List.reverse_singleton, List.singleton_append,
    List.dropWhile_cons_of_pos h]

/-- A line without its trailing white space starts the line. -/
theorem rstrip_starts (l : List Char) : rstrip l <+: l :=
  ⟨_, (rstrip_split l).1.symm⟩

/-- A character followed by white space is, without its trailing white space,
one character at most. -/
theorem rstrip_single (x : Char) (w : List Char) (hw : ∀ y ∈ w, isspace y = true) :
    (rstrip (x :: w)).length ≤ 1 := by
  induction w using List.reverseRecOn with
  | nil =>
      unfold rstrip
      simp only [List.reverse_cons, List.reverse_nil, List.nil_append, List.dropWhile_cons,
        List.dropWhile_nil]
      split_ifs <;> simp
  | append_singleton w a ih =>
      have ha : isspace a = true := hw a (by simp)
      have : x :: (w ++ [a]) = (x :: w) ++ [a] := by simp
      rw [this, rstrip_append_space _ _ ha]
      exact ih (fun y hy => hw y (by simp [hy]))

/-- A line of white space is, without its trailing white space, empty. -/
theorem rstrip_blank (l : List Char) (hw : ∀ y ∈ l, isspace y = true) :
    (rstrip l).length ≤ 1 := by
  cases l with
  | nil => simp [rstrip]
  | cons x w => exact rstrip_single x w (fun y hy => hw y (by simp [hy]))

/-- One iteration on a chunk that is blank, or whose text no key of the chain
starts, changes the array `buf` alone. -/
theorem uevent_line_unchanged (keys : List (String × Nat × slot)) (st : reader_state)
    (c : List Char) (hnul : NUL ∉ c)
    (h : (rstrip c).length ≤ 1 ∨ ∀ k ∈ keys, k.1.toList.isPrefixOf (rstrip c) = false) :
    (uevent_line keys st c).raw = st.raw ∧ (uevent_line keys st c).info = st.info := by
  by_cases hshort : (rstrip c).length ≤ 1
  · have hs := strip_blank st.buf c hnul hshort
    have hu : uevent_line keys st c = { st with buf := fgets_store st.buf c } := by
      simp only [uevent_line, hs]
    rw [hu]
    exact ⟨rfl, rfl⟩
  · rcases chunk_cases c hnul with h1 | ⟨ws, hc, htl⟩
    · exact absurd h1 hshort
    · rcases h with h | h
      · exact absurd h hshort
      · have hfind : keys.find? (fun k => k.1.toList.isPrefixOf (rstrip c)) = none := by
          rw [List.find?_eq_none]
          intro k hk
          rw [h k hk]
          decide
        have hstep := uevent_line_skip keys st (rstrip c) ws htl hfind
        rw [← hc] at hstep
        rw [hstep]
        exact ⟨rfl, rfl⟩

set_option maxRecDepth 1000000 in
/-- C25 (counterexample). A line of 255 characters `x` followed by
`POWER_SUPPLY_CAPACITY=50` does not begin with a key, yet it is not skipped:
`fgets` cuts it after 255 characters, and the rest sets the capacity local to
50. -/
theorem C25_long_line_counterexample :
    (∀ k ∈ uevent_keys,
      k.1.toList.isPrefixOf (List.replicate 255 'x' ++ "POWER_SUPPLY_CAPACITY=50".toList) =
        false) ∧
    (reader_init battery_info_init []).raw.capacity = LONG_INVALID ∧
    (read_uevent uevent_keys (reader_init battery_info_init [])
      (file_of_lines [List.replicate 255 'x' ++ "POWER_SUPPLY_CAPACITY=50".toList])).raw.capacity =
      50 := by
  decide

/-- C25 (amended). For every chain of keys, a line without NUL of at most 254
characters (so that `fgets` reads it with its newline in one call) that is
entirely white space, or is a single character followed only by white space, or
does not begin with any key of the chain, changes no local and no member of the
record, and the loop goes on with the rest of the file from that state. -/
theorem C25_skipped_line (keys : List (String × Nat × slot)) (st : reader_state)
    (line : List Char) (hnul : NUL ∉ line) (hnl : ∀ c ∈ line, c.toNat ≠ 10)
    (hlen : line.length ≤ 254)
    (hskip : (∀ y ∈ line, isspace y = true) ∨
      (∃ x w, line = x :: w ∧ ∀ y ∈ w, isspace y = true) ∨
      (∀ k ∈ keys, k.1.toList.isPrefixOf line = false)) :
    (uevent_line keys st (line ++ [NL])).raw = st.raw ∧
    (uevent_line keys st (line ++ [NL])).info = st.info ∧
    ∀ rest : List Char,
      read_uevent keys st (line ++ NL :: rest) =
        read_uevent keys (uevent_line keys st (line ++ [NL])) rest := by
  have hsp : isspace NL = true := by decide
  have hnul' : NUL ∉ line ++ [NL] := by
    intro hm
    rcases List.mem_append.mp hm with h1 | h1
    · exact hnul h1
    · rw [List.mem_singleton] at h1
      exact absurd h1 (by decide)
  have hcond : (rstrip (line ++ [NL])).length ≤ 1 ∨
      ∀ k ∈ keys, k.1.toList.isPrefixOf (rstrip (line ++ [NL])) = false := by
    rw [rstrip_append_space _ _ hsp]
    rcases hskip with h | ⟨x, w, rfl, hw⟩ | h
    · exact Or.inl (rstrip_blank line h)
    · exact Or.inl (rstrip_single x w hw)
    · right
      intro k hk
      by_contra hp
      have hp' : k.1.toList.isPrefixOf (rstrip line) = true := by
        cases hb : k.1.toList.isPrefixOf (rstrip line) with
        | true => rfl
        | false => exact absurd hb hp
      have h1 : k.1.toList <+: rstrip line := List.isPrefixOf_iff_prefix.mp hp'
      have h2 : k.1.toList <+: line := h1.trans (rstrip_starts line)
      have h3 := List.isPrefixOf_iff_prefix.mpr h2
      rw [h k hk] at h3
      exact absurd h3 (by decide)
  obtain ⟨hraw, hinfo⟩ := uevent_line_unchanged keys st (line ++ [NL]) hnul' hcond
  refine ⟨hraw, hinfo, fun rest => ?_⟩
  unfold read_uevent fgets_chunks
  rw [fgets_chunks_from_line 256 line rest [] hnl (by simp; omega)]
  simp only [List.reverse_nil, List.nil_append, List.foldl_cons]

/-- C25 (witness). A line with the single character `#` followed by a blank
leaves the locals as they are, and the capacity line that follows is read. -/
theorem C25_skipped_line_witness :
    NUL ∉ "# ".toList ∧ (∀ c ∈ "# ".toList, c.toNat ≠ 10) ∧ "# ".toList.length ≤ 254 ∧
    (∃ x w, "# ".toList = x :: w ∧ ∀ y ∈ w, isspace y = true) ∧
    (uevent_line uevent_keys (reader_init battery_info_init []) ("# ".toList ++ [NL])).raw =
      raw_longs_init ∧
    (read_uevent uevent_keys (reader_init battery_info_init [])
      ("# ".toList ++ NL :: "POWER_SUPPLY_CAPACITY=76\n".toList)).raw.capacity = 76 := by
  have h := C25_skipped_line uevent_keys (reader_init battery_info_init []) "# ".toList
    (by decide) (by decide) (by decide) (Or.inr (Or.inl ⟨ '#', [' '], rfl, by decide⟩))
  refine ⟨by decide, by decide, by decide, ⟨ '#', [' '], rfl, by decide⟩, h.1, ?_⟩
  decide

/-! ## Files whose lines are read within their own bytes -/

/-- What follows a NUL has no part in the string before it. -/
theorem takeWhile_ne_NUL_append (A Q : List Char) :
    (A ++ NUL :: Q).takeWhile (fun c => c != NUL) = A.takeWhile (fun c => c != NUL) := by
  induction A with
  | nil =>
      have h : (NUL != NUL) = false := by decide
      simp only [List.nil_append, List.takeWhile_cons, h, Bool.false_eq_true, if_false,
        List.takeWhile_nil]
  | cons a t ih =>
      by_cases h : (a != NUL) = true
      · simp only [List.cons_append, List.takeWhile_cons, h, if_true, ih]
      · simp only [List.cons_append, List.takeWhile_cons, h, Bool.false_eq_true, if_false]

/-- The string at an offset of an array, when a NUL stands behind the offset:
what follows that NUL has no part in it. -/
theorem cstr_at_before_NUL (P Q : List Char) (k : Nat) (hk : k ≤ P.length) :
    cstr_at (P ++ NUL :: Q) k = (P.drop k).takeWhile (fun c => c != NUL) := by
  unfold cstr_at
  rw [List.drop_append_of_le_length hk, takeWhile_ne_NUL_append]

/-- The array `buf` after the stripping of a text line: bytes that the chunk
alone gives, as many as the chunk has, then a NUL and the older bytes. -/
theorem stripped_array (body ws : List Char) :
    ∃ P : List Char, P.length = body.length + ws.length ∧
      ∀ buf : List Char,
        body ++ NUL :: stale buf body ws =
          P ++ NUL :: buf.drop (body.length + ws.length + 1) := by
  cases ws with
  | nil =>
      refine ⟨body, by simp, fun buf => ?_⟩
      simp [stale]
  | cons w wt =>
      refine ⟨body ++ NUL :: wt, by simp only [List.length_append, List.length_cons],
        fun buf => ?_⟩
      simp [stale]

/-- A helper call gives the same locals and the same record from two states
with the same locals and the same record. -/
theorem store_congr (sl : slot) (arg : List Char) (st st' : reader_state)
    (hraw : st.raw = st'.raw) (hinfo : st.info = st'.info) :
    (store sl arg st).raw = (store sl arg st').raw ∧
      (store sl arg st).info = (store sl arg st').info := by
  obtain ⟨raw, info, buf⟩ := st
  obtain ⟨raw', info', buf'⟩ := st'
  simp only at hraw hinfo
  subst hraw hinfo
  cases sl <;> exact ⟨rfl, rfl⟩

/-- One iteration on a closed chunk: the locals and the record afterwards do
not depend on what the array `buf` held before. -/
theorem uevent_line_closed (keys : List (String × Nat × slot)) (st st' : reader_state)
    (c : List Char) (hc : chunk_closed keys c) (hraw : st.raw = st'.raw)
    (hinfo : st.info = st'.info) :
    (uevent_line keys st c).raw = (uevent_line keys st' c).raw ∧
      (uevent_line keys st c).info = (uevent_line keys st' c).info := by
  rcases chunk_cases c hc.1 with hshort | ⟨ws, hcw, htl⟩
  · obtain ⟨h1, h2⟩ := uevent_line_unchanged keys st c hc.1 (Or.inl hshort)
    obtain ⟨h3, h4⟩ := uevent_line_unchanged keys st' c hc.1 (Or.inl hshort)
    exact ⟨by rw [h1, h3, hraw], by rw [h2, h4, hinfo]⟩
  · have hlen : c.length = (rstrip c).length + ws.length := by
      conv_lhs => rw [hcw]
      simp
    have e1 := uevent_line_text keys st (rstrip c) ws htl
    have e2 := uevent_line_text keys st' (rstrip c) ws htl
    rw [← hcw] at e1 e2
    rw [e1, e2]
    cases hf : keys.find? (fun k => k.1.toList.isPrefixOf (rstrip c)) with
    | none => exact ⟨hraw, hinfo⟩
    | some e =>
        obtain ⟨key, off, sl⟩ := e
        have hmem : (key, off, sl) ∈ keys := List.mem_of_find?_eq_some hf
        have hpre : key.toList.isPrefixOf (rstrip c) = true := by
          have := List.find?_some hf
          exact this
        have hoff : off ≤ (rstrip c).length + ws.length := by
          rw [← hlen]
          exact hc.2 (key, off, sl) hmem hpre
        obtain ⟨P, hP, hshape⟩ := stripped_array (rstrip c) ws
        have harg : cstr_at (rstrip c ++ NUL :: stale st.buf (rstrip c) ws) off =
            cstr_at (rstrip c ++ NUL :: stale st'.buf (rstrip c) ws) off := by
          rw [hshape st.buf, hshape st'.buf, cstr_at_before_NUL _ _ _ (by omega),
            cstr_at_before_NUL _ _ _ (by omega)]
        simp only [harg]
        exact store_congr sl _ _ _ hraw hinfo

/-- A reading loop on a file of closed chunks: the locals and the record
afterwards do not depend on what the array `buf` held before. -/
theorem read_uevent_closed (keys : List (String × Nat × slot)) (content : List Char)
    (hfile : ∀ c ∈ fgets_chunks 256 content, chunk_closed keys c) (st st' : reader_state)
    (hraw : st.raw = st'.raw) (hinfo : st.info = st'.info) :
    (read_uevent keys st content).raw = (read_uevent keys st' content).raw ∧
      (read_uevent keys st content).info = (read_uevent keys st' content).info := by
  unfold read_uevent
  generalize fgets_chunks 256 content = chunks at hfile
  induction chunks generalizing st st' with
  | nil => exact ⟨hraw, hinfo⟩
  | cons c chunks ih =>
      obtain ⟨h1, h2⟩ := uevent_line_closed keys st st' c (hfile c (by simp)) hraw hinfo
      simp only [List.foldl_cons]
      exact ih _ _ h1 h2 (fun x hx => hfile x (by simp [hx]))

/-- On files of closed chunks the routine `get_battery_info` returns the same
status and the same record whatever the array `buf` holds on entry. -/
theorem get_battery_info_closed (uevent device_uevent : Option (List Char))
    (info : battery_info) (cfg : config) (hu : file_closed uevent_keys uevent)
    (hd : file_closed device_uevent_keys device_uevent) (buf0 buf0' : List Char) :
    get_battery_info uevent device_uevent info cfg buf0 =
      get_battery_info uevent device_uevent info cfg buf0' := by
  cases uevent with
  | none =>
      cases device_uevent with
      | none => rfl
      | some d =>
          obtain ⟨h1, h2⟩ := read_uevent_closed device_uevent_keys d (hd d rfl)
            { raw := raw_longs_init, info := info, buf := buf0 }
            { raw := raw_longs_init, info := info, buf := buf0' } rfl rfl
          rw [get_battery_info_device_only, get_battery_info_device_only, h1, h2]
  | some u =>
      obtain ⟨h1, h2⟩ := read_uevent_closed uevent_keys u (hu u rfl)
        { raw := raw_longs_init, info := info, buf := buf0 }
        { raw := raw_longs_init, info := info, buf := buf0' } rfl rfl
      cases device_uevent with
      | none =>
          rw [get_battery_info_uevent_only, get_battery_info_uevent_only, h1, h2]
      | some d =>
          obtain ⟨h3, h4⟩ := read_uevent_closed device_uevent_keys d (hd d rfl)
            (read_uevent uevent_keys { raw := raw_longs_init, info := info, buf := buf0 } u)
            (read_uevent uevent_keys { raw := raw_longs_init, info := info, buf := buf0' } u)
            h1 h2
          simp only [get_battery_info]
          rw [h3, h4]

set_option maxRecDepth 100000 in
/-- A first file of two lines that end with a newline is made of closed
chunks: what `get_battery_info` returns for it does not depend on the array
`buf`. -/
theorem get_battery_info_closed_sample (cfg : config) (buf0 : List Char) :
    get_battery_info (some "POWER_SUPPLY_CAPACITY=76\nPOWER_SUPPLY_ONLINE=1\n".toList) none
        battery_info_init cfg buf0 =
      get_battery_info (some "POWER_SUPPLY_CAPACITY=76\nPOWER_SUPPLY_ONLINE=1\n".toList) none
        battery_info_init cfg [] := by
  have hc : ∀ c ∈ fgets_chunks 256 "POWER_SUPPLY_CAPACITY=76\nPOWER_SUPPLY_ONLINE=1\n".toList,
      chunk_closed uevent_keys c := by decide
  apply get_battery_info_closed
  · intro content h
    injection h with h
    rw [← h]
    exact hc
  · intro content h
    exact absurd h (by simp)

/-! ## Readings that are parsed -/

theorem store_current_now (V : List Char) (st : reader_state) :
    store .current_now V st =
      { st with raw := { st.raw with current_now := (strtol_helper V).2 } } := rfl

theorem store_temp (V : List Char) (st : reader_state) :
    store .temp V st = { st with raw := { st.raw with temp := (strtol_helper V).2 } } := rfl

/-- One iteration of a reading loop changes no double and no flag of the
record. -/
theorem uevent_line_info_numbers (keys : List (String × Nat × slot)) (st : reader_state)
    (c : List Char) : info_numbers (uevent_line keys st c).info = info_numbers st.info := by
  cases hs : strip (fgets_store st.buf c) with
  | none => simp only [uevent_line, hs]
  | some b =>
      cases hd : dispatch keys b with
      | none => simp only [uevent_line, hs, hd]
      | some p =>
          obtain ⟨sl, arg⟩ := p
          simp only [uevent_line, hs, hd]
          exact store_info_numbers sl arg { st with buf := b }

/-- A reading loop changes no double and no flag of the record. -/
theorem read_uevent_info_numbers (keys : List (String × Nat × slot)) (st : reader_state)
    (content : List Char) :
    info_numbers (read_uevent keys st content).info = info_numbers st.info := by
  unfold read_uevent
  generalize fgets_chunks 256 content = chunks
  induction chunks generalizing st with
  | nil => rfl
  | cons c chunks ih =>
      rw [List.foldl_cons, ih, uevent_line_info_numbers]

/-- The state after a line `key=v` of a sound entry, with `v` the decimal text
of a `long`: the helper call of the entry on that text. -/
theorem uevent_line_decimal (e : String × Nat × slot) (hs : entry_sound uevent_keys e)
    (v : Int) (hv : isLong v) (st : reader_state) (ws : List Char)
    (hws : ∀ c ∈ ws, isspace c = true) :
    ∃ b, uevent_line uevent_keys st (key_line e.1 (decimal v) ++ ws) =
      store e.2.2 (decimal v) { st with buf := b } := by
  obtain ⟨hnul, _, hlast, _⟩ := decimal_text v hv
  have h := uevent_line_key_value uevent_keys e hs st (decimal v) ws hnul hws hlast
  have hkl : key_line e.1 (decimal v) ++ ws = e.1.toList ++ '=' :: decimal v ++ ws := by
    simp [key_line]
  rw [hkl, h]
  exact ⟨_, rfl⟩

set_option maxRecDepth 100000 in
/-- C28 (counterexample). The decimal text of the most negative `long` is
parsed with success by `strtol_helper`, and yet a first file made of the line
`POWER_SUPPLY_TEMP=-9223372036854775808` leaves the temperature of the record
unavailable, as does the line of the same value for the current. -/
theorem C28_most_negative_counterexample :
    isLong (-9223372036854775808) ∧
    strtol_helper (decimal (-9223372036854775808)) = (0, -9223372036854775808) ∧
    (get_battery_info
      (some (file_of_lines [key_line "POWER_SUPPLY_TEMP" (decimal (-9223372036854775808))]))
      none battery_info_init config_init []).2.temperature = DOUBLE_INVALID ∧
    (get_battery_info
      (some (file_of_lines
        [key_line "POWER_SUPPLY_CURRENT_NOW" (decimal (-9223372036854775808))]))
      none battery_info_init config_init []).2.current = DOUBLE_INVALID := by
  have ht : (read_uevent uevent_keys
      { raw := raw_longs_init, info := battery_info_init, buf := [] }
      (file_of_lines [key_line "POWER_SUPPLY_TEMP" (decimal (-9223372036854775808))])).raw.temp =
      LONG_INVALID := by decide
  have hc : (read_uevent uevent_keys
      { raw := raw_longs_init, info := battery_info_init, buf := [] }
      (file_of_lines
        [key_line "POWER_SUPPLY_CURRENT_NOW" (decimal (-9223372036854775808))])).raw.current_now =
      LONG_INVALID := by decide
  have hi : ∀ content : List Char,
      info_numbers (read_uevent uevent_keys
        { raw := raw_longs_init, info := battery_info_init, buf := [] } content).info =
      info_numbers battery_info_init := fun content => read_uevent_info_numbers _ _ content
  refine ⟨by decide, by decide, ?_, ?_⟩
  · rw [get_battery_info_uevent_only, process_temperature_val, ht]
    have h := congrArg (fun p => p.1.2.2.2.2.1) (hi (file_of_lines
      [key_line "POWER_SUPPLY_TEMP" (decimal (-9223372036854775808))]))
    simp only [info_numbers] at h
    rw [if_neg (by simp), h]
    rfl
  · rw [get_battery_info_uevent_only, process_current_val, hc]
    have h := congrArg (fun p => p.1.2.2.2.1) (hi (file_of_lines
      [key_line "POWER_SUPPLY_CURRENT_NOW" (decimal (-9223372036854775808))]))
    simp only [info_numbers] at h
    rw [if_neg (by simp), h]
    rfl

/-- In every state of the reading loop, a line `POWER_SUPPLY_VOLTAGE_NOW=v` with
v a `long` other than `LONG_MIN` sets the voltage local to v, and the `process:`
part then gives the voltage `(double) v / 1000000.0`, which is not the marker;
likewise for the current and the temperature. -/
theorem line_reading_available (v : Int) (hv : isLong v) (hne : v ≠ LONG_MIN)
    (st : reader_state) (ws : List Char) (hws : ∀ c ∈ ws, isspace c = true) (cfg : config) :
    ((uevent_line uevent_keys st
          (key_line "POWER_SUPPLY_VOLTAGE_NOW" (decimal v) ++ ws)).raw.voltage_now = v ∧
      (process
          (uevent_line uevent_keys st
            (key_line "POWER_SUPPLY_VOLTAGE_NOW" (decimal v) ++ ws)).raw cfg
          (uevent_line uevent_keys st
            (key_line "POWER_SUPPLY_VOLTAGE_NOW" (decimal v) ++ ws)).info).voltage =
        Dbl.div (Dbl.ofLong v) (Dbl.fin 1000000) ∧
      Dbl.div (Dbl.ofLong v) (Dbl.fin 1000000) ≠ DOUBLE_INVALID) ∧
    ((uevent_line uevent_keys st
          (key_line "POWER_SUPPLY_CURRENT_NOW" (decimal v) ++ ws)).raw.current_now = v ∧
      (process
          (uevent_line uevent_keys st
            (key_line "POWER_SUPPLY_CURRENT_NOW" (decimal v) ++ ws)).raw cfg
          (uevent_line uevent_keys st
            (key_line "POWER_SUPPLY_CURRENT_NOW" (decimal v) ++ ws)).info).current =
        Dbl.div (Dbl.ofLong v) (Dbl.fin 100000) ∧
      Dbl.div (Dbl.ofLong v) (Dbl.fin 100000) ≠ DOUBLE_INVALID) ∧
    ((uevent_line uevent_keys st
          (key_line "POWER_SUPPLY_TEMP" (decimal v) ++ ws)).raw.temp = v ∧
      (process
          (uevent_line uevent_keys st (key_line "POWER_SUPPLY_TEMP" (decimal v) ++ ws)).raw cfg
          (uevent_line uevent_keys st
            (key_line "POWER_SUPPLY_TEMP" (decimal v) ++ ws)).info).temperature =
        Dbl.div (Dbl.ofLong v) (Dbl.fin 10) ∧
      Dbl.div (Dbl.ofLong v) (Dbl.fin 10) ≠ DOUBLE_INVALID) := by
  have hp : (strtol_helper (decimal v)).2 = v := by rw [strtol_helper_decimal v hv]
  have hinv : v ≠ LONG_INVALID := hne
  obtain ⟨b1, h1⟩ := uevent_line_decimal ("POWER_SUPPLY_VOLTAGE_NOW", 25, .voltage_now)
    (uevent_keys_sound _ (by decide) (by decide)) v hv st ws hws
  obtain ⟨b2, h2⟩ := uevent_line_decimal ("POWER_SUPPLY_CURRENT_NOW", 25, .current_now)
    (uevent_keys_sound _ (by decide) (by decide)) v hv st ws hws
  obtain ⟨b3, h3⟩ := uevent_line_decimal ("POWER_SUPPLY_TEMP", 18, .temp)
    (uevent_keys_sound _ (by decide) (by decide)) v hv st ws hws
  have r1 : (uevent_line uevent_keys st
      (key_line "POWER_SUPPLY_VOLTAGE_NOW" (decimal v) ++ ws)).raw.voltage_now = v := by
    rw [h1, store_voltage_now, hp]
  have r2 : (uevent_line uevent_keys st
      (key_line "POWER_SUPPLY_CURRENT_NOW" (decimal v) ++ ws)).raw.current_now = v := by
    rw [h2, store_current_now, hp]
  have r3 : (uevent_line uevent_keys st
      (key_line "POWER_SUPPLY_TEMP" (decimal v) ++ ws)).raw.temp = v := by
    rw [h3, store_temp, hp]
  have n1 := (scaled_reading v hv 1000000 (by norm_num) (by norm_num)).1
  have n2 := (scaled_reading v hv 100000 (by norm_num) (by norm_num)).1
  have n3 := (scaled_reading v hv 10 (by norm_num) (by norm_num)).1
  refine ⟨⟨r1, ?_, n1⟩, ⟨r2, ?_, n2⟩, ⟨r3, ?_, n3⟩⟩
  · rw [process_voltage_val, r1, if_pos hinv]
  · rw [process_current_val, r2, if_pos hinv]
  · rw [process_temperature_val, r3, if_pos hinv]

/-- A file of one line that fits the array is read in one iteration. -/
theorem read_single_line (keys : List (String × Nat × slot)) (st : reader_state)
    (l : List Char) (hnl : ∀ c ∈ l, c.toNat ≠ 10) (hlen : l.length ≤ 254) :
    read_uevent keys st (file_of_lines [l]) = uevent_line keys st (l ++ [NL]) := by
  unfold read_uevent
  rw [fgets_chunks_file_of_lines [l] (by
    intro x hx
    rw [List.mem_singleton.mp hx]
    exact ⟨hnl, hlen⟩)]
  rfl

/-- The routine `get_battery_info` on a first file of one line `key=v`, with
`v` the decimal text of a `long`. -/
theorem get_battery_info_decimal_line (e : String × Nat × slot) (he : e ∈ uevent_keys)
    (hs : entry_sound uevent_keys e) (v : Int) (hv : isLong v) (cfg : config)
    (buf0 : List Char) :
    get_battery_info (some (file_of_lines [key_line e.1 (decimal v)])) none battery_info_init
        cfg buf0 =
      (0, process
        (uevent_line uevent_keys (reader_init battery_info_init buf0)
          (key_line e.1 (decimal v) ++ [NL])).raw cfg
        (uevent_line uevent_keys (reader_init battery_info_init buf0)
          (key_line e.1 (decimal v) ++ [NL])).info) := by
  have hok := line_ok_decimal uevent_keys e hs (keys_short e (List.mem_append_left _ he)) v hv
  rw [get_battery_info_uevent_only, read_single_line uevent_keys _ _ hok.2.2.2.1 hok.2.2.2.2]
  rfl

/-- C28 (amended). For every `long` v other than the most negative one
(`LONG_MIN`, the marker of a local that was not read), zero included: in every
state of the reading loop a line `POWER_SUPPLY_VOLTAGE_NOW=v`, followed by any
white space, sets the voltage local to v, and the `process:` part then makes the
voltage of the record available with the value `(double) v / 1000000.0`;
likewise `POWER_SUPPLY_CURRENT_NOW=v` gives the current `(double) v / 100000.0`
and `POWER_SUPPLY_TEMP=v` the temperature `(double) v / 10.0`; none of the
three doubles is the marker `DBL_MIN`, and for v of at most `2^53` in magnitude
each is the quotient of v by the scale factor, rounded once to a double; and
`get_battery_info` on a first file made of such a line returns a record with
that value. -/
theorem C28_reading_available (v : Int) (hv : isLong v) (hne : v ≠ LONG_MIN) (cfg : config) :
    (∀ (st : reader_state) (ws : List Char), (∀ c ∈ ws, isspace c = true) →
      ((uevent_line uevent_keys st
            (key_line "POWER_SUPPLY_VOLTAGE_NOW" (decimal v) ++ ws)).raw.voltage_now = v ∧
        (process
            (uevent_line uevent_keys st
              (key_line "POWER_SUPPLY_VOLTAGE_NOW" (decimal v) ++ ws)).raw cfg
            (uevent_line uevent_keys st
              (key_line "POWER_SUPPLY_VOLTAGE_NOW" (decimal v) ++ ws)).info).voltage =
          Dbl.div (Dbl.ofLong v) (Dbl.fin 1000000)) ∧
      ((uevent_line uevent_keys st
            (key_line "POWER_SUPPLY_CURRENT_NOW" (decimal v) ++ ws)).raw.current_now = v ∧
        (process
            (uevent_line uevent_keys st
              (key_line "POWER_SUPPLY_CURRENT_NOW" (decimal v) ++ ws)).raw cfg
            (uevent_line uevent_keys st
              (key_line "POWER_SUPPLY_CURRENT_NOW" (decimal v) ++ ws)).info).current =
          Dbl.div (Dbl.ofLong v) (Dbl.fin 100000)) ∧
      ((uevent_line uevent_keys st
            (key_line "POWER_SUPPLY_TEMP" (decimal v) ++ ws)).raw.temp = v ∧
        (process
            (uevent_line uevent_keys st (key_line "POWER_SUPPLY_TEMP" (decimal v) ++ ws)).raw
            cfg
            (uevent_line uevent_keys st
              (key_line "POWER_SUPPLY_TEMP" (decimal v) ++ ws)).info).temperature =
          Dbl.div (Dbl.ofLong v) (Dbl.fin 10))) ∧
    (Dbl.div (Dbl.ofLong v) (Dbl.fin 1000000) ≠ DOUBLE_INVALID ∧
      Dbl.div (Dbl.ofLong v) (Dbl.fin 100000) ≠ DOUBLE_INVALID ∧
      Dbl.div (Dbl.ofLong v) (Dbl.fin 10) ≠ DOUBLE_INVALID) ∧
    (|v| ≤ 2 ^ 53 →
      Dbl.div (Dbl.ofLong v) (Dbl.fin 1000000) = Dbl.nearest ((v : ℚ) / 1000000) ∧
      Dbl.div (Dbl.ofLong v) (Dbl.fin 100000) = Dbl.nearest ((v : ℚ) / 100000) ∧
      Dbl.div (Dbl.ofLong v) (Dbl.fin 10) = Dbl.nearest ((v : ℚ) / 10)) ∧
    (∀ buf0 : List Char,
      (get_battery_info (some (file_of_lines [key_line "POWER_SUPPLY_VOLTAGE_NOW" (decimal v)]))
        none battery_info_init cfg buf0).2.voltage = Dbl.div (Dbl.ofLong v) (Dbl.fin 1000000) ∧
      (get_battery_info (some (file_of_lines [key_line "POWER_SUPPLY_CURRENT_NOW" (decimal v)]))
        none battery_info_init cfg buf0).2.current = Dbl.div (Dbl.ofLong v) (Dbl.fin 100000) ∧
      (get_battery_info (some (file_of_lines [key_line "POWER_SUPPLY_TEMP" (decimal v)]))
        none battery_info_init cfg buf0).2.temperature = Dbl.div (Dbl.ofLong v) (Dbl.fin 10)) := by
  refine ⟨fun st ws hws => ?_, ?_, fun h53 => ?_, fun buf0 => ?_⟩
  · obtain ⟨⟨a1, a2, _⟩, ⟨b1, b2, _⟩, ⟨c1, c2, _⟩⟩ :=
      line_reading_available v hv hne st ws hws cfg
    exact ⟨⟨a1, a2⟩, ⟨b1, b2⟩, ⟨c1, c2⟩⟩
  · exact ⟨(scaled_reading v hv 1000000 (by norm_num) (by norm_num)).1,
      (scaled_reading v hv 100000 (by norm_num) (by norm_num)).1,
      (scaled_reading v hv 10 (by norm_num) (by norm_num)).1⟩
  · exact ⟨(scaled_reading v hv 1000000 (by norm_num) (by norm_num)).2 h53,
      (scaled_reading v hv 100000 (by norm_num) (by norm_num)).2 h53,
      (scaled_reading v hv 10 (by norm_num) (by norm_num)).2 h53⟩
  · obtain ⟨⟨_, a2, _⟩, ⟨_, b2, _⟩, ⟨_, c2, _⟩⟩ :=
      line_reading_available v hv hne (reader_init battery_info_init buf0) [NL]
        (by intro c hc; rw [List.mem_singleton.mp hc]; decide) cfg
    refine ⟨?_, ?_, ?_⟩
    · rw [get_battery_info_decimal_line ("POWER_SUPPLY_VOLTAGE_NOW", 25, .voltage_now)
        (by decide) (uevent_keys_sound _ (by decide) (by decide)) v hv cfg buf0]
      exact a2
    · rw [get_battery_info_decimal_line ("POWER_SUPPLY_CURRENT_NOW", 25, .current_now)
        (by decide) (uevent_keys_sound _ (by decide) (by decide)) v hv cfg buf0]
      exact b2
    · rw [get_battery_info_decimal_line ("POWER_SUPPLY_TEMP", 18, .temp)
        (by decide) (uevent_keys_sound _ (by decide) (by decide)) v hv cfg buf0]
      exact c2

/-- C28 (witness). The line `POWER_SUPPLY_VOLTAGE_NOW=0` alone in the first
file: the voltage is available and is 0. -/
theorem C28_reading_available_witness :
    isLong 0 ∧ (0 : Int) ≠ LONG_MIN ∧
    (get_battery_info (some (file_of_lines [key_line "POWER_SUPPLY_VOLTAGE_NOW" (decimal 0)]))
      none battery_info_init config_init []).2.voltage = Dbl.fin 0 ∧
    Dbl.fin 0 ≠ DOUBLE_INVALID := by
  have h := C28_reading_available 0 (by decide) (by decide) config_init
  have hz : Dbl.div (Dbl.ofLong 0) (Dbl.fin 1000000) = Dbl.fin 0 := by
    rw [Dbl.ofLong_zero]
    simp only [Dbl.div]
    norm_num
    exact Dbl.nearest_zero
  refine ⟨by decide, by decide, ?_, special_ne_DOUBLE_INVALID.2.2.2⟩
  rw [(h.2.2.2 []).1, hz]

/-! ## The strings that `strtol_helper` accepts -/

/-- The longest run of characters with a property, and what follows it, for a
run that is followed by a character without the property or by nothing. -/
theorem takeWhile_dropWhile_stop (p : Char → Bool) (l rest : List Char)
    (hl : ∀ c ∈ l, p c = true) (hr : ∀ c, rest.head? = some c → p c = false) :
    (l ++ rest).takeWhile p = l ∧ (l ++ rest).dropWhile p = rest := by
  have ht : rest.takeWhile p = [] ∧ rest.dropWhile p = rest := by
    cases rest with
    | nil => exact ⟨rfl, rfl⟩
    | cons a t =>
        have := hr a rfl
        simp [List.takeWhile_cons, List.dropWhile_cons, this]
  rw [List.takeWhile_append_of_pos hl, List.dropWhile_append_of_pos hl, ht.1, ht.2]
  simp

/-- The function `strtol` on white space, an optional sign, one digit or more
and a rest that no digit starts: the number that the sign and the digits
denote, within the bounds of `long`, and the offset of the rest. -/
theorem strtol_of_parts (ws sign ds rest : List Char) (hws : ∀ c ∈ ws, isspace c = true)
    (hsign : sign = [] ∨ sign = ['+'] ∨ sign = ['-']) (hne : ds ≠ [])
    (hds : ∀ c ∈ ds, isdigit c = true)
    (hrest : ∀ c, rest.head? = some c → isdigit c = false) :
    strtol (ws ++ (sign ++ (ds ++ rest))) =
      if (if sign = ['-'] then -(digits_value ds : Int) else (digits_value ds : Int)) <
          LONG_MIN then
        { value := LONG_MIN, endptr := ws.length + sign.length + ds.length, errno := 34 }
      else if (if sign = ['-'] then -(digits_value ds : Int) else (digits_value ds : Int)) >
          LONG_MAX then
        { value := LONG_MAX, endptr := ws.length + sign.length + ds.length, errno := 34 }
      else
        { value := if sign = ['-'] then -(digits_value ds : Int) else (digits_value ds : Int),
          endptr := ws.length + sign.length + ds.length, errno := 0 } := by
  obtain ⟨d, l, rfl⟩ := List.exists_cons_of_ne_nil hne
  have hd := isdigit_not_special d (hds d (by simp))
  have hdig := takeWhile_dropWhile_stop isdigit (d :: l) rest hds hrest
  have hhead : ∀ c, (sign ++ (d :: l ++ rest)).head? = some c → isspace c = false := by
    intro c hc
    rcases hsign with rfl | rfl | rfl
    · simp only [List.nil_append, List.cons_append, List.head?_cons, Option.some.injEq] at hc
      rw [← hc]
      exact hd.1
    · simp only [List.cons_append, List.head?_cons, Option.some.injEq] at hc
      rw [← hc]
      decide
    · simp only [List.cons_append, List.head?_cons, Option.some.injEq] at hc
      rw [← hc]
      decide
  have hsp := takeWhile_dropWhile_stop isspace ws (sign ++ (d :: l ++ rest)) hws hhead
  have hemp : (d :: l).isEmpty = false := rfl
  have hs0 : ¬ (([] : List Char) = ['-']) := by decide
  have hs1 : ¬ (['+'] = ['-']) := by decide
  rcases hsign with rfl | rfl | rfl
  · have h1 : (some d == some '-') = false := by simpa using hd.2.1
    have h2 : (some d == some '+') = false := by simpa using hd.2.2.1
    have hh : (d :: l ++ rest).head? = some d := rfl
    rw [List.nil_append] at hsp ⊢
    unfold strtol
    simp only [hsp.1, hsp.2, hh, h1, h2, Bool.or_self, Bool.false_eq_true, if_false, hdig.1,
      hemp, hs0, List.length_nil, Nat.add_zero]
    rfl
  · have hh : (['+'] ++ (d :: l ++ rest)).head? = some '+' := rfl
    have h1 : (some '+' == some '-') = false := by decide
    have h2 : (some '+' == some '+') = true := by decide
    have ht : (['+'] ++ (d :: l ++ rest)).tail = d :: l ++ rest := rfl
    unfold strtol
    simp only [hsp.1, hsp.2, hh, h1, h2, Bool.false_or, if_true, ht, hdig.1, hemp,
      Bool.false_eq_true, if_false, hs1, List.length_singleton]
    rfl
  · have hh : (['-'] ++ (d :: l ++ rest)).head? = some '-' := rfl
    have h1 : (some '-' == some '-') = true := by decide
    have ht : (['-'] ++ (d :: l ++ rest)).tail = d :: l ++ rest := rfl
    unfold strtol
    simp only [hsp.1, hsp.2, hh, h1, Bool.true_or, if_true, ht, hdig.1, hemp,
      Bool.false_eq_true, if_false, List.length_singleton]
    rfl

/-- The function `strtol` when no digit follows the white space and the
optional sign: nothing is read. -/
theorem strtol_no_digits (ws sign rest : List Char) (hws : ∀ c ∈ ws, isspace c = true)
    (hsign : sign = [] ∨ sign = ['+'] ∨ sign = ['-'])
    (hplain : sign = [] → ∀ c, rest.head? = some c →
      isspace c = false ∧ c ≠ '+' ∧ c ≠ '-')
    (hrest : ∀ c, rest.head? = some c → isdigit c = false) :
    strtol (ws ++ (sign ++ rest)) = { value := 0, endptr := 0, errno := 0 } := by
  have hdig : rest.takeWhile isdigit = [] :=
    (takeWhile_dropWhile_stop isdigit [] rest (by simp) hrest).1
  have hhead : ∀ c, (sign ++ rest).head? = some c → isspace c = false := by
    intro c hc
    rcases hsign with rfl | rfl | rfl
    · exact (hplain rfl c hc).1
    · simp only [List.cons_append, List.head?_cons, Option.some.injEq] at hc
      rw [← hc]
      decide
    · simp only [List.cons_append, List.head?_cons, Option.some.injEq] at hc
      rw [← hc]
      decide
  have hsp := takeWhile_dropWhile_stop isspace ws (sign ++ rest) hws hhead
  have hemp : ([] : List Char).isEmpty = true := rfl
  rcases hsign with rfl | rfl | rfl
  · have hsg : (rest.head? == some '-' || rest.head? == some '+') = false := by
      cases rest with
      | nil => rfl
      | cons a t =>
          obtain ⟨_, hp, hm⟩ := hplain rfl a rfl
          have h1 : (some a == some '-') = false := by simpa using hm
          have h2 : (some a == some '+') = false := by simpa using hp
          simp only [List.head?_cons, h1, h2, Bool.or_self]
    rw [List.nil_append] at hsp ⊢
    unfold strtol
    simp only [hsp.1, hsp.2, hsg, Bool.false_eq_true, if_false, hdig, hemp, if_true]
  · have hh : (['+'] ++ rest).head? = some '+' := rfl
    have h1 : (some '+' == some '-') = false := by decide
    have h2 : (some '+' == some '+') = true := by decide
    have ht : (['+'] ++ rest).tail = rest := rfl
    unfold strtol
    simp only [hsp.1, hsp.2, hh, h1, h2, Bool.false_or, if_true, ht, hdig, hemp]
  · have hh : (['-'] ++ rest).head? = some '-' := rfl
    have h1 : (some '-' == some '-') = true := by decide
    have ht : (['-'] ++ rest).tail = rest := rfl
    unfold strtol
    simp only [hsp.1, hsp.2, hh, h1, Bool.true_or, if_true, ht, hdig, hemp]

/-- Every string is white space, an optional sign, a run of digits and a rest
that no digit starts; without a sign, the rest that follows an empty run starts
with no white space and no sign. -/
theorem decimal_parts (s : List Char) :
    ∃ ws sign ds rest : List Char,
      s = ws ++ (sign ++ (ds ++ rest)) ∧ (∀ c ∈ ws, isspace c = true) ∧
      (sign = [] ∨ sign = ['+'] ∨ sign = ['-']) ∧ (∀ c ∈ ds, isdigit c = true) ∧
      (∀ c, rest.head? = some c → isdigit c = false) ∧
      (sign = [] → ds = [] → ∀ c, rest.head? = some c →
        isspace c = false ∧ c ≠ '+' ∧ c ≠ '-') := by
  have hsplit := List.takeWhile_append_dropWhile isspace s
  have hws : ∀ c ∈ s.takeWhile isspace, isspace c = true :=
    fun c hc => List.mem_takeWhile_imp hc
  have hhead : ∀ c, (s.dropWhile isspace).head? = some c → isspace c = false := by
    intro c hc
    have := List.head?_dropWhile_not isspace s
    rw [hc] at this
    exact this
  have hparts : ∀ s2 : List Char, ∃ ds rest : List Char, s2 = ds ++ rest ∧
      (∀ c ∈ ds, isdigit c = true) ∧ (∀ c, rest.head? = some c → isdigit c = false) ∧
      (ds = [] → rest = s2) := by
    intro s2
    refine ⟨s2.takeWhile isdigit, s2.dropWhile isdigit,
      (List.takeWhile_append_dropWhile isdigit s2).symm,
      fun c hc => List.mem_takeWhile_imp hc, ?_, ?_⟩
    · intro c hc
      have := List.head?_dropWhile_not isdigit s2
      rw [hc] at this
      exact this
    · intro he
      have h := List.takeWhile_append_dropWhile isdigit s2
      rw [he, List.nil_append] at h
      exact h
  cases hs1 : s.dropWhile isspace with
  | nil =>
      refine ⟨s.takeWhile isspace, [], [], [], ?_, hws, Or.inl rfl, by simp, by simp, by simp⟩
      rw [hs1] at hsplit
      simpa using hsplit.symm
  | cons a t =>
      rw [hs1] at hsplit hhead
      by_cases hp : a = '+'
      · obtain ⟨ds, rest, ht, hd, hr, _⟩ := hparts t
        refine ⟨s.takeWhile isspace, ['+'], ds, rest, ?_, hws, Or.inr (Or.inl rfl), hd, hr,
          fun h => absurd h (by decide)⟩
        rw [← ht, ← hp]
        exact hsplit.symm
      · by_cases hm : a = '-'
        · obtain ⟨ds, rest, ht, hd, hr, _⟩ := hparts t
          refine ⟨s.takeWhile isspace, ['-'], ds, rest, ?_, hws, Or.inr (Or.inr rfl), hd, hr,
            fun h => absurd h (by decide)⟩
          rw [← ht, ← hm]
          exact hsplit.symm
        · obtain ⟨ds, rest, ht, hd, hr, hnil⟩ := hparts (a :: t)
          refine ⟨s.takeWhile isspace, [], ds, rest, ?_, hws, Or.inl rfl, hd, hr, ?_⟩
          · rw [List.nil_append, ← ht]
            exact hsplit.symm
          · intro _ hds c hc
            rw [hnil hds] at hc
            simp only [List.head?_cons, Option.some.injEq] at hc
            rw [← hc]
            exact ⟨hhead a rfl, hp, hm⟩

/-- The routine `strtol_helper` accepts a string of the decimal syntax whose
number is a `long`, and stores the number. -/
theorem strtol_helper_of_decimal (s : List Char) (n : Int) (hs : decimal_denotes s n)
    (hn : isLong n) : strtol_helper s = (0, n) := by
  obtain ⟨ws, sign, ds, rfl, hws, hsign, hne, hds, rfl⟩ := hs
  have h := strtol_of_parts ws sign ds [] hws hsign hne hds (by simp)
  rw [List.append_nil] at h
  have hlen : ds.length ≠ 0 := fun h0 => hne (List.length_eq_zero.mp h0)
  have hget : (ws ++ (sign ++ ds)).getD (ws.length + sign.length + ds.length) NUL = NUL := by
    apply List.getD_eq_default
    simp only [List.length_append]
    omega
  have hlo : ¬ ((if sign = ['-'] then -(digits_value ds : Int) else (digits_value ds : Int)) <
      LONG_MIN) := not_lt.mpr hn.1
  have hhi : ¬ ((if sign = ['-'] then -(digits_value ds : Int) else (digits_value ds : Int)) >
      LONG_MAX) := not_lt.mpr hn.2
  rw [if_neg hlo, if_neg hhi] at h
  rw [List.append_assoc]
  unfold strtol_helper
  rw [h]
  have hcond : ¬ ((0 : Nat) ≠ 0 ∨ ws.length + sign.length + ds.length = 0 ∨
      (ws ++ (sign ++ ds)).getD (ws.length + sign.length + ds.length) NUL ≠ NUL) := by
    rintro (h1 | h1 | h1)
    · exact h1 rfl
    · omega
    · exact h1 hget
  exact if_neg hcond

/-- When `strtol_helper` returns 0 on a string without NUL, the string is of
the decimal syntax and the number stored is the `long` that it denotes. -/
theorem strtol_helper_accepts (s : List Char) (hnul : NUL ∉ s) (n : Int)
    (h : strtol_helper s = (0, n)) : decimal_denotes s n ∧ isLong n := by
  obtain ⟨ws, sign, ds, rest, rfl, hws, hsign, hds, hrest, hplain⟩ := decimal_parts s
  by_cases hne : ds = []
  · subst hne
    have h0 := strtol_no_digits ws sign rest hws hsign (fun hs => hplain hs rfl) hrest
    rw [List.nil_append] at h
    unfold strtol_helper at h
    rw [h0] at h
    simp at h
  · have hp := strtol_of_parts ws sign ds rest hws hsign hne hds hrest
    unfold strtol_helper at h
    rw [hp] at h
    by_cases hlo : (if sign = ['-'] then -(digits_value ds : Int) else (digits_value ds : Int)) <
        LONG_MIN
    · rw [if_pos hlo] at h
      simp at h
    · by_cases hhi : (if sign = ['-'] then -(digits_value ds : Int)
          else (digits_value ds : Int)) > LONG_MAX
      · rw [if_neg hlo, if_pos hhi] at h
        simp at h
      · rw [if_neg hlo, if_neg hhi] at h
        have h' : (if (0 : Nat) ≠ 0 ∨ ws.length + sign.length + ds.length = 0 ∨
            (ws ++ (sign ++ (ds ++ rest))).getD (ws.length + sign.length + ds.length) NUL ≠ NUL
            then ((-1 : Int), LONG_INVALID)
            else (0, (if sign = ['-'] then -(digits_value ds : Int)
              else (digits_value ds : Int)))) = (0, n) := h
        have hl : (ws ++ sign ++ ds).length = ws.length + sign.length + ds.length := by
          simp only [List.length_append]
        have hrest_nil : rest = [] := by
          cases rest with
          | nil => rfl
          | cons a t =>
              exfalso
              have hget : (ws ++ (sign ++ (ds ++ a :: t))).getD
                  (ws.length + sign.length + ds.length) NUL = a := by
                have e1 : ws ++ (sign ++ (ds ++ a :: t)) = (ws ++ sign ++ ds) ++ a :: t := by
                  simp
                rw [e1, List.getD_append_right _ _ _ _ (le_of_eq hl), hl, Nat.sub_self]
                rfl
              have ha : a ≠ NUL := by
                intro e
                apply hnul
                rw [← e]
                simp
              rw [hget, if_pos (Or.inr (Or.inr ha))] at h'
              have hfst : (-1 : Int) = 0 := congrArg Prod.fst h'
              exact absurd hfst (by decide)
        subst hrest_nil
        have hget : (ws ++ (sign ++ (ds ++ []))).getD (ws.length + sign.length + ds.length) NUL =
            NUL := by
          apply List.getD_eq_default
          simp only [List.length_append, List.length_nil]
          omega
        have hlen : ds.length ≠ 0 := fun h0 => hne (List.length_eq_zero.mp h0)
        have hcond : ¬ ((0 : Nat) ≠ 0 ∨ ws.length + sign.length + ds.length = 0 ∨
            (ws ++ (sign ++ (ds ++ []))).getD (ws.length + sign.length + ds.length) NUL ≠
              NUL) := by
          rintro (h1 | h1 | h1)
          · exact h1 rfl
          · omega
          · exact h1 hget
        rw [if_neg hcond] at h'
        have hv : (if sign = ['-'] then -(digits_value ds : Int) else (digits_value ds : Int)) =
            n := congrArg Prod.snd h'
        refine ⟨⟨ws, sign, ds, by simp, hws, hsign, hne, hds, hv.symm⟩, ?_⟩
        rw [← hv]
        exact ⟨not_lt.mp hlo, not_lt.mp hhi⟩

/-- C29 (counterexample). The string made of a blank and `42` is not a sign
followed by digits, yet `strtol_helper` returns 0 on it and stores 42: `strtol`
skips white space at the start of its string.  A capacity line with a blank
behind the equals sign is read in that way. -/
theorem C29_leading_space_counterexample :
    strtol_helper " 42".toList = (0, 42) ∧
    " 42".toList.head? = some ' ' ∧ isdigit ' ' = false ∧
    (uevent_line uevent_keys (reader_init battery_info_init [])
      "POWER_SUPPLY_CAPACITY= 42\n".toList).raw.capacity = 42 := by
  decide

/-- C29 (amended). On a string without NUL, `strtol_helper` returns 0 and
stores n exactly when the string is optional white space, an optional sign and
one digit or more, with nothing behind the digits, and denotes in base 10 the
integer n within the range of `long`; on every other string it returns -1 and
stores `LONG_INVALID`. -/
theorem C29_strtol_helper_language (s : List Char) (hnul : NUL ∉ s) :
    (∀ n : Int, strtol_helper s = (0, n) ↔ (decimal_denotes s n ∧ isLong n)) ∧
    ((¬ ∃ n : Int, decimal_denotes s n ∧ isLong n) → strtol_helper s = (-1, LONG_INVALID)) ∧
    (strtol_helper s = (-1, LONG_INVALID) ∨ ∃ n : Int, strtol_helper s = (0, n)) := by
  have hcases : strtol_helper s = (-1, LONG_INVALID) ∨ ∃ n : Int, strtol_helper s = (0, n) := by
    by_cases h : (strtol_helper s).1 ≠ 0
    · exact Or.inl (strtol_helper_fail s h)
    · right
      refine ⟨(strtol_helper s).2, ?_⟩
      have h0 : (strtol_helper s).1 = 0 := not_not.mp h
      exact Prod.ext h0 rfl
  refine ⟨fun n => ⟨fun h => strtol_helper_accepts s hnul n h,
    fun h => strtol_helper_of_decimal s n h.1 h.2⟩, ?_, hcases⟩
  intro hno
  rcases hcases with h | ⟨n, h⟩
  · exact h
  · exact absurd ⟨n, strtol_helper_accepts s hnul n h⟩ hno

/-- C29 (witness). The strings `-17` and `+5` are accepted with their numbers;
the empty string, `abc`, `12x` and a number of twenty digits are rejected. -/
theorem C29_strtol_helper_language_witness :
    NUL ∉ "-17".toList ∧ decimal_denotes "-17".toList (-17) ∧ isLong (-17) ∧
    strtol_helper "-17".toList = (0, -17) ∧
    strtol_helper "+5".toList = (0, 5) ∧
    strtol_helper [] = (-1, LONG_INVALID) ∧
    strtol_helper "abc".toList = (-1, LONG_INVALID) ∧
    strtol_helper "12x".toList = (-1, LONG_INVALID) ∧
    strtol_helper "99999999999999999999".toList = (-1, LONG_INVALID) := by
  have hs : decimal_denotes "-17".toList (-17) :=
    ⟨[], ['-'], "17".toList, rfl, by simp, Or.inr (Or.inr rfl), by decide, by decide,
      by decide⟩
  refine ⟨by decide, hs, by decide,
    ((C29_strtol_helper_language "-17".toList (by decide)).1 (-17)).mpr ⟨hs, by decide⟩,
    by decide, by decide, by decide, by decide, by decide⟩

/-! ## Lines of a longer key -/

set_option maxRecDepth 100000 in
/-- The line `POWER_SUPPLY_CAPACITY_LEVEL=Normal` takes the branch of
`POWER_SUPPLY_CAPACITY`: the helper fails on `LEVEL=Normal` and writes the
marker over the capacity read before. -/
theorem read_uevent_capacity_level :
    (read_uevent uevent_keys (reader_init battery_info_init [])
      "POWER_SUPPLY_CAPACITY=76\nPOWER_SUPPLY_CAPACITY_LEVEL=Normal\n".toList).raw =
      raw_longs_init ∧
    (read_uevent uevent_keys (reader_init battery_info_init [])
      "POWER_SUPPLY_CAPACITY=76\n".toList).raw =
      raw_of_capacity 76 LONG_INVALID LONG_INVALID := by
  decide

set_option maxRecDepth 100000 in
/-- The line `POWER_SUPPLY_TEMP_AMBIENT=250` takes the branch of
`POWER_SUPPLY_TEMP`: the helper fails on `AMBIENT=250` and writes the marker
over the temperature read before. -/
theorem read_uevent_temp_ambient :
    (read_uevent uevent_keys (reader_init battery_info_init [])
      "POWER_SUPPLY_TEMP=300\nPOWER_SUPPLY_TEMP_AMBIENT=250\n".toList).raw =
      raw_longs_init ∧
    (read_uevent uevent_keys (reader_init battery_info_init [])
      "POWER_SUPPLY_TEMP=300\n".toList).raw =
      raw_of_readings LONG_INVALID LONG_INVALID 300 := by
  decide

set_option maxRecDepth 100000 in
/-- The four files of the lines of a longer key are made of closed chunks. -/
theorem longer_key_files_closed :
    file_closed uevent_keys
      (some "POWER_SUPPLY_CAPACITY=76\nPOWER_SUPPLY_CAPACITY_LEVEL=Normal\n".toList) ∧
    file_closed uevent_keys (some "POWER_SUPPLY_CAPACITY=76\n".toList) ∧
    file_closed uevent_keys
      (some "POWER_SUPPLY_TEMP=300\nPOWER_SUPPLY_TEMP_AMBIENT=250\n".toList) ∧
    file_closed uevent_keys (some "POWER_SUPPLY_TEMP=300\n".toList) ∧
    file_closed device_uevent_keys none := by
  have h1 : ∀ c ∈ fgets_chunks 256
      "POWER_SUPPLY_CAPACITY=76\nPOWER_SUPPLY_CAPACITY_LEVEL=Normal\n".toList,
      chunk_closed uevent_keys c := by decide
  have h2 : ∀ c ∈ fgets_chunks 256 "POWER_SUPPLY_CAPACITY=76\n".toList,
      chunk_closed uevent_keys c := by decide
  have h3 : ∀ c ∈ fgets_chunks 256
      "POWER_SUPPLY_TEMP=300\nPOWER_SUPPLY_TEMP_AMBIENT=250\n".toList,
      chunk_closed uevent_keys c := by decide
  have h4 : ∀ c ∈ fgets_chunks 256 "POWER_SUPPLY_TEMP=300\n".toList,
      chunk_closed uevent_keys c := by decide
  refine ⟨?_, ?_, ?_, ?_, ?_⟩
  · intro content h; injection h with h; rw [← h]; exact h1
  · intro content h; injection h with h; rw [← h]; exact h2
  · intro content h; injection h with h; rw [← h]; exact h3
  · intro content h; injection h with h; rw [← h]; exact h4
  · intro content h; exact absurd h (by simp)

/-- The record of a first file alone that is read from the initial record:
the numbers of the record that the reading loop leaves are the initial ones. -/
theorem read_uevent_init_numbers (content : List Char) (buf0 : List Char) :
    info_numbers (read_uevent uevent_keys (reader_init battery_info_init buf0) content).info =
      info_numbers battery_info_init :=
  read_uevent_info_numbers uevent_keys (reader_init battery_info_init buf0) content

/-- C31 (evaluation at the failing input). A first file with the line
`POWER_SUPPLY_CAPACITY=76` gives the charge 76, and the same file followed by
the line `POWER_SUPPLY_CAPACITY_LEVEL=Normal` gives a charge that is not
available; a first file with the line `POWER_SUPPLY_TEMP=300` gives the
temperature 30, and the same file followed by `POWER_SUPPLY_TEMP_AMBIENT=250`
gives a temperature that is not available. -/
theorem C31_longer_key_clobbers (cfg : config) (buf0 : List Char) :
    ((get_battery_info (some "POWER_SUPPLY_CAPACITY=76\n".toList) none battery_info_init cfg
        buf0).2.charge = Dbl.fin 76 ∧
      (get_battery_info
        (some "POWER_SUPPLY_CAPACITY=76\nPOWER_SUPPLY_CAPACITY_LEVEL=Normal\n".toList) none
        battery_info_init cfg buf0).2.charge = DOUBLE_INVALID) ∧
    ((get_battery_info (some "POWER_SUPPLY_TEMP=300\n".toList) none battery_info_init cfg
        buf0).2.temperature = Dbl.fin 30 ∧
      (get_battery_info
        (some "POWER_SUPPLY_TEMP=300\nPOWER_SUPPLY_TEMP_AMBIENT=250\n".toList) none
        battery_info_init cfg buf0).2.temperature = DOUBLE_INVALID) ∧
    Dbl.fin 76 ≠ DOUBLE_INVALID ∧ Dbl.fin 30 ≠ DOUBLE_INVALID := by
  obtain ⟨hf1, hf2, hf3, hf4, hfd⟩ := longer_key_files_closed
  have hnum := fun content => read_uevent_init_numbers content []
  have hch : ∀ content, (read_uevent uevent_keys (reader_init battery_info_init [])
      content).info.charge = DOUBLE_INVALID := fun content =>
    congrArg (fun p => p.1.1) (hnum content)
  have htm : ∀ content, (read_uevent uevent_keys (reader_init battery_info_init [])
      content).info.temperature = DOUBLE_INVALID := fun content =>
    congrArg (fun p => p.1.2.2.2.2.1) (hnum content)
  refine ⟨⟨?_, ?_⟩, ⟨?_, ?_⟩, ?_, ?_⟩
  · rw [get_battery_info_closed _ _ _ _ hf2 hfd buf0 [], get_battery_info_uevent_only]
    change (process (read_uevent uevent_keys (reader_init battery_info_init []) _).raw cfg
      (read_uevent uevent_keys (reader_init battery_info_init []) _).info).charge = _
    rw [read_uevent_capacity_level.2, process_charge_of_capacity _ _ _ (by decide) (by decide)]
    simp [raw_of_capacity]
  · rw [get_battery_info_closed _ _ _ _ hf1 hfd buf0 [], get_battery_info_uevent_only]
    change (process (read_uevent uevent_keys (reader_init battery_info_init []) _).raw cfg
      (read_uevent uevent_keys (reader_init battery_info_init []) _).info).charge = _
    rw [read_uevent_capacity_level.1, process_unread _ _ (hch _)]
    exact hch _
  · rw [get_battery_info_closed _ _ _ _ hf4 hfd buf0 [], get_battery_info_uevent_only]
    change (process (read_uevent uevent_keys (reader_init battery_info_init []) _).raw cfg
      (read_uevent uevent_keys (reader_init battery_info_init []) _).info).temperature = _
    rw [read_uevent_temp_ambient.2, process_temperature_val, if_pos (by decide)]
    have e : (raw_of_readings LONG_INVALID LONG_INVALID 300).temp = 300 := rfl
    rw [e, Dbl.div_ofLong_fin _ _ (by norm_num) (by norm_num)]
    have a : ((300 : Int) : ℚ) / 10 = 30 := by norm_num
    rw [a]
    exact Dbl.nearest_exact _ 30 0 (by norm_num) (by norm_num) (by norm_num) (by norm_num)
  · rw [get_battery_info_closed _ _ _ _ hf3 hfd buf0 [], get_battery_info_uevent_only]
    change (process (read_uevent uevent_keys (reader_init battery_info_init []) _).raw cfg
      (read_uevent uevent_keys (reader_init battery_info_init []) _).info).temperature = _
    rw [read_uevent_temp_ambient.1, process_unread _ _ (hch _)]
    exact htm _
  · exact fin_ne_DOUBLE_INVALID (Or.inr (by norm_num))
  · exact fin_ne_DOUBLE_INVALID (Or.inr (by norm_num))

/-! ## Divisors that are zero -/

/-- The routine `list_battery_info` writes nothing and returns -1 when neither
file of the entry opens; otherwise it returns 0 and writes the record start
with the index, the fields and the record end. -/
theorem list_battery_info_cases (printf_2f : Dbl → List Char) (i : Int) (e : dir_entry)
    (infostr : List Char) (cfg : config) :
    ((e.uevent = none ∧ e.device_uevent = none) ∧
      list_battery_info printf_2f i e infostr cfg = (-1, [])) ∨
    (¬ (e.uevent = none ∧ e.device_uevent = none) ∧
      ∃ fields : List Char,
        list_battery_info printf_2f i e infostr cfg =
          (0, battery_info_output_start i cfg ++ fields ++ battery_info_output_end cfg)) := by
  obtain ⟨h1, h2, _⟩ :=
    get_battery_info_status e.uevent e.device_uevent battery_info_init cfg e.buf0
  rcases h2 with h | h
  · left
    refine ⟨h1.mp h, ?_⟩
    simp only [list_battery_info, h]
    simp
  · right
    refine ⟨fun hn => ?_,
      ((field_calls
        (get_battery_info e.uevent e.device_uevent battery_info_init cfg e.buf0).2
        (if cfg.has CONFIG_FLAG_OUTPUT_ALL then COMPLETE_OUTPUT_SEQUENCE.toList
          else infostr)).map (output_call printf_2f cfg)).flatten, ?_⟩
    · have := h1.mpr hn
      omega
    · simp only [list_battery_info, h]
      simp only [lt_self_iff_false, if_false]

/-- An entry is taken for a battery when its name does not start with a dot
and the type check returns 0. -/
theorem battery_typed_iff (e : dir_entry) :
    battery_typed e = true ↔
      ¬ e.d_name.head? = some '.' ∧
        compare_file_contents e.type_file "Battery".toList = 0 := by
  unfold battery_typed
  rw [Bool.and_eq_true, decide_eq_true_eq, Bool.not_eq_true', beq_eq_false_iff_ne]

/-- One step of the loop on an entry that is not taken for a battery. -/
theorem list_all_loop_cons_other (printf_2f : Dbl → List Char) (infostr : List Char)
    (cfg : config) (e : dir_entry) (rest : List dir_entry) (b : Int)
    (h : battery_typed e = false) :
    list_all_loop printf_2f infostr cfg (e :: rest) b =
      list_all_loop printf_2f infostr cfg rest b := by
  by_cases hd : e.d_name.head? = some '.'
  · simp only [list_all_loop, hd, if_true]
  · have ht : ¬ compare_file_contents e.type_file "Battery".toList = 0 := by
      intro ht
      rw [(battery_typed_iff e).mpr ⟨hd, ht⟩] at h
      exact Bool.noConfusion h
    simp only [list_all_loop, hd, ht, if_false]

/-- One step of the loop on an entry taken for a battery, without a name
filter: the record of the entry under the index `battery`, and the rest of the
loop with `battery + 1`, whatever `list_battery_info` returned. -/
theorem list_all_loop_cons_battery (printf_2f : Dbl → List Char) (infostr : List Char)
    (cfg : config) (e : dir_entry) (rest : List dir_entry) (b : Int)
    (hflag : cfg.has CONFIG_FLAG_BY_NAME = false) (h : battery_typed e = true) :
    list_all_loop printf_2f infostr cfg (e :: rest) b =
      (list_battery_info printf_2f b e infostr cfg).2 ++
        list_all_loop printf_2f infostr cfg rest (b + 1) := by
  obtain ⟨hd, ht⟩ := (battery_typed_iff e).mp h
  simp only [list_all_loop, hd, ht, hflag, if_false, if_true, Bool.false_eq_true]

/-- Without a name filter the loop on a list of entries in two parts is the
loop on the first part followed by the loop on the second part, which starts
with `battery` raised by the number of entries of the first part that are taken
for batteries. -/
theorem list_all_loop_append (printf_2f : Dbl → List Char) (infostr : List Char)
    (cfg : config) (hflag : cfg.has CONFIG_FLAG_BY_NAME = false)
    (pre post : List dir_entry) (b : Int) :
    list_all_loop printf_2f infostr cfg (pre ++ post) b =
      list_all_loop printf_2f infostr cfg pre b ++
        list_all_loop printf_2f infostr cfg post (b + (pre.countP battery_typed : Nat)) := by
  induction pre generalizing b with
  | nil => simp [list_all_loop]
  | cons e rest ih =>
      cases h : battery_typed e with
      | false =>
          rw [List.cons_append, list_all_loop_cons_other _ _ _ _ _ _ h,
            list_all_loop_cons_other _ _ _ _ _ _ h, ih, List.countP_cons_of_neg]
          simp [h]
      | true =>
          rw [List.cons_append, list_all_loop_cons_battery _ _ _ _ _ _ hflag h,
            list_all_loop_cons_battery _ _ _ _ _ _ hflag h, ih,
            List.countP_cons_of_pos _ _ h, List.append_assoc]
          congr 3
          push_cast
          ring

/-- With a name filter the loop writes nothing or the record of one entry of
the directory, under the index 0. -/
theorem list_all_loop_by_name_single (printf_2f : Dbl → List Char) (infostr : List Char)
    (cfg : config) (hflag : cfg.has CONFIG_FLAG_BY_NAME = true)
    (entries : List dir_entry) (b : Int) :
    list_all_loop printf_2f infostr cfg entries b = [] ∨
    ∃ e ∈ entries, battery_typed e = true ∧ some e.d_name = cfg.cmdopts_n ∧
      list_all_loop printf_2f infostr cfg entries b =
        (list_battery_info printf_2f 0 e infostr cfg).2 := by
  induction entries with
  | nil => left; rfl
  | cons e rest ih =>
      have hrest : list_all_loop printf_2f infostr cfg rest b = [] ∨
          ∃ x ∈ e :: rest, battery_typed x = true ∧ some x.d_name = cfg.cmdopts_n ∧
            list_all_loop printf_2f infostr cfg rest b =
              (list_battery_info printf_2f 0 x infostr cfg).2 := by
        rcases ih with h | ⟨x, hx, h⟩
        · exact Or.inl h
        · exact Or.inr ⟨x, List.mem_cons_of_mem _ hx, h⟩
      cases h : battery_typed e with
      | false =>
          rw [list_all_loop_cons_other _ _ _ _ _ _ h]
          exact hrest
      | true =>
          obtain ⟨hd, ht⟩ := (battery_typed_iff e).mp h
          by_cases hn : some e.d_name = cfg.cmdopts_n
          · right
            refine ⟨e, List.mem_cons_self _ _, h, hn, ?_⟩
            simp only [list_all_loop, hd, ht, hflag, hn, if_false, if_true]
          · simp only [list_all_loop, hd, ht, hflag, hn, if_false, if_true]
            exact hrest

/-- The text of the loop is made of the records of entries of the directory,
in the order of the directory, each written by a call of `list_battery_info`
that returned 0. -/
theorem list_all_loop_records (printf_2f : Dbl → List Char) (infostr : List Char)
    (cfg : config) (entries : List dir_entry) (b : Int) :
    ∃ recs : List (Int × dir_entry),
      (recs.map Prod.snd).Sublist entries ∧
      (∀ p ∈ recs, (list_battery_info printf_2f p.1 p.2 infostr cfg).1 = 0) ∧
      list_all_loop printf_2f infostr cfg entries b =
        (recs.map (fun p => (list_battery_info printf_2f p.1 p.2 infostr cfg).2)).flatten := by
  induction entries generalizing b with
  | nil => exact ⟨[], by simp, by simp, by simp [list_all_loop]⟩
  | cons e rest ih =>
      have hone : ∀ i : Int, ∃ recs : List (Int × dir_entry),
          (recs.map Prod.snd).Sublist [e] ∧
          (∀ p ∈ recs, (list_battery_info printf_2f p.1 p.2 infostr cfg).1 = 0) ∧
          (list_battery_info printf_2f i e infostr cfg).2 =
            (recs.map
              (fun p => (list_battery_info printf_2f p.1 p.2 infostr cfg).2)).flatten := by
        intro i
        rcases list_battery_info_cases printf_2f i e infostr cfg with ⟨_, h⟩ | ⟨_, fields, h⟩
        · exact ⟨[], by simp, by simp, by simp [h]⟩
        · exact ⟨[(i, e)], by simp, by simp [h], by simp⟩
      cases h : battery_typed e with
      | false =>
          obtain ⟨recs, h1, h2, h3⟩ := ih b
          exact ⟨recs, h1.cons e, h2, by rw [list_all_loop_cons_other _ _ _ _ _ _ h, h3]⟩
      | true =>
          cases hflag : cfg.has CONFIG_FLAG_BY_NAME with
          | false =>
              obtain ⟨recs, h1, h2, h3⟩ := ih (b + 1)
              obtain ⟨r1, g1, g2, g3⟩ := hone b
              refine ⟨r1 ++ recs, ?_, ?_, ?_⟩
              · rw [List.map_append]
                exact List.Sublist.append g1 h1
              · intro p hp
                rcases List.mem_append.mp hp with hp | hp
                · exact g2 p hp
                · exact h2 p hp
              · rw [list_all_loop_cons_battery _ _ _ _ _ _ hflag h, g3, h3, List.map_append,
                  List.flatten_append]
          | true =>
              obtain ⟨hd, ht⟩ := (battery_typed_iff e).mp h
              by_cases hn : some e.d_name = cfg.cmdopts_n
              · obtain ⟨r1, g1, g2, g3⟩ := hone 0
                refine ⟨r1, ?_, g2, ?_⟩
                · exact g1.trans (List.Sublist.cons₂ e (List.nil_sublist rest))
                · simp only [list_all_loop, hd, ht, hflag, hn, if_false, if_true]
                  exact g3
              · obtain ⟨recs, h1, h2, h3⟩ := ih b
                refine ⟨recs, h1.cons e, h2, ?_⟩
                simp only [list_all_loop, hd, ht, hflag, hn, if_false, if_true]
                exact h3

/-! ## The batch in JSON -/

/-- C33. In JSON the text of `list_all_battery_info` is the batch opener, the
records that the loop renders, in the order of the directory, and the batch
closer; each of the n records was written by a call of `list_battery_info`
that returned 0 and is the record start with its index, the fields, and the
record end `\n\t},\n`, the last record as the others; so when n is at least
1 the closer `]\n}\n` stands right behind a record end, whose comma is
followed by a newline. -/
theorem C33_json_batch (printf_2f : Dbl → List Char) (infostr : List Char) (cfg : config)
    (entries : List dir_entry) (hjson : cfg.output_format = .OUTPUT_FORMAT_JSON) :
    ∃ recs : List (Int × dir_entry),
      (recs.map Prod.snd).Sublist entries ∧
      (∀ p ∈ recs, (list_battery_info printf_2f p.1 p.2 infostr cfg).1 = 0 ∧
        ∃ fields : List Char,
          (list_battery_info printf_2f p.1 p.2 infostr cfg).2 =
            "\t\x7b\n\t\t\"battery\": ".toList ++ decimal p.1 ++ fields ++
              "\n\t\x7d,\n".toList) ∧
      list_all_battery_info printf_2f (some entries) infostr cfg =
        some ("\x7b\n\"batteries\": [\n".toList ++
          (recs.map (fun p => (list_battery_info printf_2f p.1 p.2 infostr cfg).2)).flatten ++
          "]\n\x7d\n".toList) ∧
      (recs ≠ [] → ∃ front : List Char,
        list_all_battery_info printf_2f (some entries) infostr cfg =
          some (front ++ "\n\t\x7d,\n".toList ++ "]\n\x7d\n".toList)) := by
  obtain ⟨recs, hsub, hok, hout⟩ := list_all_loop_records printf_2f infostr cfg entries 0
  have hstart : ∀ i : Int, battery_info_output_start i cfg =
      "\t\x7b\n\t\t\"battery\": ".toList ++ decimal i := by
    intro i
    simp only [battery_info_output_start, hjson]
  have hend : battery_info_output_end cfg = "\n\t\x7d,\n".toList := by
    simp only [battery_info_output_end, hjson]
  have hrec : ∀ p ∈ recs, (list_battery_info printf_2f p.1 p.2 infostr cfg).1 = 0 ∧
      ∃ fields : List Char,
        (list_battery_info printf_2f p.1 p.2 infostr cfg).2 =
          "\t\x7b\n\t\t\"battery\": ".toList ++ decimal p.1 ++ fields ++
            "\n\t\x7d,\n".toList := by
    intro p hp
    refine ⟨hok p hp, ?_⟩
    rcases list_battery_info_cases printf_2f p.1 p.2 infostr cfg with ⟨_, h⟩ | ⟨_, fields, h⟩
    · have h0 := hok p hp
      rw [h] at h0
      exact absurd h0 (by decide)
    · exact ⟨fields, by rw [h, hstart, hend]⟩
  have hall : list_all_battery_info printf_2f (some entries) infostr cfg =
      some ("\x7b\n\"batteries\": [\n".toList ++
        (recs.map (fun p => (list_battery_info printf_2f p.1 p.2 infostr cfg).2)).flatten ++
        "]\n\x7d\n".toList) := by
    simp only [list_all_battery_info, battery_info_output_init, battery_info_output_deinit,
      hjson, hout]
  refine ⟨recs, hsub, hrec, hall, ?_⟩
  intro hne
  obtain ⟨fields, hlast⟩ := (hrec (recs.getLast hne) (List.getLast_mem hne)).2
  refine ⟨"\x7b\n\"batteries\": [\n".toList ++
    (recs.dropLast.map
      (fun p => (list_battery_info printf_2f p.1 p.2 infostr cfg).2)).flatten ++
    ("\t\x7b\n\t\t\"battery\": ".toList ++ decimal (recs.getLast hne).1 ++ fields), ?_⟩
  rw [hall]
  have hsplit : (recs.map
      (fun p => (list_battery_info printf_2f p.1 p.2 infostr cfg).2)).flatten =
      (recs.dropLast.map
        (fun p => (list_battery_info printf_2f p.1 p.2 infostr cfg).2)).flatten ++
      (list_battery_info printf_2f (recs.getLast hne).1 (recs.getLast hne).2 infostr cfg).2 := by
    conv_lhs => rw [← List.dropLast_append_getLast hne]
    rw [List.map_append, List.flatten_append]
    simp
  rw [hsplit, hlast]
  simp only [List.append_assoc]

/-- C33 (witness). The directory of one battery entry in JSON. -/
theorem C33_json_batch_witness :
    config_json.output_format = .OUTPUT_FORMAT_JSON ∧
    ∃ recs : List (Int × dir_entry),
      (recs.map Prod.snd).Sublist [sample_entry "BAT0"] ∧
      (∀ p ∈ recs, (list_battery_info (fun _ => []) p.1 p.2 "c".toList config_json).1 = 0 ∧
        ∃ fields : List Char,
          (list_battery_info (fun _ => []) p.1 p.2 "c".toList config_json).2 =
            "\t\x7b\n\t\t\"battery\": ".toList ++ decimal p.1 ++ fields ++
              "\n\t\x7d,\n".toList) ∧
      list_all_battery_info (fun _ => []) (some [sample_entry "BAT0"]) "c".toList
          config_json =
        some ("\x7b\n\"batteries\": [\n".toList ++
          (recs.map
            (fun p => (list_battery_info (fun _ => []) p.1 p.2 "c".toList config_json).2)).flatten ++
          "]\n\x7d\n".toList) ∧
      (recs ≠ [] → ∃ front : List Char,
        list_all_battery_info (fun _ => []) (some [sample_entry "BAT0"]) "c".toList
            config_json =
          some (front ++ "\n\t\x7d,\n".toList ++ "]\n\x7d\n".toList)) :=
  ⟨rfl, C33_json_batch (fun _ => []) "c".toList config_json [sample_entry "BAT0"] rfl⟩

/-! ## The index of a record -/

/-- C34. Without a name filter the record of an entry taken for a battery is
written by `list_battery_info` under the index that is the number of the
entries taken for batteries that stand before it in the directory, whether
their own records were written or not, and the entries behind it go on with
that index plus 1; a call whose files do not open writes nothing, and a call
that succeeds starts the record with the record start of its index; the index
of an entry is below that of every later entry.  With a name filter the loop
writes nothing, or the record of one entry of the filtered name under the
index 0. -/
theorem C34_record_index (printf_2f : Dbl → List Char) (infostr : List Char)
    (cfg : config) :
    (cfg.has CONFIG_FLAG_BY_NAME = false →
      ∀ (pre post : List dir_entry) (e : dir_entry), battery_typed e = true →
        list_all_battery_info printf_2f (some (pre ++ e :: post)) infostr cfg =
          some (battery_info_output_init cfg ++
            (list_all_loop printf_2f infostr cfg pre 0 ++
              (list_battery_info printf_2f (pre.countP battery_typed : Nat) e infostr cfg).2 ++
              list_all_loop printf_2f infostr cfg post
                ((pre.countP battery_typed : Nat) + 1)) ++
            battery_info_output_deinit cfg)) ∧
    (∀ (i : Int) (e : dir_entry),
      ((e.uevent = none ∧ e.device_uevent = none) ∧
        list_battery_info printf_2f i e infostr cfg = (-1, [])) ∨
      (¬ (e.uevent = none ∧ e.device_uevent = none) ∧
        ∃ fields : List Char,
          list_battery_info printf_2f i e infostr cfg =
            (0, battery_info_output_start i cfg ++ fields ++ battery_info_output_end cfg))) ∧
    (∀ (pre mid : List dir_entry) (e : dir_entry), battery_typed e = true →
      pre.countP battery_typed < (pre ++ e :: mid).countP battery_typed) ∧
    (cfg.has CONFIG_FLAG_BY_NAME = true →
      ∀ entries : List dir_entry,
        list_all_battery_info printf_2f (some entries) infostr cfg =
          some (battery_info_output_init cfg ++ battery_info_output_deinit cfg) ∨
        ∃ e ∈ entries, battery_typed e = true ∧ some e.d_name = cfg.cmdopts_n ∧
          list_all_battery_info printf_2f (some entries) infostr cfg =
            some (battery_info_output_init cfg ++
              (list_battery_info printf_2f 0 e infostr cfg).2 ++
              battery_info_output_deinit cfg)) := by
  refine ⟨?_, fun i e => list_battery_info_cases printf_2f i e infostr cfg, ?_, ?_⟩
  · intro hflag pre post e he
    simp only [list_all_battery_info]
    rw [list_all_loop_append printf_2f infostr cfg hflag pre (e :: post) 0,
      list_all_loop_cons_battery printf_2f infostr cfg e post _ hflag he, zero_add,
      List.append_assoc (list_all_loop printf_2f infostr cfg pre 0)]
  · intro pre mid e he
    rw [List.countP_append, List.countP_cons_of_pos _ _ he]
    omega
  · intro hflag entries
    simp only [list_all_battery_info]
    rcases list_all_loop_by_name_single printf_2f infostr cfg hflag entries 0 with
      h | ⟨e, hmem, ht, hn, h⟩
    · left
      rw [h, List.append_nil]
    · right
      exact ⟨e, hmem, ht, hn, by rw [h]⟩

/-- C34 (witness). Without a name filter, a battery entry of which no file
opens stands before the entry `BAT1`: the record of `BAT1` is written under the
index 1; with the filter `BAT1` the record is written under the index 0. -/
theorem C34_record_index_witness :
    (config_init.has CONFIG_FLAG_BY_NAME = false ∧
      battery_typed (sample_entry "BAT1") = true ∧
      [unreadable_entry "BAT0"].countP battery_typed = 1 ∧
      list_all_loop (fun _ => []) "c".toList config_init [unreadable_entry "BAT0"] 0 = [] ∧
      list_all_battery_info (fun _ => [])
          (some ([unreadable_entry "BAT0"] ++ sample_entry "BAT1" :: [])) "c".toList
          config_init =
        some (battery_info_output_init config_init ++
          (list_all_loop (fun _ => []) "c".toList config_init [unreadable_entry "BAT0"] 0 ++
            (list_battery_info (fun _ => [])
              ([unreadable_entry "BAT0"].countP battery_typed : Nat) (sample_entry "BAT1")
              "c".toList config_init).2 ++
            list_all_loop (fun _ => []) "c".toList config_init []
              (([unreadable_entry "BAT0"].countP battery_typed : Nat) + 1)) ++
          battery_info_output_deinit config_init)) ∧
    ((config_by_name "BAT1".toList).has CONFIG_FLAG_BY_NAME = true ∧
      (list_all_battery_info (fun _ => [])
          (some [unreadable_entry "BAT0", sample_entry "BAT1"]) "c".toList
          (config_by_name "BAT1".toList) =
        some (battery_info_output_init (config_by_name "BAT1".toList) ++
          battery_info_output_deinit (config_by_name "BAT1".toList)) ∨
      ∃ e ∈ [unreadable_entry "BAT0", sample_entry "BAT1"],
        battery_typed e = true ∧ some e.d_name = (config_by_name "BAT1".toList).cmdopts_n ∧
        list_all_battery_info (fun _ => [])
            (some [unreadable_entry "BAT0", sample_entry "BAT1"]) "c".toList
            (config_by_name "BAT1".toList) =
          some (battery_info_output_init (config_by_name "BAT1".toList) ++
            (list_battery_info (fun _ => []) 0 e "c".toList
              (config_by_name "BAT1".toList)).2 ++
            battery_info_output_deinit (config_by_name "BAT1".toList)))) :=
  ⟨⟨by decide, by decide, by decide, by decide,
      (C34_record_index (fun _ => []) "c".toList config_init).1 (by decide)
        [unreadable_entry "BAT0"] [] (sample_entry "BAT1") (by decide)⟩,
    by decide,
    (C34_record_index (fun _ => []) "c".toList (config_by_name "BAT1".toList)).2.2.2
      (by decide) [unreadable_entry "BAT0", sample_entry "BAT1"]⟩

/-! ## The columns of the CSV lines -/

/-- For a name of at most 29 characters the macro `output_csv_name` writes the
name, a colon and 29 minus the length of the name spaces, thirty characters in
all. -/
theorem output_csv_name_short (name : String) (h : name.toList.length ≤ 29) :
    output_csv_name name =
        name.toList ++ ':' :: List.replicate (29 - name.toList.length) ' ' ∧
      (output_csv_name name).length = 30 := by
  have h2 : (29 : Int) - (name.toList.length : Int) < 2 ^ 64 :=
    lt_of_le_of_lt (show (29 : Int) - (name.toList.length : Int) ≤ 29 by omega) (by norm_num)
  have h1 : ((29 - (name.toList.length : Int)) % 2 ^ 64).toNat = 29 - name.toList.length := by
    rw [Int.emod_eq_of_lt (by omega) h2]
    omega
  have heq : output_csv_name name =
      name.toList ++ ':' :: List.replicate (29 - name.toList.length) ' ' := by
    unfold output_csv_name output_n_spaces
    rw [h1]
  refine ⟨heq, ?_⟩
  rw [heq, List.length_append, List.length_cons, List.length_replicate]
  omega

/-- In CSV a call of a field output routine writes the name with its padding,
the value and a newline. -/
theorem output_call_csv (printf_2f : Dbl → List Char) (cfg : config)
    (hcsv : cfg.output_format = .OUTPUT_FORMAT_CSV) (call : field_call) :
    output_call printf_2f cfg call =
      output_csv_name call.name ++ call.csv_value printf_2f cfg ++ "\n".toList := by
  cases call with
  | str s name =>
      cases s <;>
        simp [output_call, battery_info_output_str, hcsv, field_call.name,
          field_call.csv_value]
  | double_percent d name =>
      by_cases hd : d = DOUBLE_INVALID <;>
        simp [output_call, battery_info_output_double_percent, hcsv, field_call.name,
          field_call.csv_value, hd]
  | double d name =>
      by_cases hd : d = DOUBLE_INVALID <;>
        simp [output_call, battery_info_output_double, hcsv, field_call.name,
          field_call.csv_value, hd]
  | flag v name =>
      by_cases hdig : cfg.has CONFIG_FLAG_DIGITS = true <;>
        by_cases h1 : v = 1 <;> by_cases h0 : v = 0 <;>
        simp [output_call, battery_info_output_flag, hcsv, field_call.name,
          field_call.csv_value, flag_word, flag_state, hdig, h1, h0]

/-- The name of every call that the `switch` of `list_battery_info` makes is
one of the nineteen field names. -/
theorem field_switch_name (info : battery_info) (c : Char) (call : field_call)
    (h : field_switch info c = some call) : call.name ∈ field_names := by
  rcases main_case_cases c with ⟨hmem, _, _⟩ | ⟨_, _, hnone⟩
  · rw [COMPLETE_OUTPUT_SEQUENCE_toList] at hmem
    simp only [List.mem_cons, List.mem_singleton, List.mem_nil_iff, or_false] at hmem
    rcases hmem with rfl | rfl | rfl | rfl | rfl | rfl | rfl | rfl | rfl | rfl | rfl | rfl |
      rfl | rfl | rfl | rfl | rfl | rfl | rfl
    all_goals
      have hc : some call = _ := h.symm.trans rfl
      injection hc with hc
      subst hc
      simp [field_call.name, field_names]
  · rw [hnone info] at h
    exact absurd h (by simp)

/-- The nineteen field names are the names that the `switch` passes for the
characters of the `case` labels, in the order of the source. -/
theorem field_names_used (info : battery_info) :
    "nctvCTDdmMeshSHrpog".toList.map (fun c => (field_switch info c).map field_call.name) =
      field_names.map some := by
  rfl

/-- C35. In CSV the line of a field is the name, a colon, spaces, the value
and a newline; the count of the spaces is 29 minus the length of the name,
computed in `size_t`, and for a name of at most 29 characters thirty
characters stand before the value.  The `switch` of `list_battery_info` passes
nineteen names, each of at most 16 characters, so that each of them gets 29
minus its length spaces, at least 13, and its value starts behind thirty
characters (column 30 when columns are counted from 0); the record start
writes `battery:` and 22 spaces, thirty characters, before the index. -/
theorem C35_csv_columns (printf_2f : Dbl → List Char) (cfg : config)
    (hcsv : cfg.output_format = .OUTPUT_FORMAT_CSV) :
    (∀ call : field_call,
      output_call printf_2f cfg call =
        call.name.toList ++
          ':' :: output_n_spaces
            (((29 - (call.name.toList.length : Int)) % 2 ^ 64).toNat) ++
          call.csv_value printf_2f cfg ++ "\n".toList) ∧
    (field_names.length = 19 ∧ field_names.Nodup ∧
      (∀ name ∈ field_names, name.toList.length ≤ 16) ∧
      (∀ info : battery_info,
        "nctvCTDdmMeshSHrpog".toList.map
            (fun c => (field_switch info c).map field_call.name) =
          field_names.map some)) ∧
    (∀ (info : battery_info) (c : Char) (call : field_call),
      field_switch info c = some call →
        call.name ∈ field_names ∧ call.name.toList.length ≤ 16 ∧
        output_call printf_2f cfg call =
          (call.name.toList ++ ':' :: List.replicate (29 - call.name.toList.length) ' ') ++
            call.csv_value printf_2f cfg ++ "\n".toList ∧
        13 ≤ 29 - call.name.toList.length ∧
        (call.name.toList ++
          ':' :: List.replicate (29 - call.name.toList.length) ' ').length = 30) ∧
    (∀ battery : Int,
      battery_info_output_start battery cfg =
        ("battery:".toList ++ List.replicate 22 ' ') ++ decimal battery ++ "\n".toList ∧
      ("battery:".toList ++ List.replicate 22 ' ').length = 30) := by
  have hlen : ∀ name ∈ field_names, name.toList.length ≤ 16 := by decide
  refine ⟨?_, ⟨by decide, by decide, hlen, field_names_used⟩, ?_, ?_⟩
  · intro call
    rw [output_call_csv printf_2f cfg hcsv call]
    rfl
  · intro info c call h
    have hmem := field_switch_name info c call h
    have h16 := hlen _ hmem
    obtain ⟨heq, hl⟩ := output_csv_name_short call.name (by omega)
    refine ⟨hmem, h16, ?_, by omega, ?_⟩
    · rw [output_call_csv printf_2f cfg hcsv call, heq]
    · rw [← heq]
      exact hl
  · intro battery
    refine ⟨?_, by decide⟩
    simp only [battery_info_output_start, hcsv]
    rfl

/-- C35 (witness). The line of the field `charging_enabled`, the longest name,
and the line of the field `etd`, the shortest, in the default configuration. -/
theorem C35_csv_columns_witness :
    config_init.output_format = .OUTPUT_FORMAT_CSV ∧
    output_call (fun _ => []) config_init (.flag 1 "charging_enabled") =
      "charging_enabled:             yes\n".toList ∧
    output_call (fun _ => "1.50".toList) config_init (.double (Dbl.fin 0) "etd") =
      "etd:                          1.50\n".toList ∧
    battery_info_output_start 0 config_init =
      "battery:                      0\n".toList := by
  have h := C35_csv_columns (fun _ => []) config_init rfl
  have h2 := C35_csv_columns (fun _ => "1.50".toList) config_init rfl
  refine ⟨rfl, ?_, ?_, ?_⟩
  · rw [h.1]
    decide
  · rw [h2.1]
    have hne : Dbl.fin 0 ≠ DOUBLE_INVALID := by
      unfold DOUBLE_INVALID
      intro hq
      injection hq with hq
      have hpos : (0 : ℚ) < 1 / 2 ^ 1022 := by positivity
      rw [← hq] at hpos
      exact lt_irrefl _ hpos
    simp only [field_call.csv_value, field_call.name, if_pos hne]
    decide
  · rw [(h.2.2.2 0).1]
    decide

/-! ## Readings of the most negative `long` and results that are rounded -/

/-- The record that `get_battery_info` leaves when only the first file opens:
the `process:` part on the locals that the reading loop leaves, from a record
whose doubles and flags are the ones on entry. -/
theorem get_battery_info_first_file (content : List Char) (cfg : config) (buf0 : List Char) :
    ∃ info : battery_info, info_numbers info = info_numbers battery_info_init ∧
      (get_battery_info (some content) none battery_info_init cfg buf0).2 =
        process (read_uevent uevent_keys (reader_init battery_info_init buf0) content).raw
          cfg info :=
  ⟨_, read_uevent_info_numbers uevent_keys (reader_init battery_info_init buf0) content, by
    rw [get_battery_info_uevent_only]
    rfl⟩

set_option maxRecDepth 100000 in
/-- The locals after the first files of the examples that follow. -/
theorem read_uevent_examples :
    (read_uevent uevent_keys (reader_init battery_info_init [])
      "POWER_SUPPLY_CHARGE_NOW=-9223372036854775808\nPOWER_SUPPLY_CHARGE_FULL=4000\n".toList).raw =
      raw_of_charges LONG_INVALID 4000 LONG_INVALID ∧
    (read_uevent uevent_keys (reader_init battery_info_init [])
      "POWER_SUPPLY_CHARGE_NOW=1000\nPOWER_SUPPLY_CHARGE_FULL=3000\n".toList).raw =
      raw_of_charges 1000 3000 LONG_INVALID ∧
    (read_uevent uevent_keys (reader_init battery_info_init [])
      ("POWER_SUPPLY_CHARGE_FULL=4000\nPOWER_SUPPLY_CHARGE_NOW=3000\n" ++
        "POWER_SUPPLY_CURRENT_NOW=-9223372036854775808\n").toList).raw =
      raw_of_charges 3000 4000 LONG_INVALID ∧
    (read_uevent uevent_keys (reader_init battery_info_init [])
      ("POWER_SUPPLY_CHARGE_FULL=4000\nPOWER_SUPPLY_CHARGE_NOW=3000\n" ++
        "POWER_SUPPLY_CURRENT_NOW=7\n").toList).raw =
      raw_of_charges 3000 4000 7 ∧
    (read_uevent uevent_keys (reader_init battery_info_init [])
      ("POWER_SUPPLY_CHARGE_FULL=-9223372036854775808\n" ++
        "POWER_SUPPLY_CHARGE_FULL_DESIGN=5000\n").toList).raw =
      raw_of_design LONG_INVALID LONG_INVALID 5000 ∧
    (read_uevent uevent_keys (reader_init battery_info_init [])
      "POWER_SUPPLY_CHARGE_FULL=4000\nPOWER_SUPPLY_CHARGE_FULL_DESIGN=3000\n".toList).raw =
      raw_of_design LONG_INVALID 4000 3000 ∧
    (read_uevent uevent_keys (reader_init battery_info_init [])
      "POWER_SUPPLY_VOLTAGE_NOW=-9223372036854775808\n".toList).raw =
      raw_of_readings LONG_INVALID LONG_INVALID LONG_INVALID ∧
    (read_uevent uevent_keys (reader_init battery_info_init [])
      "POWER_SUPPLY_TEMP=3\n".toList).raw =
      raw_of_readings LONG_INVALID LONG_INVALID 3 := by
  decide

/-- The double `1000 / 3000 * 100`: the quotient is rounded to the double next
to one third, and its product by 100 to a double below 100/3. -/
theorem third_percent :
    Dbl.mul (Dbl.div (Dbl.ofLong 1000) (Dbl.ofLong 3000)) (Dbl.fin 100) =
      Dbl.fin (2345624805922133 / 70368744177664) := by
  rw [Dbl.div_ofLong_ofLong _ _ (by norm_num) (by norm_num) (by norm_num)]
  have h1 : Dbl.nearest (((1000 : Int) : ℚ) / ((3000 : Int) : ℚ)) =
      Dbl.fin (6004799503160661 / 18014398509481984) :=
    Dbl.nearest_cert_eq _ (-2) 6004799503160661 (by norm_num) (by norm_num) (by norm_num)
      (by norm_num) (by norm_num [abs_lt]) (by norm_num)
  rw [h1]
  simp only [Dbl.mul]
  exact Dbl.nearest_cert_eq _ 5 4691249611844266 (by norm_num) (by norm_num) (by norm_num)
    (by norm_num) (by norm_num [abs_lt]) (by norm_num)

/-- C4 (counterexample). The text `-9223372036854775808` is read with success,
and yet a first file with that charge-now and the charge-full 4000 leaves the
charge unavailable; and a first file with charge-now 1000 and charge-full 3000
gives the charge 33.33333333333332859638..., the double
`1000.0 / 3000.0 * 100`, which is not the rational 1000 / 3000 * 100. -/
theorem C4_charge_from_ratio_counterexample :
    strtol_helper "-9223372036854775808".toList = (0, -9223372036854775808) ∧
    (get_battery_info
      (some "POWER_SUPPLY_CHARGE_NOW=-9223372036854775808\nPOWER_SUPPLY_CHARGE_FULL=4000\n".toList)
      none battery_info_init config_init []).2.charge = DOUBLE_INVALID ∧
    (get_battery_info
      (some "POWER_SUPPLY_CHARGE_NOW=1000\nPOWER_SUPPLY_CHARGE_FULL=3000\n".toList)
      none battery_info_init config_init []).2.charge =
      Dbl.fin (2345624805922133 / 70368744177664) ∧
    Dbl.fin (2345624805922133 / 70368744177664) ≠ Dbl.fin ((1000 : ℚ) / 3000 * 100) := by
  refine ⟨by decide, ?_, ?_, ?_⟩
  · obtain ⟨info, hi, h⟩ := get_battery_info_first_file
      "POWER_SUPPLY_CHARGE_NOW=-9223372036854775808\nPOWER_SUPPLY_CHARGE_FULL=4000\n".toList
      config_init []
    rw [h, read_uevent_examples.1]
    exact process_charge_unset _ _ _ (congrArg (fun p => p.1.1) hi) (by decide) (by decide)
  · obtain ⟨info, _, h⟩ := get_battery_info_first_file
      "POWER_SUPPLY_CHARGE_NOW=1000\nPOWER_SUPPLY_CHARGE_FULL=3000\n".toList config_init []
    rw [h, read_uevent_examples.2.1,
      process_charge_of_ratio _ _ _ (by decide) (by decide) (by decide)]
    have e1 : (raw_of_charges 1000 3000 LONG_INVALID).charge_now = 1000 := rfl
    have e2 : (raw_of_charges 1000 3000 LONG_INVALID).charge_full = 3000 := rfl
    rw [e1, e2, third_percent]
    simp only [Dbl.gt]
    norm_num
  · intro h
    injection h with h
    norm_num at h

/-- The double `((4000 - 3000) / 7) * 10`: the quotient is rounded to the
double next to 1000/7, and its product by 10 to a double above 10000/7. -/
theorem seventh_hours :
    Dbl.mul (Dbl.div (Dbl.sub (Dbl.ofLong 4000) (Dbl.ofLong 3000)) (Dbl.ofLong 7))
        (Dbl.fin 10) = Dbl.fin (6282923587291429 / 4398046511104) := by
  have h1 : Dbl.ofLong 4000 = Dbl.fin 4000 := by
    have := Dbl.ofLong_eq 4000 (by norm_num)
    simpa using this
  have h2 : Dbl.ofLong 3000 = Dbl.fin 3000 := by
    have := Dbl.ofLong_eq 3000 (by norm_num)
    simpa using this
  have h3 : Dbl.ofLong 7 = Dbl.fin 7 := by
    have := Dbl.ofLong_eq 7 (by norm_num)
    simpa using this
  have h4 : Dbl.nearest ((4000 : ℚ) - 3000) = Dbl.fin ((4000 : ℚ) - 3000) :=
    Dbl.nearest_exact _ 1000 0 (by norm_num) (by norm_num) (by norm_num) (by norm_num)
  have h5 : Dbl.nearest (((4000 : ℚ) - 3000) / 7) =
      Dbl.fin (5026338869833143 / 35184372088832) :=
    Dbl.nearest_cert_eq _ 7 5026338869833143 (by norm_num) (by norm_num) (by norm_num)
      (by norm_num) (by norm_num [abs_lt]) (by norm_num)
  have h6 : Dbl.nearest ((5026338869833143 / 35184372088832 : ℚ) * 10) =
      Dbl.fin (6282923587291429 / 4398046511104) :=
    Dbl.nearest_cert_eq _ 10 6282923587291429 (by norm_num) (by norm_num) (by norm_num)
      (by norm_num) (by norm_num [abs_lt]) (by norm_num)
  have hk : ¬ ((7 : ℚ) = 0) := by norm_num
  rw [h1, h2, h3]
  simp only [Dbl.sub]
  rw [h4]
  simp only [Dbl.div, if_neg hk]
  rw [h5]
  simp only [Dbl.mul]
  rw [h6]

/-- C7 (counterexample). With charge-full 4000 and charge-now 3000 read, a
current-now read with success as `-9223372036854775808`, which is not zero,
leaves the estimated time to discharge unavailable; and the current-now 7
gives 1428.57142857142866887443..., the double `((4000.0 - 3000.0) / 7.0) * 10`,
which is not the rational (4000 - 3000) / 7 * 10. -/
theorem C7_etd_value_counterexample :
    strtol_helper "-9223372036854775808".toList = (0, -9223372036854775808) ∧
    (-9223372036854775808 : Int) ≠ 0 ∧
    (get_battery_info
      (some ("POWER_SUPPLY_CHARGE_FULL=4000\nPOWER_SUPPLY_CHARGE_NOW=3000\n" ++
        "POWER_SUPPLY_CURRENT_NOW=-9223372036854775808\n").toList)
      none battery_info_init config_init []).2.etd = DOUBLE_INVALID ∧
    (get_battery_info
      (some ("POWER_SUPPLY_CHARGE_FULL=4000\nPOWER_SUPPLY_CHARGE_NOW=3000\n" ++
        "POWER_SUPPLY_CURRENT_NOW=7\n").toList)
      none battery_info_init config_init []).2.etd =
      Dbl.fin (6282923587291429 / 4398046511104) ∧
    Dbl.fin (6282923587291429 / 4398046511104) ≠
      Dbl.fin (((4000 : ℚ) - 3000) / 7 * 10) := by
  refine ⟨by decide, by decide, ?_, ?_, ?_⟩
  · obtain ⟨info, hi, h⟩ := get_battery_info_first_file
      ("POWER_SUPPLY_CHARGE_FULL=4000\nPOWER_SUPPLY_CHARGE_NOW=3000\n" ++
        "POWER_SUPPLY_CURRENT_NOW=-9223372036854775808\n").toList config_init []
    rw [h, read_uevent_examples.2.2.1, process_etd_val, if_neg (by decide)]
    exact congrArg (fun p => p.1.2.2.2.2.2) hi
  · obtain ⟨info, _, h⟩ := get_battery_info_first_file
      ("POWER_SUPPLY_CHARGE_FULL=4000\nPOWER_SUPPLY_CHARGE_NOW=3000\n" ++
        "POWER_SUPPLY_CURRENT_NOW=7\n").toList config_init []
    rw [h, read_uevent_examples.2.2.2.1, process_etd_val, if_pos (by decide)]
    exact seventh_hours
  · intro h
    injection h with h
    norm_num at h

/-- The double `4000 / 3000 * 100`: the quotient is rounded to the double next
to four thirds, and its product by 100 to a double below 400/3. -/
theorem four_thirds_percent :
    Dbl.mul (Dbl.div (Dbl.ofLong 4000) (Dbl.ofLong 3000)) (Dbl.fin 100) =
      Dbl.fin (2345624805922133 / 17592186044416) := by
  rw [Dbl.div_ofLong_ofLong _ _ (by norm_num) (by norm_num) (by norm_num)]
  have h1 : Dbl.nearest (((4000 : Int) : ℚ) / ((3000 : Int) : ℚ)) =
      Dbl.fin (6004799503160661 / 4503599627370496) :=
    Dbl.nearest_cert_eq _ 0 6004799503160661 (by norm_num) (by norm_num) (by norm_num)
      (by norm_num) (by norm_num [abs_lt]) (by norm_num)
  rw [h1]
  simp only [Dbl.mul]
  exact Dbl.nearest_cert_eq _ 7 4691249611844266 (by norm_num) (by norm_num) (by norm_num)
    (by norm_num) (by norm_num [abs_lt]) (by norm_num)

/-- C9 (counterexample). A charge-full read with success as
`-9223372036854775808` and a charge-full-design read as 5000 leave the maximum
charge unavailable although both were read; and charge-full 4000 with
charge-full-design 3000 gives 133.33333333333331438553..., the double
`4000.0 / 3000.0 * 100`, which is not the rational 4000 / 3000 * 100. -/
theorem C9_max_charge_counterexample :
    strtol_helper "-9223372036854775808".toList = (0, -9223372036854775808) ∧
    (get_battery_info
      (some ("POWER_SUPPLY_CHARGE_FULL=-9223372036854775808\n" ++
        "POWER_SUPPLY_CHARGE_FULL_DESIGN=5000\n").toList)
      none battery_info_init config_init []).2.max_charge = DOUBLE_INVALID ∧
    (get_battery_info
      (some "POWER_SUPPLY_CHARGE_FULL=4000\nPOWER_SUPPLY_CHARGE_FULL_DESIGN=3000\n".toList)
      none battery_info_init config_init []).2.max_charge =
      Dbl.fin (2345624805922133 / 17592186044416) ∧
    Dbl.fin (2345624805922133 / 17592186044416) ≠ Dbl.fin ((4000 : ℚ) / 3000 * 100) := by
  refine ⟨by decide, ?_, ?_, ?_⟩
  · obtain ⟨info, hi, h⟩ := get_battery_info_first_file
      ("POWER_SUPPLY_CHARGE_FULL=-9223372036854775808\n" ++
        "POWER_SUPPLY_CHARGE_FULL_DESIGN=5000\n").toList config_init []
    rw [h, read_uevent_examples.2.2.2.2.1, process_max_charge_val, if_neg (by decide)]
    exact congrArg (fun p => p.1.2.1) hi
  · obtain ⟨info, _, h⟩ := get_battery_info_first_file
      "POWER_SUPPLY_CHARGE_FULL=4000\nPOWER_SUPPLY_CHARGE_FULL_DESIGN=3000\n".toList
      config_init []
    rw [h, read_uevent_examples.2.2.2.2.2.1, process_max_charge_val, if_pos (by decide)]
    exact four_thirds_percent
  · intro h
    injection h with h
    norm_num at h

/-- C10 (counterexample). A voltage-now read with success as
`-9223372036854775808` leaves the voltage unavailable; and the temperature 3
gives 0.29999999999999998889..., the double `3.0 / 10.0`, which is not the
rational 3 / 10. -/
theorem C10_scaled_readings_counterexample :
    strtol_helper "-9223372036854775808".toList = (0, -9223372036854775808) ∧
    (get_battery_info (some "POWER_SUPPLY_VOLTAGE_NOW=-9223372036854775808\n".toList)
      none battery_info_init config_init []).2.voltage = DOUBLE_INVALID ∧
    (get_battery_info (some "POWER_SUPPLY_TEMP=3\n".toList)
      none battery_info_init config_init []).2.temperature =
      Dbl.fin (5404319552844595 / 18014398509481984) ∧
    Dbl.fin (5404319552844595 / 18014398509481984) ≠ Dbl.fin ((3 : ℚ) / 10) := by
  refine ⟨by decide, ?_, ?_, ?_⟩
  · obtain ⟨info, hi, h⟩ := get_battery_info_first_file
      "POWER_SUPPLY_VOLTAGE_NOW=-9223372036854775808\n".toList config_init []
    rw [h, read_uevent_examples.2.2.2.2.2.2.1, process_voltage_val, if_neg (by decide)]
    exact congrArg (fun p => p.1.2.2.1) hi
  · obtain ⟨info, _, h⟩ := get_battery_info_first_file
      "POWER_SUPPLY_TEMP=3\n".toList config_init []
    rw [h, read_uevent_examples.2.2.2.2.2.2.2, process_temperature_val, if_pos (by decide)]
    have e : (raw_of_readings LONG_INVALID LONG_INVALID 3).temp = 3 := rfl
    rw [e, Dbl.div_ofLong_fin _ _ (by norm_num) (by norm_num)]
    exact Dbl.nearest_cert_eq _ (-2) 5404319552844595 (by norm_num) (by norm_num)
      (by norm_num) (by norm_num) (by norm_num [abs_lt]) (by norm_num)
  · intro h
    injection h with h
    norm_num at h

/-! ## A capacity line behind which a longer key stands -/

/-- The double `3000 / 4000 * 100` is 75. -/
theorem three_quarters_percent :
    Dbl.mul (Dbl.div (Dbl.ofLong 3000) (Dbl.ofLong 4000)) (Dbl.fin 100) = Dbl.fin 75 := by
  rw [Dbl.div_ofLong_ofLong _ _ (by norm_num) (by norm_num) (by norm_num)]
  have a : ((3000 : Int) : ℚ) / ((4000 : Int) : ℚ) = 3 / 4 := by norm_num
  rw [a, Dbl.nearest_exact _ 3 (-2) (by norm_num) (by norm_num) (by norm_num)
    (by norm_num)]
  simp only [Dbl.mul]
  have b : (3 / 4 : ℚ) * 100 = 75 := by norm_num
  rw [b]
  exact Dbl.nearest_exact _ 75 0 (by norm_num) (by norm_num) (by norm_num) (by norm_num)

set_option maxRecDepth 100000 in
/-- The locals after a first file with the capacity 76 and the charges 3000
and 4000, and after the same file with the line
`POWER_SUPPLY_CAPACITY_LEVEL=Normal` behind the capacity line. -/
theorem read_uevent_capacity_charges :
    (read_uevent uevent_keys (reader_init battery_info_init [])
      ("POWER_SUPPLY_CAPACITY=76\n" ++
        "POWER_SUPPLY_CHARGE_NOW=3000\nPOWER_SUPPLY_CHARGE_FULL=4000\n").toList).raw =
      raw_of_capacity 76 3000 4000 ∧
    (read_uevent uevent_keys (reader_init battery_info_init [])
      ("POWER_SUPPLY_CAPACITY=76\nPOWER_SUPPLY_CAPACITY_LEVEL=Normal\n" ++
        "POWER_SUPPLY_CHARGE_NOW=3000\nPOWER_SUPPLY_CHARGE_FULL=4000\n").toList).raw =
      raw_of_capacity LONG_INVALID 3000 4000 := by
  decide

set_option maxRecDepth 100000 in
/-- The two files of the capacity 76 are made of closed chunks. -/
theorem capacity_charges_closed :
    file_closed uevent_keys
      (some ("POWER_SUPPLY_CAPACITY=76\n" ++
        "POWER_SUPPLY_CHARGE_NOW=3000\nPOWER_SUPPLY_CHARGE_FULL=4000\n").toList) ∧
    file_closed uevent_keys
      (some ("POWER_SUPPLY_CAPACITY=76\nPOWER_SUPPLY_CAPACITY_LEVEL=Normal\n" ++
        "POWER_SUPPLY_CHARGE_NOW=3000\nPOWER_SUPPLY_CHARGE_FULL=4000\n").toList) ∧
    file_closed device_uevent_keys none := by
  have h1 : ∀ c ∈ fgets_chunks 256
      ("POWER_SUPPLY_CAPACITY=76\n" ++
        "POWER_SUPPLY_CHARGE_NOW=3000\nPOWER_SUPPLY_CHARGE_FULL=4000\n").toList,
      chunk_closed uevent_keys c := by decide
  have h2 : ∀ c ∈ fgets_chunks 256
      ("POWER_SUPPLY_CAPACITY=76\nPOWER_SUPPLY_CAPACITY_LEVEL=Normal\n" ++
        "POWER_SUPPLY_CHARGE_NOW=3000\nPOWER_SUPPLY_CHARGE_FULL=4000\n").toList,
      chunk_closed uevent_keys c := by decide
  refine ⟨?_, ?_, ?_⟩
  · intro content h; injection h with h; rw [← h]; exact h1
  · intro content h; injection h with h; rw [← h]; exact h2
  · intro content h; exact absurd h (by simp)

/-- C3 (evaluation at the failing input). A first file with the lines
`POWER_SUPPLY_CAPACITY=76`, `POWER_SUPPLY_CHARGE_NOW=3000` and
`POWER_SUPPLY_CHARGE_FULL=4000` gives the charge 76, the capacity; the same
file with the line `POWER_SUPPLY_CAPACITY_LEVEL=Normal` behind the capacity
line gives the charge 75, the ratio of the two charges, in every
configuration: the capacity that was read is lost. -/
theorem C3_capacity_line_erased (cfg : config) (buf0 : List Char) :
    (get_battery_info
      (some ("POWER_SUPPLY_CAPACITY=76\n" ++
        "POWER_SUPPLY_CHARGE_NOW=3000\nPOWER_SUPPLY_CHARGE_FULL=4000\n").toList)
      none battery_info_init cfg buf0).2.charge = Dbl.fin 76 ∧
    (get_battery_info
      (some ("POWER_SUPPLY_CAPACITY=76\nPOWER_SUPPLY_CAPACITY_LEVEL=Normal\n" ++
        "POWER_SUPPLY_CHARGE_NOW=3000\nPOWER_SUPPLY_CHARGE_FULL=4000\n").toList)
      none battery_info_init cfg buf0).2.charge = Dbl.fin 75 ∧
    Dbl.fin 75 ≠ Dbl.fin 76 := by
  obtain ⟨hf1, hf2, hfd⟩ := capacity_charges_closed
  refine ⟨?_, ?_, ?_⟩
  · rw [get_battery_info_closed _ _ _ _ hf1 hfd buf0 []]
    obtain ⟨info, _, h⟩ := get_battery_info_first_file
      ("POWER_SUPPLY_CAPACITY=76\n" ++
        "POWER_SUPPLY_CHARGE_NOW=3000\nPOWER_SUPPLY_CHARGE_FULL=4000\n").toList cfg []
    rw [h, read_uevent_capacity_charges.1,
      process_charge_of_capacity _ _ _ (by decide) (by decide)]
    simp [raw_of_capacity]
  · rw [get_battery_info_closed _ _ _ _ hf2 hfd buf0 []]
    obtain ⟨info, _, h⟩ := get_battery_info_first_file
      ("POWER_SUPPLY_CAPACITY=76\nPOWER_SUPPLY_CAPACITY_LEVEL=Normal\n" ++
        "POWER_SUPPLY_CHARGE_NOW=3000\nPOWER_SUPPLY_CHARGE_FULL=4000\n").toList cfg []
    rw [h, read_uevent_capacity_charges.2,
      process_charge_of_ratio _ _ _ (by decide) (by decide) (by decide)]
    have e1 : (raw_of_capacity LONG_INVALID 3000 4000).charge_now = 3000 := rfl
    have e2 : (raw_of_capacity LONG_INVALID 3000 4000).charge_full = 4000 := rfl
    rw [e1, e2, three_quarters_percent]
    simp only [Dbl.gt]
    norm_num
  · intro h
    injection h with h
    norm_num at h

/-! ## The frame of a line in a file -/

/-- A line of at most 254 characters is read, with its newline, by one call of
`fgets`: the loop runs one iteration on it and goes on with the rest of the
file. -/
theorem read_uevent_line (keys : List (String × Nat × slot)) (st : reader_state)
    (line rest : List Char) (hnl : ∀ c ∈ line, c.toNat ≠ 10) (hlen : line.length ≤ 254) :
    read_uevent keys st (line ++ NL :: rest) =
      read_uevent keys (uevent_line keys st (line ++ [NL])) rest := by
  unfold read_uevent fgets_chunks
  rw [fgets_chunks_from_line 256 line rest [] hnl (by simp; omega)]
  simp only [List.reverse_nil, List.nil_append, List.foldl_cons]

set_option maxRecDepth 1000000 in
/-- C14 (counterexample). The line `POWER_SUPPLY_NAME=` followed by 237
characters `x` and by `POWER_SUPPLY_CAPACITY=50` is a well-formed line of the
key `POWER_SUPPLY_NAME`, and yet it changes the capacity local, which is the
destination of another key: `fgets` cuts the line after 255 characters, and
the rest is read as a line of its own. -/
theorem C14_long_line_counterexample :
    ("POWER_SUPPLY_NAME", 18, slot.name) ∈ uevent_keys ∧
    NUL ∉ List.replicate 237 'x' ++ "POWER_SUPPLY_CAPACITY=50".toList ∧
    (∀ c ∈ List.replicate 237 'x' ++ "POWER_SUPPLY_CAPACITY=50".toList, c.toNat ≠ 10) ∧
    isspace ((List.replicate 237 'x' ++ "POWER_SUPPLY_CAPACITY=50".toList).getLast?.getD '=') =
      false ∧
    slot_value .capacity (reader_init battery_info_init []) = .inl LONG_INVALID ∧
    slot_value .capacity
      (read_uevent uevent_keys (reader_init battery_info_init [])
        (file_of_lines [key_line "POWER_SUPPLY_NAME"
          (List.replicate 237 'x' ++ "POWER_SUPPLY_CAPACITY=50".toList)])) = .inl 50 := by
  decide

/-- C14 (amended). In a file, for every state of the loop and every rest of
the file: a line `POWER_SUPPLY_CHARGE_FULL_DESIGN=v`, with v a `long` and with
white space behind it, of at most 254 characters, is read by one iteration,
which sets the charge-full-design local to v and changes no other destination,
the charge-full local among them; a line `POWER_SUPPLY_CHARGE_FULL=v` sets the
charge-full local to v and changes no other destination; and a line `key=V`
of at most 254 characters of any key of the two chains is read by one
iteration, which changes no destination but the one of its key and no double
or flag of the record; the loop then goes on with the rest of the file.  The
two lines of a `long` are within the 254 characters when the white space
behind them has at most 202 characters. -/
theorem C14_line_frame (st : reader_state) (rest ws : List Char)
    (hws : ∀ c ∈ ws, isspace c = true ∧ c.toNat ≠ 10) :
    (∀ v : Int, isLong v →
      ((key_line "POWER_SUPPLY_CHARGE_FULL_DESIGN" (decimal v) ++ ws).length ≤ 254 →
        read_uevent uevent_keys st
            (key_line "POWER_SUPPLY_CHARGE_FULL_DESIGN" (decimal v) ++ ws ++ NL :: rest) =
          read_uevent uevent_keys
            (uevent_line uevent_keys st
              (key_line "POWER_SUPPLY_CHARGE_FULL_DESIGN" (decimal v) ++ ws ++ [NL])) rest ∧
        slot_value .charge_full_design
            (uevent_line uevent_keys st
              (key_line "POWER_SUPPLY_CHARGE_FULL_DESIGN" (decimal v) ++ ws ++ [NL])) =
          .inl v ∧
        ∀ sl, sl ≠ slot.charge_full_design →
          slot_value sl
              (uevent_line uevent_keys st
                (key_line "POWER_SUPPLY_CHARGE_FULL_DESIGN" (decimal v) ++ ws ++ [NL])) =
            slot_value sl st) ∧
      ((key_line "POWER_SUPPLY_CHARGE_FULL" (decimal v) ++ ws).length ≤ 254 →
        read_uevent uevent_keys st
            (key_line "POWER_SUPPLY_CHARGE_FULL" (decimal v) ++ ws ++ NL :: rest) =
          read_uevent uevent_keys
            (uevent_line uevent_keys st
              (key_line "POWER_SUPPLY_CHARGE_FULL" (decimal v) ++ ws ++ [NL])) rest ∧
        slot_value .charge_full
            (uevent_line uevent_keys st
              (key_line "POWER_SUPPLY_CHARGE_FULL" (decimal v) ++ ws ++ [NL])) = .inl v ∧
        ∀ sl, sl ≠ slot.charge_full →
          slot_value sl
              (uevent_line uevent_keys st
                (key_line "POWER_SUPPLY_CHARGE_FULL" (decimal v) ++ ws ++ [NL])) =
            slot_value sl st)) ∧
    (∀ e ∈ uevent_keys, ∀ V : List Char, NUL ∉ V → (∀ c ∈ V, c.toNat ≠ 10) →
      isspace (V.getLast?.getD '=') = false → (key_line e.1 V ++ ws).length ≤ 254 →
      read_uevent uevent_keys st (key_line e.1 V ++ ws ++ NL :: rest) =
        read_uevent uevent_keys (uevent_line uevent_keys st (key_line e.1 V ++ ws ++ [NL]))
          rest ∧
      (∀ sl, sl ≠ e.2.2 →
        slot_value sl (uevent_line uevent_keys st (key_line e.1 V ++ ws ++ [NL])) =
          slot_value sl st) ∧
      info_numbers (uevent_line uevent_keys st (key_line e.1 V ++ ws ++ [NL])).info =
        info_numbers st.info) ∧
    (∀ e ∈ device_uevent_keys, ∀ V : List Char, NUL ∉ V → (∀ c ∈ V, c.toNat ≠ 10) →
      isspace (V.getLast?.getD '=') = false → (key_line e.1 V ++ ws).length ≤ 254 →
      read_uevent device_uevent_keys st (key_line e.1 V ++ ws ++ NL :: rest) =
        read_uevent device_uevent_keys
          (uevent_line device_uevent_keys st (key_line e.1 V ++ ws ++ [NL])) rest ∧
      (∀ sl, sl ≠ e.2.2 →
        slot_value sl (uevent_line device_uevent_keys st (key_line e.1 V ++ ws ++ [NL])) =
          slot_value sl st) ∧
      info_numbers (uevent_line device_uevent_keys st (key_line e.1 V ++ ws ++ [NL])).info =
        info_numbers st.info) ∧
    (∀ v : Int, isLong v → ws.length ≤ 202 →
      (key_line "POWER_SUPPLY_CHARGE_FULL_DESIGN" (decimal v) ++ ws).length ≤ 254 ∧
      (key_line "POWER_SUPPLY_CHARGE_FULL" (decimal v) ++ ws).length ≤ 254) := by
  have hsp : ∀ c ∈ ws ++ [NL], isspace c = true := by
    intro c hc
    rcases List.mem_append.mp hc with h | h
    · exact (hws c h).1
    · rw [List.mem_singleton.mp h]; decide
  have hassoc : ∀ l : List Char, l ++ ws ++ [NL] = l ++ (ws ++ [NL]) := fun l => by simp
  have hnlk : ∀ e ∈ uevent_keys ++ device_uevent_keys, ∀ V : List Char,
      (∀ c ∈ V, c.toNat ≠ 10) → ∀ c ∈ key_line e.1 V ++ ws, c.toNat ≠ 10 := by
    intro e he V hV c hc
    rcases List.mem_append.mp hc with h | h
    · unfold key_line at h
      rcases List.mem_append.mp h with h1 | h1
      · exact (keys_short e he).1 c h1
      · rcases List.mem_cons.mp h1 with h2 | h2
        · rw [h2]; decide
        · exact hV c h2
    · exact (hws c h).2
  have hgen : ∀ e ∈ uevent_keys, ∀ V : List Char, NUL ∉ V → (∀ c ∈ V, c.toNat ≠ 10) →
      isspace (V.getLast?.getD '=') = false → (key_line e.1 V ++ ws).length ≤ 254 →
      read_uevent uevent_keys st (key_line e.1 V ++ ws ++ NL :: rest) =
        read_uevent uevent_keys (uevent_line uevent_keys st (key_line e.1 V ++ ws ++ [NL]))
          rest ∧
      (∀ sl, sl ≠ e.2.2 →
        slot_value sl (uevent_line uevent_keys st (key_line e.1 V ++ ws ++ [NL])) =
          slot_value sl st) ∧
      info_numbers (uevent_line uevent_keys st (key_line e.1 V ++ ws ++ [NL])).info =
        info_numbers st.info := by
    intro e he V hV hnl hl hlen
    have hf := uevent_line_frame uevent_keys e (uevent_keys_selected e he) st V (ws ++ [NL])
      hV hsp hl
    rw [← hassoc] at hf
    exact ⟨read_uevent_line uevent_keys st _ rest
      (hnlk e (List.mem_append_left _ he) V hnl) hlen, hf.1, hf.2⟩
  refine ⟨fun v hv => ?_, hgen, ?_, fun v hv hw => ?_⟩
  · obtain ⟨hnul, hnl, hlast, _⟩ := decimal_text v hv
    have hparse := strtol_helper_decimal v hv
    have hs1 : entry_sound uevent_keys
        ("POWER_SUPPLY_CHARGE_FULL_DESIGN", 32, slot.charge_full_design) :=
      uevent_keys_sound _ (by decide) (by decide)
    have hs2 : entry_sound uevent_keys ("POWER_SUPPLY_CHARGE_FULL", 25, slot.charge_full) :=
      uevent_keys_sound _ (by decide) (by decide)
    constructor
    · intro hlen
      obtain ⟨g1, g2, _⟩ := hgen ("POWER_SUPPLY_CHARGE_FULL_DESIGN", 32, slot.charge_full_design)
        (by decide) (decimal v) hnul hnl hlast hlen
      refine ⟨g1, ?_, g2⟩
      have h := uevent_line_value uevent_keys _ hs1 st (decimal v) (ws ++ [NL]) hnul hsp hlast
      simp only [slot.is_long, if_true, hparse] at h
      rw [hassoc]
      exact h
    · intro hlen
      obtain ⟨g1, g2, _⟩ := hgen ("POWER_SUPPLY_CHARGE_FULL", 25, slot.charge_full)
        (by decide) (decimal v) hnul hnl hlast hlen
      refine ⟨g1, ?_, g2⟩
      have h := uevent_line_value uevent_keys _ hs2 st (decimal v) (ws ++ [NL]) hnul hsp hlast
      simp only [slot.is_long, if_true, hparse] at h
      rw [hassoc]
      exact h
  · intro e he V hV hnl hl hlen
    have hf := uevent_line_frame device_uevent_keys e (device_uevent_keys_selected e he) st V
      (ws ++ [NL]) hV hsp hl
    rw [← hassoc] at hf
    exact ⟨read_uevent_line device_uevent_keys st _ rest
      (hnlk e (List.mem_append_right _ he) V hnl) hlen, hf.1, hf.2⟩
  · obtain ⟨_, _, _, hlen⟩ := decimal_text v hv
    have h1 : "POWER_SUPPLY_CHARGE_FULL_DESIGN".toList.length = 31 := by decide
    have h2 : "POWER_SUPPLY_CHARGE_FULL".toList.length = 24 := by decide
    constructor
    · simp only [key_line, List.length_append, List.length_cons, h1]
      omega
    · simp only [key_line, List.length_append, List.length_cons, h2]
      omega

set_option maxRecDepth 100000 in
/-- C14 (witness). The line `POWER_SUPPLY_CHARGE_FULL_DESIGN=5000` read first,
before the line `POWER_SUPPLY_CHARGE_FULL=4000`: after its iteration
charge-full-design is 5000 and charge-full is unset, and the loop goes on with
the second line. -/
theorem C14_line_frame_witness :
    (∀ c ∈ ([] : List Char), isspace c = true ∧ c.toNat ≠ 10) ∧ isLong 5000 ∧
    (key_line "POWER_SUPPLY_CHARGE_FULL_DESIGN" (decimal 5000) ++ []).length ≤ 254 ∧
    read_uevent uevent_keys (reader_init battery_info_init [])
        (key_line "POWER_SUPPLY_CHARGE_FULL_DESIGN" (decimal 5000) ++ [] ++
          NL :: "POWER_SUPPLY_CHARGE_FULL=4000\n".toList) =
      read_uevent uevent_keys
        (uevent_line uevent_keys (reader_init battery_info_init [])
          (key_line "POWER_SUPPLY_CHARGE_FULL_DESIGN" (decimal 5000) ++ [] ++ [NL]))
        "POWER_SUPPLY_CHARGE_FULL=4000\n".toList ∧
    slot_value .charge_full_design
        (uevent_line uevent_keys (reader_init battery_info_init [])
          (key_line "POWER_SUPPLY_CHARGE_FULL_DESIGN" (decimal 5000) ++ [] ++ [NL])) =
      .inl 5000 ∧
    slot_value .charge_full
        (uevent_line uevent_keys (reader_init battery_info_init [])
          (key_line "POWER_SUPPLY_CHARGE_FULL_DESIGN" (decimal 5000) ++ [] ++ [NL])) =
      .inl LONG_INVALID :=
  ⟨by simp, by decide, by decide,
    (((C14_line_frame (reader_init battery_info_init []) "POWER_SUPPLY_CHARGE_FULL=4000\n".toList
      [] (by simp)).1 5000 (by decide)).1 (by decide)).1,
    (((C14_line_frame (reader_init battery_info_init []) "POWER_SUPPLY_CHARGE_FULL=4000\n".toList
      [] (by simp)).1 5000 (by decide)).1 (by decide)).2.1,
    (((C14_line_frame (reader_init battery_info_init []) "POWER_SUPPLY_CHARGE_FULL=4000\n".toList
      [] (by simp)).1 5000 (by decide)).1 (by decide)).2.2 slot.charge_full (by decide)⟩

end Batteryinfo
